import Mathlib

/-!
# decision-helper: state sanitation and scoring engine

A shallow embedding of `src/script.js`.  JavaScript values are an inductive
type, strings are sequences of UTF-16 code units, the mutable global `state`
is passed explicitly, and the host services the script calls
(`String.prototype.toLocaleLowerCase`, `parseInt`, `crypto.randomUUID`,
`Date.now`) are fields of a `Host` record with call counters threaded
through a `World`.  A `while` loop is a recursion on `fuel` that returns
`none` when the fuel runs out; the theorems about the sanitizer show that
fuel 21 always suffices.  The one exception the sanitizer can raise, the
`TypeError` of `Number.parseInt` on a value that has no string conversion,
is a result of its own (`Except JsError`).  Scores are integers; the
percentage, the one place where the script divides, is computed with the
rounding of binary64 (`round64`).
-/

namespace DecisionHelper

/-! ## JavaScript values -/

/-- A JavaScript string: its sequence of UTF-16 code units (`length`, `slice`
and `===` all work on code units). -/
abbrev JsString := List Nat

/-- A JavaScript number: a finite value (every finite double is a rational) or
one of the three non-finite values. -/
inductive JsNumber
  | finite (q : Rat)
  | posInf
  | negInf
  | nan

/-- A JavaScript value as `JSON.parse` or the script itself can produce it.  An
object is the list of its own properties, the first binding of a key being the
property. -/
inductive JsValue
  | undefined
  | null
  | bool (b : Bool)
  | num (n : JsNumber)
  | str (s : JsString)
  | arr (items : List JsValue)
  | obj (fields : List (JsString × JsValue))

/-- The own property `key` of a property list. -/
def getOwn (key : JsString) : List (JsString × JsValue) → Option JsValue
  | [] => none
  | (k, v) :: rest => if k = key then some v else getOwn key rest

/-- Property read `value.key` for the property names the script reads (none of
them is `length` or an index, so an array has none of them). -/
def getProp (v : JsValue) (key : JsString) : JsValue :=
  match v with
  | .obj fields => (getOwn key fields).getD .undefined
  | _ => .undefined

/-! ## Constants (script.js lines 1-12) -/

def APP_VERSION : Nat := 1
def MIN_OPTIONS : Nat := 2
def MAX_OPTIONS : Nat := 20
def MIN_CRITERIA : Nat := 1
def MAX_CRITERIA : Nat := 20
def MAX_TITLE_LENGTH : Nat := 80
def MAX_OPTION_NAME_LENGTH : Nat := 60
def MAX_CRITERION_NAME_LENGTH : Nat := 40
def MAX_NOTE_LENGTH : Nat := 500
def MAX_SAFE_INTEGER : Nat := 9007199254740991

/-! ## The decision model -/

/-- An entry of `state.options`. -/
structure DecisionOption where
  id : JsString
  name : JsString
  note : JsString
  createdAt : Rat
  deriving DecidableEq

/-- An entry of `state.criteria`. -/
structure Criterion where
  id : JsString
  name : JsString
  weight : Nat
  createdAt : Rat
  deriving DecidableEq

/-- The global `state` of the script (its `version` is the constant
`APP_VERSION`).  `ratings` is the object keyed by `ratingKey`. -/
structure State where
  title : JsString
  options : List DecisionOption
  criteria : List Criterion
  ratings : List (JsString × JsValue)
  updatedAt : Rat

/-- Template `${optionId}:${criterionId}` (58 is the colon). -/
def ratingKey (optionId criterionId : JsString) : JsString :=
  optionId ++ 58 :: criterionId

/-- The test `Number.isInteger(value) && value >= 1 && value <= 5`, giving the
integer when it passes. -/
def ratingValue : JsValue → Option Nat
  | .num (.finite q) =>
    if q.den = 1 ∧ 1 ≤ q.num ∧ q.num ≤ 5 then some q.num.toNat else none
  | _ => none

/-- Function `readRating`: the stored value when it is an integer in 1..5,
else 0. -/
def readRating (s : State) (optionId criterionId : JsString) : Nat :=
  match getOwn (ratingKey optionId criterionId) s.ratings with
  | some v => (ratingValue v).getD 0
  | none => 0

/-! ## Scoring (computeMetrics, renderResults, getTopReasons) -/

/-- Lookup `map.get(key)` in a `Map` built by `new Map(entries)`: a later entry
replaces an earlier one with the same key. -/
def mapGet (entries : List (JsString × Nat)) (key : JsString) : Option Nat :=
  entries.foldl (fun found e => if e.1 = key then some e.2 else found) none

/-- Expression `map.get(id) ?? Number.MAX_SAFE_INTEGER`. -/
def indexOrMax (entries : List (JsString × Nat)) (key : JsString) : Nat :=
  (mapGet entries key).getD MAX_SAFE_INTEGER

/-- Method `Array.prototype.sort(compare)`: a stable sort, here insertion sort
on `compare(a, b) <= 0`.  The comparators of the script order by a key, so
every stable sort returns this list. -/
def jsSort {α : Type} (compare : α → α → Rat) (xs : List α) : List α :=
  xs.insertionSort (fun a b => compare a b ≤ 0)

/-- An entry `{ option, raw, pct }` of the ranking. -/
structure RankEntry where
  option : DecisionOption
  raw : Nat
  pct : Rat
  deriving DecidableEq

/-- The record returned by `computeMetrics`. -/
structure Metrics where
  maxRaw : Nat
  ranking : List RankEntry
  winners : List RankEntry
  highestRaw : Nat

/-- The entries `[option.id, index]` given to `new Map`. -/
def optionIndex (s : State) : List (JsString × Nat) :=
  s.options.enum.map (fun p => (p.2.id, p.1))

/-- The reducer of `raw` in `computeMetrics`. -/
def rawScore (s : State) (o : DecisionOption) : Nat :=
  s.criteria.foldl (fun sum c => sum + readRating s o.id c.id * c.weight) 0

/-- The reducer of `maxRaw` in `computeMetrics`. -/
def maxRawOf (s : State) : Nat :=
  s.criteria.foldl (fun sum c => sum + c.weight * 5) 0

/-- Rounding to the nearest integer, a tie to the even one
(`roundTiesToEven`). -/
def roundHalfEven (q : Rat) : Int :=
  if q - (Int.floor q : Rat) < 1 / 2 then Int.floor q
  else if 1 / 2 < q - (Int.floor q : Rat) then Int.floor q + 1
  else if Int.floor q % 2 = 0 then Int.floor q
  else Int.floor q + 1

/-- The binary64 number nearest to `q`, a tie to the even significand: with
`2 ^ e ≤ |q| < 2 ^ (e + 1)` the result is the multiple of `2 ^ (e - 52)`
nearest to `q`, so it has 53 significant bits. The exponent is not bounded;
the quotients and products `pctOf` rounds, of integers below `2 ^ 53`, lie
between `2 ^ (-53)` and 100, far inside the range of binary64. -/
def round64 (q : Rat) : Rat :=
  if q = 0 then 0
  else (roundHalfEven (q / 2 ^ (Int.log 2 |q| - 52)) : Rat) * 2 ^ (Int.log 2 |q| - 52)

/-- The percentage `maxRaw > 0 ? (raw / maxRaw) * 100 : 0` in binary64: the
quotient is rounded, and so is its product with 100. `raw` and `maxRaw` are
integers, which binary64 holds exactly below `2 ^ 53`. -/
def pctOf (raw maxRaw : Nat) : Rat :=
  if maxRaw > 0 then round64 (round64 ((raw : Rat) / (maxRaw : Rat)) * 100) else 0

/-- The comparator of the ranking sort. -/
def rankCompare (s : State) (a b : RankEntry) : Rat :=
  if b.raw ≠ a.raw then (b.raw : Rat) - (a.raw : Rat)
  else if a.option.createdAt ≠ b.option.createdAt then
    a.option.createdAt - b.option.createdAt
  else
    (indexOrMax (optionIndex s) a.option.id : Rat)
      - (indexOrMax (optionIndex s) b.option.id : Rat)

/-- Function `computeMetrics`. -/
def computeMetrics (s : State) : Metrics :=
  let maxRaw := maxRawOf s
  let ranking := jsSort (rankCompare s)
    (s.options.map (fun o =>
      { option := o, raw := rawScore s o, pct := pctOf (rawScore s o) maxRaw }))
  let highestRaw : Nat :=
    match ranking with
    | [] => 0
    | e :: _ => e.raw
  let winners := ranking.filter (fun item => item.raw = highestRaw)
  { maxRaw := maxRaw, ranking := ranking, winners := winners, highestRaw := highestRaw }

/-- The flag `isZeroTie` of `renderResults`. -/
def isZeroTie (m : Metrics) : Bool :=
  decide (m.ranking.length > 0) && decide (m.winners.length = m.ranking.length)
    && decide (m.highestRaw = 0)

/-- An entry `{ criterion, rating, points }` of the top reasons. -/
structure Reason where
  criterion : Criterion
  rating : Nat
  points : Nat
  deriving DecidableEq

/-- The entries `[criterion.id, index]` given to `new Map`. -/
def criterionIndex (s : State) : List (JsString × Nat) :=
  s.criteria.enum.map (fun p => (p.2.id, p.1))

/-- The comparator of the sort in `getTopReasons`. -/
def reasonCompare (s : State) (a b : Reason) : Rat :=
  if b.points ≠ a.points then (b.points : Rat) - (a.points : Rat)
  else if b.criterion.weight ≠ a.criterion.weight then
    (b.criterion.weight : Rat) - (a.criterion.weight : Rat)
  else if a.criterion.createdAt ≠ b.criterion.createdAt then
    a.criterion.createdAt - b.criterion.createdAt
  else
    (indexOrMax (criterionIndex s) a.criterion.id : Rat)
      - (indexOrMax (criterionIndex s) b.criterion.id : Rat)

/-- The mapped and filtered list that `getTopReasons` sorts. -/
def positiveReasons (s : State) (optionId : JsString) : List Reason :=
  (s.criteria.map (fun c =>
    { criterion := c, rating := readRating s optionId c.id,
      points := readRating s optionId c.id * c.weight : Reason })).filter
    (fun item => item.points > 0)

/-- Function `getTopReasons`. -/
def getTopReasons (s : State) (optionId : JsString) : List Reason :=
  (jsSort (reasonCompare s) (positiveReasons s optionId)).take 3

/-! ## Strings -/

/-- The code units of an ASCII literal of the script. -/
def units (s : String) : JsString := s.toList.map Char.toNat

/-- The code units `String.prototype.trim` strips: ECMAScript WhiteSpace and
LineTerminator. -/
def isWhiteSpace (c : Nat) : Bool :=
  c = 9 || c = 10 || c = 11 || c = 12 || c = 13 || c = 32 || c = 160 || c = 5760
    || (decide (8192 ≤ c) && decide (c ≤ 8202)) || c = 8232 || c = 8233 || c = 8239
    || c = 8287 || c = 12288 || c = 65279

/-- Method `String.prototype.trim`. -/
def trim (s : JsString) : JsString :=
  (s.dropWhile isWhiteSpace).rdropWhile isWhiteSpace

/-- Call `s.slice(0, end)` for an integer `end`: a negative `end` counts from
the end of the string. -/
def sliceTo (s : JsString) (e : Int) : JsString :=
  if e < 0 then s.take ((s.length : Int) + e).toNat else s.take e.toNat

/-- Decimal digits of `n`, most significant first; `fuel` bounds the number of
digits after the first. -/
def decimalDigits : Nat → Nat → JsString
  | 0, n => [48 + n % 10]
  | fuel + 1, n =>
    if n < 10 then [48 + n] else decimalDigits fuel (n / 10) ++ [48 + n % 10]

/-- The string of a non-negative integer in a template literal. -/
def decimal (n : Nat) : JsString := decimalDigits n n

/-- Method `String.prototype.split(":")`. -/
def splitColon : JsString → List JsString
  | [] => [[]]
  | c :: cs =>
    match splitColon cs with
    | [] => [[c]]
    | seg :: segs => if c = 58 then [] :: seg :: segs else (c :: seg) :: segs

/-! ## Host services -/

/-- The services of the JavaScript host that the script calls. -/
structure Host where
  /-- Method `String.prototype.toLocaleLowerCase`. -/
  toLocaleLowerCase : JsString → JsString
  /-- Call `Number.parseInt(value, 10)` when its result is finite (it is then an
  integer), `none` when it is `NaN` or infinite. -/
  parseInt : JsValue → Option Int
  /-- The string the `n`-th call of `createId` returns. -/
  randomId : Nat → JsString
  /-- The value the `n`-th call of `Date.now()` returns. -/
  now : Nat → Int

/-- How many ids and timestamps have been drawn from the host. -/
structure World where
  idCalls : Nat
  clockCalls : Nat
  deriving DecidableEq

/-- Function `createId`. -/
def createId (H : Host) (w : World) : JsString × World :=
  (H.randomId w.idCalls, { w with idCalls := w.idCalls + 1 })

/-- Call `Date.now()`. -/
def dateNow (H : Host) (w : World) : Int × World :=
  (H.now w.clockCalls, { w with clockCalls := w.clockCalls + 1 })

/-- An exception the script raises and does not catch. -/
inductive JsError
  | typeError
  deriving DecidableEq

mutual
/-- The conversion `ToString(value)` that `Number.parseInt` starts with raises a
`TypeError`.  A primitive converts.  An object `JSON.parse` made converts
through `Object.prototype.toString` unless it has an own property `toString`:
that property is not callable, and `valueOf` then gives no primitive either.
An array converts through `join`, which converts every element other than
`undefined` and `null`. -/
def toStringRaises : JsValue → Bool
  | .obj fields => (getOwn (units "toString") fields).isSome
  | .arr items => anyToStringRaises items
  | _ => false
/-- Some element of the array raises in `join`. -/
def anyToStringRaises : List JsValue → Bool
  | [] => false
  | item :: rest => toStringRaises item || anyToStringRaises rest
end

/-- What `clampInt` returns once `Number.parseInt` has converted `value` to a
string, for bounds that are natural numbers, as `1` and `5` at every call: the
result is then a natural number, and `Math.max(min, n)` of a negative `n` is
`min`.  The call sites that pass a string or a number use it directly. -/
def clampIntValue (H : Host) (value : JsValue) (lo hi : Nat) : Nat :=
  match H.parseInt value with
  | none => lo
  | some numberValue => min hi (max lo numberValue.toNat)

/-- Function `clampInt`: a `TypeError` when `Number.parseInt` cannot convert
`value` to a string, else the clamped integer. -/
def clampInt (H : Host) (value : JsValue) (lo hi : Nat) : Except JsError Nat :=
  if toStringRaises value then .error .typeError else .ok (clampIntValue H value lo hi)

/-- Function `createOption` with an explicit `createdAt`. -/
def createOption (H : Host) (name : JsString) (createdAt : Rat) (w : World) :
    DecisionOption × World :=
  let r := createId H w
  ({ id := r.1, name := name.take MAX_OPTION_NAME_LENGTH, note := [],
     createdAt := createdAt }, r.2)

/-- Function `createCriterion` with an explicit `createdAt`; every call passes
a number as `weight`, here a natural number. -/
def createCriterion (H : Host) (name : JsString) (weight : Nat) (createdAt : Rat)
    (w : World) : Criterion × World :=
  let r := createId H w
  ({ id := r.1, name := name.take MAX_CRITERION_NAME_LENGTH,
     weight := clampIntValue H (.num (.finite (weight : Rat))) 1 5,
     createdAt := createdAt }, r.2)

/-! ## The sanitizer -/

/-- Test `value && typeof value === "object"`: arrays and objects pass, `null`
and the primitives do not. -/
def isObject : JsValue → Bool
  | .arr _ => true
  | .obj _ => true
  | _ => false

/-- Method `usedNames.add(name)` of a `Set`. -/
def setAdd (used : List JsString) (name : JsString) : List JsString :=
  if name ∈ used then used else used ++ [name]

/-- The template literal with the suffix index: a blank, the index in
parentheses. -/
def suffixOf (suffixIndex : Nat) : JsString :=
  units " (" ++ decimal suffixIndex ++ units ")"

/-- The assignment to `candidate` in the loop of `uniqueName`. -/
def suffixed (base : JsString) (maxLength suffixIndex : Nat) : JsString :=
  trim (sliceTo base ((maxLength : Int) - ((suffixOf suffixIndex).length : Int))
    ++ suffixOf suffixIndex)

/-- The `while` loop of `uniqueName`; `fuel` bounds the number of times its
body runs, `none` when that bound is reached. -/
def uniqueNameLoop (H : Host) (usedNames : List JsString) (base : JsString)
    (maxLength : Nat) : Nat → JsString → Nat → Option JsString
  | 0, candidate, _ =>
    if H.toLocaleLowerCase candidate ∈ usedNames then none else some candidate
  | fuel + 1, candidate, suffixIndex =>
    if H.toLocaleLowerCase candidate ∈ usedNames then
      uniqueNameLoop H usedNames base maxLength fuel
        (suffixed base maxLength suffixIndex) (suffixIndex + 1)
    else some candidate

/-- Function `uniqueName`: the name and the updated `usedNames`. -/
def uniqueName (H : Host) (fuel : Nat) (rawName : JsString) (usedNames : List JsString)
    (word : JsString) (maxLength ordinal : Nat) : Option (JsString × List JsString) :=
  let base0 :=
    if rawName ≠ [] ∧ trim rawName ≠ [] then trim rawName
    else word ++ units " " ++ decimal ordinal
  let base := base0.take maxLength
  match uniqueNameLoop H usedNames base maxLength fuel base 2 with
  | none => none
  | some candidate => some (candidate, setAdd usedNames (H.toLocaleLowerCase candidate))

/-- Comparison `s !== value` for a string `s`. -/
def strictNeStr (s : JsString) (value : JsValue) : Bool :=
  match value with
  | .str t => decide (s ≠ t)
  | _ => true

/-- Comparison `n !== value` for an integer `n`. -/
def strictNeInt (n : Nat) (value : JsValue) : Bool :=
  match value with
  | .num (.finite q) => decide ((n : Rat) ≠ q)
  | _ => true

/-- The local variables of `sanitizeOptions` and `sanitizeCriteria`. -/
structure Walk (α : Type) where
  repaired : Bool
  items : List α
  usedNames : List JsString
  ordinal : Nat
  world : World

/-- The expression `typeof item.name === "string" ? item.name.trim() : ""`. -/
def rawNameOf (item : JsValue) : JsString :=
  match getProp item (units "name") with
  | .str s => trim s
  | _ => []

/-- The expression `typeof item.note === "string" ?
item.note.slice(0, MAX_NOTE_LENGTH) : ""`. -/
def noteOf (item : JsValue) : JsString :=
  match getProp item (units "note") with
  | .str s => s.take MAX_NOTE_LENGTH
  | _ => []

/-- The expression choosing `id`: the payload's when it is a non-empty string,
else a fresh one. -/
def chooseId (H : Host) (item : JsValue) (w : World) : JsString × World :=
  match getProp item (units "id") with
  | .str s => if s ≠ [] then (s, w) else createId H w
  | _ => createId H w

/-- The expression choosing `createdAt`, with the flag of the test that
follows it. -/
def chooseCreatedAt (H : Host) (item : JsValue) (count : Nat) (w : World) :
    Rat × World × Bool :=
  match getProp item (units "createdAt") with
  | .num (.finite q) => (q, w, false)
  | _ => let r := dateNow H w; ((r.1 : Rat) + (count : Rat), r.2, true)

/-- The body of the `for` loop of `sanitizeOptions` for an entry that is an
object. -/
def sanitizeOptionItem (H : Host) (fuel : Nat) (item : JsValue) (acc : Walk DecisionOption) :
    Option (Walk DecisionOption) :=
  let rawName := rawNameOf item
  let cleanedName := rawName.take MAX_OPTION_NAME_LENGTH
  let r1 := acc.repaired || decide (rawName = []) || decide (cleanedName ≠ rawName)
  match uniqueName H fuel cleanedName acc.usedNames (units "Option")
      MAX_OPTION_NAME_LENGTH acc.ordinal with
  | none => none
  | some (name, used) =>
    let r2 := r1 || decide (name ≠ cleanedName)
    let note := noteOf item
    let r3 := r2 || strictNeStr note (getProp item (units "note"))
    let idw := chooseId H item acc.world
    let r4 := r3 || strictNeStr idw.1 (getProp item (units "id"))
    let cw := chooseCreatedAt H item acc.items.length idw.2
    some { repaired := r4 || cw.2.2,
           items := acc.items ++ [{ id := idw.1, name := name, note := note,
                                    createdAt := cw.1 }],
           usedNames := used, ordinal := acc.ordinal + 1, world := cw.2.1 }

/-- The `for` loop of `sanitizeOptions`. -/
def sanitizeOptionsLoop (H : Host) (fuel : Nat) :
    List JsValue → Walk DecisionOption → Option (Walk DecisionOption)
  | [], acc => some acc
  | item :: rest, acc =>
    if acc.items.length ≥ MAX_OPTIONS then some { acc with repaired := true }
    else if !isObject item then sanitizeOptionsLoop H fuel rest { acc with repaired := true }
    else
      match sanitizeOptionItem H fuel item acc with
      | none => none
      | some acc1 => sanitizeOptionsLoop H fuel rest acc1

/-- The `while (items.length < MIN_OPTIONS)` loop of `sanitizeOptions`; the
first argument bounds the number of times its body runs. -/
def fillOptions (H : Host) (fuel : Nat) : Nat → Walk DecisionOption → Option (Walk DecisionOption)
  | 0, acc => if acc.items.length < MIN_OPTIONS then none else some acc
  | n + 1, acc =>
    if acc.items.length < MIN_OPTIONS then
      match uniqueName H fuel [] acc.usedNames (units "Option")
          MAX_OPTION_NAME_LENGTH acc.ordinal with
      | none => none
      | some (fallbackName, used) =>
        let t := dateNow H acc.world
        let o := createOption H fallbackName ((t.1 : Rat) + (acc.ordinal : Rat)) t.2
        fillOptions H fuel n
          { repaired := true, items := acc.items ++ [o.1], usedNames := used,
            ordinal := acc.ordinal + 1, world := o.2 }
    else some acc

/-- The source array of a collection: the input when it is an array, else
empty. -/
def sourceOf : JsValue → List JsValue
  | .arr items => items
  | _ => []

/-- Test `Array.isArray(input)`. -/
def isArray : JsValue → Bool
  | .arr _ => true
  | _ => false

/-- Function `sanitizeOptions`; `fuel` bounds every `while` loop. -/
def sanitizeOptions (H : Host) (fuel : Nat) (input : JsValue) (w : World) :
    Option (Walk DecisionOption) :=
  match sanitizeOptionsLoop H fuel (sourceOf input)
      { repaired := !isArray input, items := [], usedNames := [], ordinal := 1, world := w } with
  | none => none
  | some acc => fillOptions H fuel fuel acc

/-- The body of the `for` loop of `sanitizeCriteria` for an entry that is an
object: `none` when `fuel` does not cover the loop of `uniqueName`, an error
when `clampInt` raises, else the updated variables. -/
def sanitizeCriterionItem (H : Host) (fuel : Nat) (item : JsValue) (acc : Walk Criterion) :
    Option (Except JsError (Walk Criterion)) :=
  let rawName := rawNameOf item
  let cleanedName := rawName.take MAX_CRITERION_NAME_LENGTH
  let r1 := acc.repaired || decide (rawName = []) || decide (cleanedName ≠ rawName)
  match uniqueName H fuel cleanedName acc.usedNames (units "Criterion")
      MAX_CRITERION_NAME_LENGTH acc.ordinal with
  | none => none
  | some (name, used) =>
    let r2 := r1 || decide (name ≠ cleanedName)
    match clampInt H (getProp item (units "weight")) 1 5 with
    | .error e => some (.error e)
    | .ok weight =>
      let r3 := r2 || strictNeInt weight (getProp item (units "weight"))
      let idw := chooseId H item acc.world
      let r4 := r3 || strictNeStr idw.1 (getProp item (units "id"))
      let cw := chooseCreatedAt H item acc.items.length idw.2
      some (.ok { repaired := r4 || cw.2.2,
                  items := acc.items ++ [{ id := idw.1, name := name, weight := weight,
                                           createdAt := cw.1 }],
                  usedNames := used, ordinal := acc.ordinal + 1, world := cw.2.1 })

/-- The `for` loop of `sanitizeCriteria`; an error of the body ends it. -/
def sanitizeCriteriaLoop (H : Host) (fuel : Nat) :
    List JsValue → Walk Criterion → Option (Except JsError (Walk Criterion))
  | [], acc => some (.ok acc)
  | item :: rest, acc =>
    if acc.items.length ≥ MAX_CRITERIA then some (.ok { acc with repaired := true })
    else if !isObject item then sanitizeCriteriaLoop H fuel rest { acc with repaired := true }
    else
      match sanitizeCriterionItem H fuel item acc with
      | none => none
      | some (.error e) => some (.error e)
      | some (.ok acc1) => sanitizeCriteriaLoop H fuel rest acc1

/-- The `while (items.length < MIN_CRITERIA)` loop of `sanitizeCriteria`; the
first argument bounds the number of times its body runs. -/
def fillCriteria (H : Host) (fuel : Nat) : Nat → Walk Criterion → Option (Walk Criterion)
  | 0, acc => if acc.items.length < MIN_CRITERIA then none else some acc
  | n + 1, acc =>
    if acc.items.length < MIN_CRITERIA then
      match uniqueName H fuel [] acc.usedNames (units "Criterion")
          MAX_CRITERION_NAME_LENGTH acc.ordinal with
      | none => none
      | some (fallbackName, used) =>
        let t := dateNow H acc.world
        let c := createCriterion H fallbackName 3 ((t.1 : Rat) + (acc.ordinal : Rat)) t.2
        fillCriteria H fuel n
          { repaired := true, items := acc.items ++ [c.1], usedNames := used,
            ordinal := acc.ordinal + 1, world := c.2 }
    else some acc

/-- Function `sanitizeCriteria`; `fuel` bounds every `while` loop, and an error
of the `for` loop is passed on. -/
def sanitizeCriteria (H : Host) (fuel : Nat) (input : JsValue) (w : World) :
    Option (Except JsError (Walk Criterion)) :=
  match sanitizeCriteriaLoop H fuel (sourceOf input)
      { repaired := !isArray input, items := [], usedNames := [], ordinal := 1, world := w } with
  | none => none
  | some (.error e) => some (.error e)
  | some (.ok acc) => (fillCriteria H fuel fuel acc).map .ok

/-- Call `Object.entries(input)`: one entry per own key.  (The host lists
array-index keys first; no such key contains a colon, so the entries the
ratings loop keeps come in this order.) -/
def ownEntries : List (JsString × JsValue) → List (JsString × JsValue)
  | [] => []
  | (k, v) :: rest => (k, v) :: (ownEntries rest).filter (fun e => e.1 ≠ k)

/-- Assignment `items[key] = value`. -/
def setOwn (key : JsString) (value : JsValue) :
    List (JsString × JsValue) → List (JsString × JsValue)
  | [] => [(key, value)]
  | (k, v) :: rest => if k = key then (k, value) :: rest else (k, v) :: setOwn key value rest

/-- Test `ids.has(part)` for an element of the array destructured from
`key.split(":")`, which is `undefined` when the array is too short. -/
def hasPart (ids : List JsString) : Option JsString → Bool
  | some part => decide (part ∈ ids)
  | none => false

/-- The `for` loop of `sanitizeRatings`: the pair `(repaired, items)`. -/
def sanitizeRatingsLoop (optionIds criterionIds : List JsString) :
    List (JsString × JsValue) → Bool × List (JsString × JsValue) →
      Bool × List (JsString × JsValue)
  | [], acc => acc
  | (key, value) :: rest, acc =>
    let parts := splitColon key
    if !hasPart optionIds parts.head? || !hasPart criterionIds (parts.tail.head?) then
      sanitizeRatingsLoop optionIds criterionIds rest (true, acc.2)
    else
      match value with
      | .null => sanitizeRatingsLoop optionIds criterionIds rest (true, acc.2)
      | _ =>
        if (ratingValue value).isNone then
          sanitizeRatingsLoop optionIds criterionIds rest (true, acc.2)
        else sanitizeRatingsLoop optionIds criterionIds rest (acc.1, setOwn key value acc.2)

/-- Function `sanitizeRatings`: the pair `(repaired, items)`. -/
def sanitizeRatings (input : JsValue) (optionIds criterionIds : List JsString) :
    Bool × List (JsString × JsValue) :=
  match input with
  | .obj fields => sanitizeRatingsLoop optionIds criterionIds (ownEntries fields) (false, [])
  | _ => (true, [])

/-- The record `{ repaired, state }` returned by `sanitizeV1State`. -/
structure Sanitized where
  repaired : Bool
  state : State

/-- The title of the sanitized state with the flag of the test that follows
it. -/
def sanitizeTitle (candidate : JsValue) : JsString × Bool :=
  let titleSource := match getProp candidate (units "title") with
    | .str s => s
    | _ => []
  (titleSource.take MAX_TITLE_LENGTH, decide (titleSource.take MAX_TITLE_LENGTH ≠ titleSource))

/-- The `updatedAt` of the sanitized state with the flag of the test that
follows it. -/
def sanitizeUpdatedAt (H : Host) (candidate : JsValue) (w : World) : Rat × World × Bool :=
  match getProp candidate (units "updatedAt") with
  | .num (.finite q) => (q, w, false)
  | _ => let r := dateNow H w; ((r.1 : Rat), r.2, true)

/-- Function `sanitizeV1State`.  The outer `Option` is `none` when `fuel` does
not cover a `while` loop.  Within it the call either raises, which only the
`clampInt` of `sanitizeCriteria` can make it do, or returns: `none` for `null`,
else the record.  (The test `!optionResult || !criterionResult` never holds:
both are records.) -/
def sanitizeV1State (H : Host) (fuel : Nat) (candidate : JsValue) (w : World) :
    Option (Except JsError (Option Sanitized × World)) :=
  if !isObject candidate then some (.ok (none, w))
  else
    let title := sanitizeTitle candidate
    match sanitizeOptions H fuel (getProp candidate (units "options")) w with
    | none => none
    | some optionResult =>
      match sanitizeCriteria H fuel (getProp candidate (units "criteria"))
          optionResult.world with
      | none => none
      | some (.error e) => some (.error e)
      | some (.ok criterionResult) =>
        let optionIds := optionResult.items.map (fun item => item.id)
        let criterionIds := criterionResult.items.map (fun item => item.id)
        let ratingsResult :=
          sanitizeRatings (getProp candidate (units "ratings")) optionIds criterionIds
        let updated := sanitizeUpdatedAt H candidate criterionResult.world
        some (.ok (some
          { repaired := title.2 || optionResult.repaired || criterionResult.repaired
              || ratingsResult.1 || updated.2.2,
            state :=
              { title := title.1, options := optionResult.items,
                criteria := criterionResult.items, ratings := ratingsResult.2,
                updatedAt := updated.1 } },
          updated.2.1))

/-! ## Vocabulary of the scoring claims -/

/-- Position of `x` in `l` (the length of `l` when `x` is absent). -/
def positionIn {α : Type} [DecidableEq α] (l : List α) (x : α) : Nat :=
  l.findIdx (fun y => decide (y = x))

/-- The list `computeMetrics` sorts. -/
def rankInput (s : State) : List RankEntry :=
  s.options.map (fun o =>
    { option := o, raw := rawScore s o, pct := pctOf (rawScore s o) (maxRawOf s) })

/-- The key the ranking comparator orders by: raw score descending, then
`createdAt` ascending, then the index it reads from its `Map`. -/
def rankKey (s : State) (e : RankEntry) : Lex (Int × Lex (Rat × Nat)) :=
  toLex (-(e.raw : Int), toLex (e.option.createdAt, indexOrMax (optionIndex s) e.option.id))

/-- Entry `a` strictly precedes entry `b`: raw score descending, then
`createdAt` ascending, then original position in `options` ascending. -/
def rankedBefore (s : State) (a b : RankEntry) : Prop :=
  b.raw < a.raw ∨ (a.raw = b.raw ∧ (a.option.createdAt < b.option.createdAt ∨
    (a.option.createdAt = b.option.createdAt ∧
      positionIn s.options a.option < positionIn s.options b.option)))

/-- The key the comparator of `getTopReasons` orders by. -/
def reasonKey (s : State) (r : Reason) : Lex (Int × Lex (Int × Lex (Rat × Nat))) :=
  toLex (-(r.points : Int), toLex (-(r.criterion.weight : Int),
    toLex (r.criterion.createdAt, indexOrMax (criterionIndex s) r.criterion.id)))

/-- Reason `a` strictly precedes reason `b`: contribution descending, then
weight descending, then `createdAt` ascending, then original position in
`criteria` ascending. -/
def reasonBefore (s : State) (a b : Reason) : Prop :=
  b.points < a.points ∨ (a.points = b.points ∧
    (b.criterion.weight < a.criterion.weight ∨ (a.criterion.weight = b.criterion.weight ∧
      (a.criterion.createdAt < b.criterion.createdAt ∨
        (a.criterion.createdAt = b.criterion.createdAt ∧
          positionIn s.criteria a.criterion < positionIn s.criteria b.criterion)))))

/-! ## Example states -/

/-- Options A (created at 1) and B (created at 2), one criterion of weight 5,
both options rated 5. -/
def tieState : State :=
  { title := [],
    options := [{ id := units "A", name := units "A", note := [], createdAt := 1 },
                { id := units "B", name := units "B", note := [], createdAt := 2 }],
    criteria := [{ id := units "c", name := units "Price", weight := 5, createdAt := 3 }],
    ratings := [(units "A:c", .num (.finite 5)), (units "B:c", .num (.finite 5))],
    updatedAt := 4 }

/-- Two options and no rating stored. -/
def unratedState : State :=
  { title := [],
    options := [{ id := units "A", name := units "A", note := [], createdAt := 1 },
                { id := units "B", name := units "B", note := [], createdAt := 2 }],
    criteria := [{ id := units "c", name := units "Price", weight := 5, createdAt := 3 }],
    ratings := [],
    updatedAt := 4 }

/-- Options A, B, C and criteria of weights 4, 5 and 3; option A is rated 5 on
every criterion. -/
def fullMarksState : State :=
  { title := [],
    options := [{ id := units "A", name := units "A", note := [], createdAt := 1 },
                { id := units "B", name := units "B", note := [], createdAt := 2 },
                { id := units "C", name := units "C", note := [], createdAt := 3 }],
    criteria := [{ id := units "p", name := units "Price", weight := 4, createdAt := 4 },
                 { id := units "q", name := units "Quality", weight := 5, createdAt := 5 },
                 { id := units "r", name := units "Convenience", weight := 3, createdAt := 6 }],
    ratings := [(units "A:p", .num (.finite 5)), (units "A:q", .num (.finite 5)),
                (units "A:r", .num (.finite 5)), (units "B:p", .num (.finite 2))],
    updatedAt := 7 }

/-- Options A and B and criteria of weights 2 and 3; option A is rated 2 and
1 and scores 7 of 25, option B is not rated. -/
def sevenOfTwentyFiveState : State :=
  { title := [],
    options := [{ id := units "A", name := units "A", note := [], createdAt := 1 },
                { id := units "B", name := units "B", note := [], createdAt := 2 }],
    criteria := [{ id := units "p", name := units "Price", weight := 2, createdAt := 3 },
                 { id := units "q", name := units "Quality", weight := 3, createdAt := 4 }],
    ratings := [(units "A:p", .num (.finite 2)), (units "A:q", .num (.finite 1))],
    updatedAt := 5 }

/-- Three criteria of equal weight and `createdAt`, the first and the third
with the same id `x`; option `o` is rated 5 under the keys `o:x` and `o:y`.
It is the state the sanitizer returns for `sharedCriterionIdPayload`. -/
def sharedIdState : State :=
  { title := [],
    options := [{ id := units "o", name := units "One", note := [], createdAt := 1 },
                { id := units "p", name := units "Two", note := [], createdAt := 2 }],
    criteria := [{ id := units "x", name := units "A", weight := 3, createdAt := 1 },
                 { id := units "y", name := units "B", weight := 3, createdAt := 1 },
                 { id := units "x", name := units "C", weight := 3, createdAt := 1 }],
    ratings := [(units "o:x", .num (.finite 5)), (units "o:y", .num (.finite 5))],
    updatedAt := 3 }

/-! ## Vocabulary of the sanitizer claims -/

/-- The number a string of decimal digits denotes. -/
def digitsValue (ds : JsString) : Nat :=
  ds.foldl (fun a d => 10 * a + (d - 48)) 0

/-- The text of a suffix index between its parentheses, as a candidate name
ends. -/
def indexTail (k : Nat) : JsString := 40 :: (decimal k ++ [41])

/-- Assumption on the host: lower-casing a string that ends with a decimal
number in parentheses leaves that ending in place (case mappings change
letters only). -/
def KeepsTrailingIndex (lower : JsString → JsString) : Prop :=
  ∀ (s : JsString) (k : Nat), indexTail k <:+ s → indexTail k <:+ lower s

/-- The id a payload entry brings: its `id` when that is a non-empty string. -/
def keptId (item : JsValue) : Option JsString :=
  match getProp item (units "id") with
  | .str s => if s ≠ [] then some s else none
  | _ => none

/-- The ids the walk over a payload collection keeps: those of its first
`maxCount` entries that are objects. -/
def payloadIds (input : JsValue) (maxCount : Nat) : List JsString :=
  (((sourceOf input).filter isObject).take maxCount).filterMap keptId

/-- The names accepted so far are non-empty, trimmed, at most `maxLength` long
and pairwise distinct after lower-casing, and `used` holds their
lower-casings. -/
structure NamesOk (lower : JsString → JsString) (maxLength : Nat)
    (names used : List JsString) : Prop where
  used_length : used.length = names.length
  lower_mem : ∀ n ∈ names, lower n ∈ used
  good : ∀ n ∈ names, n ≠ [] ∧ trim n = n ∧ n.length ≤ maxLength
  distinct : names.Pairwise (fun a b => lower a ≠ lower b)

/-- The invariant of the walks of `sanitizeOptions` and `sanitizeCriteria`. -/
structure WalkOk {α : Type} (lower : JsString → JsString) (maxLength maxCount : Nat)
    (nameOf : α → JsString) (acc : Walk α) : Prop where
  names : NamesOk lower maxLength (acc.items.map nameOf) acc.usedNames
  ordinal_eq : acc.ordinal = acc.items.length + 1
  count_le : acc.items.length ≤ maxCount

/-! ## An example host and example payloads -/

/-- Lower-casing of the ASCII letters. -/
def asciiLower (s : JsString) : JsString :=
  s.map (fun c => if 65 ≤ c ∧ c ≤ 90 then c + 32 else c)

/-- The number a leading run of decimal digits denotes, `none` without a
digit. -/
def leadingDigits : JsString → Option Nat → Option Nat
  | [], acc => acc
  | c :: cs, acc =>
    if 48 ≤ c ∧ c ≤ 57 then leadingDigits cs (some (10 * acc.getD 0 + (c - 48))) else acc

/-- Call `parseInt(s, 10)` on a string: blanks, a sign, a run of digits. -/
def parseIntString (s : JsString) : Option Int :=
  match s.dropWhile isWhiteSpace with
  | 45 :: rest => (leadingDigits rest none).map (fun n => -(n : Int))
  | 43 :: rest => (leadingDigits rest none).map (fun n => (n : Int))
  | rest => (leadingDigits rest none).map (fun n => (n : Int))

/-- A host for the examples: ASCII lower-casing, `parseInt` on strings and on
the numbers printed without an exponent (truncation), ids `id-0`, `id-1`, ...
and a clock that starts at 1000. -/
def exampleHost : Host :=
  { toLocaleLowerCase := asciiLower,
    parseInt := fun v =>
      match v with
      | .str s => parseIntString s
      | .num (.finite q) => some (Int.tdiv q.num q.den)
      | _ => none,
    randomId := fun n => units "id-" ++ decimal n,
    now := fun n => 1000 + (n : Int) }

/-- The world before any id or timestamp is drawn. -/
def world0 : World := { idCalls := 0, clockCalls := 0 }

/-- A malformed record: `options` is a string, `criteria` an array of
non-objects, `ratings` an array. -/
def garbagePayload : JsValue :=
  .obj [(units "options", .str (units "oops")),
        (units "criteria", .arr [.null, .num (.finite 3)]),
        (units "ratings", .arr [])]

/-- The saved record `{"version":1,"criteria":[{"weight":{"toString":0}}]}`: the
weight of its one criterion is an object whose own `toString` is a number,
which `Number.parseInt` cannot convert to a string. -/
def unconvertibleWeightPayload : JsValue :=
  .obj [(units "version", .num (.finite 1)),
        (units "criteria",
          .arr [.obj [(units "weight", .obj [(units "toString", .num (.finite 0))])]])]

/-- What the examples read off a result of `sanitizeV1State`: the flag, the
title, ids and names of the options, ids, names and weights of the criteria,
and the rating entries. -/
def summary (r : Option (Except JsError (Option Sanitized × World))) :
    Option (Except JsError (Option (Bool × JsString × List (JsString × JsString)
      × List (JsString × JsString × Nat) × List (JsString × Option Nat)))) :=
  r.map (fun x => x.map (fun p => p.1.map (fun s =>
    (s.repaired, s.state.title, s.state.options.map (fun o => (o.id, o.name)),
      s.state.criteria.map (fun c => (c.id, c.name, c.weight)),
      s.state.ratings.map (fun e => (e.1, ratingValue e.2))))))

/-- The `for` loop of `sanitizeCriteria`, started with `count` accepted entries,
comes to an entry whose weight `clampInt` cannot convert: non-objects are
skipped, the loop ends at 20 accepted entries, and every object before the
first such entry is accepted. -/
def criteriaRaise : List JsValue → Nat → Bool
  | [], _ => false
  | item :: rest, count =>
    if count ≥ MAX_CRITERIA then false
    else if !isObject item then criteriaRaise rest count
    else if toStringRaises (getProp item (units "weight")) then true
    else criteriaRaise rest (count + 1)

/-- The call `sanitizeV1State(candidate)` raises a `TypeError`. -/
def sanitizeRaises (candidate : JsValue) : Bool :=
  isObject candidate && criteriaRaise (sourceOf (getProp candidate (units "criteria"))) 0

/-- The ids are pairwise distinct and none of them is an id the host will
generate from world `w` on. -/
def IdsFresh (H : Host) (ids : List JsString) (w : World) : Prop :=
  ids.Nodup ∧ ∀ x ∈ ids, ∀ n, w.idCalls ≤ n → x ≠ H.randomId n

/-- A well-formed payload in which both options carry the id `dup`. -/
def sharedIdPayload : JsValue :=
  .obj [(units "title", .str (units "Lunch")),
        (units "options", .arr [
          .obj [(units "id", .str (units "dup")), (units "name", .str (units "Pizza")),
                (units "note", .str []), (units "createdAt", .num (.finite 1))],
          .obj [(units "id", .str (units "dup")), (units "name", .str (units "Salad")),
                (units "note", .str []), (units "createdAt", .num (.finite 2))]]),
        (units "criteria", .arr [
          .obj [(units "id", .str (units "c")), (units "name", .str (units "Price")),
                (units "weight", .num (.finite 4)), (units "createdAt", .num (.finite 3))]]),
        (units "ratings", .obj [(units "dup:c", .num (.finite 5))]),
        (units "updatedAt", .num (.finite 9))]

/-- A well-formed payload with pairwise distinct ids whose ratings hold the
key `a:b:c`. -/
def extraSegmentPayload : JsValue :=
  .obj [(units "title", .str (units "Lunch")),
        (units "options", .arr [
          .obj [(units "id", .str (units "a")), (units "name", .str (units "Pizza")),
                (units "note", .str []), (units "createdAt", .num (.finite 1))],
          .obj [(units "id", .str (units "z")), (units "name", .str (units "Salad")),
                (units "note", .str []), (units "createdAt", .num (.finite 2))]]),
        (units "criteria", .arr [
          .obj [(units "id", .str (units "b")), (units "name", .str (units "Price")),
                (units "weight", .num (.finite 4)), (units "createdAt", .num (.finite 3))]]),
        (units "ratings", .obj [(units "a:b:c", .num (.finite 3)),
                                (units "a:b", .num (.finite 5))]),
        (units "updatedAt", .num (.finite 9))]

/-- A payload whose names need repair: blanks around a name, a name that
differs from it by case only, an entry without a name. -/
def namesPayload : JsValue :=
  .obj [(units "options", .arr [
          .obj [(units "id", .str (units "a")), (units "name", .str (units "  Price "))],
          .obj [(units "id", .str (units "b")), (units "name", .str (units "PRICE"))],
          .obj [(units "id", .str (units "c"))]]),
        (units "criteria", .arr [
          .obj [(units "id", .str (units "k")), (units "name", .str (units "Cost")),
                (units "weight", .num (.finite 9))]])]

/-- A well-formed payload whose first and third criterion both carry the id
`x`. -/
def sharedCriterionIdPayload : JsValue :=
  .obj [(units "title", .str []),
        (units "options", .arr [
          .obj [(units "id", .str (units "o")), (units "name", .str (units "One")),
                (units "note", .str []), (units "createdAt", .num (.finite 1))],
          .obj [(units "id", .str (units "p")), (units "name", .str (units "Two")),
                (units "note", .str []), (units "createdAt", .num (.finite 2))]]),
        (units "criteria", .arr [
          .obj [(units "id", .str (units "x")), (units "name", .str (units "A")),
                (units "weight", .num (.finite 3)), (units "createdAt", .num (.finite 1))],
          .obj [(units "id", .str (units "y")), (units "name", .str (units "B")),
                (units "weight", .num (.finite 3)), (units "createdAt", .num (.finite 1))],
          .obj [(units "id", .str (units "x")), (units "name", .str (units "C")),
                (units "weight", .num (.finite 3)), (units "createdAt", .num (.finite 1))]]),
        (units "ratings", .obj [(units "o:x", .num (.finite 5)),
                                (units "o:y", .num (.finite 5))]),
        (units "updatedAt", .num (.finite 3))]

/-! ## The mutation handlers -/

/-- What a handler leaves behind: the state, the world and the message it
reports through `setSectionError` or `setOptionError` and `announceLive`,
if any. -/
structure Outcome where
  state : State
  world : World
  error : Option JsString

/-- Function `registerMutation` (rendering and the save timer aside). -/
def registerMutation (H : Host) (s : State) (w : World) : State × World :=
  let t := dateNow H w
  ({ s with updatedAt := (t.1 : Rat) }, t.2)

/-- Function `findOption`. -/
def findOption (s : State) (optionId : JsString) : Option DecisionOption :=
  s.options.find? (fun option => decide (option.id = optionId))

/-- Function `findCriterion`. -/
def findCriterion (s : State) (criterionId : JsString) : Option Criterion :=
  s.criteria.find? (fun criterion => decide (criterion.id = criterionId))

/-- An assignment to a field of the object `find` returned: the first element
that satisfies `p` is replaced by its image. -/
def updateFirst {α : Type} (p : α → Bool) (f : α → α) : List α → List α
  | [] => []
  | x :: xs => if p x then f x :: xs else x :: updateFirst p f xs

/-- The string of an integer in a template literal. -/
def decimalInt (z : Int) : JsString :=
  if z < 0 then 45 :: decimal z.natAbs else decimal z.toNat

/-- Function `handleTitleInput`, on the value of the input. -/
def handleTitleInput (H : Host) (s : State) (w : World) (value : JsString) : Outcome :=
  let r := registerMutation H { s with title := value.take MAX_TITLE_LENGTH } w
  { state := r.1, world := r.2, error := none }

/-- Function `handleTitleChange`, on the value of the input. -/
def handleTitleChange (H : Host) (s : State) (w : World) (value : JsString) : Outcome :=
  let r := registerMutation H { s with title := (trim value).take MAX_TITLE_LENGTH } w
  { state := r.1, world := r.2, error := none }

/-- The `for (let i = 1; i <= 999; i += 1)` loop of `nextOptionName` and
`nextCriterionName`: the first argument counts the iterations left, `none`
when the loop ends without a `return`. -/
def nextNameLoop (lower : JsString → JsString) (existing : List JsString) (word : JsString) :
    Nat → Nat → Option JsString
  | 0, _ => none
  | n + 1, i =>
    if lower (word ++ units " " ++ decimal i) ∈ existing then
      nextNameLoop lower existing word n (i + 1)
    else some (word ++ units " " ++ decimal i)

/-- Function `nextOptionName`. -/
def nextOptionName (H : Host) (s : State) (w : World) : JsString × World :=
  let existing := s.options.map (fun item => H.toLocaleLowerCase (trim item.name))
  match nextNameLoop H.toLocaleLowerCase existing (units "Option") 999 1 with
  | some candidate => (candidate, w)
  | none => let t := dateNow H w; (units "Option " ++ decimalInt t.1, t.2)

/-- Function `nextCriterionName`. -/
def nextCriterionName (H : Host) (s : State) (w : World) : JsString × World :=
  let existing := s.criteria.map (fun item => H.toLocaleLowerCase (trim item.name))
  match nextNameLoop H.toLocaleLowerCase existing (units "Criterion") 999 1 with
  | some candidate => (candidate, w)
  | none => let t := dateNow H w; (units "Criterion " ++ decimalInt t.1, t.2)

/-- Function `handleAddOption`. -/
def handleAddOption (H : Host) (s : State) (w : World) : Outcome :=
  if s.options.length ≥ MAX_OPTIONS then
    { state := s, world := w, error := some (units "You can add up to 20 options.") }
  else
    let newName := nextOptionName H s w
    let t := dateNow H newName.2
    let o := createOption H newName.1 (t.1 : Rat) t.2
    let r := registerMutation H { s with options := s.options ++ [o.1] } o.2
    { state := r.1, world := r.2, error := none }

/-- Function `handleAddCriterion`. -/
def handleAddCriterion (H : Host) (s : State) (w : World) : Outcome :=
  if s.criteria.length ≥ MAX_CRITERIA then
    { state := s, world := w, error := some (units "You can add up to 20 criteria.") }
  else
    let newName := nextCriterionName H s w
    let t := dateNow H newName.2
    let c := createCriterion H newName.1 3 (t.1 : Rat) t.2
    let r := registerMutation H { s with criteria := s.criteria ++ [c.1] } c.2
    { state := r.1, world := r.2, error := none }

/-- Function `handleOptionInput` for the field `option-note`. -/
def handleOptionInput (H : Host) (s : State) (w : World) (optionId value : JsString) :
    Outcome :=
  if optionId = [] then { state := s, world := w, error := none }
  else
    match findOption s optionId with
    | none => { state := s, world := w, error := none }
    | some _ =>
      let options := updateFirst (fun option => decide (option.id = optionId))
        (fun option => { option with note := value.take MAX_NOTE_LENGTH }) s.options
      let r := registerMutation H { s with options := options } w
      { state := r.1, world := r.2, error := none }

/-- Function `handleCriterionChange` for the field `criterion-weight`; `value`
is the string `input.value`. -/
def handleCriterionWeight (H : Host) (s : State) (w : World) (criterionId : JsString)
    (value : JsString) : Outcome :=
  if criterionId = [] then { state := s, world := w, error := none }
  else
    match findCriterion s criterionId with
    | none => { state := s, world := w, error := none }
    | some _ =>
      let criteria := updateFirst (fun criterion => decide (criterion.id = criterionId))
        (fun criterion => { criterion with weight := clampIntValue H (.str value) 1 5 })
        s.criteria
      let r := registerMutation H { s with criteria := criteria } w
      { state := r.1, world := r.2, error := none }

/-- The `for` loop of `validateOptionName`: the message of the first option
with another id whose trimmed, lower-cased name is `normalized`, else the
empty string. -/
def validateOptionLoop (H : Host) (normalized optionId : JsString) :
    List DecisionOption → JsString
  | [] => []
  | option :: rest =>
    if option.id = optionId then validateOptionLoop H normalized optionId rest
    else if H.toLocaleLowerCase (trim option.name) = normalized then
      units "Option names must be unique."
    else validateOptionLoop H normalized optionId rest

/-- Function `validateOptionName`: the error message, empty when the name is
valid. -/
def validateOptionName (H : Host) (s : State) (name optionId : JsString) : JsString :=
  if name = [] then units "Option name is required."
  else if name.length > MAX_OPTION_NAME_LENGTH then
    units "Option name must be 60 characters or fewer."
  else validateOptionLoop H (H.toLocaleLowerCase name) optionId s.options

/-- The `for` loop of `validateCriterionName`. -/
def validateCriterionLoop (H : Host) (normalized criterionId : JsString) :
    List Criterion → JsString
  | [] => []
  | criterion :: rest =>
    if criterion.id = criterionId then validateCriterionLoop H normalized criterionId rest
    else if H.toLocaleLowerCase (trim criterion.name) = normalized then
      units "Criterion names must be unique."
    else validateCriterionLoop H normalized criterionId rest

/-- Function `validateCriterionName`. -/
def validateCriterionName (H : Host) (s : State) (name criterionId : JsString) : JsString :=
  if name = [] then units "Criterion name is required."
  else if name.length > MAX_CRITERION_NAME_LENGTH then
    units "Criterion name must be 40 characters or fewer."
  else validateCriterionLoop H (H.toLocaleLowerCase name) criterionId s.criteria

/-- Function `updateOptionName`. -/
def updateOptionName (H : Host) (s : State) (w : World) (optionId rawName : JsString) :
    Outcome :=
  match findOption s optionId with
  | none => { state := s, world := w, error := none }
  | some _ =>
    let normalized := trim rawName
    let error := validateOptionName H s normalized optionId
    if error ≠ [] then { state := s, world := w, error := some error }
    else
      let options := updateFirst (fun option => decide (option.id = optionId))
        (fun option => { option with name := normalized }) s.options
      let r := registerMutation H { s with options := options } w
      { state := r.1, world := r.2, error := none }

/-- Function `updateCriterionName`. -/
def updateCriterionName (H : Host) (s : State) (w : World) (criterionId rawName : JsString) :
    Outcome :=
  match findCriterion s criterionId with
  | none => { state := s, world := w, error := none }
  | some _ =>
    let normalized := trim rawName
    let error := validateCriterionName H s normalized criterionId
    if error ≠ [] then { state := s, world := w, error := some error }
    else
      let criteria := updateFirst (fun criterion => decide (criterion.id = criterionId))
        (fun criterion => { criterion with name := normalized }) s.criteria
      let r := registerMutation H { s with criteria := criteria } w
      { state := r.1, world := r.2, error := none }

/-- Function `pruneRatingsByOption`: the ratings left. -/
def pruneRatingsByOption (ratings : List (JsString × JsValue)) (optionId : JsString) :
    List (JsString × JsValue) :=
  ratings.filter (fun e => !((optionId ++ units ":").isPrefixOf e.1))

/-- Function `pruneRatingsByCriterion`: the ratings left. -/
def pruneRatingsByCriterion (ratings : List (JsString × JsValue)) (criterionId : JsString) :
    List (JsString × JsValue) :=
  ratings.filter (fun e => !((units ":" ++ criterionId).isSuffixOf e.1))

/-- Function `deleteOption`. -/
def deleteOption (H : Host) (s : State) (w : World) (optionId : JsString) : Outcome :=
  if s.options.length ≤ MIN_OPTIONS then
    { state := s, world := w, error := some (units "At least 2 options required.") }
  else
    let options := s.options.filter (fun option => decide (option.id ≠ optionId))
    let ratings := pruneRatingsByOption s.ratings optionId
    let r := registerMutation H { s with options := options, ratings := ratings } w
    { state := r.1, world := r.2, error := none }

/-- Function `deleteCriterion`. -/
def deleteCriterion (H : Host) (s : State) (w : World) (criterionId : JsString) : Outcome :=
  if s.criteria.length ≤ MIN_CRITERIA then
    { state := s, world := w, error := some (units "At least 1 criterion required.") }
  else
    let criteria := s.criteria.filter (fun criterion => decide (criterion.id ≠ criterionId))
    let ratings := pruneRatingsByCriterion s.ratings criterionId
    let r := registerMutation H { s with criteria := criteria, ratings := ratings } w
    { state := r.1, world := r.2, error := none }

/-- Function `setRating`; `value` is the integer `handleRatingChange` passes. -/
def setRating (H : Host) (s : State) (w : World) (optionId criterionId : JsString)
    (value : Nat) : Outcome :=
  if (findOption s optionId).isNone || (findCriterion s criterionId).isNone then
    { state := s, world := w, error := none }
  else
    let ratings := setOwn (ratingKey optionId criterionId) (.num (.finite (value : Rat)))
      s.ratings
    let r := registerMutation H { s with ratings := ratings } w
    { state := r.1, world := r.2, error := none }

/-- Function `handleRatingChange`, on the ids and the string `input.value`. -/
def handleRatingChange (H : Host) (s : State) (w : World) (optionId criterionId : JsString)
    (value : JsString) : Outcome :=
  if optionId = [] ∨ criterionId = [] then { state := s, world := w, error := none }
  else setRating H s w optionId criterionId (clampIntValue H (.str value) 1 5)

/-- Function `clearRating`: the ratings left. -/
def clearRating (ratings : List (JsString × JsValue)) (optionId criterionId : JsString) :
    List (JsString × JsValue) :=
  ratings.filter (fun e => decide (e.1 ≠ ratingKey optionId criterionId))

/-- Function `handleRatingClick` on a clear button (`handleRatingKeydown` does
the same to the model). -/
def handleRatingClick (H : Host) (s : State) (w : World) (optionId criterionId : JsString) :
    Outcome :=
  if optionId = [] ∨ criterionId = [] then { state := s, world := w, error := none }
  else
    let ratings := clearRating s.ratings optionId criterionId
    let r := registerMutation H { s with ratings := ratings } w
    { state := r.1, world := r.2, error := none }

/-- Function `createDefaultState`. -/
def createDefaultState (H : Host) (w : World) : State × World :=
  let now := dateNow H w
  let a := createOption H (units "Option A") ((now.1 : Rat) + 0) now.2
  let b := createOption H (units "Option B") ((now.1 : Rat) + 1) a.2
  let p := createCriterion H (units "Price") 4 ((now.1 : Rat) + 100 + 0) b.2
  let q := createCriterion H (units "Quality") 5 ((now.1 : Rat) + 100 + 1) p.2
  let c := createCriterion H (units "Convenience") 3
    ((now.1 : Rat) + 100 + 2) q.2
  ({ title := [], options := [a.1, b.1], criteria := [p.1, q.1, c.1], ratings := [],
     updatedAt := (now.1 : Rat) }, c.2)

/-- Function `handleReset`, the confirmation given. -/
def handleReset (H : Host) (w : World) : Outcome :=
  let r := createDefaultState H w
  { state := r.1, world := r.2, error := none }

/-! ## Serialization -/

/-- The object literal of an option. -/
def optionValue (o : DecisionOption) : JsValue :=
  .obj [(units "id", .str o.id), (units "name", .str o.name), (units "note", .str o.note),
        (units "createdAt", .num (.finite o.createdAt))]

/-- The object literal of a criterion. -/
def criterionValue (c : Criterion) : JsValue :=
  .obj [(units "id", .str c.id), (units "name", .str c.name),
        (units "weight", .num (.finite (c.weight : Rat))),
        (units "createdAt", .num (.finite c.createdAt))]

/-- The state object as a value: what `sanitizeV1State` returns in `state`. -/
def stateValue (s : State) : JsValue :=
  .obj [(units "version", .num (.finite (APP_VERSION : Rat))),
        (units "title", .str s.title),
        (units "options", .arr (s.options.map optionValue)),
        (units "criteria", .arr (s.criteria.map criterionValue)),
        (units "ratings", .obj s.ratings),
        (units "updatedAt", .num (.finite s.updatedAt))]

/-- Function `serializeState`. -/
def serializeState (H : Host) (s : State) : JsValue :=
  .obj [(units "version", .num (.finite (APP_VERSION : Rat))),
        (units "title", .str ((trim s.title).take MAX_TITLE_LENGTH)),
        (units "options", .arr (s.options.map (fun option =>
          optionValue { option with
            name := (trim option.name).take MAX_OPTION_NAME_LENGTH,
            note := option.note.take MAX_NOTE_LENGTH }))),
        (units "criteria", .arr (s.criteria.map (fun criterion =>
          criterionValue { criterion with
            name := (trim criterion.name).take MAX_CRITERION_NAME_LENGTH,
            weight := clampIntValue H (.num (.finite (criterion.weight : Rat))) 1 5 }))),
        (units "ratings", .obj (sanitizeRatings (.obj s.ratings)
          (s.options.map (fun option => option.id))
          (s.criteria.map (fun criterion => criterion.id))).2),
        (units "updatedAt", .num (.finite s.updatedAt))]

/-! ## The mutation API as one step -/

/-- A call of one of the handlers that change the model. -/
inductive Mutation
  | titleInput (value : JsString)
  | titleChange (value : JsString)
  | addOption
  | addCriterion
  | renameOption (id rawName : JsString)
  | renameCriterion (id rawName : JsString)
  | setNote (id value : JsString)
  | setWeight (id value : JsString)
  | deleteOption (id : JsString)
  | deleteCriterion (id : JsString)
  | setRating (optionId criterionId value : JsString)
  | clearRating (optionId criterionId : JsString)
  | reset

/-- The handler a mutation stands for, applied to a state and a world. -/
def applyMutation (H : Host) (m : Mutation) (s : State) (w : World) : Outcome :=
  match m with
  | .titleInput value => handleTitleInput H s w value
  | .titleChange value => handleTitleChange H s w value
  | .addOption => handleAddOption H s w
  | .addCriterion => handleAddCriterion H s w
  | .renameOption id rawName => updateOptionName H s w id rawName
  | .renameCriterion id rawName => updateCriterionName H s w id rawName
  | .setNote id value => handleOptionInput H s w id value
  | .setWeight id value => handleCriterionWeight H s w id value
  | .deleteOption id => deleteOption H s w id
  | .deleteCriterion id => deleteCriterion H s w id
  | .setRating optionId criterionId value => handleRatingChange H s w optionId criterionId value
  | .clearRating optionId criterionId => handleRatingClick H s w optionId criterionId
  | .reset => handleReset H w

/-! ## Vocabulary of the mutation claims -/

/-- Every rating key is the key of an existing option and an existing
criterion. -/
def RatingsLive (s : State) : Prop :=
  ∀ e ∈ s.ratings, ∃ o ∈ s.options, ∃ c ∈ s.criteria, e.1 = ratingKey o.id c.id

/-- Every stored rating is an integer in 1..5. -/
def RatingsInRange (ratings : List (JsString × JsValue)) : Prop :=
  ∀ e ∈ ratings, ∃ n : Nat, 1 ≤ n ∧ n ≤ 5 ∧ e.2 = .num (.finite (n : Rat))

/-- The bounds on the two collections. -/
def Bounds (s : State) : Prop :=
  MIN_OPTIONS ≤ s.options.length ∧ s.options.length ≤ MAX_OPTIONS
    ∧ MIN_CRITERIA ≤ s.criteria.length ∧ s.criteria.length ≤ MAX_CRITERIA

/-- Assumption on the host: `parseInt` of a number 1..5 is that number. -/
def ParsesDigits (H : Host) : Prop :=
  ∀ n : Nat, 1 ≤ n → n ≤ 5 → H.parseInt (.num (.finite (n : Rat))) = some (n : Int)

/-- Assumption on the host: lower-casing tells the default names `word 1`,
`word 2`, ... apart. -/
def TellsDefaultsApart (lower : JsString → JsString) (word : JsString) : Prop :=
  ∀ i j : Nat, lower (word ++ units " " ++ decimal i) = lower (word ++ units " " ++ decimal j)
    → i = j

/-- The default state on the example host. -/
def defaultExample : State × World := createDefaultState exampleHost world0

/-- The default state on the example host after adding an option and rating
the first criterion for the first two options. -/
def ratedExample : State × World :=
  let a := handleAddOption exampleHost defaultExample.1 defaultExample.2
  let b := handleRatingChange exampleHost a.state a.world (units "id-0") (units "id-2")
    (units "4")
  let c := handleRatingChange exampleHost b.state b.world (units "id-1") (units "id-2")
    (units "2")
  (c.state, c.world)

/-- A well-formed payload with three options, two of them with the id `dup`. -/
def tripleSharedPayload : JsValue :=
  .obj [(units "title", .str []),
        (units "options", .arr [
          .obj [(units "id", .str (units "dup")), (units "name", .str (units "Pizza")),
                (units "note", .str []), (units "createdAt", .num (.finite 1))],
          .obj [(units "id", .str (units "dup")), (units "name", .str (units "Salad")),
                (units "note", .str []), (units "createdAt", .num (.finite 2))],
          .obj [(units "id", .str (units "x")), (units "name", .str (units "Soup")),
                (units "note", .str []), (units "createdAt", .num (.finite 3))]]),
        (units "criteria", .arr [
          .obj [(units "id", .str (units "c")), (units "name", .str (units "Price")),
                (units "weight", .num (.finite 4)), (units "createdAt", .num (.finite 4))]]),
        (units "ratings", .obj []),
        (units "updatedAt", .num (.finite 9))]

/-- The state the sanitizer returns for `tripleSharedPayload`. -/
def tripleSharedState : State :=
  { title := [],
    options := [{ id := units "dup", name := units "Pizza", note := [], createdAt := 1 },
                { id := units "dup", name := units "Salad", note := [], createdAt := 2 },
                { id := units "x", name := units "Soup", note := [], createdAt := 3 }],
    criteria := [{ id := units "c", name := units "Price", weight := 4, createdAt := 4 }],
    ratings := [],
    updatedAt := 9 }

/-- The value of `base` in `uniqueName` before its loop. -/
def baseOf (rawName word : JsString) (maxLength ordinal : Nat) : JsString :=
  (if rawName ≠ [] ∧ trim rawName ≠ [] then trim rawName
   else word ++ units " " ++ decimal ordinal).take maxLength

/-- The name `uniqueName` gives for `base` next to the accepted names: `base`
itself when no accepted name has its lower-casing, else `base` cut and
suffixed with the least index from 2 on that gives a name no accepted name
has the lower-casing of. -/
def Uniquified (lower : JsString → JsString) (accepted : List JsString) (base : JsString)
    (maxLength : Nat) (name : JsString) : Prop :=
  ((∀ n ∈ accepted, lower n ≠ lower base) → name = base)
    ∧ ((∃ n ∈ accepted, lower n = lower base) →
        ∃ j, 2 ≤ j ∧ name = suffixed base maxLength j
          ∧ (∀ n ∈ accepted, lower n ≠ lower name)
          ∧ ∀ i, 2 ≤ i → i < j → ∃ n ∈ accepted, lower n = lower (suffixed base maxLength i))

/-- The value of `base` in the call of `uniqueName` in `sanitizeOptions`. -/
def optionBase (item : JsValue) (ordinal : Nat) : JsString :=
  baseOf ((rawNameOf item).take MAX_OPTION_NAME_LENGTH) (units "Option")
    MAX_OPTION_NAME_LENGTH ordinal

/-- The value of `base` in the call of `uniqueName` in `sanitizeCriteria`. -/
def criterionBase (item : JsValue) (ordinal : Nat) : JsString :=
  baseOf ((rawNameOf item).take MAX_CRITERION_NAME_LENGTH) (units "Criterion")
    MAX_CRITERION_NAME_LENGTH ordinal

/-- A well-formed option entry named `Price`, with id `a`. -/
def priceEntryA : JsValue :=
  .obj [(units "id", .str (units "a")), (units "name", .str (units "Price")),
        (units "note", .str []), (units "createdAt", .num (.finite 1))]

/-- A well-formed option entry named `Price`, with id `b`. -/
def priceEntryB : JsValue :=
  .obj [(units "id", .str (units "b")), (units "name", .str (units "Price")),
        (units "note", .str []), (units "createdAt", .num (.finite 2))]

/-- A payload whose two options are both named `Price`. -/
def twoPricePayload : JsValue :=
  .obj [(units "title", .str []),
        (units "options", .arr [priceEntryA, priceEntryB]),
        (units "criteria", .arr [
          .obj [(units "id", .str (units "c")), (units "name", .str (units "Cost")),
                (units "weight", .num (.finite 3)), (units "createdAt", .num (.finite 3))]]),
        (units "ratings", .obj []),
        (units "updatedAt", .num (.finite 9))]

/-! ## States the sanitizer leaves alone -/

/-- An option with a non-empty id, a note within its limit and a non-empty,
trimmed name within its limit. -/
def GoodOption (o : DecisionOption) : Prop :=
  o.id ≠ [] ∧ o.note.length ≤ MAX_NOTE_LENGTH
    ∧ o.name ≠ [] ∧ trim o.name = o.name ∧ o.name.length ≤ MAX_OPTION_NAME_LENGTH

/-- A criterion with a non-empty id, a weight from 1 to 5 and a non-empty,
trimmed name within its limit. -/
def GoodCriterion (c : Criterion) : Prop :=
  c.id ≠ [] ∧ 1 ≤ c.weight ∧ c.weight ≤ 5
    ∧ c.name ≠ [] ∧ trim c.name = c.name ∧ c.name.length ≤ MAX_CRITERION_NAME_LENGTH

/-- The tests an entry passes to be kept by the loop of `sanitizeRatings`. -/
def keepsRating (optionIds criterionIds : List JsString) (e : JsString × JsValue) : Bool :=
  hasPart optionIds (splitColon e.1).head? && hasPart criterionIds (splitColon e.1).tail.head?
    && (ratingValue e.2).isSome

/-- A state in which no field needs a repair. -/
def CleanState (H : Host) (s : State) : Prop :=
  s.title.length ≤ MAX_TITLE_LENGTH
    ∧ Bounds s
    ∧ (∀ o ∈ s.options, GoodOption o)
    ∧ (s.options.map (fun o => H.toLocaleLowerCase o.name)).Nodup
    ∧ (∀ c ∈ s.criteria, GoodCriterion c)
    ∧ (s.criteria.map (fun c => H.toLocaleLowerCase c.name)).Nodup
    ∧ (s.ratings.map (fun e => e.1)).Nodup
    ∧ ∀ e ∈ s.ratings, keepsRating (s.options.map (fun o => o.id))
        (s.criteria.map (fun c => c.id)) e = true

/-! ## A returned state that equals the payload -/

/-- The entry `item` of the payload's `options` is an object whose `id`, `note`
and `createdAt` are those of `o` and whose `name` is a string that trims to the
name of `o`. -/
def OptMatch (item : JsValue) (o : DecisionOption) : Prop :=
  isObject item = true
    ∧ getProp item (units "id") = .str o.id
    ∧ (∃ n, getProp item (units "name") = .str n ∧ trim n = o.name)
    ∧ getProp item (units "note") = .str o.note
    ∧ getProp item (units "createdAt") = .num (.finite o.createdAt)

/-- The entry `item` of the payload's `criteria` is an object whose `id`,
`weight` and `createdAt` are those of `c` and whose `name` is a string that
trims to the name of `c`. -/
def CritMatch (item : JsValue) (c : Criterion) : Prop :=
  isObject item = true
    ∧ getProp item (units "id") = .str c.id
    ∧ (∃ n, getProp item (units "name") = .str n ∧ trim n = c.name)
    ∧ getProp item (units "weight") = .num (.finite (c.weight : Rat))
    ∧ getProp item (units "createdAt") = .num (.finite c.createdAt)

/-- The state `s` holds what the payload holds: the title, the options and
criteria entry by entry in order, names trimmed, the own entries of the
ratings object, and `updatedAt`. -/
def Matches (payload : JsValue) (s : State) : Prop :=
  getProp payload (units "title") = .str s.title
    ∧ (∃ items, getProp payload (units "options") = .arr items
        ∧ List.Forall₂ OptMatch items s.options)
    ∧ (∃ items, getProp payload (units "criteria") = .arr items
        ∧ List.Forall₂ CritMatch items s.criteria)
    ∧ (∃ fields, getProp payload (units "ratings") = .obj fields
        ∧ s.ratings = ownEntries fields)
    ∧ getProp payload (units "updatedAt") = .num (.finite s.updatedAt)

/-- A payload that needs no repair although the name of its first option has
blanks around it. -/
def blankNamePayload : JsValue :=
  .obj [(units "title", .str (units "Lunch")),
        (units "options", .arr [
          .obj [(units "id", .str (units "a")), (units "name", .str (units " Pizza ")),
                (units "note", .str []), (units "createdAt", .num (.finite 1))],
          .obj [(units "id", .str (units "b")), (units "name", .str (units "Salad")),
                (units "note", .str []), (units "createdAt", .num (.finite 2))]]),
        (units "criteria", .arr [
          .obj [(units "id", .str (units "c")), (units "name", .str (units "Cost")),
                (units "weight", .num (.finite 3)), (units "createdAt", .num (.finite 3))]]),
        (units "ratings", .obj [(units "a:c", .num (.finite 4))]),
        (units "updatedAt", .num (.finite 9))]

/-- A payload whose title is the number 7 and whose other fields need no
repair. -/
def numberTitlePayload : JsValue :=
  .obj [(units "title", .num (.finite 7)),
        (units "options", .arr [
          .obj [(units "id", .str (units "a")), (units "name", .str (units "Pizza")),
                (units "note", .str []), (units "createdAt", .num (.finite 1))],
          .obj [(units "id", .str (units "b")), (units "name", .str (units "Salad")),
                (units "note", .str []), (units "createdAt", .num (.finite 2))]]),
        (units "criteria", .arr [
          .obj [(units "id", .str (units "c")), (units "name", .str (units "Cost")),
                (units "weight", .num (.finite 3)), (units "createdAt", .num (.finite 3))]]),
        (units "ratings", .obj [(units "a:c", .num (.finite 4))]),
        (units "updatedAt", .num (.finite 9))]

/-- The payload `namesPayload` with the title `Lunch`: blanks around a name, a
name that differs from it by case only, an entry without a name, a weight of
9, no ratings and no `updatedAt`. -/
def titledNamesPayload : JsValue :=
  .obj [(units "title", .str (units "Lunch")),
        (units "options", .arr [
          .obj [(units "id", .str (units "a")), (units "name", .str (units "  Price "))],
          .obj [(units "id", .str (units "b")), (units "name", .str (units "PRICE"))],
          .obj [(units "id", .str (units "c"))]]),
        (units "criteria", .arr [
          .obj [(units "id", .str (units "k")), (units "name", .str (units "Cost")),
                (units "weight", .num (.finite 9))]])]

/-! ## Models the mutation API produces -/

/-- What the round trip needs of the host: it parses the numbers 1 to 5, its
ids are pairwise distinct, non-empty and without a colon, and its lower-casing
tells the default names apart. -/
structure HostOk (H : Host) : Prop where
  parses : ParsesDigits H
  ids_injective : Function.Injective H.randomId
  ids_ne_nil : ∀ n, H.randomId n ≠ []
  ids_no_colon : ∀ n, 58 ∉ H.randomId n
  apart_options : TellsDefaultsApart H.toLocaleLowerCase (units "Option")
  apart_criteria : TellsDefaultsApart H.toLocaleLowerCase (units "Criterion")
  default_options : H.toLocaleLowerCase (units "Option A")
    ≠ H.toLocaleLowerCase (units "Option B")
  default_criteria : H.toLocaleLowerCase (units "Price") ≠ H.toLocaleLowerCase (units "Quality")
    ∧ H.toLocaleLowerCase (units "Price") ≠ H.toLocaleLowerCase (units "Convenience")
    ∧ H.toLocaleLowerCase (units "Quality") ≠ H.toLocaleLowerCase (units "Convenience")

/-- The invariant of the options of a model: count within bounds, names
non-empty, trimmed, within their limit and pairwise distinct after
lower-casing, notes within their limit, ids drawn from the host and pairwise
distinct. -/
structure OptionsValid (H : Host) (options : List DecisionOption) (idCalls : Nat) : Prop where
  count_min : MIN_OPTIONS ≤ options.length
  count_max : options.length ≤ MAX_OPTIONS
  names_good : ∀ o ∈ options,
    o.name ≠ [] ∧ trim o.name = o.name ∧ o.name.length ≤ MAX_OPTION_NAME_LENGTH
  names_nodup : (options.map (fun o => H.toLocaleLowerCase o.name)).Nodup
  notes : ∀ o ∈ options, o.note.length ≤ MAX_NOTE_LENGTH
  ids_drawn : ∀ o ∈ options, ∃ k, k < idCalls ∧ o.id = H.randomId k
  ids_nodup : (options.map (fun o => o.id)).Nodup

/-- The invariant of the criteria of a model. -/
structure CriteriaValid (H : Host) (criteria : List Criterion) (idCalls : Nat) : Prop where
  count_min : MIN_CRITERIA ≤ criteria.length
  count_max : criteria.length ≤ MAX_CRITERIA
  names_good : ∀ c ∈ criteria,
    c.name ≠ [] ∧ trim c.name = c.name ∧ c.name.length ≤ MAX_CRITERION_NAME_LENGTH
  names_nodup : (criteria.map (fun c => H.toLocaleLowerCase c.name)).Nodup
  weights : ∀ c ∈ criteria, 1 ≤ c.weight ∧ c.weight ≤ 5
  ids_drawn : ∀ c ∈ criteria, ∃ k, k < idCalls ∧ c.id = H.randomId k
  ids_nodup : (criteria.map (fun c => c.id)).Nodup

/-- The invariant of the ratings of a model: one entry per key, every key made
of the id of an option and the id of a criterion of the model, every value an
integer from 1 to 5. -/
structure RatingsValid (optionIds criterionIds : List JsString)
    (ratings : List (JsString × JsValue)) : Prop where
  keys_nodup : (ratings.map (fun e => e.1)).Nodup
  live : ∀ e ∈ ratings, ∃ o ∈ optionIds, ∃ c ∈ criterionIds, e.1 = ratingKey o c
  values : ∀ e ∈ ratings, (ratingValue e.2).isSome = true

/-- The invariant of the models the mutation API produces. -/
def Valid (H : Host) (s : State) (w : World) : Prop :=
  s.title.length ≤ MAX_TITLE_LENGTH
    ∧ OptionsValid H s.options w.idCalls
    ∧ CriteriaValid H s.criteria w.idCalls
    ∧ RatingsValid (s.options.map (fun o => o.id)) (s.criteria.map (fun c => c.id)) s.ratings

/-- The models reachable from the default state through the mutation API,
each with the world it is reached in. -/
inductive Reachable (H : Host) : State → World → Prop
  | start (w : World) : Reachable H (createDefaultState H w).1 (createDefaultState H w).2
  | step (m : Mutation) (s : State) (w : World) :
      Reachable H s w →
      Reachable H (applyMutation H m s w).state (applyMutation H m s w).world

/-- The default state after `handleTitleInput` with a blank and an `x`. -/
def blankTitleExample : Outcome :=
  handleTitleInput exampleHost defaultExample.1 defaultExample.2 (units " x")

/-! ## Ids with a colon -/

/-- A well-formed payload whose second option has the id `a:b`, which starts
with the id of the first option and a colon. -/
def colonOptionPayload : JsValue :=
  .obj [(units "title", .str []),
        (units "options", .arr [
          .obj [(units "id", .str (units "a")), (units "name", .str (units "Pizza")),
                (units "note", .str []), (units "createdAt", .num (.finite 1))],
          .obj [(units "id", .str (units "a:b")), (units "name", .str (units "Salad")),
                (units "note", .str []), (units "createdAt", .num (.finite 2))],
          .obj [(units "id", .str (units "z")), (units "name", .str (units "Soup")),
                (units "note", .str []), (units "createdAt", .num (.finite 3))]]),
        (units "criteria", .arr [
          .obj [(units "id", .str (units "c")), (units "name", .str (units "Price")),
                (units "weight", .num (.finite 4)), (units "createdAt", .num (.finite 4))]]),
        (units "ratings", .obj []),
        (units "updatedAt", .num (.finite 9))]

/-- The state the sanitizer returns for `colonOptionPayload`. -/
def colonOptionState : State :=
  { title := [],
    options := [{ id := units "a", name := units "Pizza", note := [], createdAt := 1 },
                { id := units "a:b", name := units "Salad", note := [], createdAt := 2 },
                { id := units "z", name := units "Soup", note := [], createdAt := 3 }],
    criteria := [{ id := units "c", name := units "Price", weight := 4, createdAt := 4 }],
    ratings := [],
    updatedAt := 9 }

/-- The state `colonOptionState` after rating option `a:b` on criterion `c`
with 4. -/
def colonOptionRated : Outcome :=
  handleRatingChange exampleHost colonOptionState world0 (units "a:b") (units "c")
    (units "4")

/-- A well-formed payload whose second criterion has the id `b:c`, which ends
with a colon and the id of the first criterion. -/
def colonCriterionPayload : JsValue :=
  .obj [(units "title", .str []),
        (units "options", .arr [
          .obj [(units "id", .str (units "o")), (units "name", .str (units "Pizza")),
                (units "note", .str []), (units "createdAt", .num (.finite 1))],
          .obj [(units "id", .str (units "p")), (units "name", .str (units "Salad")),
                (units "note", .str []), (units "createdAt", .num (.finite 2))]]),
        (units "criteria", .arr [
          .obj [(units "id", .str (units "c")), (units "name", .str (units "Price")),
                (units "weight", .num (.finite 4)), (units "createdAt", .num (.finite 3))],
          .obj [(units "id", .str (units "b:c")), (units "name", .str (units "Taste")),
                (units "weight", .num (.finite 5)), (units "createdAt", .num (.finite 4))]]),
        (units "ratings", .obj []),
        (units "updatedAt", .num (.finite 9))]

/-- The state the sanitizer returns for `colonCriterionPayload`. -/
def colonCriterionState : State :=
  { title := [],
    options := [{ id := units "o", name := units "Pizza", note := [], createdAt := 1 },
                { id := units "p", name := units "Salad", note := [], createdAt := 2 }],
    criteria := [{ id := units "c", name := units "Price", weight := 4, createdAt := 3 },
                 { id := units "b:c", name := units "Taste", weight := 5, createdAt := 4 }],
    ratings := [],
    updatedAt := 9 }

/-- The state `colonCriterionState` after rating option `o` on criterion `b:c`
with 5. -/
def colonCriterionRated : Outcome :=
  handleRatingChange exampleHost colonCriterionState world0 (units "o") (units "b:c")
    (units "5")

/-- A well-formed payload whose options have the ids `a` and `a:b` and whose
criteria have the ids `b:c` and `c`: the pair of option `a` and criterion
`b:c` and the pair of option `a:b` and criterion `c` have the same rating key
`a:b:c`. -/
def sharedKeyPayload : JsValue :=
  .obj [(units "title", .str []),
        (units "options", .arr [
          .obj [(units "id", .str (units "a")), (units "name", .str (units "Pizza")),
                (units "note", .str []), (units "createdAt", .num (.finite 1))],
          .obj [(units "id", .str (units "a:b")), (units "name", .str (units "Salad")),
                (units "note", .str []), (units "createdAt", .num (.finite 2))]]),
        (units "criteria", .arr [
          .obj [(units "id", .str (units "b:c")), (units "name", .str (units "Price")),
                (units "weight", .num (.finite 4)), (units "createdAt", .num (.finite 3))],
          .obj [(units "id", .str (units "c")), (units "name", .str (units "Taste")),
                (units "weight", .num (.finite 5)), (units "createdAt", .num (.finite 4))]]),
        (units "ratings", .obj []),
        (units "updatedAt", .num (.finite 9))]

/-- The state the sanitizer returns for `sharedKeyPayload`. -/
def sharedKeyState : State :=
  { title := [],
    options := [{ id := units "a", name := units "Pizza", note := [], createdAt := 1 },
                { id := units "a:b", name := units "Salad", note := [], createdAt := 2 }],
    criteria := [{ id := units "b:c", name := units "Price", weight := 4, createdAt := 3 },
                 { id := units "c", name := units "Taste", weight := 5, createdAt := 4 }],
    ratings := [],
    updatedAt := 9 }

/-! # Theorems -/

/-! ## Rounding to binary64 -/

theorem roundHalfEven_near (q : Rat) (k : Int) (h1 : (k : Rat) - 1 / 2 < q)
    (h2 : q < (k : Rat) + 1 / 2) : roundHalfEven q = k := by
  unfold roundHalfEven
  by_cases hk : (k : Rat) ≤ q
  · have hf : Int.floor q = k := by
      rw [Int.floor_eq_iff]
      constructor
      · exact hk
      · linarith
    rw [hf]
    have : q - (k : Rat) < 1 / 2 := by linarith
    rw [if_pos this]
  · push_neg at hk
    have hf : Int.floor q = k - 1 := by
      rw [Int.floor_eq_iff]
      push_cast
      constructor
      · linarith
      · linarith
    rw [hf]
    push_cast
    have h3 : ¬ q - ((k : Rat) - 1) < 1 / 2 := by
      push_neg
      linarith
    have h4 : 1 / 2 < q - ((k : Rat) - 1) := by linarith
    rw [if_neg h3, if_pos h4]
    ring

theorem roundHalfEven_error (q : Rat) : |(roundHalfEven q : Rat) - q| ≤ 1 / 2 := by
  have hfl := Int.floor_le q
  have hlt := Int.lt_floor_add_one q
  unfold roundHalfEven
  rw [abs_le]
  split_ifs with h1 h2 h3
  · constructor <;> linarith
  · push_cast
    constructor <;> linarith
  · push_neg at h1 h2
    constructor <;> linarith
  · push_neg at h1 h2
    push_cast
    constructor <;> linarith

theorem log_two_eq (q : Rat) (e : Int) (hlo : (2 : Rat) ^ e ≤ q) (hhi : q < 2 ^ (e + 1)) :
    Int.log 2 q = e := by
  have hpos : 0 < q := lt_of_lt_of_le (zpow_pos (by norm_num) e) hlo
  have h1 : e ≤ Int.log 2 q := (Int.zpow_le_iff_le_log (by norm_num) hpos).1 hlo
  have h2 : Int.log 2 q < e + 1 := (Int.lt_zpow_iff_log_lt (by norm_num) hpos).1 hhi
  omega

theorem round64_of_bounds (q : Rat) (e k : Int) (hlo : (2 : Rat) ^ e ≤ q)
    (hhi : q < 2 ^ (e + 1)) (h1 : (k : Rat) - 1 / 2 < q / 2 ^ (e - 52))
    (h2 : q / 2 ^ (e - 52) < (k : Rat) + 1 / 2) :
    round64 q = (k : Rat) * 2 ^ (e - 52) := by
  have hpos : 0 < q := lt_of_lt_of_le (zpow_pos (by norm_num) e) hlo
  unfold round64
  rw [if_neg (ne_of_gt hpos), abs_of_pos hpos, log_two_eq q e hlo hhi,
    roundHalfEven_near _ k h1 h2]

theorem round64_zero : round64 0 = 0 := by
  unfold round64
  rw [if_pos rfl]

theorem round64_error (q : Rat) (hpos : 0 < q) : |round64 q - q| ≤ q / 2 ^ 53 := by
  have hlo : (2 : Rat) ^ Int.log 2 q ≤ q := Int.zpow_log_le_self (by norm_num) hpos
  have hu : (0 : Rat) < 2 ^ (Int.log 2 q - 52) := zpow_pos (by norm_num) _
  have herr := roundHalfEven_error (q / 2 ^ (Int.log 2 q - 52))
  unfold round64
  rw [if_neg (ne_of_gt hpos), abs_of_pos hpos]
  have hsplit : (roundHalfEven (q / 2 ^ (Int.log 2 q - 52)) : Rat) * 2 ^ (Int.log 2 q - 52) - q
      = ((roundHalfEven (q / 2 ^ (Int.log 2 q - 52)) : Rat) - q / 2 ^ (Int.log 2 q - 52))
          * 2 ^ (Int.log 2 q - 52) := by
    field_simp
  rw [hsplit, abs_mul, abs_of_pos hu]
  have hulp : (2 : Rat) ^ (Int.log 2 q - 52) = 2 ^ Int.log 2 q / 2 ^ 52 := by
    rw [zpow_sub₀ (by norm_num : (2 : Rat) ≠ 0)]
    norm_num
  calc |(roundHalfEven (q / 2 ^ (Int.log 2 q - 52)) : Rat) - q / 2 ^ (Int.log 2 q - 52)|
          * 2 ^ (Int.log 2 q - 52)
      ≤ 1 / 2 * 2 ^ (Int.log 2 q - 52) := mul_le_mul_of_nonneg_right herr (le_of_lt hu)
    _ = 2 ^ Int.log 2 q / 2 ^ 53 := by rw [hulp]; ring
    _ ≤ q / 2 ^ 53 := div_le_div_of_nonneg_right hlo (by positivity)

theorem round64_one : round64 1 = 1 := by
  have := round64_of_bounds 1 0 4503599627370496 (by norm_num) (by norm_num)
    (by norm_num) (by norm_num)
  rw [this]
  norm_num

theorem round64_hundred : round64 100 = 100 := by
  have := round64_of_bounds 100 6 7036874417766400 (by norm_num) (by norm_num)
    (by norm_num) (by norm_num)
  rw [this]
  norm_num

theorem pctOf_zero_max (raw : Nat) : pctOf raw 0 = 0 := by
  simp [pctOf]

theorem pctOf_zero_raw (maxRaw : Nat) : pctOf 0 maxRaw = 0 := by
  unfold pctOf
  split_ifs
  · simp [round64_zero]
  · rfl

theorem pctOf_full (maxRaw : Nat) (hpos : 0 < maxRaw) : pctOf maxRaw maxRaw = 100 := by
  unfold pctOf
  rw [if_pos hpos]
  have hq : (maxRaw : Rat) ≠ 0 := by exact_mod_cast (Nat.pos_iff_ne_zero.1 hpos)
  rw [div_self hq, round64_one, one_mul, round64_hundred]

theorem pctOf_error (raw maxRaw : Nat) (hpos : 0 < maxRaw) :
    |pctOf raw maxRaw - (raw : Rat) / (maxRaw : Rat) * 100|
      ≤ (raw : Rat) / (maxRaw : Rat) * 100 / 2 ^ 51 := by
  rcases Nat.eq_zero_or_pos raw with h0 | hraw
  · subst h0
    rw [pctOf_zero_raw]
    simp
  · have hq : (0 : Rat) < (raw : Rat) / (maxRaw : Rat) :=
      div_pos (by exact_mod_cast hraw) (by exact_mod_cast hpos)
    unfold pctOf
    rw [if_pos hpos]
    generalize (raw : Rat) / (maxRaw : Rat) = a at hq ⊢
    have h1 := round64_error a hq
    have hfa : 0 < round64 a := by
      have := (abs_le.1 h1).1
      have hu : a / 2 ^ 53 < a := by
        rw [div_lt_iff₀ (by positivity)]
        nlinarith
      linarith
    have h2 := round64_error (round64 a * 100) (by positivity)
    have h1a := abs_le.1 h1
    have h2a := abs_le.1 h2
    rw [abs_le]
    have e1 : a / 2 ^ 53 = a * (1 / 2 ^ 53) := by ring
    have e2 : round64 a * 100 / 2 ^ 53 = round64 a * (100 / 2 ^ 53) := by ring
    have e3 : a * 100 / 2 ^ 51 = a * (100 / 2 ^ 51) := by ring
    rw [e1] at h1a
    rw [e2] at h2a
    rw [e3]
    norm_num at h1a h2a ⊢
    constructor <;> nlinarith

theorem pctOf_seven_of_twenty_five : pctOf 7 25 = 28 + 1 / 2 ^ 48 := by
  unfold pctOf
  simp only [gt_iff_lt, Nat.ofNat_pos, if_true]
  have h1 : round64 (((7 : Nat) : Rat) / ((25 : Nat) : Rat))
      = 5044031582654956 * 2 ^ (-54 : Int) := by
    have := round64_of_bounds (7 / 25) (-2) 5044031582654956 (by norm_num) (by norm_num)
      (by norm_num) (by norm_num)
    simpa using this
  rw [h1]
  have h2 := round64_of_bounds (5044031582654956 * 2 ^ (-54 : Int) * 100) 4 7881299347898369
    (by norm_num) (by norm_num) (by norm_num) (by norm_num)
  rw [h2]
  norm_num

theorem pctOf_eight_of_sixty : pctOf 8 60 = 7505999378950827 / 2 ^ 49 := by
  unfold pctOf
  simp only [gt_iff_lt, Nat.ofNat_pos, if_true]
  have h1 : round64 (((8 : Nat) : Rat) / ((60 : Nat) : Rat))
      = 4803839602528529 * 2 ^ (-55 : Int) := by
    have := round64_of_bounds (8 / 60) (-3) 4803839602528529 (by norm_num) (by norm_num)
      (by norm_num) (by norm_num)
    simpa using this
  rw [h1]
  have h2 := round64_of_bounds (4803839602528529 * 2 ^ (-55 : Int) * 100) 3 7505999378950827
    (by norm_num) (by norm_num) (by norm_num) (by norm_num)
  rw [h2]
  norm_num

/-! ## Scoring -/

theorem foldl_add_map_sum {α : Type} (f : α → Nat) (l : List α) (init : Nat) :
    l.foldl (fun sum c => sum + f c) init = init + (l.map f).sum := by
  induction l generalizing init with
  | nil => simp
  | cons a t ih => simp [List.foldl_cons, ih, Nat.add_assoc]

theorem rawScore_eq_sum (s : State) (o : DecisionOption) :
    rawScore s o = (s.criteria.map (fun c => readRating s o.id c.id * c.weight)).sum := by
  unfold rawScore
  rw [foldl_add_map_sum]
  simp

theorem maxRawOf_eq_sum (s : State) :
    maxRawOf s = (s.criteria.map (fun c => c.weight * 5)).sum := by
  unfold maxRawOf
  rw [foldl_add_map_sum]
  simp

theorem jsSort_perm {α : Type} (cmp : α → α → Rat) (xs : List α) :
    (jsSort cmp xs).Perm xs :=
  List.perm_insertionSort _ xs

theorem jsSort_sorted {α K : Type} [LinearOrder K] (cmp : α → α → Rat) (key : α → K)
    (h : ∀ a b, cmp a b ≤ 0 ↔ key a ≤ key b) (xs : List α) :
    (jsSort cmp xs).Pairwise (fun a b => key a ≤ key b) := by
  haveI : IsTotal α (fun a b => cmp a b ≤ 0) :=
    ⟨fun a b => by simp only [h]; exact le_total _ _⟩
  haveI : IsTrans α (fun a b => cmp a b ≤ 0) :=
    ⟨fun a b c hab hbc => by rw [h] at *; exact le_trans hab hbc⟩
  have hs := List.sorted_insertionSort (fun a b => cmp a b ≤ 0) xs
  exact List.Pairwise.imp (fun hab => (h _ _).1 hab) hs

theorem rankCompare_le_iff (s : State) (a b : RankEntry) :
    rankCompare s a b ≤ 0 ↔ rankKey s a ≤ rankKey s b := by
  unfold rankCompare rankKey
  rw [Prod.Lex.le_iff]
  dsimp only
  rw [Prod.Lex.le_iff]
  dsimp only
  split_ifs with h1 h2
  · constructor
    · intro h
      left
      have : (b.raw : Rat) < a.raw := by
        rcases lt_or_gt_of_ne h1 with h' | h'
        · exact_mod_cast h'
        · have : (a.raw : Rat) < b.raw := by exact_mod_cast h'
          linarith
      have : b.raw < a.raw := by exact_mod_cast this
      omega
    · rintro (h | ⟨h, -⟩)
      · have : (b.raw : Rat) < a.raw := by
          have : b.raw < a.raw := by omega
          exact_mod_cast this
        linarith
      · exact absurd (by omega) h1
  · push_neg at h1
    constructor
    · intro h
      right
      refine ⟨by omega, Or.inl ?_⟩
      have : a.option.createdAt ≤ b.option.createdAt := by linarith
      exact lt_of_le_of_ne this h2
    · rintro (h | ⟨-, h | ⟨h, -⟩⟩)
      · omega
      · linarith
      · exact absurd h h2
  · push_neg at h1 h2
    constructor
    · intro h
      right
      refine ⟨by omega, Or.inr ⟨h2, ?_⟩⟩
      have : (indexOrMax (optionIndex s) a.option.id : Rat)
          ≤ indexOrMax (optionIndex s) b.option.id := by linarith
      exact_mod_cast this
    · rintro (h | ⟨-, h | ⟨-, h⟩⟩)
      · omega
      · exact absurd h (by rw [h2]; exact lt_irrefl _)
      · have : (indexOrMax (optionIndex s) a.option.id : Rat)
            ≤ indexOrMax (optionIndex s) b.option.id := by exact_mod_cast h
        linarith

theorem mapGet_enumFrom {α : Type} (f : α → JsString) (k : JsString) (l : List α)
    (hnd : (l.map f).Nodup) (n : Nat) (init : Option Nat) :
    ((l.enumFrom n).map (fun p => (f p.2, p.1))).foldl
        (fun found e => if e.1 = k then some e.2 else found) init
      = if k ∈ l.map f then some (n + l.findIdx (fun x => decide (f x = k))) else init := by
  induction l generalizing n init with
  | nil => simp
  | cons a t ih =>
    simp only [List.map_cons, List.nodup_cons] at hnd
    simp only [List.enumFrom_cons, List.map_cons, List.foldl_cons]
    rw [ih hnd.2]
    by_cases hak : f a = k
    · subst hak
      simp [hnd.1, List.findIdx_cons]
    · have hka : ¬ k = f a := fun h => hak h.symm
      simp only [hak, if_false, List.mem_cons, hka, false_or]
      split_ifs with hmem
      · simp only [List.findIdx_cons, hak, decide_False, cond_false]
        congr 1
        omega
      · rfl

theorem findIdx_congr_mem {α : Type} (p q : α → Bool) (l : List α)
    (h : ∀ x ∈ l, p x = q x) : l.findIdx p = l.findIdx q := by
  induction l with
  | nil => rfl
  | cons a t ih =>
    simp only [List.findIdx_cons]
    rw [h a (List.mem_cons_self _ _), ih (fun x hx => h x (List.mem_cons_of_mem _ hx))]

theorem indexOrMax_enum {α : Type} [DecidableEq α] (f : α → JsString) (l : List α)
    (h : (l.map f).Nodup) (x : α) (hx : x ∈ l) :
    indexOrMax (l.enum.map (fun p => (f p.2, p.1))) (f x) = positionIn l x := by
  unfold indexOrMax mapGet positionIn List.enum
  rw [mapGet_enumFrom f (f x) l h 0 none]
  have hmem : f x ∈ l.map f := List.mem_map_of_mem _ hx
  simp only [hmem, if_true, Nat.zero_add, Option.getD_some]
  apply findIdx_congr_mem
  intro y hy
  simp only [decide_eq_decide]
  constructor
  · intro hxy
    exact List.inj_on_of_nodup_map h hy hx hxy
  · intro hxy
    rw [hxy]

theorem positionIn_inj {α : Type} [DecidableEq α] (l : List α) (a b : α) (ha : a ∈ l)
    (hb : b ∈ l) (h : positionIn l a = positionIn l b) : a = b := by
  unfold positionIn at h
  have hla : l.findIdx (fun y => decide (y = a)) < l.length :=
    List.findIdx_lt_length_of_exists ⟨a, ha, by simp⟩
  have hlb : l.findIdx (fun y => decide (y = b)) < l.length :=
    List.findIdx_lt_length_of_exists ⟨b, hb, by simp⟩
  have h1 := List.findIdx_getElem (w := hla)
  have h2 := List.findIdx_getElem (w := hlb)
  simp only [decide_eq_true_eq] at h1 h2
  rw [← h1, ← h2]
  simp only [h]

theorem indexOrMax_optionIndex (s : State) (h : (s.options.map (fun o => o.id)).Nodup)
    (o : DecisionOption) (ho : o ∈ s.options) :
    indexOrMax (optionIndex s) o.id = positionIn s.options o :=
  indexOrMax_enum (fun o : DecisionOption => o.id) s.options h o ho

theorem ranking_perm (s : State) : ((computeMetrics s).ranking).Perm (rankInput s) :=
  jsSort_perm _ _

theorem rankInput_options (s : State) : (rankInput s).map (fun e => e.option) = s.options := by
  unfold rankInput
  simp [List.map_map, Function.comp_def]

theorem mem_ranking (s : State) (e : RankEntry) :
    e ∈ (computeMetrics s).ranking ↔
      e.option ∈ s.options ∧ e.raw = rawScore s e.option
        ∧ e.pct = pctOf (rawScore s e.option) (maxRawOf s) := by
  rw [(ranking_perm s).mem_iff]
  unfold rankInput
  simp only [List.mem_map]
  constructor
  · rintro ⟨o, ho, rfl⟩
    exact ⟨ho, rfl, rfl⟩
  · rintro ⟨ho, hr, hp⟩
    refine ⟨e.option, ho, ?_⟩
    cases e
    simp_all

theorem ranking_sorted (s : State) :
    (computeMetrics s).ranking.Pairwise (fun a b => rankKey s a ≤ rankKey s b) :=
  jsSort_sorted (rankCompare s) (rankKey s) (rankCompare_le_iff s) _

/-- C1: `computeMetrics` returns `maxRaw` equal to the sum over the criteria of
weight × 5 (0 without criteria), the ranking has one entry per option, and the
raw score of each entry is the sum over the criteria of rating × weight, where
the rating read for a pair is the stored value when that is an integer in
1..5 and 0 when nothing is stored under the pair's key. -/
theorem computeMetrics_scores (s : State) :
    (computeMetrics s).maxRaw = (s.criteria.map (fun c => c.weight * 5)).sum
    ∧ (s.criteria = [] → (computeMetrics s).maxRaw = 0)
    ∧ ((computeMetrics s).ranking.map (fun e => e.option)).Perm s.options
    ∧ (∀ e ∈ (computeMetrics s).ranking,
        e.raw = (s.criteria.map (fun c => readRating s e.option.id c.id * c.weight)).sum)
    ∧ (∀ (o c : JsString) (v : Nat),
        getOwn (ratingKey o c) s.ratings = some (.num (.finite (v : Rat))) →
        1 ≤ v → v ≤ 5 → readRating s o c = v)
    ∧ (∀ o c : JsString, getOwn (ratingKey o c) s.ratings = none → readRating s o c = 0) := by
  refine ⟨maxRawOf_eq_sum s, ?_, ?_, ?_, ?_, ?_⟩
  · intro h
    show maxRawOf s = 0
    simp [maxRawOf, h]
  · rw [← rankInput_options s]
    exact (ranking_perm s).map _
  · intro e he
    rw [((mem_ranking s e).1 he).2.1, rawScore_eq_sum]
  · intro o c v hv h1 h5
    unfold readRating
    rw [hv]
    simp only [ratingValue]
    have hden : ((v : Rat)).den = 1 := by simp
    have hnum : ((v : Rat)).num = (v : Int) := by simp
    rw [hden, hnum]
    have : (1 : Int) ≤ v ∧ (v : Int) ≤ 5 := by omega
    simp [this]
  · intro o c hv
    unfold readRating
    rw [hv]

theorem rankKey_inj (s : State) (h : (s.options.map (fun o => o.id)).Nodup)
    (a b : RankEntry) (ha : a ∈ (computeMetrics s).ranking)
    (hb : b ∈ (computeMetrics s).ranking)
    (hidx : indexOrMax (optionIndex s) a.option.id = indexOrMax (optionIndex s) b.option.id) :
    a = b := by
  obtain ⟨hao, har, hap⟩ := (mem_ranking s a).1 ha
  obtain ⟨hbo, hbr, hbp⟩ := (mem_ranking s b).1 hb
  rw [indexOrMax_optionIndex s h _ hao, indexOrMax_optionIndex s h _ hbo] at hidx
  have hopt : a.option = b.option := positionIn_inj s.options _ _ hao hbo hidx
  cases a
  cases b
  simp_all

theorem rankKey_lt_iff (s : State) (a b : RankEntry) :
    rankKey s a < rankKey s b ↔
      b.raw < a.raw ∨ (a.raw = b.raw ∧ (a.option.createdAt < b.option.createdAt ∨
        (a.option.createdAt = b.option.createdAt ∧
          indexOrMax (optionIndex s) a.option.id < indexOrMax (optionIndex s) b.option.id))) := by
  unfold rankKey
  rw [Prod.Lex.lt_iff]
  dsimp only
  rw [Prod.Lex.lt_iff]
  dsimp only
  constructor
  · rintro (h | ⟨h, h'⟩)
    · left; omega
    · right; exact ⟨by omega, h'⟩
  · rintro (h | ⟨h, h'⟩)
    · left; omega
    · right; exact ⟨by omega, h'⟩

/-- C2: when the option ids are pairwise distinct, the ranking is a permutation
of the options in which every earlier entry strictly precedes every later one
under (raw score descending, `createdAt` ascending, original index
ascending), and the comparator returns 0 on two ranked entries only when
they are the same entry. -/
theorem ranking_strict_total (s : State) (h : (s.options.map (fun o => o.id)).Nodup) :
    ((computeMetrics s).ranking.map (fun e => e.option)).Perm s.options
    ∧ (computeMetrics s).ranking.Pairwise (rankedBefore s)
    ∧ (∀ a ∈ (computeMetrics s).ranking, ∀ b ∈ (computeMetrics s).ranking,
        rankCompare s a b = 0 → a = b) := by
  have hperm : ((computeMetrics s).ranking.map (fun e => e.option)).Perm s.options := by
    rw [← rankInput_options s]
    exact (ranking_perm s).map _
  have hnd : (computeMetrics s).ranking.Nodup := by
    have h1 : s.options.Nodup := List.Nodup.of_map _ h
    have h2 : ((computeMetrics s).ranking.map (fun e => e.option)).Nodup :=
      hperm.nodup_iff.2 h1
    exact List.Nodup.of_map _ h2
  refine ⟨hperm, ?_, ?_⟩
  · have hboth := (ranking_sorted s).and hnd
    refine List.Pairwise.imp_of_mem ?_ hboth
    intro a b ha hb hab
    obtain ⟨hle, hne⟩ := hab
    have hlt : rankKey s a < rankKey s b := by
      refine lt_of_le_of_ne hle ?_
      intro heq
      apply hne
      apply rankKey_inj s h a b ha hb
      have := congrArg (fun k => (ofLex (ofLex k).2).2) heq
      simpa [rankKey] using this
    rw [rankKey_lt_iff] at hlt
    rw [indexOrMax_optionIndex s h _ ((mem_ranking s a).1 ha).1,
      indexOrMax_optionIndex s h _ ((mem_ranking s b).1 hb).1] at hlt
    exact hlt
  · intro a ha b hb hcmp
    apply rankKey_inj s h a b ha hb
    unfold rankCompare at hcmp
    split_ifs at hcmp with h1 h2
    · exfalso
      apply h1
      have : (b.raw : Rat) = a.raw := by linarith
      exact_mod_cast this
    · exfalso
      apply h2
      linarith
    · have : (indexOrMax (optionIndex s) a.option.id : Rat)
          = indexOrMax (optionIndex s) b.option.id := by linarith
      exact_mod_cast this

theorem highestRaw_eq (s : State) :
    (computeMetrics s).highestRaw
      = match (computeMetrics s).ranking with
        | [] => 0
        | e :: _ => e.raw := rfl

theorem winners_eq (s : State) :
    (computeMetrics s).winners
      = (computeMetrics s).ranking.filter
          (fun item => decide (item.raw = (computeMetrics s).highestRaw)) := rfl

theorem rankKey_le_raw (s : State) (a b : RankEntry) (h : rankKey s a ≤ rankKey s b) :
    b.raw ≤ a.raw := by
  unfold rankKey at h
  rw [Prod.Lex.le_iff] at h
  dsimp only at h
  rcases h with h | ⟨h, -⟩ <;> omega

theorem ranking_ne_nil (s : State) (h : s.options ≠ []) : (computeMetrics s).ranking ≠ [] := by
  intro hnil
  have hp := ranking_perm s
  rw [hnil] at hp
  have := hp.symm.eq_nil
  unfold rankInput at this
  simp at this
  exact h this

theorem highestRaw_spec (s : State) (h : s.options ≠ []) :
    (∃ e ∈ (computeMetrics s).ranking, e.raw = (computeMetrics s).highestRaw)
    ∧ (∀ e ∈ (computeMetrics s).ranking, e.raw ≤ (computeMetrics s).highestRaw) := by
  have hs := ranking_sorted s
  have hh := highestRaw_eq s
  cases hr : (computeMetrics s).ranking with
  | nil => exact absurd hr (ranking_ne_nil s h)
  | cons e0 rest =>
    rw [hr] at hs hh
    simp only at hh
    rw [hh]
    refine ⟨⟨e0, List.mem_cons_self _ _, rfl⟩, ?_⟩
    intro e he
    rcases List.mem_cons.1 he with rfl | he
    · exact le_refl _
    · exact rankKey_le_raw s _ _ ((List.pairwise_cons.1 hs).1 e he)

/-- C3: with at least one option, `highestRaw` is the maximum raw score over the
options, the winners are not empty, they are exactly the ranking entries with
that score (every entry left out scores strictly less), and they are the
ranking filtered by "no option scores more", hence in ranking order. -/
theorem winners_share_top_score (s : State) (h : s.options ≠ []) :
    (∃ o ∈ s.options, rawScore s o = (computeMetrics s).highestRaw)
    ∧ (∀ o ∈ s.options, rawScore s o ≤ (computeMetrics s).highestRaw)
    ∧ (computeMetrics s).winners ≠ []
    ∧ (∀ e, e ∈ (computeMetrics s).winners ↔
        e ∈ (computeMetrics s).ranking ∧ e.raw = (computeMetrics s).highestRaw)
    ∧ (∀ e ∈ (computeMetrics s).ranking, e ∉ (computeMetrics s).winners →
        e.raw < (computeMetrics s).highestRaw)
    ∧ (computeMetrics s).winners
        = (computeMetrics s).ranking.filter
            (fun e => decide (∀ o ∈ s.options, rawScore s o ≤ e.raw)) := by
  obtain ⟨⟨e0, he0, he0r⟩, hmax⟩ := highestRaw_spec s h
  have hmem : ∀ e, e ∈ (computeMetrics s).winners ↔
      e ∈ (computeMetrics s).ranking ∧ e.raw = (computeMetrics s).highestRaw := by
    intro e
    rw [winners_eq, List.mem_filter]
    simp
  have hopt : ∀ o ∈ s.options, rawScore s o ≤ (computeMetrics s).highestRaw := by
    intro o ho
    have : (⟨o, rawScore s o, pctOf (rawScore s o) (maxRawOf s)⟩ : RankEntry)
        ∈ (computeMetrics s).ranking := (mem_ranking s _).2 ⟨ho, rfl, rfl⟩
    exact hmax _ this
  refine ⟨?_, hopt, ?_, hmem, ?_, ?_⟩
  · refine ⟨e0.option, ((mem_ranking s e0).1 he0).1, ?_⟩
    rw [← ((mem_ranking s e0).1 he0).2.1, he0r]
  · intro hnil
    have := (hmem e0).2 ⟨he0, he0r⟩
    rw [hnil] at this
    exact List.not_mem_nil _ this
  · intro e he hnot
    have hle := hmax e he
    have hne : e.raw ≠ (computeMetrics s).highestRaw := fun heq => hnot ((hmem e).2 ⟨he, heq⟩)
    omega
  · rw [winners_eq]
    apply List.filter_congr
    intro e he
    have hle := hmax e he
    simp only [decide_eq_decide]
    constructor
    · intro heq o ho
      rw [heq]
      exact hopt o ho
    · intro hall
      have := hall e0.option ((mem_ranking s e0).1 he0).1
      rw [← ((mem_ranking s e0).1 he0).2.1, he0r] at this
      omega

/-- C4: with at least one option, the flag `isZeroTie` of `renderResults` is true
exactly when every option has raw score 0, and then the winners are the whole
ranking, one entry per option. -/
theorem isZeroTie_iff (s : State) (h : s.options ≠ []) :
    (isZeroTie (computeMetrics s) = true ↔ ∀ o ∈ s.options, rawScore s o = 0)
    ∧ (isZeroTie (computeMetrics s) = true →
        (computeMetrics s).winners = (computeMetrics s).ranking
        ∧ ((computeMetrics s).winners.map (fun e => e.option)).Perm s.options) := by
  obtain ⟨⟨e0, he0, he0r⟩, hmax⟩ := highestRaw_spec s h
  have hlen : 0 < (computeMetrics s).ranking.length :=
    List.length_pos.2 (ranking_ne_nil s h)
  have hperm : ((computeMetrics s).ranking.map (fun e => e.option)).Perm s.options := by
    rw [← rankInput_options s]
    exact (ranking_perm s).map _
  have hall : (computeMetrics s).winners.length = (computeMetrics s).ranking.length ↔
      ∀ e ∈ (computeMetrics s).ranking, e.raw = (computeMetrics s).highestRaw := by
    rw [winners_eq, List.filter_length_eq_length]
    simp
  have hz : isZeroTie (computeMetrics s) = true ↔
      ((computeMetrics s).winners.length = (computeMetrics s).ranking.length
        ∧ (computeMetrics s).highestRaw = 0) := by
    unfold isZeroTie
    simp [hlen]
  refine ⟨?_, ?_⟩
  · rw [hz, hall]
    constructor
    · rintro ⟨h1, h0⟩ o ho
      have : (⟨o, rawScore s o, pctOf (rawScore s o) (maxRawOf s)⟩ : RankEntry)
          ∈ (computeMetrics s).ranking := (mem_ranking s _).2 ⟨ho, rfl, rfl⟩
      have := h1 _ this
      simp only at this
      omega
    · intro hzero
      have h0 : (computeMetrics s).highestRaw = 0 := by
        rw [← he0r, ((mem_ranking s e0).1 he0).2.1]
        exact hzero _ ((mem_ranking s e0).1 he0).1
      refine ⟨?_, h0⟩
      intro e he
      rw [h0, ((mem_ranking s e).1 he).2.1]
      exact hzero _ ((mem_ranking s e).1 he).1
  · intro hzt
    have h1 := (hall.1 ((hz.1 hzt).1))
    have hw : (computeMetrics s).winners = (computeMetrics s).ranking := by
      rw [winners_eq, List.filter_eq_self]
      intro e he
      simp [h1 e he]
    exact ⟨hw, by rw [hw]; exact hperm⟩

/-- C5 (amended): the percent of a ranking entry is 0 when `maxRaw` is 0.
Otherwise, with `maxRaw` below `2 ^ 53`, it is the binary64 result of
`(raw / maxRaw) * 100`, the quotient rounded and then the product; it
differs from `raw / maxRaw × 100` by at most that value times `2 ^ (-51)` and
is 0 when `raw` is 0. With at least one criterion and weights in 1..5, an
option read as 5 on every criterion has `raw = maxRaw` and percent exactly
100. -/
theorem percent_of_ranking (s : State) :
    (∀ e ∈ (computeMetrics s).ranking,
      ((computeMetrics s).maxRaw = 0 → e.pct = 0)
      ∧ ((computeMetrics s).maxRaw ≠ 0 → (computeMetrics s).maxRaw < 2 ^ 53 →
          e.pct = round64 (round64 ((e.raw : Rat) / ((computeMetrics s).maxRaw : Rat)) * 100)
          ∧ |e.pct - (e.raw : Rat) / ((computeMetrics s).maxRaw : Rat) * 100|
              ≤ (e.raw : Rat) / ((computeMetrics s).maxRaw : Rat) * 100 / 2 ^ 51
          ∧ (e.raw = 0 → e.pct = 0)))
    ∧ (s.criteria ≠ [] → (∀ c ∈ s.criteria, 1 ≤ c.weight ∧ c.weight ≤ 5) →
        ∀ e ∈ (computeMetrics s).ranking,
          (∀ c ∈ s.criteria, readRating s e.option.id c.id = 5) →
          e.raw = (computeMetrics s).maxRaw ∧ e.pct = 100) := by
  have hm : (computeMetrics s).maxRaw = maxRawOf s := rfl
  refine ⟨?_, ?_⟩
  · intro e he
    obtain ⟨-, hr, hp⟩ := (mem_ranking s e).1 he
    rw [hm, hp, ← hr]
    constructor
    · intro h0
      rw [h0, pctOf_zero_max]
    · intro h0 _
      have hpos : 0 < maxRawOf s := Nat.pos_of_ne_zero h0
      refine ⟨?_, pctOf_error _ _ hpos, ?_⟩
      · unfold pctOf
        rw [if_pos hpos]
      · intro hz
        rw [hz, pctOf_zero_raw]
  · intro hne hw e he hall
    obtain ⟨-, hr, hp⟩ := (mem_ranking s e).1 he
    have hraw : rawScore s e.option = maxRawOf s := by
      rw [rawScore_eq_sum, maxRawOf_eq_sum]
      congr 1
      apply List.map_congr_left
      intro c hc
      rw [hall c hc, Nat.mul_comm]
    have hpos : maxRawOf s > 0 := by
      rw [maxRawOf_eq_sum]
      cases hc : s.criteria with
      | nil => exact absurd hc hne
      | cons c t =>
        have := (hw c (by rw [hc]; exact List.mem_cons_self _ _)).1
        simp only [List.map_cons, List.sum_cons]
        omega
    refine ⟨by rw [hm, hr, hraw], ?_⟩
    rw [hp, hraw]
    exact pctOf_full _ hpos

/-- C5 fails as stated: in `sevenOfTwentyFiveState` option A scores 7 of 25 and
its percent is `28 + 2 ^ (-48)`, which binary64 prints as
28.000000000000004, where `7 / 25 × 100` is 28: the quotient 0.28 is rounded
before it is multiplied. -/
theorem percent_rounded_counterexample :
    (computeMetrics sevenOfTwentyFiveState).maxRaw = 25
    ∧ (computeMetrics sevenOfTwentyFiveState).ranking.map
        (fun e => (e.option.id, e.raw, e.pct))
        = [(units "A", 7, 28 + 1 / 2 ^ 48), (units "B", 0, 0)]
    ∧ (28 + 1 / 2 ^ 48 : Rat) ≠ (7 : Rat) / 25 * 100 := by
  have hA : units "A" = [65] := by decide
  have hB : units "B" = [66] := by decide
  have hp : units "p" = [112] := by decide
  have hq : units "q" = [113] := by decide
  have hAp : units "A:p" = [65, 58, 112] := by decide
  have hAq : units "A:q" = [65, 58, 113] := by decide
  refine ⟨?_, ?_, by norm_num⟩
  · simp [computeMetrics, maxRawOf, sevenOfTwentyFiveState]
  · simp [computeMetrics, jsSort, sevenOfTwentyFiveState, List.insertionSort,
      List.orderedInsert, rankCompare, rawScore, readRating, getOwn, ratingKey, ratingValue,
      maxRawOf, indexOrMax, mapGet, optionIndex, List.enum, List.enumFrom, hA, hB, hp, hq,
      hAp, hAq, pctOf_seven_of_twenty_five, pctOf_zero_raw]

theorem tieState_eval :
    (computeMetrics tieState).ranking.map (fun e => (e.option.id, e.raw))
        = [(units "A", 25), (units "B", 25)]
    ∧ (computeMetrics tieState).winners.map (fun e => e.option.id) = [units "A", units "B"]
    ∧ (computeMetrics tieState).maxRaw = 25
    ∧ isZeroTie (computeMetrics tieState) = false := by
  have hA : units "A" = [65] := by decide
  have hB : units "B" = [66] := by decide
  have hc : units "c" = [99] := by decide
  have hAc : units "A:c" = [65, 58, 99] := by decide
  have hBc : units "B:c" = [66, 58, 99] := by decide
  simp [computeMetrics, isZeroTie, jsSort, tieState, List.insertionSort, List.orderedInsert,
    rankCompare, rawScore, readRating, getOwn, ratingKey, ratingValue, maxRawOf,
    indexOrMax, mapGet, optionIndex, List.enum, List.enumFrom, hA, hB, hc, hAc, hBc]

/-- C2, at the example of the claim: A (created at 1) and B (created at 2), both
scoring 25, rank A before B. -/
theorem ranking_strict_total_example :
    (tieState.options.map (fun o => o.id)).Nodup
    ∧ (computeMetrics tieState).ranking.map (fun e => (e.option.id, e.raw))
        = [(units "A", 25), (units "B", 25)]
    ∧ (computeMetrics tieState).ranking.Pairwise (rankedBefore tieState) :=
  ⟨by decide, tieState_eval.1, (ranking_strict_total tieState (by decide)).2.1⟩

/-- C3, at the tie example: both options share the top score 25 and both win. -/
theorem winners_share_top_score_example :
    tieState.options ≠ []
    ∧ (computeMetrics tieState).winners.map (fun e => e.option.id) = [units "A", units "B"]
    ∧ (∀ e, e ∈ (computeMetrics tieState).winners ↔
        e ∈ (computeMetrics tieState).ranking
          ∧ e.raw = (computeMetrics tieState).highestRaw) :=
  ⟨by simp [tieState], tieState_eval.2.1,
    (winners_share_top_score tieState (by simp [tieState])).2.2.2.1⟩

theorem unratedState_eval :
    (computeMetrics unratedState).winners.map (fun e => (e.option.id, e.raw))
        = [(units "A", 0), (units "B", 0)] := by
  have hA : units "A" = [65] := by decide
  have hB : units "B" = [66] := by decide
  have hc : units "c" = [99] := by decide
  simp [computeMetrics, jsSort, unratedState, List.insertionSort, List.orderedInsert,
    rankCompare, rawScore, readRating, getOwn, ratingKey, ratingValue, maxRawOf,
    indexOrMax, mapGet, optionIndex, List.enum, List.enumFrom, hA, hB, hc]

/-- C4, at the example of the claim: two options and no rating stored give
`isZeroTie = true`, two winners and raw score 0 for both. -/
theorem isZeroTie_example :
    unratedState.options ≠ []
    ∧ isZeroTie (computeMetrics unratedState) = true
    ∧ (computeMetrics unratedState).winners.map (fun e => (e.option.id, e.raw))
        = [(units "A", 0), (units "B", 0)] := by
  have hne : unratedState.options ≠ [] := by simp [unratedState]
  refine ⟨hne, ?_, unratedState_eval⟩
  apply (isZeroTie_iff unratedState hne).1.2
  intro o ho
  simp only [unratedState, List.mem_cons, List.mem_singleton, List.not_mem_nil, or_false] at ho
  rcases ho with rfl | rfl <;> simp [rawScore, readRating, unratedState, getOwn]

/-- C5 (amended), at the example of the claim: weights 4, 5, 3 give
`maxRaw = 60`; the option rated (5, 5, 5) scores 60, percent 100, and the
option that scores 8 has the percent 13.333333333333334 of binary64. -/
theorem percent_of_ranking_example :
    (computeMetrics fullMarksState).maxRaw = 60
    ∧ (computeMetrics fullMarksState).ranking.map (fun e => (e.option.id, e.raw, e.pct))
        = [(units "A", 60, 100), (units "B", 8, 7505999378950827 / 2 ^ 49),
           (units "C", 0, 0)]
    ∧ (∀ e ∈ (computeMetrics fullMarksState).ranking,
        (∀ c ∈ fullMarksState.criteria, readRating fullMarksState e.option.id c.id = 5) →
        e.raw = (computeMetrics fullMarksState).maxRaw ∧ e.pct = 100)
    ∧ (∀ e ∈ (computeMetrics fullMarksState).ranking,
        |e.pct - (e.raw : Rat) / ((computeMetrics fullMarksState).maxRaw : Rat) * 100|
          ≤ (e.raw : Rat) / ((computeMetrics fullMarksState).maxRaw : Rat) * 100 / 2 ^ 51) := by
  have hmax : (computeMetrics fullMarksState).maxRaw = 60 := by
    simp [computeMetrics, maxRawOf, fullMarksState]
  have hA : units "A" = [65] := by decide
  have hB : units "B" = [66] := by decide
  have hC : units "C" = [67] := by decide
  have hp : units "p" = [112] := by decide
  have hq : units "q" = [113] := by decide
  have hr : units "r" = [114] := by decide
  have hAp : units "A:p" = [65, 58, 112] := by decide
  have hAq : units "A:q" = [65, 58, 113] := by decide
  have hAr : units "A:r" = [65, 58, 114] := by decide
  have hBp : units "B:p" = [66, 58, 112] := by decide
  refine ⟨hmax, ?_, (percent_of_ranking fullMarksState).2 (by simp [fullMarksState])
    (by simp [fullMarksState]),
    fun e he => (((percent_of_ranking fullMarksState).1 e he).2 (by rw [hmax]; decide)
      (by rw [hmax]; norm_num)).2.1⟩
  · simp [computeMetrics, jsSort, fullMarksState, List.insertionSort, List.orderedInsert,
      rankCompare, rawScore, readRating, getOwn, ratingKey, ratingValue, maxRawOf,
      indexOrMax, mapGet, optionIndex, List.enum, List.enumFrom, hA, hB, hC, hp, hq, hr,
      hAp, hAq, hAr, hBp, pctOf_eight_of_sixty, pctOf_zero_raw,
      pctOf_full 60 (by norm_num)]
    norm_num

theorem reasonCompare_le_iff (s : State) (a b : Reason) :
    reasonCompare s a b ≤ 0 ↔ reasonKey s a ≤ reasonKey s b := by
  unfold reasonCompare reasonKey
  rw [Prod.Lex.le_iff]
  dsimp only
  rw [Prod.Lex.le_iff]
  dsimp only
  rw [Prod.Lex.le_iff]
  dsimp only
  split_ifs with h1 h2 h3
  · constructor
    · intro h
      left
      have h' : (b.points : Rat) ≤ a.points := by linarith
      have h'' : b.points ≤ a.points := by exact_mod_cast h'
      omega
    · rintro (h | ⟨h, -⟩)
      · have : (b.points : Rat) < a.points := by
          have : b.points < a.points := by omega
          exact_mod_cast this
        linarith
      · exact absurd (by omega) h1
  · push_neg at h1
    constructor
    · intro h
      right
      refine ⟨by omega, Or.inl ?_⟩
      have h' : (b.criterion.weight : Rat) ≤ a.criterion.weight := by linarith
      have h'' : b.criterion.weight ≤ a.criterion.weight := by exact_mod_cast h'
      omega
    · rintro (h | ⟨-, h | ⟨h, -⟩⟩)
      · omega
      · have : (b.criterion.weight : Rat) < a.criterion.weight := by
          have : b.criterion.weight < a.criterion.weight := by omega
          exact_mod_cast this
        linarith
      · exact absurd (by omega) h2
  · push_neg at h1 h2
    constructor
    · intro h
      right
      refine ⟨by omega, Or.inr ⟨by omega, Or.inl ?_⟩⟩
      have : a.criterion.createdAt ≤ b.criterion.createdAt := by linarith
      exact lt_of_le_of_ne this h3
    · rintro (h | ⟨-, h | ⟨-, h | ⟨h, -⟩⟩⟩)
      · omega
      · omega
      · linarith
      · exact absurd h h3
  · push_neg at h1 h2 h3
    constructor
    · intro h
      right
      refine ⟨by omega, Or.inr ⟨by omega, Or.inr ⟨h3, ?_⟩⟩⟩
      have : (indexOrMax (criterionIndex s) a.criterion.id : Rat)
          ≤ indexOrMax (criterionIndex s) b.criterion.id := by linarith
      exact_mod_cast this
    · rintro (h | ⟨-, h | ⟨-, h | ⟨-, h⟩⟩⟩)
      · omega
      · omega
      · exact absurd h (by rw [h3]; exact lt_irrefl _)
      · have : (indexOrMax (criterionIndex s) a.criterion.id : Rat)
            ≤ indexOrMax (criterionIndex s) b.criterion.id := by exact_mod_cast h
        linarith

theorem reasonKey_lt_iff (s : State) (a b : Reason) :
    reasonKey s a < reasonKey s b ↔
      b.points < a.points ∨ (a.points = b.points ∧
        (b.criterion.weight < a.criterion.weight ∨ (a.criterion.weight = b.criterion.weight ∧
          (a.criterion.createdAt < b.criterion.createdAt ∨
            (a.criterion.createdAt = b.criterion.createdAt ∧
              indexOrMax (criterionIndex s) a.criterion.id
                < indexOrMax (criterionIndex s) b.criterion.id))))) := by
  unfold reasonKey
  rw [Prod.Lex.lt_iff]
  dsimp only
  rw [Prod.Lex.lt_iff]
  dsimp only
  rw [Prod.Lex.lt_iff]
  dsimp only
  constructor
  · rintro (h | ⟨h, h' | ⟨h', h''⟩⟩)
    · left; omega
    · right; exact ⟨by omega, Or.inl (by omega)⟩
    · right; exact ⟨by omega, Or.inr ⟨by omega, h''⟩⟩
  · rintro (h | ⟨h, h' | ⟨h', h''⟩⟩)
    · left; omega
    · right; exact ⟨by omega, Or.inl (by omega)⟩
    · right; exact ⟨by omega, Or.inr ⟨by omega, h''⟩⟩

theorem mem_positiveReasons (s : State) (optionId : JsString) (r : Reason) :
    r ∈ positiveReasons s optionId ↔
      r.criterion ∈ s.criteria ∧ r.rating = readRating s optionId r.criterion.id
        ∧ r.points = r.rating * r.criterion.weight ∧ 0 < r.points := by
  unfold positiveReasons
  simp only [List.mem_filter, List.mem_map, decide_eq_true_eq, gt_iff_lt]
  constructor
  · rintro ⟨⟨c, hc, rfl⟩, hpos⟩
    exact ⟨hc, rfl, rfl, hpos⟩
  · rintro ⟨hc, hr, hp, hpos⟩
    refine ⟨⟨r.criterion, hc, ?_⟩, hpos⟩
    cases r
    simp_all

theorem positiveReasons_nodup (s : State) (optionId : JsString)
    (h : (s.criteria.map (fun c => c.id)).Nodup) : (positiveReasons s optionId).Nodup := by
  unfold positiveReasons
  apply List.Nodup.filter
  apply List.Nodup.map _ (List.Nodup.of_map _ h)
  intro a b hab
  exact congrArg Reason.criterion hab

/-- C6 (amended): when the criterion ids are pairwise distinct, `getTopReasons`
returns at most 3 entries, each with contribution rating × weight > 0, and
they are the first three of the positive-contribution criteria listed in the
strict order (contribution descending, weight descending, `createdAt`
ascending, original position ascending); without a positive contribution
the result is empty. -/
theorem topReasons_first_three (s : State) (optionId : JsString)
    (h : (s.criteria.map (fun c => c.id)).Nodup) :
    (getTopReasons s optionId).length ≤ 3
    ∧ (∀ r ∈ getTopReasons s optionId,
        r.criterion ∈ s.criteria ∧ r.rating = readRating s optionId r.criterion.id
          ∧ r.points = r.rating * r.criterion.weight ∧ 0 < r.points)
    ∧ (∃ sorted : List Reason,
        sorted.Perm (positiveReasons s optionId)
        ∧ (∀ r, r ∈ sorted ↔
            r.criterion ∈ s.criteria ∧ r.rating = readRating s optionId r.criterion.id
              ∧ r.points = r.rating * r.criterion.weight ∧ 0 < r.points)
        ∧ sorted.Pairwise (reasonBefore s)
        ∧ getTopReasons s optionId = sorted.take 3)
    ∧ ((∀ c ∈ s.criteria, readRating s optionId c.id * c.weight = 0) →
        getTopReasons s optionId = []) := by
  have hperm := jsSort_perm (reasonCompare s) (positiveReasons s optionId)
  refine ⟨?_, ?_, ?_, ?_⟩
  · unfold getTopReasons
    rw [List.length_take]
    exact Nat.min_le_left _ _
  · intro r hr
    have : r ∈ jsSort (reasonCompare s) (positiveReasons s optionId) :=
      List.mem_of_mem_take hr
    exact (mem_positiveReasons s optionId r).1 (hperm.mem_iff.1 this)
  · refine ⟨jsSort (reasonCompare s) (positiveReasons s optionId), hperm, ?_, ?_, rfl⟩
    · intro r
      rw [hperm.mem_iff]
      exact mem_positiveReasons s optionId r
    · have hsorted := jsSort_sorted (reasonCompare s) (reasonKey s) (reasonCompare_le_iff s)
        (positiveReasons s optionId)
      have hnd : (jsSort (reasonCompare s) (positiveReasons s optionId)).Nodup :=
        hperm.nodup_iff.2 (positiveReasons_nodup s optionId h)
      refine List.Pairwise.imp_of_mem ?_ (hsorted.and hnd)
      intro a b ha hb hab
      obtain ⟨hle, hne⟩ := hab
      have hac := ((mem_positiveReasons s optionId a).1 (hperm.mem_iff.1 ha))
      have hbc := ((mem_positiveReasons s optionId b).1 (hperm.mem_iff.1 hb))
      have hia : indexOrMax (criterionIndex s) a.criterion.id
          = positionIn s.criteria a.criterion :=
        indexOrMax_enum (fun c : Criterion => c.id) s.criteria h _ hac.1
      have hib : indexOrMax (criterionIndex s) b.criterion.id
          = positionIn s.criteria b.criterion :=
        indexOrMax_enum (fun c : Criterion => c.id) s.criteria h _ hbc.1
      have hlt : reasonKey s a < reasonKey s b := by
        refine lt_of_le_of_ne hle ?_
        intro heq
        apply hne
        have hidx := congrArg (fun k => (ofLex (ofLex (ofLex k).2).2).2) heq
        have hpts := congrArg (fun k => (ofLex k).1) heq
        simp only [reasonKey] at hidx hpts
        have hidx' : indexOrMax (criterionIndex s) a.criterion.id
            = indexOrMax (criterionIndex s) b.criterion.id := hidx
        rw [hia, hib] at hidx'
        have hcrit := positionIn_inj s.criteria _ _ hac.1 hbc.1 hidx'
        cases a
        cases b
        simp_all
      rw [reasonKey_lt_iff, hia, hib] at hlt
      exact hlt
  · intro hzero
    have hnil : positiveReasons s optionId = [] := by
      apply List.eq_nil_iff_forall_not_mem.2
      intro r hr
      obtain ⟨hc, hrat, hp, hpos⟩ := (mem_positiveReasons s optionId r).1 hr
      have := hzero _ hc
      rw [← hrat, ← hp] at this
      omega
    unfold getTopReasons
    rw [hnil]
    rfl

theorem sharedIdState_reasons :
    getTopReasons sharedIdState (units "o")
        = [{ criterion := { id := units "y", name := units "B", weight := 3, createdAt := 1 },
             rating := 5, points := 15 },
           { criterion := { id := units "x", name := units "A", weight := 3, createdAt := 1 },
             rating := 5, points := 15 },
           { criterion := { id := units "x", name := units "C", weight := 3, createdAt := 1 },
             rating := 5, points := 15 }]
    ∧ (positiveReasons sharedIdState (units "o")).length = 3 := by
  have ho : units "o" = [111] := by decide
  have hx : units "x" = [120] := by decide
  have hy : units "y" = [121] := by decide
  have hox : units "o:x" = [111, 58, 120] := by decide
  have hoy : units "o:y" = [111, 58, 121] := by decide
  constructor
  · simp [getTopReasons, positiveReasons, jsSort, sharedIdState, List.insertionSort,
      List.orderedInsert, reasonCompare, readRating, getOwn, ratingKey, ratingValue,
      indexOrMax, mapGet, criterionIndex, List.enum, List.enumFrom, ho, hx, hy, hox, hoy]
  · simp [positiveReasons, sharedIdState, readRating, getOwn, ratingKey, ratingValue,
      ho, hx, hy, hox, hoy]

/-- C6 fails as stated: `sharedIdState` is what the sanitizer returns, without a
repair, for a payload whose first and third criterion share an id; there
`getTopReasons` lists criterion B, second in `criteria`, before criterion A,
first in `criteria`, although contribution, weight and `createdAt` are equal;
so its result is not the start of any listing of the positive-contribution
criteria in the order of the claim. -/
theorem topReasons_shared_id_counterexample :
    (∃ r w1, sanitizeV1State exampleHost 21 sharedCriterionIdPayload world0
        = some (.ok (some r, w1)) ∧ r.repaired = false ∧ r.state = sharedIdState)
    ∧ (getTopReasons sharedIdState (units "o")).map (fun r => r.criterion.name)
        = [units "B", units "A", units "C"]
    ∧ ¬ ∃ sorted : List Reason,
        sorted.Perm (positiveReasons sharedIdState (units "o"))
        ∧ sorted.Pairwise (reasonBefore sharedIdState)
        ∧ getTopReasons sharedIdState (units "o") = sorted.take 3 := by
  obtain ⟨hev, hlen⟩ := sharedIdState_reasons
  refine ⟨⟨_, _, rfl, rfl, rfl⟩, by rw [hev]; rfl, ?_⟩
  rintro ⟨sorted, hperm, hpw, htake⟩
  have hl : sorted.length ≤ 3 := by rw [hperm.length_eq, hlen]
  rw [List.take_of_length_le hl, hev] at htake
  rw [← htake] at hpw
  have hBA := (List.pairwise_cons.1 hpw).1 _ (List.mem_cons_self _ _)
  have hx : units "x" = [120] := by decide
  have hy : units "y" = [121] := by decide
  have hA : units "A" = [65] := by decide
  have hB : units "B" = [66] := by decide
  have hC : units "C" = [67] := by decide
  simp [reasonBefore, positionIn, sharedIdState, List.findIdx_cons, hx, hy, hA, hB, hC] at hBA

/-- C6 (amended), at `fullMarksState`: the top reasons of option A are Quality
(25), Price (20) and Convenience (15). -/
theorem topReasons_first_three_example :
    (fullMarksState.criteria.map (fun c => c.id)).Nodup
    ∧ (getTopReasons fullMarksState (units "A")).map (fun r => (r.criterion.name, r.points))
        = [(units "Quality", 25), (units "Price", 20), (units "Convenience", 15)]
    ∧ (getTopReasons fullMarksState (units "A")).length ≤ 3
    ∧ (∃ sorted : List Reason,
        sorted.Perm (positiveReasons fullMarksState (units "A"))
        ∧ sorted.Pairwise (reasonBefore fullMarksState)
        ∧ getTopReasons fullMarksState (units "A") = sorted.take 3) := by
  have hnd : (fullMarksState.criteria.map (fun c => c.id)).Nodup := by decide
  have hthm := topReasons_first_three fullMarksState (units "A") hnd
  obtain ⟨sorted, h1, -, h3, h4⟩ := hthm.2.2.1
  refine ⟨hnd, ?_, hthm.1, ⟨sorted, h1, h3, h4⟩⟩
  have hA : units "A" = [65] := by decide
  have hp : units "p" = [112] := by decide
  have hq : units "q" = [113] := by decide
  have hr : units "r" = [114] := by decide
  have hAp : units "A:p" = [65, 58, 112] := by decide
  have hAq : units "A:q" = [65, 58, 113] := by decide
  have hAr : units "A:r" = [65, 58, 114] := by decide
  have hBp : units "B:p" = [66, 58, 112] := by decide
  simp [getTopReasons, positiveReasons, jsSort, fullMarksState, List.insertionSort,
    List.orderedInsert, reasonCompare, readRating, getOwn, ratingKey, ratingValue,
    indexOrMax, mapGet, criterionIndex, List.enum, List.enumFrom, hA, hp, hq, hr,
    hAp, hAq, hAr, hBp]
  norm_num

/-! ## Strings -/

theorem units_open : units " (" = [32, 40] := by decide

theorem units_close : units ")" = [41] := by decide

theorem units_blank : units " " = [32] := by decide

theorem suffixOf_eq (k : Nat) : suffixOf k = 32 :: indexTail k := by
  unfold suffixOf indexTail
  rw [units_open, units_close]
  rfl

theorem digitsValue_append (ds : JsString) (d : Nat) :
    digitsValue (ds ++ [d]) = 10 * digitsValue ds + (d - 48) := by
  unfold digitsValue
  rw [List.foldl_append]
  rfl

theorem digitsValue_decimalDigits (fuel n : Nat) (h : n ≤ fuel) :
    digitsValue (decimalDigits fuel n) = n := by
  induction fuel generalizing n with
  | zero =>
    have : n = 0 := by omega
    subst this
    rfl
  | succ f ih =>
    unfold decimalDigits
    split_ifs with hn
    · simp [digitsValue]
    · rw [digitsValue_append, ih (n / 10) (by omega)]
      omega

theorem decimal_injective (a b : Nat) (h : decimal a = decimal b) : a = b := by
  have ha := digitsValue_decimalDigits a a (le_refl _)
  have hb := digitsValue_decimalDigits b b (le_refl _)
  unfold decimal at h
  rw [h] at ha
  omega

theorem decimalDigits_digit (fuel n : Nat) :
    ∀ d ∈ decimalDigits fuel n, 48 ≤ d ∧ d ≤ 57 := by
  induction fuel generalizing n with
  | zero =>
    intro d hd
    simp only [decimalDigits, List.mem_singleton] at hd
    omega
  | succ f ih =>
    intro d hd
    unfold decimalDigits at hd
    split_ifs at hd with hn
    · simp only [List.mem_singleton] at hd
      omega
    · rcases List.mem_append.1 hd with h | h
      · exact ih _ d h
      · simp only [List.mem_singleton] at h
        omega

theorem decimalDigits_length (fuel n : Nat) : (decimalDigits fuel n).length ≤ fuel + 1 := by
  induction fuel generalizing n with
  | zero => simp [decimalDigits]
  | succ f ih =>
    unfold decimalDigits
    split_ifs with hn
    · simp
    · rw [List.length_append]
      have := ih (n / 10)
      simp only [List.length_singleton]
      omega

theorem decimalDigits_ne_nil (fuel n : Nat) : decimalDigits fuel n ≠ [] := by
  cases fuel with
  | zero => simp [decimalDigits]
  | succ f =>
    unfold decimalDigits
    split_ifs <;> simp

theorem digit_not_whiteSpace (d : Nat) (h : 48 ≤ d ∧ d ≤ 57) : isWhiteSpace d = false := by
  unfold isWhiteSpace
  simp only [Bool.or_eq_false_iff, decide_eq_false_iff_not, Bool.and_eq_false_imp,
    decide_eq_true_eq]
  omega

theorem trim_eq_self (s : JsString)
    (h1 : ∀ hl : 0 < s.length, ¬ isWhiteSpace (s.get ⟨0, hl⟩) = true)
    (h2 : ∀ hl : s ≠ [], ¬ isWhiteSpace (s.getLast hl) = true) : trim s = s := by
  unfold trim
  rw [List.dropWhile_eq_self_iff.2 h1, List.rdropWhile_eq_self_iff.2 h2]

theorem trim_trim (s : JsString) : trim (trim s) = trim s := by
  apply trim_eq_self
  · intro hl
    unfold trim at hl ⊢
    have hpre : (s.dropWhile isWhiteSpace).rdropWhile isWhiteSpace
        <+: s.dropWhile isWhiteSpace := List.rdropWhile_prefix _ _
    have hidem : (s.dropWhile isWhiteSpace).dropWhile isWhiteSpace
        = s.dropWhile isWhiteSpace := List.dropWhile_idempotent _ _
    have hlen : 0 < (s.dropWhile isWhiteSpace).length :=
      lt_of_lt_of_le hl hpre.length_le
    have h0 := List.dropWhile_eq_self_iff.1 hidem hlen
    have : ((s.dropWhile isWhiteSpace).rdropWhile isWhiteSpace).get ⟨0, hl⟩
        = (s.dropWhile isWhiteSpace).get ⟨0, hlen⟩ := by
      simp only [List.get_eq_getElem]
      exact hpre.getElem hl
    rw [this]
    exact h0
  · intro hl
    unfold trim at hl ⊢
    exact List.rdropWhile_last_not _ _ hl

theorem trim_length_le (s : JsString) : (trim s).length ≤ s.length := by
  unfold trim
  exact le_trans (List.rdropWhile_prefix _ _).length_le (List.dropWhile_suffix _).length_le

theorem dropWhile_keeps_tail (x t : JsString) (c : Nat) (hc : isWhiteSpace c = false) :
    ∃ p, (x ++ c :: t).dropWhile isWhiteSpace = p ++ c :: t := by
  induction x with
  | nil => exact ⟨[], by simp [List.dropWhile_cons, hc]⟩
  | cons a x ih =>
    by_cases ha : isWhiteSpace a = true
    · obtain ⟨p, hp⟩ := ih
      exact ⟨p, by simp [List.dropWhile_cons, ha, hp]⟩
    · exact ⟨a :: x, by simp [List.dropWhile_cons, ha]⟩

theorem trim_keeps_tail (x t : JsString) (c : Nat) (hc : isWhiteSpace c = false)
    (hlast : ∀ hl : c :: t ≠ [], isWhiteSpace ((c :: t).getLast hl) = false) :
    ∃ p, trim (x ++ c :: t) = p ++ c :: t := by
  obtain ⟨p, hp⟩ := dropWhile_keeps_tail x t c hc
  refine ⟨p, ?_⟩
  unfold trim
  rw [hp]
  apply List.rdropWhile_eq_self_iff.2
  intro hl
  rw [List.getLast_append_of_ne_nil (List.cons_ne_nil c t)]
  simp [hlast (List.cons_ne_nil c t)]

theorem indexTail_suffix_suffixed (base : JsString) (maxLength k : Nat) :
    indexTail k <:+ suffixed base maxLength k := by
  unfold suffixed
  rw [suffixOf_eq]
  have hlast : ∀ hl : 40 :: (decimal k ++ [41]) ≠ [],
      isWhiteSpace ((40 :: (decimal k ++ [41])).getLast hl) = false := by
    intro hl
    have : (40 :: (decimal k ++ [41])).getLast hl = 41 := by
      simp [List.getLast_cons, List.getLast_append]
    rw [this]
    decide
  obtain ⟨p, hp⟩ := trim_keeps_tail
    (sliceTo base ((maxLength : Int) - ((32 :: indexTail k).length : Int)) ++ [32])
    (decimal k ++ [41]) 40 (by decide) hlast
  refine ⟨p, ?_⟩
  unfold indexTail
  rw [← hp]
  simp [indexTail]

theorem indexTail_injective (i j : Nat) (s : JsString) (hi : indexTail i <:+ s)
    (hj : indexTail j <:+ s) : i = j := by
  have key : ∀ a b : Nat, indexTail a <:+ indexTail b → a = b := by
    intro a b hab
    unfold indexTail at hab
    rcases List.suffix_cons_iff.1 hab with h | h
    · simp only [List.cons.injEq, true_and] at h
      have := List.append_cancel_right h
      exact decimal_injective a b this
    · exfalso
      have hmem : 40 ∈ decimal b ++ [41] := h.subset (List.mem_cons_self _ _)
      rcases List.mem_append.1 hmem with h' | h'
      · have := decimalDigits_digit b b 40 h'
        omega
      · simp at h'
  rcases List.suffix_or_suffix_of_suffix hi hj with h | h
  · exact key i j h
  · exact (key j i h).symm

theorem lower_suffixed_injective (lower : JsString → JsString) (hlow : KeepsTrailingIndex lower)
    (base : JsString) (maxLength i j : Nat)
    (h : lower (suffixed base maxLength i) = lower (suffixed base maxLength j)) : i = j := by
  have hi := hlow _ i (indexTail_suffix_suffixed base maxLength i)
  have hj := hlow _ j (indexTail_suffix_suffixed base maxLength j)
  rw [h] at hi
  exact indexTail_injective i j _ hi hj

/-! ## uniqueName -/

theorem uniqueNameLoop_free (H : Host) (used : List JsString) (base : JsString)
    (maxLength fuel : Nat) (cand : JsString) (k : Nat)
    (h : H.toLocaleLowerCase cand ∉ used) :
    uniqueNameLoop H used base maxLength fuel cand k = some cand := by
  cases fuel <;> simp [uniqueNameLoop, h]

theorem uniqueNameLoop_search (H : Host) (used : List JsString) (base : JsString)
    (maxLength : Nat) :
    ∀ (fuel : Nat) (cand : JsString) (k j : Nat), k ≤ j → j < k + fuel →
      H.toLocaleLowerCase (suffixed base maxLength j) ∉ used →
      ∃ c, uniqueNameLoop H used base maxLength fuel cand k = some c
        ∧ H.toLocaleLowerCase c ∉ used
        ∧ (c = cand ∨ ∃ i, k ≤ i ∧ i ≤ j ∧ c = suffixed base maxLength i) := by
  intro fuel
  induction fuel with
  | zero =>
    intro cand k j hkj hj
    omega
  | succ f ih =>
    intro cand k j hkj hj hfree
    by_cases hc : H.toLocaleLowerCase cand ∈ used
    · simp only [uniqueNameLoop, hc, if_true]
      by_cases hjk : j = k
      · subst hjk
        refine ⟨suffixed base maxLength j, uniqueNameLoop_free H used base maxLength f _ _ hfree,
          hfree, Or.inr ⟨j, le_refl _, le_refl _, rfl⟩⟩
      · obtain ⟨c, hc1, hc2, hc3⟩ :=
          ih (suffixed base maxLength k) (k + 1) j (by omega) (by omega) hfree
        refine ⟨c, hc1, hc2, Or.inr ?_⟩
        rcases hc3 with h | ⟨i, hi1, hi2, hi3⟩
        · exact ⟨k, le_refl _, hkj, h⟩
        · exact ⟨i, by omega, hi2, hi3⟩
    · exact ⟨cand, by simp [uniqueNameLoop, hc], hc, Or.inl rfl⟩

theorem exists_free_index (lower : JsString → JsString) (hlow : KeepsTrailingIndex lower)
    (used : List JsString) (base : JsString) (maxLength : Nat) :
    ∃ j, 2 ≤ j ∧ j ≤ used.length + 2 ∧ lower (suffixed base maxLength j) ∉ used := by
  by_contra hcon
  push_neg at hcon
  have hsub : (List.range (used.length + 1)).map
      (fun i => lower (suffixed base maxLength (i + 2))) ⊆ used := by
    intro x hx
    obtain ⟨i, hi, rfl⟩ := List.mem_map.1 hx
    have := List.mem_range.1 hi
    exact hcon (i + 2) (by omega) (by omega)
  have hnd : ((List.range (used.length + 1)).map
      (fun i => lower (suffixed base maxLength (i + 2)))).Nodup := by
    apply List.Nodup.map _ (List.nodup_range _)
    intro a b hab
    have := lower_suffixed_injective lower hlow base maxLength _ _ hab
    omega
  have hlen := (List.subperm_of_subset hnd hsub).length_le
  simp only [List.length_map, List.length_range] at hlen
  omega

theorem sliceTo_length_le (s : JsString) (e : Nat) : (sliceTo s (e : Int)).length ≤ e := by
  unfold sliceTo
  have : ¬ ((e : Int) < 0) := by omega
  rw [if_neg this, List.length_take]
  simp

theorem suffixed_facts (base : JsString) (maxLength k : Nat) (hk : k + 4 ≤ maxLength) :
    suffixed base maxLength k ≠ [] ∧ trim (suffixed base maxLength k) = suffixed base maxLength k
      ∧ (suffixed base maxLength k).length ≤ maxLength := by
  refine ⟨?_, ?_, ?_⟩
  · intro hnil
    have := (indexTail_suffix_suffixed base maxLength k).length_le
    rw [hnil] at this
    simp [indexTail] at this
  · unfold suffixed
    exact trim_trim _
  · unfold suffixed
    refine le_trans (trim_length_le _) ?_
    have hs : (suffixOf k).length ≤ k + 4 := by
      rw [suffixOf_eq]
      unfold indexTail decimal
      have := decimalDigits_length k k
      simp only [List.length_cons, List.length_append, List.length_singleton, List.length_nil]
      omega
    have hcast : ((maxLength : Int) - ((suffixOf k).length : Int))
        = ((maxLength - (suffixOf k).length : Nat) : Int) := by omega
    rw [List.length_append, hcast]
    have := sliceTo_length_le base (maxLength - (suffixOf k).length)
    omega

theorem defaultBase_facts (word : JsString) (ordinal : Nat)
    (hword : ∃ c rest, word = c :: rest ∧ isWhiteSpace c = false) :
    word ++ units " " ++ decimal ordinal ≠ []
      ∧ trim (word ++ units " " ++ decimal ordinal) = word ++ units " " ++ decimal ordinal
      ∧ (word ++ units " " ++ decimal ordinal).length ≤ word.length + ordinal + 2 := by
  obtain ⟨c, rest, rfl, hc⟩ := hword
  refine ⟨by simp, ?_, ?_⟩
  · apply trim_eq_self
    · intro hl
      simp [hc]
    · intro hl
      have hne : decimal ordinal ≠ [] := decimalDigits_ne_nil ordinal ordinal
      rw [List.getLast_append_of_ne_nil hne]
      have hmem := List.getLast_mem hne
      have := digit_not_whiteSpace _ (decimalDigits_digit ordinal ordinal _ hmem)
      simp [this]
  · rw [units_blank]
    have := decimalDigits_length ordinal ordinal
    simp only [List.length_append, List.length_cons, List.length_nil, decimal]
    omega

/-- What `uniqueName` returns when `fuel` exceeds the number of used names: a
non-empty, trimmed name of at most `maxLength` code units whose lower-casing
was not in use and is now recorded. -/
theorem uniqueName_spec (H : Host) (hlow : KeepsTrailingIndex H.toLocaleLowerCase)
    (fuel : Nat) (raw : JsString) (used : List JsString) (word : JsString)
    (maxLength ordinal : Nat) (hfuel : used.length < fuel) (hraw : raw.length ≤ maxLength)
    (hmax : used.length + 6 ≤ maxLength)
    (hword : ∃ c rest, word = c :: rest ∧ isWhiteSpace c = false)
    (hwlen : word.length + ordinal + 2 ≤ maxLength) :
    ∃ c, uniqueName H fuel raw used word maxLength ordinal
          = some (c, used ++ [H.toLocaleLowerCase c])
      ∧ H.toLocaleLowerCase c ∉ used ∧ c ≠ [] ∧ trim c = c ∧ c.length ≤ maxLength := by
  have hbase : ∃ base,
      (if raw ≠ [] ∧ trim raw ≠ [] then trim raw
        else word ++ units " " ++ decimal ordinal).take maxLength = base
      ∧ base ≠ [] ∧ trim base = base ∧ base.length ≤ maxLength := by
    split_ifs with hr
    · have hl : (trim raw).length ≤ maxLength := le_trans (trim_length_le raw) hraw
      exact ⟨trim raw, List.take_of_length_le hl, hr.2, trim_trim raw, hl⟩
    · obtain ⟨h1, h2, h3⟩ := defaultBase_facts word ordinal hword
      have hl : (word ++ units " " ++ decimal ordinal).length ≤ maxLength := by omega
      exact ⟨_, List.take_of_length_le hl, h1, h2, hl⟩
  obtain ⟨base, hbeq, hb1, hb2, hb3⟩ := hbase
  have hsome : ∃ c, uniqueNameLoop H used base maxLength fuel base 2 = some c
      ∧ H.toLocaleLowerCase c ∉ used ∧ c ≠ [] ∧ trim c = c ∧ c.length ≤ maxLength := by
    by_cases hfree : H.toLocaleLowerCase base ∈ used
    · obtain ⟨j, hj2, hjlen, hjfree⟩ :=
        exists_free_index H.toLocaleLowerCase hlow used base maxLength
      obtain ⟨c, hc1, hc2, hc3⟩ :=
        uniqueNameLoop_search H used base maxLength fuel base 2 j hj2 (by omega) hjfree
      rcases hc3 with h | ⟨i, hi1, hi2, hi3⟩
      · exact ⟨c, hc1, hc2, h ▸ hb1, h ▸ hb2, h ▸ hb3⟩
      · obtain ⟨f1, f2, f3⟩ := suffixed_facts base maxLength i (by omega)
        exact ⟨c, hc1, hc2, hi3 ▸ f1, hi3 ▸ f2, hi3 ▸ f3⟩
    · exact ⟨base, uniqueNameLoop_free H used base maxLength fuel base 2 hfree, hfree,
        hb1, hb2, hb3⟩
  obtain ⟨c, hc1, hc2, hc3, hc4, hc5⟩ := hsome
  refine ⟨c, ?_, hc2, hc3, hc4, hc5⟩
  unfold uniqueName
  simp only [hbeq, hc1, setAdd, hc2, if_false]

/-! ## The walks of sanitizeOptions and sanitizeCriteria -/

theorem NamesOk.nil (lower : JsString → JsString) (maxLength : Nat) :
    NamesOk lower maxLength [] [] :=
  ⟨rfl, by simp, by simp, List.Pairwise.nil⟩

theorem NamesOk.snoc {lower : JsString → JsString} {maxLength : Nat}
    {names used : List JsString} (h : NamesOk lower maxLength names used) (c : JsString)
    (hfree : lower c ∉ used) (h1 : c ≠ []) (h2 : trim c = c) (h3 : c.length ≤ maxLength) :
    NamesOk lower maxLength (names ++ [c]) (used ++ [lower c]) := by
  refine ⟨by simp [h.used_length], ?_, ?_, ?_⟩
  · intro n hn
    rcases List.mem_append.1 hn with hn | hn
    · exact List.mem_append_left _ (h.lower_mem n hn)
    · simp only [List.mem_singleton] at hn
      subst hn
      simp
  · intro n hn
    rcases List.mem_append.1 hn with hn | hn
    · exact h.good n hn
    · simp only [List.mem_singleton] at hn
      subst hn
      exact ⟨h1, h2, h3⟩
  · rw [List.pairwise_append]
    refine ⟨h.distinct, List.pairwise_singleton _ _, ?_⟩
    intro a ha b hb
    simp only [List.mem_singleton] at hb
    subst hb
    intro heq
    apply hfree
    rw [← heq]
    exact h.lower_mem a ha

theorem optionWord_head : ∃ c rest, units "Option" = c :: rest ∧ isWhiteSpace c = false :=
  ⟨79, [112, 116, 105, 111, 110], by decide, by decide⟩

theorem criterionWord_head :
    ∃ c rest, units "Criterion" = c :: rest ∧ isWhiteSpace c = false :=
  ⟨67, [114, 105, 116, 101, 114, 105, 111, 110], by decide, by decide⟩

theorem sanitizeOptionItem_spec (H : Host) (hlow : KeepsTrailingIndex H.toLocaleLowerCase)
    (fuel : Nat) (hfuel : 21 ≤ fuel) (item : JsValue) (acc : Walk DecisionOption)
    (hok : WalkOk H.toLocaleLowerCase MAX_OPTION_NAME_LENGTH MAX_OPTIONS (fun o => o.name) acc)
    (hlen : acc.items.length < MAX_OPTIONS) :
    ∃ name acc1, sanitizeOptionItem H fuel item acc = some acc1
      ∧ acc1.items = acc.items ++ [
          { id := (chooseId H item acc.world).1,
            name := name,
            note := noteOf item,
            createdAt := (chooseCreatedAt H item acc.items.length
              (chooseId H item acc.world).2).1 }]
      ∧ acc1.usedNames = acc.usedNames ++ [H.toLocaleLowerCase name]
      ∧ acc1.ordinal = acc.ordinal + 1
      ∧ acc1.world
          = (chooseCreatedAt H item acc.items.length (chooseId H item acc.world).2).2.1
      ∧ H.toLocaleLowerCase name ∉ acc.usedNames ∧ name ≠ [] ∧ trim name = name
      ∧ name.length ≤ MAX_OPTION_NAME_LENGTH := by
  have hul := hok.names.used_length
  have hord := hok.ordinal_eq
  simp only [List.length_map] at hul
  unfold MAX_OPTIONS at hlen
  obtain ⟨c, hc, hfree, h1, h2, h3⟩ := uniqueName_spec H hlow fuel
    ((rawNameOf item).take MAX_OPTION_NAME_LENGTH) acc.usedNames (units "Option")
    MAX_OPTION_NAME_LENGTH acc.ordinal (by omega)
    (by rw [List.length_take]; exact Nat.min_le_left _ _)
    (by unfold MAX_OPTION_NAME_LENGTH; omega) optionWord_head
    (by
      have : (units "Option").length = 6 := by decide
      rw [this]
      unfold MAX_OPTION_NAME_LENGTH
      omega)
  unfold sanitizeOptionItem
  simp only [hc]
  exact ⟨c, _, rfl, rfl, rfl, rfl, rfl, hfree, h1, h2, h3⟩

theorem WalkOk.push {α : Type} {lower : JsString → JsString} {maxLength maxCount : Nat}
    {nameOf : α → JsString} {acc : Walk α} (hok : WalkOk lower maxLength maxCount nameOf acc)
    (hlen : acc.items.length < maxCount) (acc1 : Walk α) (x : α)
    (hitems : acc1.items = acc.items ++ [x])
    (hused : acc1.usedNames = acc.usedNames ++ [lower (nameOf x)])
    (hord : acc1.ordinal = acc.ordinal + 1)
    (hfree : lower (nameOf x) ∉ acc.usedNames) (h1 : nameOf x ≠ [])
    (h2 : trim (nameOf x) = nameOf x) (h3 : (nameOf x).length ≤ maxLength) :
    WalkOk lower maxLength maxCount nameOf acc1 := by
  refine ⟨?_, ?_, ?_⟩
  · rw [hitems, hused]
    simp only [List.map_append, List.map_cons, List.map_nil]
    exact hok.names.snoc _ hfree h1 h2 h3
  · rw [hitems, hord, hok.ordinal_eq]
    simp
  · rw [hitems]
    simp only [List.length_append, List.length_singleton]
    omega

theorem sanitizeOptionsLoop_spec (H : Host) (hlow : KeepsTrailingIndex H.toLocaleLowerCase)
    (fuel : Nat) (hfuel : 21 ≤ fuel) :
    ∀ (source : List JsValue) (acc : Walk DecisionOption),
      WalkOk H.toLocaleLowerCase MAX_OPTION_NAME_LENGTH MAX_OPTIONS (fun o => o.name) acc →
      ∃ acc1, sanitizeOptionsLoop H fuel source acc = some acc1
        ∧ WalkOk H.toLocaleLowerCase MAX_OPTION_NAME_LENGTH MAX_OPTIONS (fun o => o.name) acc1 := by
  intro source
  induction source with
  | nil =>
    intro acc hok
    exact ⟨acc, rfl, hok⟩
  | cons item rest ih =>
    intro acc hok
    unfold sanitizeOptionsLoop
    by_cases hfull : acc.items.length ≥ MAX_OPTIONS
    · rw [if_pos hfull]
      exact ⟨_, rfl, ⟨hok.names, hok.ordinal_eq, hok.count_le⟩⟩
    · rw [if_neg hfull]
      by_cases hobj : isObject item = true
      · simp only [hobj, Bool.not_true, Bool.false_eq_true, if_false]
        obtain ⟨name, acc1, heq, hitems, hused, hord, -, hfree, h1, h2, h3⟩ :=
          sanitizeOptionItem_spec H hlow fuel hfuel item acc hok (by omega)
        rw [heq]
        exact ih _ (hok.push (by omega) acc1 _ hitems hused hord hfree h1 h2 h3)
      · simp only [hobj, Bool.not_false, if_true]
        exact ih _ ⟨hok.names, hok.ordinal_eq, hok.count_le⟩

theorem fillOptions_spec (H : Host) (hlow : KeepsTrailingIndex H.toLocaleLowerCase)
    (fuel : Nat) (hfuel : 21 ≤ fuel) :
    ∀ (n : Nat) (acc : Walk DecisionOption), MIN_OPTIONS ≤ acc.items.length + n →
      WalkOk H.toLocaleLowerCase MAX_OPTION_NAME_LENGTH MAX_OPTIONS (fun o => o.name) acc →
      ∃ acc1, fillOptions H fuel n acc = some acc1
        ∧ WalkOk H.toLocaleLowerCase MAX_OPTION_NAME_LENGTH MAX_OPTIONS (fun o => o.name) acc1
        ∧ MIN_OPTIONS ≤ acc1.items.length := by
  intro n
  induction n with
  | zero =>
    intro acc hn hok
    have : ¬ acc.items.length < MIN_OPTIONS := by omega
    exact ⟨acc, by simp [fillOptions, this], hok, by omega⟩
  | succ m ih =>
    intro acc hn hok
    unfold fillOptions
    by_cases hshort : acc.items.length < MIN_OPTIONS
    · rw [if_pos hshort]
      have hul := hok.names.used_length
      have hord := hok.ordinal_eq
      simp only [List.length_map] at hul
      unfold MIN_OPTIONS at hshort
      obtain ⟨c, hc, hfree, h1, h2, h3⟩ := uniqueName_spec H hlow fuel [] acc.usedNames
        (units "Option") MAX_OPTION_NAME_LENGTH acc.ordinal (by omega) (by simp)
        (by unfold MAX_OPTION_NAME_LENGTH; omega) optionWord_head
        (by
          have : (units "Option").length = 6 := by decide
          rw [this]
          unfold MAX_OPTION_NAME_LENGTH
          omega)
      simp only [hc]
      have htake : c.take MAX_OPTION_NAME_LENGTH = c := List.take_of_length_le h3
      have hname : (createOption H c
          ((((dateNow H acc.world).1 : Int) : Rat) + (acc.ordinal : Rat))
          (dateNow H acc.world).2).1.name = c := by simp [createOption, htake]
      refine ih _ (by simp only [List.length_append, List.length_singleton]; omega)
        (hok.push (by unfold MAX_OPTIONS; omega) _ _ rfl ?_ rfl ?_ ?_ ?_ ?_)
      · simp only [hname]
      · rw [hname]; exact hfree
      · rw [hname]; exact h1
      · rw [hname]; exact h2
      · rw [hname]; exact h3
    · rw [if_neg hshort]
      exact ⟨acc, rfl, hok, by omega⟩

theorem sanitizeOptions_spec (H : Host) (hlow : KeepsTrailingIndex H.toLocaleLowerCase)
    (fuel : Nat) (hfuel : 21 ≤ fuel) (input : JsValue) (w : World) :
    ∃ acc, sanitizeOptions H fuel input w = some acc
      ∧ WalkOk H.toLocaleLowerCase MAX_OPTION_NAME_LENGTH MAX_OPTIONS (fun o => o.name) acc
      ∧ MIN_OPTIONS ≤ acc.items.length := by
  obtain ⟨acc1, h1, hok1⟩ := sanitizeOptionsLoop_spec H hlow fuel hfuel (sourceOf input)
    { repaired := !isArray input, items := [], usedNames := [], ordinal := 1, world := w }
    ⟨NamesOk.nil _ _, rfl, by simp⟩
  obtain ⟨acc2, h2, hok2, hmin⟩ := fillOptions_spec H hlow fuel hfuel fuel acc1
    (by unfold MIN_OPTIONS; omega) hok1
  refine ⟨acc2, ?_, hok2, hmin⟩
  unfold sanitizeOptions
  rw [h1]
  exact h2

theorem sanitizeCriterionItem_spec (H : Host) (hlow : KeepsTrailingIndex H.toLocaleLowerCase)
    (fuel : Nat) (hfuel : 21 ≤ fuel) (item : JsValue) (acc : Walk Criterion)
    (hok : WalkOk H.toLocaleLowerCase MAX_CRITERION_NAME_LENGTH MAX_CRITERIA (fun c => c.name) acc)
    (hlen : acc.items.length < MAX_CRITERIA)
    (hw : toStringRaises (getProp item (units "weight")) = false) :
    ∃ name acc1, sanitizeCriterionItem H fuel item acc = some (.ok acc1)
      ∧ acc1.items = acc.items ++ [
          { id := (chooseId H item acc.world).1,
            name := name,
            weight := clampIntValue H (getProp item (units "weight")) 1 5,
            createdAt := (chooseCreatedAt H item acc.items.length
              (chooseId H item acc.world).2).1 }]
      ∧ acc1.usedNames = acc.usedNames ++ [H.toLocaleLowerCase name]
      ∧ acc1.ordinal = acc.ordinal + 1
      ∧ acc1.world
          = (chooseCreatedAt H item acc.items.length (chooseId H item acc.world).2).2.1
      ∧ H.toLocaleLowerCase name ∉ acc.usedNames ∧ name ≠ [] ∧ trim name = name
      ∧ name.length ≤ MAX_CRITERION_NAME_LENGTH := by
  have hul := hok.names.used_length
  have hord := hok.ordinal_eq
  simp only [List.length_map] at hul
  unfold MAX_CRITERIA at hlen
  obtain ⟨c, hc, hfree, h1, h2, h3⟩ := uniqueName_spec H hlow fuel
    ((rawNameOf item).take MAX_CRITERION_NAME_LENGTH) acc.usedNames (units "Criterion")
    MAX_CRITERION_NAME_LENGTH acc.ordinal (by omega)
    (by rw [List.length_take]; exact Nat.min_le_left _ _)
    (by unfold MAX_CRITERION_NAME_LENGTH; omega) criterionWord_head
    (by
      have : (units "Criterion").length = 9 := by decide
      rw [this]
      unfold MAX_CRITERION_NAME_LENGTH
      omega)
  unfold sanitizeCriterionItem
  simp only [hc, clampInt, hw, Bool.false_eq_true, if_false]
  exact ⟨c, _, rfl, rfl, rfl, rfl, rfl, hfree, h1, h2, h3⟩

theorem sanitizeCriterionItem_raises (H : Host)
    (hlow : KeepsTrailingIndex H.toLocaleLowerCase)
    (fuel : Nat) (hfuel : 21 ≤ fuel) (item : JsValue) (acc : Walk Criterion)
    (hok : WalkOk H.toLocaleLowerCase MAX_CRITERION_NAME_LENGTH MAX_CRITERIA (fun c => c.name) acc)
    (hlen : acc.items.length < MAX_CRITERIA)
    (hw : toStringRaises (getProp item (units "weight")) = true) :
    sanitizeCriterionItem H fuel item acc = some (.error .typeError) := by
  have hul := hok.names.used_length
  have hord := hok.ordinal_eq
  simp only [List.length_map] at hul
  unfold MAX_CRITERIA at hlen
  obtain ⟨c, hc, -⟩ := uniqueName_spec H hlow fuel
    ((rawNameOf item).take MAX_CRITERION_NAME_LENGTH) acc.usedNames (units "Criterion")
    MAX_CRITERION_NAME_LENGTH acc.ordinal (by omega)
    (by rw [List.length_take]; exact Nat.min_le_left _ _)
    (by unfold MAX_CRITERION_NAME_LENGTH; omega) criterionWord_head
    (by
      have : (units "Criterion").length = 9 := by decide
      rw [this]
      unfold MAX_CRITERION_NAME_LENGTH
      omega)
  unfold sanitizeCriterionItem
  simp only [hc, clampInt, hw, if_true]

theorem criteriaRaise_cons (item : JsValue) (rest : List JsValue) (count : Nat) :
    criteriaRaise (item :: rest) count
      = if count ≥ MAX_CRITERIA then false
        else if !isObject item then criteriaRaise rest count
        else if toStringRaises (getProp item (units "weight")) then true
        else criteriaRaise rest (count + 1) := by
  rw [criteriaRaise]

theorem sanitizeCriteriaLoop_spec (H : Host) (hlow : KeepsTrailingIndex H.toLocaleLowerCase)
    (fuel : Nat) (hfuel : 21 ≤ fuel) :
    ∀ (source : List JsValue) (acc : Walk Criterion),
      WalkOk H.toLocaleLowerCase MAX_CRITERION_NAME_LENGTH MAX_CRITERIA (fun c => c.name) acc →
      criteriaRaise source acc.items.length = false →
      ∃ acc1, sanitizeCriteriaLoop H fuel source acc = some (.ok acc1)
        ∧ WalkOk H.toLocaleLowerCase MAX_CRITERION_NAME_LENGTH MAX_CRITERIA (fun c => c.name) acc1 := by
  intro source
  induction source with
  | nil =>
    intro acc hok _
    exact ⟨acc, rfl, hok⟩
  | cons item rest ih =>
    intro acc hok hraise
    rw [criteriaRaise_cons] at hraise
    unfold sanitizeCriteriaLoop
    by_cases hfull : acc.items.length ≥ MAX_CRITERIA
    · rw [if_pos hfull]
      exact ⟨_, rfl, ⟨hok.names, hok.ordinal_eq, hok.count_le⟩⟩
    · rw [if_neg hfull] at hraise ⊢
      by_cases hobj : isObject item = true
      · simp only [hobj, Bool.not_true, Bool.false_eq_true, if_false] at hraise ⊢
        cases hw : toStringRaises (getProp item (units "weight")) with
        | true => simp [hw] at hraise
        | false =>
          simp only [hw, Bool.false_eq_true, if_false] at hraise
          obtain ⟨name, acc1, heq, hitems, hused, hord, -, hfree, h1, h2, h3⟩ :=
            sanitizeCriterionItem_spec H hlow fuel hfuel item acc hok (by omega) hw
          rw [heq]
          refine ih _ (hok.push (by omega) acc1 _ hitems hused hord hfree h1 h2 h3) ?_
          rw [hitems, List.length_append, List.length_singleton]
          exact hraise
      · simp only [hobj, Bool.not_false, if_true] at hraise ⊢
        exact ih _ ⟨hok.names, hok.ordinal_eq, hok.count_le⟩ hraise

theorem sanitizeCriteriaLoop_raises (H : Host)
    (hlow : KeepsTrailingIndex H.toLocaleLowerCase) (fuel : Nat) (hfuel : 21 ≤ fuel) :
    ∀ (source : List JsValue) (acc : Walk Criterion),
      WalkOk H.toLocaleLowerCase MAX_CRITERION_NAME_LENGTH MAX_CRITERIA (fun c => c.name) acc →
      criteriaRaise source acc.items.length = true →
      sanitizeCriteriaLoop H fuel source acc = some (.error .typeError) := by
  intro source
  induction source with
  | nil =>
    intro acc _ hraise
    simp [criteriaRaise] at hraise
  | cons item rest ih =>
    intro acc hok hraise
    rw [criteriaRaise_cons] at hraise
    unfold sanitizeCriteriaLoop
    by_cases hfull : acc.items.length ≥ MAX_CRITERIA
    · rw [if_pos hfull] at hraise
      exact absurd hraise (by simp)
    · rw [if_neg hfull] at hraise ⊢
      by_cases hobj : isObject item = true
      · simp only [hobj, Bool.not_true, Bool.false_eq_true, if_false] at hraise ⊢
        cases hw : toStringRaises (getProp item (units "weight")) with
        | true =>
          rw [sanitizeCriterionItem_raises H hlow fuel hfuel item acc hok (by omega) hw]
        | false =>
          simp only [hw, Bool.false_eq_true, if_false] at hraise
          obtain ⟨name, acc1, heq, hitems, hused, hord, -, hfree, h1, h2, h3⟩ :=
            sanitizeCriterionItem_spec H hlow fuel hfuel item acc hok (by omega) hw
          rw [heq]
          refine ih _ (hok.push (by omega) acc1 _ hitems hused hord hfree h1 h2 h3) ?_
          rw [hitems, List.length_append, List.length_singleton]
          exact hraise
      · simp only [hobj, Bool.not_false, if_true] at hraise ⊢
        exact ih _ ⟨hok.names, hok.ordinal_eq, hok.count_le⟩ hraise

theorem fillCriteria_spec (H : Host) (hlow : KeepsTrailingIndex H.toLocaleLowerCase)
    (fuel : Nat) (hfuel : 21 ≤ fuel) :
    ∀ (n : Nat) (acc : Walk Criterion), MIN_CRITERIA ≤ acc.items.length + n →
      WalkOk H.toLocaleLowerCase MAX_CRITERION_NAME_LENGTH MAX_CRITERIA (fun c => c.name) acc →
      ∃ acc1, fillCriteria H fuel n acc = some acc1
        ∧ WalkOk H.toLocaleLowerCase MAX_CRITERION_NAME_LENGTH MAX_CRITERIA (fun c => c.name) acc1
        ∧ MIN_CRITERIA ≤ acc1.items.length := by
  intro n
  induction n with
  | zero =>
    intro acc hn hok
    have : ¬ acc.items.length < MIN_CRITERIA := by omega
    exact ⟨acc, by simp [fillCriteria, this], hok, by omega⟩
  | succ m ih =>
    intro acc hn hok
    unfold fillCriteria
    by_cases hshort : acc.items.length < MIN_CRITERIA
    · rw [if_pos hshort]
      have hul := hok.names.used_length
      have hord := hok.ordinal_eq
      simp only [List.length_map] at hul
      unfold MIN_CRITERIA at hshort
      obtain ⟨c, hc, hfree, h1, h2, h3⟩ := uniqueName_spec H hlow fuel [] acc.usedNames
        (units "Criterion") MAX_CRITERION_NAME_LENGTH acc.ordinal (by omega) (by simp)
        (by unfold MAX_CRITERION_NAME_LENGTH; omega) criterionWord_head
        (by
          have : (units "Criterion").length = 9 := by decide
          rw [this]
          unfold MAX_CRITERION_NAME_LENGTH
          omega)
      simp only [hc]
      have htake : c.take MAX_CRITERION_NAME_LENGTH = c := List.take_of_length_le h3
      have hname : (createCriterion H c 3
          ((((dateNow H acc.world).1 : Int) : Rat) + (acc.ordinal : Rat))
          (dateNow H acc.world).2).1.name = c := by simp [createCriterion, htake]
      refine ih _ (by simp only [List.length_append, List.length_singleton]; omega)
        (hok.push (by unfold MAX_CRITERIA; omega) _ _ rfl ?_ rfl ?_ ?_ ?_ ?_)
      · simp only [hname]
      · rw [hname]; exact hfree
      · rw [hname]; exact h1
      · rw [hname]; exact h2
      · rw [hname]; exact h3
    · rw [if_neg hshort]
      exact ⟨acc, rfl, hok, by omega⟩

theorem sanitizeCriteria_spec (H : Host) (hlow : KeepsTrailingIndex H.toLocaleLowerCase)
    (fuel : Nat) (hfuel : 21 ≤ fuel) (input : JsValue) (w : World)
    (hraise : criteriaRaise (sourceOf input) 0 = false) :
    ∃ acc, sanitizeCriteria H fuel input w = some (.ok acc)
      ∧ WalkOk H.toLocaleLowerCase MAX_CRITERION_NAME_LENGTH MAX_CRITERIA (fun c => c.name) acc
      ∧ MIN_CRITERIA ≤ acc.items.length := by
  obtain ⟨acc1, h1, hok1⟩ := sanitizeCriteriaLoop_spec H hlow fuel hfuel (sourceOf input)
    { repaired := !isArray input, items := [], usedNames := [], ordinal := 1, world := w }
    ⟨NamesOk.nil _ _, rfl, by simp⟩ hraise
  obtain ⟨acc2, h2, hok2, hmin⟩ := fillCriteria_spec H hlow fuel hfuel fuel acc1
    (by unfold MIN_CRITERIA; omega) hok1
  refine ⟨acc2, ?_, hok2, hmin⟩
  unfold sanitizeCriteria
  rw [h1]
  simp only [h2, Option.map_some']

theorem sanitizeCriteria_raises (H : Host) (hlow : KeepsTrailingIndex H.toLocaleLowerCase)
    (fuel : Nat) (hfuel : 21 ≤ fuel) (input : JsValue) (w : World)
    (hraise : criteriaRaise (sourceOf input) 0 = true) :
    sanitizeCriteria H fuel input w = some (.error .typeError) := by
  unfold sanitizeCriteria
  rw [sanitizeCriteriaLoop_raises H hlow fuel hfuel (sourceOf input)
    { repaired := !isArray input, items := [], usedNames := [], ordinal := 1, world := w }
    ⟨NamesOk.nil _ _, rfl, by simp⟩ hraise]

theorem sanitizeCriteria_ok (H : Host) (fuel : Nat) (input : JsValue) (w : World)
    (acc : Walk Criterion) (h : sanitizeCriteria H fuel input w = some (.ok acc)) :
    ∃ acc0, sanitizeCriteriaLoop H fuel (sourceOf input)
        { repaired := !isArray input, items := [], usedNames := [], ordinal := 1, world := w }
          = some (.ok acc0)
      ∧ fillCriteria H fuel fuel acc0 = some acc := by
  unfold sanitizeCriteria at h
  split at h
  · exact absurd h (by simp)
  · exact absurd h (by simp)
  · rename_i acc0 hloop
    refine ⟨acc0, hloop, ?_⟩
    cases hf : fillCriteria H fuel fuel acc0 with
    | none => simp [hf] at h
    | some acc2 =>
      simp only [hf, Option.map_some', Option.some.injEq, Except.ok.injEq] at h
      rw [h]

theorem sanitizeCriteriaLoop_ok_cons (H : Host) (fuel : Nat) (item : JsValue)
    (rest : List JsValue) (acc acc1 : Walk Criterion)
    (hroom : ¬ acc.items.length ≥ MAX_CRITERIA) (hobj : isObject item = true)
    (h : sanitizeCriteriaLoop H fuel (item :: rest) acc = some (.ok acc1)) :
    ∃ acc2, sanitizeCriterionItem H fuel item acc = some (.ok acc2)
      ∧ sanitizeCriteriaLoop H fuel rest acc2 = some (.ok acc1) := by
  unfold sanitizeCriteriaLoop at h
  rw [if_neg hroom] at h
  simp only [hobj, Bool.not_true, Bool.false_eq_true, if_false] at h
  cases hitem : sanitizeCriterionItem H fuel item acc with
  | none =>
    rw [hitem] at h
    exact absurd h (by simp)
  | some outcome =>
    rw [hitem] at h
    cases outcome with
    | error e => exact absurd h (by simp)
    | ok acc2 => exact ⟨acc2, rfl, h⟩

theorem sanitizeCriterionItem_ok (H : Host) (fuel : Nat) (item : JsValue)
    (acc acc1 : Walk Criterion)
    (h : sanitizeCriterionItem H fuel item acc = some (.ok acc1)) :
    toStringRaises (getProp item (units "weight")) = false
    ∧ ∃ name used, uniqueName H fuel ((rawNameOf item).take MAX_CRITERION_NAME_LENGTH)
          acc.usedNames (units "Criterion") MAX_CRITERION_NAME_LENGTH acc.ordinal
        = some (name, used)
      ∧ acc1 = {
          repaired :=
            acc.repaired || decide (rawNameOf item = [])
              || decide ((rawNameOf item).take MAX_CRITERION_NAME_LENGTH ≠ rawNameOf item)
              || decide (name ≠ (rawNameOf item).take MAX_CRITERION_NAME_LENGTH)
              || strictNeInt (clampIntValue H (getProp item (units "weight")) 1 5)
                  (getProp item (units "weight"))
              || strictNeStr (chooseId H item acc.world).1 (getProp item (units "id"))
              || (chooseCreatedAt H item acc.items.length (chooseId H item acc.world).2).2.2,
          items := acc.items ++ [
            { id := (chooseId H item acc.world).1, name := name,
              weight := clampIntValue H (getProp item (units "weight")) 1 5,
              createdAt := (chooseCreatedAt H item acc.items.length
                (chooseId H item acc.world).2).1 }],
          usedNames := used, ordinal := acc.ordinal + 1,
          world := (chooseCreatedAt H item acc.items.length
            (chooseId H item acc.world).2).2.1 } := by
  unfold sanitizeCriterionItem at h
  cases hu : uniqueName H fuel ((rawNameOf item).take MAX_CRITERION_NAME_LENGTH) acc.usedNames
      (units "Criterion") MAX_CRITERION_NAME_LENGTH acc.ordinal with
  | none =>
    simp only [hu] at h
    exact absurd h (by simp)
  | some p =>
    obtain ⟨name, used⟩ := p
    cases hw : toStringRaises (getProp item (units "weight")) with
    | true => simp [hu, clampInt, hw] at h
    | false =>
      simp only [hu, clampInt, hw, Bool.false_eq_true, if_false, Option.some.injEq,
        Except.ok.injEq] at h
      exact ⟨rfl, name, used, rfl, h.symm⟩

/-! ## sanitizeV1State -/

theorem sanitizeV1State_spec (H : Host) (hlow : KeepsTrailingIndex H.toLocaleLowerCase)
    (fuel : Nat) (hfuel : 21 ≤ fuel) (candidate : JsValue) (w : World)
    (hobj : isObject candidate = true) (hconv : sanitizeRaises candidate = false) :
    ∃ (oacc : Walk DecisionOption) (cacc : Walk Criterion) (r : Sanitized) (w1 : World),
      sanitizeOptions H fuel (getProp candidate (units "options")) w = some oacc
      ∧ sanitizeCriteria H fuel (getProp candidate (units "criteria")) oacc.world
          = some (.ok cacc)
      ∧ sanitizeV1State H fuel candidate w = some (.ok (some r, w1))
      ∧ r.state.options = oacc.items ∧ r.state.criteria = cacc.items
      ∧ r.state.ratings = (sanitizeRatings (getProp candidate (units "ratings"))
          (oacc.items.map (fun item => item.id)) (cacc.items.map (fun item => item.id))).2
      ∧ WalkOk H.toLocaleLowerCase MAX_OPTION_NAME_LENGTH MAX_OPTIONS (fun o => o.name) oacc
      ∧ MIN_OPTIONS ≤ oacc.items.length
      ∧ WalkOk H.toLocaleLowerCase MAX_CRITERION_NAME_LENGTH MAX_CRITERIA
          (fun c => c.name) cacc
      ∧ MIN_CRITERIA ≤ cacc.items.length := by
  obtain ⟨oacc, ho, hok, hmin⟩ := sanitizeOptions_spec H hlow fuel hfuel
    (getProp candidate (units "options")) w
  have hraise : criteriaRaise (sourceOf (getProp candidate (units "criteria"))) 0 = false := by
    unfold sanitizeRaises at hconv
    simpa [hobj] using hconv
  obtain ⟨cacc, hc, hck, hcmin⟩ := sanitizeCriteria_spec H hlow fuel hfuel
    (getProp candidate (units "criteria")) oacc.world hraise
  have hres : ∃ (r : Sanitized) (w1 : World),
      sanitizeV1State H fuel candidate w = some (.ok (some r, w1))
      ∧ r.state.options = oacc.items ∧ r.state.criteria = cacc.items
      ∧ r.state.ratings = (sanitizeRatings (getProp candidate (units "ratings"))
          (oacc.items.map (fun item => item.id)) (cacc.items.map (fun item => item.id))).2 := by
    unfold sanitizeV1State
    simp only [hobj, Bool.not_true, Bool.false_eq_true, if_false, ho, hc]
    exact ⟨_, _, rfl, rfl, rfl, rfl⟩
  obtain ⟨r, w1, h1, h2, h3, h4⟩ := hres
  exact ⟨oacc, cacc, r, w1, ho, hc, h1, h2, h3, h4, hok, hmin, hck, hcmin⟩

theorem sanitizeV1State_raises (H : Host) (hlow : KeepsTrailingIndex H.toLocaleLowerCase)
    (fuel : Nat) (hfuel : 21 ≤ fuel) (candidate : JsValue) (w : World)
    (hconv : sanitizeRaises candidate = true) :
    sanitizeV1State H fuel candidate w = some (.error .typeError) := by
  unfold sanitizeRaises at hconv
  rw [Bool.and_eq_true] at hconv
  obtain ⟨hobj, hraise⟩ := hconv
  obtain ⟨oacc, ho, -, -⟩ := sanitizeOptions_spec H hlow fuel hfuel
    (getProp candidate (units "options")) w
  have hc := sanitizeCriteria_raises H hlow fuel hfuel
    (getProp candidate (units "criteria")) oacc.world hraise
  unfold sanitizeV1State
  simp only [hobj, Bool.not_true, Bool.false_eq_true, if_false, ho, hc]

theorem sanitizeV1State_not_object (H : Host) (fuel : Nat) (candidate : JsValue) (w : World)
    (hobj : isObject candidate = false) :
    sanitizeV1State H fuel candidate w = some (.ok (none, w)) := by
  unfold sanitizeV1State
  simp [hobj]

/-- The two ways a run of `sanitizeV1State` on an object ends: `clampInt`
raises on a criterion weight, or a model is returned; what holds of every
returned model holds in the second case. -/
theorem sanitizeV1State_cases (H : Host) (hlow : KeepsTrailingIndex H.toLocaleLowerCase)
    (fuel : Nat) (hfuel : 21 ≤ fuel) (candidate : JsValue) (w : World)
    (P : Sanitized → World → Prop)
    (hreturned : sanitizeRaises candidate = false →
      ∃ r w1, sanitizeV1State H fuel candidate w = some (.ok (some r, w1)) ∧ P r w1) :
    (sanitizeRaises candidate = true
        ∧ sanitizeV1State H fuel candidate w = some (.error .typeError))
    ∨ (sanitizeRaises candidate = false
        ∧ ∃ r w1, sanitizeV1State H fuel candidate w = some (.ok (some r, w1)) ∧ P r w1) := by
  cases hconv : sanitizeRaises candidate with
  | true => exact Or.inl ⟨rfl, sanitizeV1State_raises H hlow fuel hfuel candidate w hconv⟩
  | false => exact Or.inr ⟨rfl, hreturned hconv⟩

theorem sanitizeV1State_bounds (H : Host) (hlow : KeepsTrailingIndex H.toLocaleLowerCase)
    (fuel : Nat) (hfuel : 21 ≤ fuel) (candidate : JsValue) (w : World)
    (hobj : isObject candidate = true) (hconv : sanitizeRaises candidate = false) :
    ∃ r w1, sanitizeV1State H fuel candidate w = some (.ok (some r, w1))
      ∧ 2 ≤ r.state.options.length ∧ r.state.options.length ≤ 20
      ∧ 1 ≤ r.state.criteria.length ∧ r.state.criteria.length ≤ 20 := by
  obtain ⟨oacc, cacc, r, w1, -, -, hr, hro, hrc, -, hok, hmin, hck, hcmin⟩ :=
    sanitizeV1State_spec H hlow fuel hfuel candidate w hobj hconv
  refine ⟨r, w1, hr, ?_, ?_, ?_, ?_⟩
  · rw [hro]; exact hmin
  · rw [hro]; exact hok.count_le
  · rw [hrc]; exact hcmin
  · rw [hrc]; exact hck.count_le

/-- C10: when `sanitizeV1State` returns a state, its option names are
non-empty, trimmed, at most 60 code units long and pairwise distinct after
lower-casing, and its criterion names likewise with at most 40 code units;
the only other way a run on an object ends is the `TypeError` of `clampInt`
on a criterion weight. -/
theorem sanitized_names (H : Host) (hlow : KeepsTrailingIndex H.toLocaleLowerCase)
    (fuel : Nat) (hfuel : 21 ≤ fuel) (candidate : JsValue) (w : World)
    (hobj : isObject candidate = true) :
    (sanitizeRaises candidate = true
        ∧ sanitizeV1State H fuel candidate w = some (.error .typeError))
    ∨ (sanitizeRaises candidate = false
        ∧ ∃ r w1, sanitizeV1State H fuel candidate w = some (.ok (some r, w1))
          ∧ (∀ o ∈ r.state.options,
              o.name ≠ [] ∧ trim o.name = o.name ∧ o.name.length ≤ 60)
          ∧ (r.state.options.map (fun o => o.name)).Pairwise
              (fun a b => H.toLocaleLowerCase a ≠ H.toLocaleLowerCase b)
          ∧ (∀ c ∈ r.state.criteria,
              c.name ≠ [] ∧ trim c.name = c.name ∧ c.name.length ≤ 40)
          ∧ (r.state.criteria.map (fun c => c.name)).Pairwise
              (fun a b => H.toLocaleLowerCase a ≠ H.toLocaleLowerCase b)) := by
  refine sanitizeV1State_cases H hlow fuel hfuel candidate w _ (fun hconv => ?_)
  obtain ⟨oacc, cacc, r, w1, -, -, hr, hro, hrc, -, hok, -, hck, -⟩ :=
    sanitizeV1State_spec H hlow fuel hfuel candidate w hobj hconv
  refine ⟨r, w1, hr, ?_, ?_, ?_, ?_⟩
  · intro o ho
    rw [hro] at ho
    exact hok.names.good _ (List.mem_map_of_mem _ ho)
  · rw [hro]
    exact hok.names.distinct
  · intro c hc
    rw [hrc] at hc
    exact hck.names.good _ (List.mem_map_of_mem _ hc)
  · rw [hrc]
    exact hck.names.distinct

theorem asciiLower_keeps : KeepsTrailingIndex exampleHost.toLocaleLowerCase := by
  intro s k hs
  show indexTail k <:+ asciiLower s
  have hfix : asciiLower (indexTail k) = indexTail k := by
    unfold asciiLower
    refine (List.map_congr_left ?_).trans (List.map_id _)
    intro c hc
    unfold indexTail at hc
    have hcases : c = 40 ∨ c = 41 ∨ (48 ≤ c ∧ c ≤ 57) := by
      rcases List.mem_cons.1 hc with h | h
      · exact Or.inl h
      · rcases List.mem_append.1 h with h | h
        · exact Or.inr (Or.inr (decimalDigits_digit k k c h))
        · simp only [List.mem_singleton] at h
          exact Or.inr (Or.inl h)
    have : ¬ (65 ≤ c ∧ c ≤ 90) := by omega
    simp [this]
  obtain ⟨p, hp⟩ := hs
  refine ⟨asciiLower p, ?_⟩
  rw [← hp]
  unfold asciiLower at hfix ⊢
  rw [List.map_append, hfix]


/-! ## Ids through the walks -/

theorem chooseId_eq (H : Host) (item : JsValue) (w : World) :
    chooseId H item w = match keptId item with
      | some s => (s, w)
      | none => createId H w := by
  unfold chooseId keptId
  split
  · split_ifs <;> rfl
  · rfl

theorem chooseCreatedAt_idCalls (H : Host) (item : JsValue) (count : Nat) (w : World) :
    (chooseCreatedAt H item count w).2.1.idCalls = w.idCalls := by
  unfold chooseCreatedAt
  split <;> rfl

theorem IdsFresh.keep {H : Host} {ids rest : List JsString} {w : World} (s : JsString)
    (h : IdsFresh H (ids ++ s :: rest) w) : IdsFresh H ((ids ++ [s]) ++ rest) w := by
  have : (ids ++ [s]) ++ rest = ids ++ s :: rest := by simp
  rw [this]
  exact h

theorem IdsFresh.generate {H : Host} (hinj : Function.Injective H.randomId)
    {ids rest : List JsString} {w : World} (h : IdsFresh H (ids ++ rest) w) (w1 : World)
    (hw : w1.idCalls = w.idCalls + 1) :
    IdsFresh H ((ids ++ [H.randomId w.idCalls]) ++ rest) w1 := by
  obtain ⟨hnd, hfr⟩ := h
  have hnew : H.randomId w.idCalls ∉ ids ++ rest := fun hmem =>
    hfr _ hmem w.idCalls (le_refl _) rfl
  constructor
  · have hperm : ((ids ++ [H.randomId w.idCalls]) ++ rest).Perm
        (H.randomId w.idCalls :: (ids ++ rest)) := by
      simp only [List.append_assoc, List.singleton_append]
      exact List.perm_middle
    exact hperm.nodup_iff.2 (List.nodup_cons.2 ⟨hnew, hnd⟩)
  · intro x hx n hn
    simp only [List.append_assoc, List.singleton_append, List.mem_append, List.mem_cons] at hx
    rcases hx with hx | hx | hx
    · exact hfr x (List.mem_append_left _ hx) n (by omega)
    · subst hx
      intro heq
      have := hinj heq
      omega
    · exact hfr x (List.mem_append_right _ hx) n (by omega)

theorem IdsFresh.choose {H : Host} (hinj : Function.Injective H.randomId) (item : JsValue)
    {ids rest : List JsString} {w : World}
    (h : IdsFresh H (ids ++ ((keptId item).toList ++ rest)) w) (w1 : World)
    (hw : w1.idCalls = (chooseId H item w).2.idCalls) :
    IdsFresh H ((ids ++ [(chooseId H item w).1]) ++ rest) w1 := by
  rw [chooseId_eq] at hw ⊢
  cases hk : keptId item with
  | some s =>
    rw [hk] at h hw
    simp only [Option.toList_some, List.singleton_append] at h
    simp only at hw
    have := IdsFresh.keep s h
    exact ⟨this.1, fun x hx n hn => this.2 x hx n (by omega)⟩
  | none =>
    rw [hk] at h hw
    simp only [Option.toList_none, List.nil_append] at h
    exact IdsFresh.generate hinj h w1 hw

theorem sanitizeOptionItem_ids (H : Host) (fuel : Nat) (item : JsValue)
    (acc acc1 : Walk DecisionOption) (h : sanitizeOptionItem H fuel item acc = some acc1) :
    acc1.items.map (fun o => o.id)
        = acc.items.map (fun o => o.id) ++ [(chooseId H item acc.world).1]
      ∧ acc1.world.idCalls = (chooseId H item acc.world).2.idCalls
      ∧ acc1.items.length = acc.items.length + 1 := by
  unfold sanitizeOptionItem at h
  cases hu : uniqueName H fuel ((rawNameOf item).take MAX_OPTION_NAME_LENGTH) acc.usedNames
      (units "Option") MAX_OPTION_NAME_LENGTH acc.ordinal with
  | none =>
    simp only [hu] at h
    exact absurd h (by simp)
  | some p =>
    obtain ⟨name, used⟩ := p
    simp only [hu, Option.some.injEq] at h
    subst h
    simp [chooseCreatedAt_idCalls]

theorem filterMap_take_cons (item : JsValue) (rest : List JsValue) (k : Nat) :
    ((item :: rest).take (k + 1)).filterMap keptId
      = (keptId item).toList ++ (rest.take k).filterMap keptId := by
  simp only [List.take_succ_cons, List.filterMap_cons]
  cases keptId item <;> simp

theorem sanitizeOptionsLoop_ids (H : Host) (hinj : Function.Injective H.randomId)
    (fuel : Nat) :
    ∀ (source : List JsValue) (acc acc1 : Walk DecisionOption),
      sanitizeOptionsLoop H fuel source acc = some acc1 →
      IdsFresh H (acc.items.map (fun o => o.id)
        ++ ((source.filter isObject).take (MAX_OPTIONS - acc.items.length)).filterMap keptId)
        acc.world →
      IdsFresh H (acc1.items.map (fun o => o.id)) acc1.world := by
  intro source
  induction source with
  | nil =>
    intro acc acc1 h hfresh
    simp only [sanitizeOptionsLoop, Option.some.injEq] at h
    subst h
    simpa using hfresh
  | cons item rest ih =>
    intro acc acc1 h hfresh
    unfold sanitizeOptionsLoop at h
    by_cases hfull : acc.items.length ≥ MAX_OPTIONS
    · rw [if_pos hfull] at h
      simp only [Option.some.injEq] at h
      subst h
      have : MAX_OPTIONS - acc.items.length = 0 := by omega
      rw [this] at hfresh
      simpa using hfresh
    · rw [if_neg hfull] at h
      by_cases hobj : isObject item = true
      · simp only [hobj, Bool.not_true, Bool.false_eq_true, if_false] at h
        cases hitem : sanitizeOptionItem H fuel item acc with
        | none =>
          rw [hitem] at h
          exact absurd h (by simp)
        | some acc2 =>
          rw [hitem] at h
          obtain ⟨hids, hw, hlen⟩ := sanitizeOptionItem_ids H fuel item acc acc2 hitem
          apply ih acc2 acc1 h
          have hk : MAX_OPTIONS - acc.items.length = (MAX_OPTIONS - acc2.items.length) + 1 := by
            omega
          rw [List.filter_cons_of_pos hobj, hk, filterMap_take_cons] at hfresh
          rw [hids]
          exact IdsFresh.choose hinj item hfresh acc2.world hw
      · simp only [hobj, Bool.not_false, if_true] at h
        apply ih _ acc1 h
        rw [List.filter_cons_of_neg hobj] at hfresh
        exact hfresh

theorem fillOptions_ids (H : Host) (hinj : Function.Injective H.randomId) (fuel : Nat) :
    ∀ (n : Nat) (acc acc1 : Walk DecisionOption), fillOptions H fuel n acc = some acc1 →
      IdsFresh H (acc.items.map (fun o => o.id)) acc.world →
      IdsFresh H (acc1.items.map (fun o => o.id)) acc1.world := by
  intro n
  induction n with
  | zero =>
    intro acc acc1 h hfresh
    unfold fillOptions at h
    split_ifs at h
    simp only [Option.some.injEq] at h
    subst h
    exact hfresh
  | succ m ih =>
    intro acc acc1 h hfresh
    unfold fillOptions at h
    split_ifs at h with hshort
    · split at h
      · exact absurd h (by simp)
      · rename_i fallbackName used hu
        apply ih _ acc1 h
        simp only [List.map_append, List.map_cons, List.map_nil]
        have h0 : IdsFresh H (acc.items.map (fun o => o.id) ++ []) acc.world := by
          simpa using hfresh
        have := IdsFresh.generate hinj h0 (createOption H fallbackName
          ((((dateNow H acc.world).1 : Int) : Rat) + (acc.ordinal : Rat))
          (dateNow H acc.world).2).2 (by simp [createOption, createId, dateNow])
        simpa [createOption, createId, dateNow] using this
    · simp only [Option.some.injEq] at h
      subst h
      exact hfresh

theorem sanitizeOptions_ids (H : Host) (hinj : Function.Injective H.randomId) (fuel : Nat)
    (input : JsValue) (w : World) (acc : Walk DecisionOption)
    (h : sanitizeOptions H fuel input w = some acc)
    (hfresh : IdsFresh H (payloadIds input MAX_OPTIONS) w) :
    IdsFresh H (acc.items.map (fun o => o.id)) acc.world := by
  unfold sanitizeOptions at h
  split at h
  · exact absurd h (by simp)
  · rename_i acc0 hloop
    apply fillOptions_ids H hinj fuel fuel acc0 acc h
    apply sanitizeOptionsLoop_ids H hinj fuel (sourceOf input) _ acc0 hloop
    simpa [payloadIds] using hfresh

theorem sanitizeCriterionItem_ids (H : Host) (fuel : Nat) (item : JsValue)
    (acc acc1 : Walk Criterion) (h : sanitizeCriterionItem H fuel item acc = some (.ok acc1)) :
    acc1.items.map (fun c => c.id)
        = acc.items.map (fun c => c.id) ++ [(chooseId H item acc.world).1]
      ∧ acc1.world.idCalls = (chooseId H item acc.world).2.idCalls
      ∧ acc1.items.length = acc.items.length + 1 := by
  unfold sanitizeCriterionItem at h
  cases hu : uniqueName H fuel ((rawNameOf item).take MAX_CRITERION_NAME_LENGTH) acc.usedNames
      (units "Criterion") MAX_CRITERION_NAME_LENGTH acc.ordinal with
  | none =>
    simp only [hu] at h
    exact absurd h (by simp)
  | some p =>
    obtain ⟨name, used⟩ := p
    cases hw : toStringRaises (getProp item (units "weight")) with
    | true => simp [hu, clampInt, hw] at h
    | false =>
      simp only [hu, clampInt, hw, Bool.false_eq_true, if_false, Option.some.injEq,
        Except.ok.injEq] at h
      subst h
      simp [chooseCreatedAt_idCalls]

theorem sanitizeCriteriaLoop_ids (H : Host) (hinj : Function.Injective H.randomId)
    (fuel : Nat) :
    ∀ (source : List JsValue) (acc acc1 : Walk Criterion),
      sanitizeCriteriaLoop H fuel source acc = some (.ok acc1) →
      IdsFresh H (acc.items.map (fun c => c.id)
        ++ ((source.filter isObject).take (MAX_CRITERIA - acc.items.length)).filterMap keptId)
        acc.world →
      IdsFresh H (acc1.items.map (fun c => c.id)) acc1.world := by
  intro source
  induction source with
  | nil =>
    intro acc acc1 h hfresh
    simp only [sanitizeCriteriaLoop, Option.some.injEq, Except.ok.injEq] at h
    subst h
    simpa using hfresh
  | cons item rest ih =>
    intro acc acc1 h hfresh
    unfold sanitizeCriteriaLoop at h
    by_cases hfull : acc.items.length ≥ MAX_CRITERIA
    · rw [if_pos hfull] at h
      simp only [Option.some.injEq, Except.ok.injEq] at h
      subst h
      have : MAX_CRITERIA - acc.items.length = 0 := by omega
      rw [this] at hfresh
      simpa using hfresh
    · rw [if_neg hfull] at h
      by_cases hobj : isObject item = true
      · simp only [hobj, Bool.not_true, Bool.false_eq_true, if_false] at h
        cases hitem : sanitizeCriterionItem H fuel item acc with
        | none =>
          rw [hitem] at h
          exact absurd h (by simp)
        | some outcome =>
          rw [hitem] at h
          cases outcome with
          | error e => exact absurd h (by simp)
          | ok acc2 =>
          obtain ⟨hids, hw, hlen⟩ := sanitizeCriterionItem_ids H fuel item acc acc2 hitem
          apply ih acc2 acc1 h
          have hk : MAX_CRITERIA - acc.items.length = (MAX_CRITERIA - acc2.items.length) + 1 := by
            omega
          rw [List.filter_cons_of_pos hobj, hk, filterMap_take_cons] at hfresh
          rw [hids]
          exact IdsFresh.choose hinj item hfresh acc2.world hw
      · simp only [hobj, Bool.not_false, if_true] at h
        apply ih _ acc1 h
        rw [List.filter_cons_of_neg hobj] at hfresh
        exact hfresh

theorem fillCriteria_ids (H : Host) (hinj : Function.Injective H.randomId) (fuel : Nat) :
    ∀ (n : Nat) (acc acc1 : Walk Criterion), fillCriteria H fuel n acc = some acc1 →
      IdsFresh H (acc.items.map (fun c => c.id)) acc.world →
      IdsFresh H (acc1.items.map (fun c => c.id)) acc1.world := by
  intro n
  induction n with
  | zero =>
    intro acc acc1 h hfresh
    unfold fillCriteria at h
    split_ifs at h
    simp only [Option.some.injEq] at h
    subst h
    exact hfresh
  | succ m ih =>
    intro acc acc1 h hfresh
    unfold fillCriteria at h
    split_ifs at h with hshort
    · split at h
      · exact absurd h (by simp)
      · rename_i fallbackName used hu
        apply ih _ acc1 h
        simp only [List.map_append, List.map_cons, List.map_nil]
        have h0 : IdsFresh H (acc.items.map (fun c => c.id) ++ []) acc.world := by
          simpa using hfresh
        have := IdsFresh.generate hinj h0 (createCriterion H fallbackName 3
          ((((dateNow H acc.world).1 : Int) : Rat) + (acc.ordinal : Rat))
          (dateNow H acc.world).2).2 (by simp [createCriterion, createId, dateNow])
        simpa [createCriterion, createId, dateNow] using this
    · simp only [Option.some.injEq] at h
      subst h
      exact hfresh

theorem sanitizeCriteria_ids (H : Host) (hinj : Function.Injective H.randomId) (fuel : Nat)
    (input : JsValue) (w : World) (acc : Walk Criterion)
    (h : sanitizeCriteria H fuel input w = some (.ok acc))
    (hfresh : IdsFresh H (payloadIds input MAX_CRITERIA) w) :
    IdsFresh H (acc.items.map (fun c => c.id)) acc.world := by
  obtain ⟨acc0, hloop, hfill⟩ := sanitizeCriteria_ok H fuel input w acc h
  · apply fillCriteria_ids H hinj fuel fuel acc0 acc hfill
    apply sanitizeCriteriaLoop_ids H hinj fuel (sourceOf input) _ acc0 hloop
    simpa [payloadIds] using hfresh

/-! ## The sanitizer claims -/

theorem garbagePayload_eval :
    summary (sanitizeV1State exampleHost 21 garbagePayload world0)
      = some (.ok (some (true, [],
          [(units "id-0", units "Option 1"), (units "id-1", units "Option 2")],
          [(units "id-2", units "Criterion 1", 3)], []))) := by
  rfl

theorem namesPayload_eval :
    summary (sanitizeV1State exampleHost 21 namesPayload world0)
      = some (.ok (some (true, [],
          [(units "a", units "Price"), (units "b", units "PRICE (2)"),
           (units "c", units "Option 3")],
          [(units "k", units "Cost", 5)], []))) := by
  rfl

theorem arrayPayload_eval :
    summary (sanitizeV1State exampleHost 21 (.arr [.num (.finite 1), .null]) world0)
      = some (.ok (some (true, [],
          [(units "id-0", units "Option 1"), (units "id-1", units "Option 2")],
          [(units "id-2", units "Criterion 1", 3)], []))) := by
  rfl

theorem sanitizeV1State_examples :
    sanitizeV1State exampleHost 21 .null world0 = some (.ok (none, world0))
    ∧ sanitizeV1State exampleHost 21 (.str (units "oops")) world0 = some (.ok (none, world0))
    ∧ (∃ r w1, sanitizeV1State exampleHost 21 garbagePayload world0 = some (.ok (some r, w1))
        ∧ 2 ≤ r.state.options.length ∧ r.state.options.length ≤ 20
        ∧ 1 ≤ r.state.criteria.length ∧ r.state.criteria.length ≤ 20) :=
  ⟨sanitizeV1State_not_object exampleHost 21 .null world0 rfl,
    sanitizeV1State_not_object exampleHost 21 (.str (units "oops")) world0 rfl,
    sanitizeV1State_bounds exampleHost asciiLower_keeps 21 (le_refl _)
      garbagePayload world0 rfl rfl⟩

/-- C7, at the failing input: `unconvertibleWeightPayload` is an object, and
`sanitizeV1State` neither returns `null` nor a state on it: the call
`clampInt(item.weight, 1, 5)` of `sanitizeCriteria` raises a `TypeError`,
which nothing between there and `loadInitialState` catches. -/
theorem sanitizeV1State_raises_on_weight :
    isObject unconvertibleWeightPayload = true
    ∧ clampInt exampleHost (.obj [(units "toString", .num (.finite 0))]) 1 5
        = .error .typeError
    ∧ sanitizeV1State exampleHost 21 unconvertibleWeightPayload world0
        = some (.error .typeError) :=
  ⟨rfl, rfl, rfl⟩

/-- C10, on the example host: the names of `namesPayload` come out as `Price`,
`PRICE (2)` and `Option 3`, and the criterion name as `Cost`. -/
theorem sanitized_names_example :
    KeepsTrailingIndex exampleHost.toLocaleLowerCase
    ∧ isObject namesPayload = true
    ∧ summary (sanitizeV1State exampleHost 21 namesPayload world0)
        = some (.ok (some (true, [],
            [(units "a", units "Price"), (units "b", units "PRICE (2)"),
             (units "c", units "Option 3")],
            [(units "k", units "Cost", 5)], [])))
    ∧ (∃ r w1, sanitizeV1State exampleHost 21 namesPayload world0 = some (.ok (some r, w1))
        ∧ (∀ o ∈ r.state.options,
            o.name ≠ [] ∧ trim o.name = o.name ∧ o.name.length ≤ 60)
        ∧ (r.state.options.map (fun o => o.name)).Pairwise
            (fun a b => exampleHost.toLocaleLowerCase a ≠ exampleHost.toLocaleLowerCase b)
        ∧ (∀ c ∈ r.state.criteria,
            c.name ≠ [] ∧ trim c.name = c.name ∧ c.name.length ≤ 40)
        ∧ (r.state.criteria.map (fun c => c.name)).Pairwise
            (fun a b => exampleHost.toLocaleLowerCase a ≠ exampleHost.toLocaleLowerCase b)) :=
  ⟨asciiLower_keeps, rfl, namesPayload_eval,
    ((sanitized_names exampleHost asciiLower_keeps 21 (le_refl _) namesPayload world0
      rfl).resolve_left (fun h => absurd h.1 (by decide))).2⟩

/-- C8 fails as stated: on `sharedIdPayload`, whose two options both carry the
id `dup`, `sanitizeV1State` returns both options with the id `dup` and
`repaired = false`. -/
theorem sanitized_shared_id_counterexample :
    ∃ r w1, sanitizeV1State exampleHost 21 sharedIdPayload world0 = some (.ok (some r, w1))
      ∧ r.repaired = false
      ∧ r.state.options.map (fun o => o.id) = [units "dup", units "dup"]
      ∧ ¬ (r.state.options.map (fun o => o.id)).Nodup :=
  ⟨_, _, rfl, rfl, rfl, by decide⟩

/-- C8 (amended): when the non-empty string ids of the accepted option entries
are pairwise distinct, likewise those of the accepted criterion entries, and
the id generator is injective and never returns one of them, the option ids
of the returned state are pairwise distinct and so are its criterion ids;
the only other way a run on an object ends is the `TypeError` of `clampInt`
on a criterion weight. -/
theorem sanitized_ids_distinct (H : Host) (hlow : KeepsTrailingIndex H.toLocaleLowerCase)
    (hinj : Function.Injective H.randomId) (fuel : Nat) (hfuel : 21 ≤ fuel)
    (candidate : JsValue) (w : World) (hobj : isObject candidate = true)
    (hopt : (payloadIds (getProp candidate (units "options")) MAX_OPTIONS).Nodup)
    (hcrit : (payloadIds (getProp candidate (units "criteria")) MAX_CRITERIA).Nodup)
    (hnew : ∀ n, H.randomId n ∉ payloadIds (getProp candidate (units "options")) MAX_OPTIONS
      ∧ H.randomId n ∉ payloadIds (getProp candidate (units "criteria")) MAX_CRITERIA) :
    (sanitizeRaises candidate = true
        ∧ sanitizeV1State H fuel candidate w = some (.error .typeError))
    ∨ (sanitizeRaises candidate = false
        ∧ ∃ r w1, sanitizeV1State H fuel candidate w = some (.ok (some r, w1))
          ∧ (r.state.options.map (fun o => o.id)).Nodup
          ∧ (r.state.criteria.map (fun c => c.id)).Nodup) := by
  refine sanitizeV1State_cases H hlow fuel hfuel candidate w _ (fun hconv => ?_)
  obtain ⟨oacc, cacc, r, w1, ho, hc, hr, hro, hrc, -, -, -, -, -⟩ :=
    sanitizeV1State_spec H hlow fuel hfuel candidate w hobj hconv
  have h1 := sanitizeOptions_ids H hinj fuel _ w oacc ho
    ⟨hopt, fun x hx n _ heq => (hnew n).1 (heq ▸ hx)⟩
  have h2 := sanitizeCriteria_ids H hinj fuel _ oacc.world cacc hc
    ⟨hcrit, fun x hx n _ heq => (hnew n).2 (heq ▸ hx)⟩
  exact ⟨r, w1, hr, by rw [hro]; exact h1.1, by rw [hrc]; exact h2.1⟩

theorem exampleHost_randomId_injective : Function.Injective exampleHost.randomId := by
  intro a b hab
  have h : units "id-" ++ decimal a = units "id-" ++ decimal b := hab
  exact decimal_injective a b (List.append_cancel_left h)

theorem exampleHost_randomId_length (n : Nat) : 4 ≤ (exampleHost.randomId n).length := by
  show 4 ≤ (units "id-" ++ decimal n).length
  have h3 : (units "id-").length = 3 := by decide
  have hpos : 0 < (decimal n).length :=
    List.length_pos.2 (decimalDigits_ne_nil n n)
  rw [List.length_append, h3]
  omega

/-- C8 (amended), on the example host at `namesPayload`, whose ids `a`, `b`, `c`
and `k` are distinct. -/
theorem sanitized_ids_distinct_example :
    summary (sanitizeV1State exampleHost 21 namesPayload world0)
        = some (.ok (some (true, [],
            [(units "a", units "Price"), (units "b", units "PRICE (2)"),
             (units "c", units "Option 3")],
            [(units "k", units "Cost", 5)], [])))
    ∧ (∃ r w1, sanitizeV1State exampleHost 21 namesPayload world0 = some (.ok (some r, w1))
        ∧ (r.state.options.map (fun o => o.id)).Nodup
        ∧ (r.state.criteria.map (fun c => c.id)).Nodup) := by
  refine ⟨namesPayload_eval, ?_⟩
  have ho : payloadIds (getProp namesPayload (units "options")) MAX_OPTIONS
      = [[97], [98], [99]] := by rfl
  have hc : payloadIds (getProp namesPayload (units "criteria")) MAX_CRITERIA
      = [[107]] := by rfl
  refine ((sanitized_ids_distinct exampleHost asciiLower_keeps
    exampleHost_randomId_injective 21 (le_refl _) namesPayload world0 rfl ?_ ?_ ?_).resolve_left
    (fun h => absurd h.1 (by decide))).2
  · rw [ho]; decide
  · rw [hc]; decide
  · intro n
    have hlen := exampleHost_randomId_length n
    rw [ho, hc]
    constructor
    · intro hmem
      simp only [List.mem_cons, List.mem_singleton, List.not_mem_nil, or_false] at hmem
      rcases hmem with h | h | h <;> rw [h] at hlen <;> simp at hlen
    · intro hmem
      simp only [List.mem_singleton] at hmem
      rw [hmem] at hlen
      simp at hlen

/-- C9, at the failing input: on `extraSegmentPayload` the sanitizer keeps the
rating key `a:b:c` (its first two segments `a` and `b` are an option id and
a criterion id), reports no repair, and the key is the rating key of no
option and criterion of the returned state. -/
theorem sanitizeRatings_keeps_extra_segment :
    ∃ r w1, sanitizeV1State exampleHost 21 extraSegmentPayload world0 = some (.ok (some r, w1))
      ∧ r.repaired = false
      ∧ r.state.options.map (fun o => o.id) = [units "a", units "z"]
      ∧ r.state.criteria.map (fun c => c.id) = [units "b"]
      ∧ r.state.ratings.map (fun e => (e.1, ratingValue e.2))
          = [(units "a:b:c", some 3), (units "a:b", some 5)]
      ∧ (∀ o ∈ r.state.options, ∀ c ∈ r.state.criteria,
          units "a:b:c" ≠ ratingKey o.id c.id) :=
  ⟨_, _, rfl, rfl, rfl, rfl, rfl, by decide⟩

/-! ## The mutation handlers -/

theorem units_colon : units ":" = [58] := by decide

theorem ratingKey_startsWith (optionId criterionId : JsString) :
    (optionId ++ units ":") <+: ratingKey optionId criterionId :=
  ⟨criterionId, by simp [ratingKey, units_colon]⟩

theorem ratingKey_endsWith (optionId criterionId : JsString) :
    (units ":" ++ criterionId) <:+ ratingKey optionId criterionId :=
  ⟨optionId, by simp [ratingKey, units_colon]⟩

theorem mem_pruneRatingsByOption (ratings : List (JsString × JsValue)) (optionId : JsString)
    (e : JsString × JsValue) :
    e ∈ pruneRatingsByOption ratings optionId ↔
      e ∈ ratings ∧ ¬ (optionId ++ units ":") <+: e.1 := by
  unfold pruneRatingsByOption
  rw [List.mem_filter, ← List.isPrefixOf_iff_prefix]
  cases (optionId ++ units ":").isPrefixOf e.1 <;> simp

theorem mem_pruneRatingsByCriterion (ratings : List (JsString × JsValue))
    (criterionId : JsString) (e : JsString × JsValue) :
    e ∈ pruneRatingsByCriterion ratings criterionId ↔
      e ∈ ratings ∧ ¬ (units ":" ++ criterionId) <:+ e.1 := by
  unfold pruneRatingsByCriterion
  rw [List.mem_filter, ← List.isSuffixOf_iff_suffix]
  cases (units ":" ++ criterionId).isSuffixOf e.1 <;> simp

theorem deleteOption_ok (H : Host) (s : State) (w : World) (optionId : JsString)
    (h : MIN_OPTIONS < s.options.length) :
    (deleteOption H s w optionId).error = none
    ∧ (deleteOption H s w optionId).state.options
        = s.options.filter (fun option => decide (option.id ≠ optionId))
    ∧ (deleteOption H s w optionId).state.ratings = pruneRatingsByOption s.ratings optionId
    ∧ (deleteOption H s w optionId).state.criteria = s.criteria
    ∧ (deleteOption H s w optionId).state.title = s.title := by
  have : ¬ s.options.length ≤ MIN_OPTIONS := by omega
  simp [deleteOption, this, registerMutation]

theorem deleteCriterion_ok (H : Host) (s : State) (w : World) (criterionId : JsString)
    (h : MIN_CRITERIA < s.criteria.length) :
    (deleteCriterion H s w criterionId).error = none
    ∧ (deleteCriterion H s w criterionId).state.criteria
        = s.criteria.filter (fun criterion => decide (criterion.id ≠ criterionId))
    ∧ (deleteCriterion H s w criterionId).state.ratings
        = pruneRatingsByCriterion s.ratings criterionId
    ∧ (deleteCriterion H s w criterionId).state.options = s.options
    ∧ (deleteCriterion H s w criterionId).state.title = s.title := by
  have : ¬ s.criteria.length ≤ MIN_CRITERIA := by omega
  simp [deleteCriterion, this, registerMutation]

/-- C13: in a model whose rating keys all belong to an existing option and an
existing criterion, `deleteOption` with more than 2 options leaves no option
with the id and no rating under a key of that option, `deleteCriterion` with
more than 1 criterion does the same for a criterion, and afterwards every
rating key still belongs to an existing option and an existing criterion. -/
theorem delete_cascades (H : Host) (s : State) (w : World) (id : JsString)
    (hlive : RatingsLive s) :
    (MIN_OPTIONS < s.options.length →
      (deleteOption H s w id).error = none
      ∧ (∀ o ∈ (deleteOption H s w id).state.options, o.id ≠ id)
      ∧ (∀ o ∈ s.options, o.id ≠ id → o ∈ (deleteOption H s w id).state.options)
      ∧ (∀ e ∈ (deleteOption H s w id).state.ratings, ∀ c : JsString, e.1 ≠ ratingKey id c)
      ∧ RatingsLive (deleteOption H s w id).state)
    ∧ (MIN_CRITERIA < s.criteria.length →
      (deleteCriterion H s w id).error = none
      ∧ (∀ c ∈ (deleteCriterion H s w id).state.criteria, c.id ≠ id)
      ∧ (∀ c ∈ s.criteria, c.id ≠ id → c ∈ (deleteCriterion H s w id).state.criteria)
      ∧ (∀ e ∈ (deleteCriterion H s w id).state.ratings, ∀ o : JsString, e.1 ≠ ratingKey o id)
      ∧ RatingsLive (deleteCriterion H s w id).state) := by
  constructor
  · intro h
    obtain ⟨h1, h2, h3, h4, -⟩ := deleteOption_ok H s w id h
    refine ⟨h1, ?_, ?_, ?_, ?_⟩
    · intro o ho
      rw [h2] at ho
      simpa using (List.mem_filter.1 ho).2
    · intro o ho hne
      rw [h2]
      exact List.mem_filter.2 ⟨ho, by simpa using hne⟩
    · intro e he c heq
      rw [h3] at he
      have := ((mem_pruneRatingsByOption _ _ _).1 he).2
      rw [heq] at this
      exact this (ratingKey_startsWith id c)
    · intro e he
      rw [h3] at he
      obtain ⟨hmem, hnot⟩ := (mem_pruneRatingsByOption _ _ _).1 he
      obtain ⟨o, ho, c, hc, hkey⟩ := hlive e hmem
      have hne : o.id ≠ id := by
        intro heq
        apply hnot
        rw [hkey, heq]
        exact ratingKey_startsWith id c.id
      refine ⟨o, ?_, c, ?_, hkey⟩
      · rw [h2]
        exact List.mem_filter.2 ⟨ho, by simpa using hne⟩
      · rw [h4]
        exact hc
  · intro h
    obtain ⟨h1, h2, h3, h4, -⟩ := deleteCriterion_ok H s w id h
    refine ⟨h1, ?_, ?_, ?_, ?_⟩
    · intro c hc
      rw [h2] at hc
      simpa using (List.mem_filter.1 hc).2
    · intro c hc hne
      rw [h2]
      exact List.mem_filter.2 ⟨hc, by simpa using hne⟩
    · intro e he o heq
      rw [h3] at he
      have := ((mem_pruneRatingsByCriterion _ _ _).1 he).2
      rw [heq] at this
      exact this (ratingKey_endsWith o id)
    · intro e he
      rw [h3] at he
      obtain ⟨hmem, hnot⟩ := (mem_pruneRatingsByCriterion _ _ _).1 he
      obtain ⟨o, ho, c, hc, hkey⟩ := hlive e hmem
      have hne : c.id ≠ id := by
        intro heq
        apply hnot
        rw [hkey, heq]
        exact ratingKey_endsWith o.id id
      refine ⟨o, ?_, c, ?_, hkey⟩
      · rw [h4]
        exact ho
      · rw [h2]
        exact List.mem_filter.2 ⟨hc, by simpa using hne⟩

/-- C15: a rejected mutation reports an error and leaves state and world as
they were: `deleteOption` with at most 2 options, `deleteCriterion` with at
most 1 criterion, the add handlers with 20 entries, and a rename of an
existing entity whose trimmed name fails validation. -/
theorem rejected_mutations_atomic (H : Host) (s : State) (w : World) :
    (∀ id, s.options.length ≤ 2 →
      (deleteOption H s w id).error = some (units "At least 2 options required.")
      ∧ (deleteOption H s w id).state = s ∧ (deleteOption H s w id).world = w)
    ∧ (∀ id, s.criteria.length ≤ 1 →
      (deleteCriterion H s w id).error = some (units "At least 1 criterion required.")
      ∧ (deleteCriterion H s w id).state = s ∧ (deleteCriterion H s w id).world = w)
    ∧ (20 ≤ s.options.length →
      (handleAddOption H s w).error = some (units "You can add up to 20 options.")
      ∧ (handleAddOption H s w).state = s ∧ (handleAddOption H s w).world = w)
    ∧ (20 ≤ s.criteria.length →
      (handleAddCriterion H s w).error = some (units "You can add up to 20 criteria.")
      ∧ (handleAddCriterion H s w).state = s ∧ (handleAddCriterion H s w).world = w)
    ∧ (∀ id rawName, findOption s id ≠ none → validateOptionName H s (trim rawName) id ≠ [] →
      (updateOptionName H s w id rawName).error
          = some (validateOptionName H s (trim rawName) id)
      ∧ (updateOptionName H s w id rawName).state = s
      ∧ (updateOptionName H s w id rawName).world = w)
    ∧ (∀ id rawName, findCriterion s id ≠ none →
      validateCriterionName H s (trim rawName) id ≠ [] →
      (updateCriterionName H s w id rawName).error
          = some (validateCriterionName H s (trim rawName) id)
      ∧ (updateCriterionName H s w id rawName).state = s
      ∧ (updateCriterionName H s w id rawName).world = w) := by
  refine ⟨?_, ?_, ?_, ?_, ?_, ?_⟩
  · intro id h
    have : s.options.length ≤ MIN_OPTIONS := h
    simp [deleteOption, this]
  · intro id h
    have : s.criteria.length ≤ MIN_CRITERIA := h
    simp [deleteCriterion, this]
  · intro h
    have : s.options.length ≥ MAX_OPTIONS := h
    simp [handleAddOption, this]
  · intro h
    have : s.criteria.length ≥ MAX_CRITERIA := h
    simp [handleAddCriterion, this]
  · intro id rawName hfind hval
    cases hf : findOption s id with
    | none => exact absurd hf hfind
    | some o => simp [updateOptionName, hf, hval]
  · intro id rawName hfind hval
    cases hf : findCriterion s id with
    | none => exact absurd hf hfind
    | some c => simp [updateCriterionName, hf, hval]

/-! ## Renaming and rating -/

theorem find?_updateFirst {α : Type} (p : α → Bool) (f : α → α) (hp : ∀ x, p x = true → p (f x) = true)
    (l : List α) : (updateFirst p f l).find? p = (l.find? p).map f := by
  induction l with
  | nil => rfl
  | cons x xs ih =>
    by_cases hx : p x = true
    · simp [updateFirst, hx, List.find?_cons, hp x hx]
    · simp [updateFirst, hx, List.find?_cons, ih]

theorem length_updateFirst {α : Type} (p : α → Bool) (f : α → α) (l : List α) :
    (updateFirst p f l).length = l.length := by
  induction l with
  | nil => rfl
  | cons x xs ih =>
    by_cases hx : p x = true <;> simp [updateFirst, hx, ih]

theorem validateOptionLoop_ne_nil (H : Host) (normalized optionId : JsString)
    (options : List DecisionOption) :
    validateOptionLoop H normalized optionId options ≠ [] ↔
      ∃ o ∈ options, o.id ≠ optionId ∧ H.toLocaleLowerCase (trim o.name) = normalized := by
  induction options with
  | nil => simp [validateOptionLoop]
  | cons o rest ih =>
    unfold validateOptionLoop
    by_cases hid : o.id = optionId
    · simp [hid, ih]
    · by_cases hn : H.toLocaleLowerCase (trim o.name) = normalized
      · have hmsg : units "Option names must be unique." ≠ [] := by decide
        simp [hid, hn, hmsg]
      · simp [hid, hn, ih]

theorem validateCriterionLoop_ne_nil (H : Host) (normalized criterionId : JsString)
    (criteria : List Criterion) :
    validateCriterionLoop H normalized criterionId criteria ≠ [] ↔
      ∃ c ∈ criteria, c.id ≠ criterionId ∧ H.toLocaleLowerCase (trim c.name) = normalized := by
  induction criteria with
  | nil => simp [validateCriterionLoop]
  | cons c rest ih =>
    unfold validateCriterionLoop
    by_cases hid : c.id = criterionId
    · simp [hid, ih]
    · by_cases hn : H.toLocaleLowerCase (trim c.name) = normalized
      · have hmsg : units "Criterion names must be unique." ≠ [] := by decide
        simp [hid, hn, hmsg]
      · simp [hid, hn, ih]

theorem validateOptionName_ne_nil (H : Host) (s : State) (name optionId : JsString) :
    validateOptionName H s name optionId ≠ [] ↔
      name = [] ∨ MAX_OPTION_NAME_LENGTH < name.length
        ∨ ∃ o ∈ s.options, o.id ≠ optionId
            ∧ H.toLocaleLowerCase (trim o.name) = H.toLocaleLowerCase name := by
  unfold validateOptionName
  have h1 : units "Option name is required." ≠ [] := by decide
  have h2 : units "Option name must be 60 characters or fewer." ≠ [] := by decide
  by_cases hn : name = []
  · simp [hn, h1]
  · by_cases hl : name.length > MAX_OPTION_NAME_LENGTH
    · simp [hn, hl, h2]
    · simp only [hn, if_false, hl, false_or]
      rw [validateOptionLoop_ne_nil]

theorem validateCriterionName_ne_nil (H : Host) (s : State) (name criterionId : JsString) :
    validateCriterionName H s name criterionId ≠ [] ↔
      name = [] ∨ MAX_CRITERION_NAME_LENGTH < name.length
        ∨ ∃ c ∈ s.criteria, c.id ≠ criterionId
            ∧ H.toLocaleLowerCase (trim c.name) = H.toLocaleLowerCase name := by
  unfold validateCriterionName
  have h1 : units "Criterion name is required." ≠ [] := by decide
  have h2 : units "Criterion name must be 40 characters or fewer." ≠ [] := by decide
  by_cases hn : name = []
  · simp [hn, h1]
  · by_cases hl : name.length > MAX_CRITERION_NAME_LENGTH
    · simp [hn, hl, h2]
    · simp only [hn, if_false, hl, false_or]
      rw [validateCriterionLoop_ne_nil]

theorem updateOptionName_spec (H : Host) (s : State) (w : World) (id rawName : JsString)
    (hex : findOption s id ≠ none) :
    ((updateOptionName H s w id rawName).error ≠ none ↔
        validateOptionName H s (trim rawName) id ≠ [])
    ∧ ((updateOptionName H s w id rawName).error ≠ none →
        (updateOptionName H s w id rawName).state = s)
    ∧ ((updateOptionName H s w id rawName).error = none →
        (updateOptionName H s w id rawName).state.options
            = updateFirst (fun option => decide (option.id = id))
                (fun option => { option with name := trim rawName }) s.options
        ∧ findOption (updateOptionName H s w id rawName).state id
            = (findOption s id).map (fun option => { option with name := trim rawName })
        ∧ (updateOptionName H s w id rawName).state.criteria = s.criteria
        ∧ (updateOptionName H s w id rawName).state.ratings = s.ratings
        ∧ (updateOptionName H s w id rawName).state.title = s.title) := by
  cases hf : findOption s id with
  | none => exact absurd hf hex
  | some o =>
    by_cases hval : validateOptionName H s (trim rawName) id = []
    · simp only [updateOptionName, hf, hval, registerMutation]
      simp only [ne_eq, not_true_eq_false, if_false, not_false_eq_true, true_iff, false_iff,
        false_implies, true_implies, and_true, true_and, Option.map_some']
      unfold findOption at hf ⊢
      simp only []
      rw [find?_updateFirst _ _ (fun x hx => by simpa using hx), hf]
      rfl
    · simp [updateOptionName, hf, hval]

theorem updateCriterionName_spec (H : Host) (s : State) (w : World) (id rawName : JsString)
    (hex : findCriterion s id ≠ none) :
    ((updateCriterionName H s w id rawName).error ≠ none ↔
        validateCriterionName H s (trim rawName) id ≠ [])
    ∧ ((updateCriterionName H s w id rawName).error ≠ none →
        (updateCriterionName H s w id rawName).state = s)
    ∧ ((updateCriterionName H s w id rawName).error = none →
        (updateCriterionName H s w id rawName).state.criteria
            = updateFirst (fun criterion => decide (criterion.id = id))
                (fun criterion => { criterion with name := trim rawName }) s.criteria
        ∧ findCriterion (updateCriterionName H s w id rawName).state id
            = (findCriterion s id).map (fun criterion => { criterion with name := trim rawName })
        ∧ (updateCriterionName H s w id rawName).state.options = s.options
        ∧ (updateCriterionName H s w id rawName).state.ratings = s.ratings
        ∧ (updateCriterionName H s w id rawName).state.title = s.title) := by
  cases hf : findCriterion s id with
  | none => exact absurd hf hex
  | some c =>
    by_cases hval : validateCriterionName H s (trim rawName) id = []
    · simp only [updateCriterionName, hf, hval, registerMutation]
      simp only [ne_eq, not_true_eq_false, if_false, not_false_eq_true, true_iff, false_iff,
        false_implies, true_implies, and_true, true_and, Option.map_some']
      unfold findCriterion at hf ⊢
      simp only []
      rw [find?_updateFirst _ _ (fun x hx => by simpa using hx), hf]
      rfl
    · simp [updateCriterionName, hf, hval]

theorem getOwn_setOwn_self (key : JsString) (value : JsValue)
    (l : List (JsString × JsValue)) : getOwn key (setOwn key value l) = some value := by
  induction l with
  | nil => simp [setOwn, getOwn]
  | cons e rest ih =>
    obtain ⟨k, v⟩ := e
    by_cases hk : k = key
    · simp [setOwn, getOwn, hk]
    · simp [setOwn, getOwn, hk, ih]

theorem getOwn_setOwn_other (key other : JsString) (value : JsValue)
    (l : List (JsString × JsValue)) (h : other ≠ key) :
    getOwn other (setOwn key value l) = getOwn other l := by
  induction l with
  | nil =>
    have : ¬ key = other := fun h' => h h'.symm
    simp [setOwn, getOwn, this]
  | cons e rest ih =>
    obtain ⟨k, v⟩ := e
    by_cases hk : k = key
    · have : ¬ key = other := fun h' => h h'.symm
      simp [setOwn, getOwn, hk, this]
    · by_cases hko : k = other
      · subst hko
        simp [setOwn, getOwn, hk]
      · simp [setOwn, getOwn, hk, hko, ih]

theorem mem_setOwn (key : JsString) (value : JsValue) (l : List (JsString × JsValue))
    (e : JsString × JsValue) (he : e ∈ setOwn key value l) : e = (key, value) ∨ e ∈ l := by
  induction l with
  | nil =>
    simp only [setOwn, List.mem_singleton] at he
    exact Or.inl he
  | cons x rest ih =>
    obtain ⟨k, v⟩ := x
    by_cases hk : k = key
    · simp only [setOwn, hk, if_true, List.mem_cons] at he
      rcases he with h | h
      · exact Or.inl h
      · exact Or.inr (List.mem_cons_of_mem _ h)
    · simp only [setOwn, hk, if_false, List.mem_cons] at he
      rcases he with h | h
      · exact Or.inr (h ▸ List.mem_cons_self _ _)
      · rcases ih h with h' | h'
        · exact Or.inl h'
        · exact Or.inr (List.mem_cons_of_mem _ h')

theorem clampIntValue_range (H : Host) (value : JsValue) :
    1 ≤ clampIntValue H value 1 5 ∧ clampIntValue H value 1 5 ≤ 5 := by
  unfold clampIntValue
  split
  · omega
  · omega

theorem setRating_missing (H : Host) (s : State) (w : World) (optionId criterionId : JsString)
    (value : Nat) (h : findOption s optionId = none ∨ findCriterion s criterionId = none) :
    (setRating H s w optionId criterionId value).state = s
      ∧ (setRating H s w optionId criterionId value).world = w := by
  rcases h with h | h <;> simp [setRating, h]

theorem setRating_stores (H : Host) (s : State) (w : World) (optionId criterionId : JsString)
    (value : Nat) (ho : findOption s optionId ≠ none) (hc : findCriterion s criterionId ≠ none) :
    (setRating H s w optionId criterionId value).state.ratings
        = setOwn (ratingKey optionId criterionId) (.num (.finite (value : Rat))) s.ratings
      ∧ (setRating H s w optionId criterionId value).state.options = s.options
      ∧ (setRating H s w optionId criterionId value).state.criteria = s.criteria
      ∧ (setRating H s w optionId criterionId value).state.title = s.title := by
  cases h1 : findOption s optionId with
  | none => exact absurd h1 ho
  | some o =>
    cases h2 : findCriterion s criterionId with
    | none => exact absurd h2 hc
    | some c => simp [setRating, h1, h2, registerMutation]

theorem colon_split_left (a b c d : JsString) (ha : 58 ∉ a) (hc : 58 ∉ c)
    (h : a ++ 58 :: b = c ++ 58 :: d) : a = c := by
  induction a generalizing c with
  | nil =>
    cases c with
    | nil => rfl
    | cons x xs =>
      simp only [List.nil_append, List.cons_append, List.cons.injEq] at h
      exact absurd (h.1 ▸ List.mem_cons_self _ _) hc
  | cons y ys ih =>
    cases c with
    | nil =>
      simp only [List.nil_append, List.cons_append, List.cons.injEq] at h
      exact absurd (h.1 ▸ List.mem_cons_self _ _) ha
    | cons x xs =>
      simp only [List.cons_append, List.cons.injEq] at h
      simp only [List.mem_cons, not_or] at ha hc
      rw [h.1, ih xs ha.2 hc.2 h.2]

theorem colon_split_right (a b c d : JsString) (hb : 58 ∉ b) (hd : 58 ∉ d)
    (h : a ++ 58 :: b = c ++ 58 :: d) : b = d := by
  rcases List.append_eq_append_iff.1 h with ⟨t, rfl, ht⟩ | ⟨t, rfl, ht⟩
  · cases t with
    | nil =>
      simp only [List.nil_append, List.cons.injEq, true_and] at ht
      exact ht
    | cons x xs =>
      simp only [List.cons_append, List.cons.injEq] at ht
      exact absurd (ht.2 ▸ List.mem_append_right _ (List.mem_cons_self _ _)) hb
  · cases t with
    | nil =>
      simp only [List.nil_append, List.cons.injEq, true_and] at ht
      exact ht.symm
    | cons x xs =>
      simp only [List.cons_append, List.cons.injEq] at ht
      exact absurd (ht.2 ▸ List.mem_append_right _ (List.mem_cons_self _ _)) hd

theorem ratingKey_ne (optionId criterionId o c : JsString)
    (hne : (o, c) ≠ (optionId, criterionId))
    (hfree : (58 ∉ o ∧ 58 ∉ optionId) ∨ (58 ∉ c ∧ 58 ∉ criterionId)) :
    ratingKey o c ≠ ratingKey optionId criterionId := by
  intro h
  unfold ratingKey at h
  rcases hfree with ⟨h1, h2⟩ | ⟨h1, h2⟩
  · have ho := colon_split_left o c optionId criterionId h1 h2 h
    subst ho
    have hc := List.append_cancel_left h
    simp only [List.cons.injEq, true_and] at hc
    exact hne (by rw [hc])
  · have hc := colon_split_right o c optionId criterionId h1 h2 h
    subst hc
    have ho := List.append_cancel_right h
    exact hne (by rw [ho])

theorem ratingValue_stored (n : Nat) (h1 : 1 ≤ n) (h5 : n ≤ 5) :
    ratingValue (.num (.finite (n : Rat))) = some n := by
  unfold ratingValue
  have hden : ((n : Rat)).den = 1 := Rat.den_natCast n
  have hnum : ((n : Rat)).num = (n : Int) := Rat.num_natCast n
  have hcond : ((n : Rat)).den = 1 ∧ 1 ≤ ((n : Rat)).num ∧ ((n : Rat)).num ≤ 5 := by
    rw [hden, hnum]
    omega
  simp only [if_pos hcond, hnum]
  simp
  exact ⟨h1, h5⟩

theorem find?_id_unique {α : Type} (idOf : α → JsString) (id : JsString) (l : List α)
    (hnd : (l.map idOf).Nodup) (target : α)
    (h : l.find? (fun x => decide (idOf x = id)) = some target) (x : α) (hx : x ∈ l) :
    x ≠ target ↔ idOf x ≠ id := by
  have hmem : target ∈ l := List.mem_of_find?_eq_some h
  have hid : idOf target = id := by
    have := List.find?_some h
    simpa using this
  constructor
  · intro hne heq
    exact hne (List.inj_on_of_nodup_map hnd hx hmem (heq.trans hid.symm))
  · intro hne heq
    exact hne (heq ▸ hid)

/-- C16 fails as stated: in `tripleSharedState`, which the sanitizer returns
without a repair, the options `Pizza` and `Salad` both have the id `dup`;
renaming `dup` to `Salad` is accepted and names the first option `Salad`,
although a different option is named `Salad`, because `validateOptionName`
skips every option with the renamed id. -/
theorem rename_shared_id_counterexample :
    (∃ r w1, sanitizeV1State exampleHost 21 tripleSharedPayload world0 = some (.ok (some r, w1))
        ∧ r.repaired = false ∧ r.state = tripleSharedState)
    ∧ (findOption tripleSharedState (units "dup")).map (fun o => o.name)
        = some (units "Pizza")
    ∧ (∃ o ∈ tripleSharedState.options, some o ≠ findOption tripleSharedState (units "dup")
        ∧ exampleHost.toLocaleLowerCase o.name
            = exampleHost.toLocaleLowerCase (trim (units "Salad")))
    ∧ (updateOptionName exampleHost tripleSharedState world0 (units "dup")
        (units "Salad")).error = none
    ∧ (updateOptionName exampleHost tripleSharedState world0 (units "dup")
        (units "Salad")).state.options.map (fun o => (o.id, o.name))
        = [(units "dup", units "Salad"), (units "dup", units "Salad"),
           (units "x", units "Soup")] :=
  ⟨⟨_, _, rfl, rfl, rfl⟩, rfl,
    ⟨{ id := units "dup", name := units "Salad", note := [], createdAt := 2 },
      by decide, by decide, rfl⟩,
    rfl, rfl⟩

/-- C16 (amended): in a model whose option ids are pairwise distinct, the rename
of the existing option `target` is rejected exactly when the trimmed name is
empty, longer than 60 code units, or equal after lower-casing to the
(trimmed) name of an option other than `target`; a rejected rename leaves
the state as it was and an accepted one gives the option the trimmed name
and changes nothing else but `updatedAt`.  Likewise for a criterion with 40
and pairwise distinct criterion ids. -/
theorem rename_rejected_iff (H : Host) (s : State) (w : World) (id rawName : JsString) :
    (∀ target, findOption s id = some target →
      ((s.options.map (fun o => o.id)).Nodup →
        ((updateOptionName H s w id rawName).error ≠ none ↔
          (trim rawName = [] ∨ 60 < (trim rawName).length
            ∨ ∃ o ∈ s.options, o ≠ target
                ∧ H.toLocaleLowerCase (trim o.name) = H.toLocaleLowerCase (trim rawName)))
        ∧ ((∀ o ∈ s.options, trim o.name = o.name) →
            ((updateOptionName H s w id rawName).error ≠ none ↔
              (trim rawName = [] ∨ 60 < (trim rawName).length
                ∨ ∃ o ∈ s.options, o ≠ target
                    ∧ H.toLocaleLowerCase o.name = H.toLocaleLowerCase (trim rawName)))))
      ∧ ((updateOptionName H s w id rawName).error ≠ none →
          (updateOptionName H s w id rawName).state = s)
      ∧ ((updateOptionName H s w id rawName).error = none →
          (updateOptionName H s w id rawName).state.options
              = updateFirst (fun option => decide (option.id = id))
                  (fun option => { option with name := trim rawName }) s.options
          ∧ findOption (updateOptionName H s w id rawName).state id
              = some { target with name := trim rawName }
          ∧ (updateOptionName H s w id rawName).state.criteria = s.criteria
          ∧ (updateOptionName H s w id rawName).state.ratings = s.ratings
          ∧ (updateOptionName H s w id rawName).state.title = s.title))
    ∧ (∀ target, findCriterion s id = some target →
      ((s.criteria.map (fun c => c.id)).Nodup →
        ((updateCriterionName H s w id rawName).error ≠ none ↔
          (trim rawName = [] ∨ 40 < (trim rawName).length
            ∨ ∃ c ∈ s.criteria, c ≠ target
                ∧ H.toLocaleLowerCase (trim c.name) = H.toLocaleLowerCase (trim rawName)))
        ∧ ((∀ c ∈ s.criteria, trim c.name = c.name) →
            ((updateCriterionName H s w id rawName).error ≠ none ↔
              (trim rawName = [] ∨ 40 < (trim rawName).length
                ∨ ∃ c ∈ s.criteria, c ≠ target
                    ∧ H.toLocaleLowerCase c.name = H.toLocaleLowerCase (trim rawName)))))
      ∧ ((updateCriterionName H s w id rawName).error ≠ none →
          (updateCriterionName H s w id rawName).state = s)
      ∧ ((updateCriterionName H s w id rawName).error = none →
          (updateCriterionName H s w id rawName).state.criteria
              = updateFirst (fun criterion => decide (criterion.id = id))
                  (fun criterion => { criterion with name := trim rawName }) s.criteria
          ∧ findCriterion (updateCriterionName H s w id rawName).state id
              = some { target with name := trim rawName }
          ∧ (updateCriterionName H s w id rawName).state.options = s.options
          ∧ (updateCriterionName H s w id rawName).state.ratings = s.ratings
          ∧ (updateCriterionName H s w id rawName).state.title = s.title)) := by
  constructor
  · intro target htarget
    have hex : findOption s id ≠ none := by rw [htarget]; simp
    obtain ⟨h1, h2, h3⟩ := updateOptionName_spec H s w id rawName hex
    refine ⟨?_, h2, ?_⟩
    · intro hnd
      have hother : ∀ o ∈ s.options, (o ≠ target ↔ o.id ≠ id) := fun o ho =>
        find?_id_unique (fun x : DecisionOption => x.id) id s.options hnd target htarget o ho
      have hiff : (updateOptionName H s w id rawName).error ≠ none ↔
          (trim rawName = [] ∨ 60 < (trim rawName).length
            ∨ ∃ o ∈ s.options, o ≠ target
                ∧ H.toLocaleLowerCase (trim o.name)
                    = H.toLocaleLowerCase (trim rawName)) := by
        rw [h1.trans (validateOptionName_ne_nil H s (trim rawName) id)]
        constructor
        · rintro (h | h | ⟨o, ho, hne, heq⟩)
          · exact Or.inl h
          · exact Or.inr (Or.inl h)
          · exact Or.inr (Or.inr ⟨o, ho, (hother o ho).2 hne, heq⟩)
        · rintro (h | h | ⟨o, ho, hne, heq⟩)
          · exact Or.inl h
          · exact Or.inr (Or.inl h)
          · exact Or.inr (Or.inr ⟨o, ho, (hother o ho).1 hne, heq⟩)
      refine ⟨hiff, ?_⟩
      intro htrim
      rw [hiff]
      constructor
      · rintro (h | h | ⟨o, ho, hne, heq⟩)
        · exact Or.inl h
        · exact Or.inr (Or.inl h)
        · exact Or.inr (Or.inr ⟨o, ho, hne, by rw [← htrim o ho]; exact heq⟩)
      · rintro (h | h | ⟨o, ho, hne, heq⟩)
        · exact Or.inl h
        · exact Or.inr (Or.inl h)
        · exact Or.inr (Or.inr ⟨o, ho, hne, by rw [htrim o ho]; exact heq⟩)
    · intro hok
      obtain ⟨k1, k2, k3, k4, k5⟩ := h3 hok
      refine ⟨k1, ?_, k3, k4, k5⟩
      rw [k2, htarget]
      rfl
  · intro target htarget
    have hex : findCriterion s id ≠ none := by rw [htarget]; simp
    obtain ⟨h1, h2, h3⟩ := updateCriterionName_spec H s w id rawName hex
    refine ⟨?_, h2, ?_⟩
    · intro hnd
      have hother : ∀ c ∈ s.criteria, (c ≠ target ↔ c.id ≠ id) := fun c hc =>
        find?_id_unique (fun x : Criterion => x.id) id s.criteria hnd target htarget c hc
      have hiff : (updateCriterionName H s w id rawName).error ≠ none ↔
          (trim rawName = [] ∨ 40 < (trim rawName).length
            ∨ ∃ c ∈ s.criteria, c ≠ target
                ∧ H.toLocaleLowerCase (trim c.name)
                    = H.toLocaleLowerCase (trim rawName)) := by
        rw [h1.trans (validateCriterionName_ne_nil H s (trim rawName) id)]
        constructor
        · rintro (h | h | ⟨c, hc, hne, heq⟩)
          · exact Or.inl h
          · exact Or.inr (Or.inl h)
          · exact Or.inr (Or.inr ⟨c, hc, (hother c hc).2 hne, heq⟩)
        · rintro (h | h | ⟨c, hc, hne, heq⟩)
          · exact Or.inl h
          · exact Or.inr (Or.inl h)
          · exact Or.inr (Or.inr ⟨c, hc, (hother c hc).1 hne, heq⟩)
      refine ⟨hiff, ?_⟩
      intro htrim
      rw [hiff]
      constructor
      · rintro (h | h | ⟨c, hc, hne, heq⟩)
        · exact Or.inl h
        · exact Or.inr (Or.inl h)
        · exact Or.inr (Or.inr ⟨c, hc, hne, by rw [← htrim c hc]; exact heq⟩)
      · rintro (h | h | ⟨c, hc, hne, heq⟩)
        · exact Or.inl h
        · exact Or.inr (Or.inl h)
        · exact Or.inr (Or.inr ⟨c, hc, hne, by rw [htrim c hc]; exact heq⟩)
    · intro hok
      obtain ⟨k1, k2, k3, k4, k5⟩ := h3 hok
      refine ⟨k1, ?_, k3, k4, k5⟩
      rw [k2, htarget]
      rfl

/-- C16 (amended), on the default state of the example host, whose ids are
distinct: renaming the criterion `Price` to `price` is accepted, renaming
option `Option B` to ` option a ` is rejected as a duplicate of the other
option. -/
theorem rename_rejected_iff_example :
    (defaultExample.1.options.map (fun o => o.id)).Nodup
    ∧ (defaultExample.1.criteria.map (fun c => c.id)).Nodup
    ∧ (updateCriterionName exampleHost defaultExample.1 defaultExample.2 (units "id-2")
        (units "price")).error = none
    ∧ (updateCriterionName exampleHost defaultExample.1 defaultExample.2 (units "id-2")
        (units "price")).state.criteria.map (fun c => c.name)
        = [units "price", units "Quality", units "Convenience"]
    ∧ (updateOptionName exampleHost defaultExample.1 defaultExample.2 (units "id-1")
        (units " option a ")).error = some (units "Option names must be unique.")
    ∧ (∃ target, findOption defaultExample.1 (units "id-1") = some target
        ∧ target.name = units "Option B"
        ∧ ((updateOptionName exampleHost defaultExample.1 defaultExample.2 (units "id-1")
            (units " option a ")).error ≠ none ↔
            (trim (units " option a ") = [] ∨ 60 < (trim (units " option a ")).length
              ∨ ∃ o ∈ defaultExample.1.options, o ≠ target
                  ∧ exampleHost.toLocaleLowerCase (trim o.name)
                      = exampleHost.toLocaleLowerCase (trim (units " option a "))))) :=
  ⟨by decide, by decide, rfl, rfl, rfl, _, rfl, rfl,
    (((rename_rejected_iff exampleHost defaultExample.1 defaultExample.2 (units "id-1")
      (units " option a ")).1 _ rfl).1 (by decide)).1⟩

/-- C18 fails as stated: in `sharedKeyState`, which the sanitizer returns
without a repair, option `a` with criterion `b:c` and option `a:b` with
criterion `c` are two pairs with the one rating key `a:b:c`; rating the first
pair with 4 changes the rating of the second pair from none to 4. -/
theorem setRating_shared_key_counterexample :
    (∃ r w1, sanitizeV1State exampleHost 21 sharedKeyPayload world0 = some (.ok (some r, w1))
        ∧ r.repaired = false ∧ r.state = sharedKeyState)
    ∧ (units "a:b", units "c") ≠ (units "a", units "b:c")
    ∧ ratingKey (units "a:b") (units "c") = ratingKey (units "a") (units "b:c")
    ∧ readRating sharedKeyState (units "a:b") (units "c") = 0
    ∧ readRating (handleRatingChange exampleHost sharedKeyState world0 (units "a")
        (units "b:c") (units "4")).state (units "a:b") (units "c") = 4 :=
  ⟨⟨_, _, rfl, rfl, rfl⟩, by decide, rfl, rfl, rfl⟩

/-- C18 (amended): `handleRatingChange`, the one caller of `setRating`, leaves
state and world as they were when the option or the criterion does not
exist. Otherwise the number stored for the pair is the entered one clamped
to 1..5: 1 when `parseInt` of the input gives no number or one below 1, the
number itself from 1 to 5, and 5 above; it replaces the rating of the pair,
the value under every other key stays, and so does the rating of every
other pair whose option id, like the one rated, holds no colon (or whose
criterion id, like the one rated, holds none). Ratings that were integers in
1..5 stay so. `setRating` itself stores the integer it is given. -/
theorem setRating_clamped (H : Host) (s : State) (w : World)
    (optionId criterionId value : JsString) :
    (findOption s optionId = none ∨ findCriterion s criterionId = none →
        (handleRatingChange H s w optionId criterionId value).state = s
        ∧ (handleRatingChange H s w optionId criterionId value).world = w
        ∧ ∀ n : Nat, (setRating H s w optionId criterionId n).state = s
            ∧ (setRating H s w optionId criterionId n).world = w)
    ∧ (optionId ≠ [] → criterionId ≠ [] → findOption s optionId ≠ none →
        findCriterion s criterionId ≠ none →
        (∃ stored : Nat,
          getOwn (ratingKey optionId criterionId)
              (handleRatingChange H s w optionId criterionId value).state.ratings
            = some (.num (.finite (stored : Rat)))
          ∧ readRating (handleRatingChange H s w optionId criterionId value).state
              optionId criterionId = stored
          ∧ (H.parseInt (.str value) = none → stored = 1)
          ∧ (∀ n : Int, H.parseInt (.str value) = some n →
              (n ≤ 1 → stored = 1) ∧ (1 ≤ n → n ≤ 5 → (stored : Int) = n)
              ∧ (5 ≤ n → stored = 5)))
        ∧ (∀ key, key ≠ ratingKey optionId criterionId →
            getOwn key (handleRatingChange H s w optionId criterionId value).state.ratings
              = getOwn key s.ratings)
        ∧ (∀ o c, (o, c) ≠ (optionId, criterionId) →
            (58 ∉ o ∧ 58 ∉ optionId) ∨ (58 ∉ c ∧ 58 ∉ criterionId) →
            readRating (handleRatingChange H s w optionId criterionId value).state o c
              = readRating s o c)
        ∧ (handleRatingChange H s w optionId criterionId value).state.options = s.options
        ∧ (handleRatingChange H s w optionId criterionId value).state.criteria = s.criteria
        ∧ (handleRatingChange H s w optionId criterionId value).state.title = s.title)
    ∧ (∀ n : Nat, findOption s optionId ≠ none → findCriterion s criterionId ≠ none →
        getOwn (ratingKey optionId criterionId)
            (setRating H s w optionId criterionId n).state.ratings
          = some (.num (.finite (n : Rat)))
        ∧ (∀ key, key ≠ ratingKey optionId criterionId →
            getOwn key (setRating H s w optionId criterionId n).state.ratings
              = getOwn key s.ratings))
    ∧ (RatingsInRange s.ratings →
        RatingsInRange (handleRatingChange H s w optionId criterionId value).state.ratings) := by
  have hrange := clampIntValue_range H (.str value)
  refine ⟨?_, ?_, ?_, ?_⟩
  · intro h
    refine ⟨?_, ?_, fun n => setRating_missing H s w optionId criterionId n h⟩
    · unfold handleRatingChange
      split_ifs
      · rfl
      · exact (setRating_missing H s w optionId criterionId _ h).1
    · unfold handleRatingChange
      split_ifs
      · rfl
      · exact (setRating_missing H s w optionId criterionId _ h).2
  · intro ho hc hfo hfc
    have hcall : handleRatingChange H s w optionId criterionId value
        = setRating H s w optionId criterionId (clampIntValue H (.str value) 1 5) := by
      simp [handleRatingChange, ho, hc]
    obtain ⟨k1, k2, k3, k4⟩ := setRating_stores H s w optionId criterionId
      (clampIntValue H (.str value) 1 5) hfo hfc
    rw [hcall]
    refine ⟨⟨clampIntValue H (.str value) 1 5, ?_, ?_, ?_, ?_⟩, ?_, ?_, k2, k3, k4⟩
    · rw [k1]
      exact getOwn_setOwn_self _ _ _
    · simp only [readRating, k1, getOwn_setOwn_self,
        ratingValue_stored _ hrange.1 hrange.2, Option.getD_some]
    · intro hparse
      unfold clampIntValue
      rw [hparse]
    · intro n hparse
      unfold clampIntValue
      rw [hparse]
      refine ⟨?_, ?_, ?_⟩
      · intro h
        show min 5 (max 1 n.toNat) = 1
        omega
      · intro h1 h5
        show ((min 5 (max 1 n.toNat) : Nat) : Int) = n
        omega
      · intro h
        show min 5 (max 1 n.toNat) = 5
        omega
    · intro key hkey
      rw [k1]
      exact getOwn_setOwn_other _ _ _ _ hkey
    · intro o c hne hfree
      unfold readRating
      rw [k1, getOwn_setOwn_other _ _ _ _ (ratingKey_ne optionId criterionId o c hne hfree)]
  · intro n ho hc
    rw [(setRating_stores H s w optionId criterionId n ho hc).1]
    exact ⟨getOwn_setOwn_self _ _ _, fun key hkey => getOwn_setOwn_other _ _ _ _ hkey⟩
  · intro hin
    unfold handleRatingChange
    split_ifs
    · exact hin
    · by_cases hex : findOption s optionId ≠ none ∧ findCriterion s criterionId ≠ none
      · rw [(setRating_stores H s w optionId criterionId _ hex.1 hex.2).1]
        intro e he
        rcases mem_setOwn _ _ _ _ he with h | h
        · exact ⟨clampIntValue H (.str value) 1 5, hrange.1, hrange.2, by rw [h]⟩
        · exact hin e h
      · have hmiss : findOption s optionId = none ∨ findCriterion s criterionId = none := by
          by_contra hcon
          push_neg at hcon
          exact hex hcon
        rw [(setRating_missing H s w optionId criterionId _ hmiss).1]
        exact hin

/-- C18 (amended), on the default state of the example host: for the first
option and the first criterion the input `9` is stored as 5, `3` as 3, `0`
as 1 and `x` as 1; an unknown option id changes nothing. -/
theorem setRating_clamped_example :
    (handleRatingChange exampleHost defaultExample.1 defaultExample.2 (units "id-0")
        (units "id-2") (units "9")).state.ratings.map (fun e => (e.1, ratingValue e.2))
      = [(units "id-0:id-2", some 5)]
    ∧ readRating (handleRatingChange exampleHost defaultExample.1 defaultExample.2
        (units "id-0") (units "id-2") (units "3")).state (units "id-0") (units "id-2") = 3
    ∧ readRating (handleRatingChange exampleHost defaultExample.1 defaultExample.2
        (units "id-0") (units "id-2") (units "0")).state (units "id-0") (units "id-2") = 1
    ∧ readRating (handleRatingChange exampleHost defaultExample.1 defaultExample.2
        (units "id-0") (units "id-2") (units "x")).state (units "id-0") (units "id-2") = 1
    ∧ (handleRatingChange exampleHost defaultExample.1 defaultExample.2 (units "nobody")
        (units "id-2") (units "9")).state = defaultExample.1
    ∧ (∀ o c, (o, c) ≠ (units "id-0", units "id-2") →
        (58 ∉ o ∧ 58 ∉ units "id-0") ∨ (58 ∉ c ∧ 58 ∉ units "id-2") →
        readRating (handleRatingChange exampleHost defaultExample.1 defaultExample.2
            (units "id-0") (units "id-2") (units "9")).state o c
          = readRating defaultExample.1 o c) :=
  ⟨rfl, rfl, rfl, rfl,
    ((setRating_clamped exampleHost defaultExample.1 defaultExample.2 (units "nobody")
      (units "id-2") (units "9")).1 (Or.inl rfl)).1,
    ((setRating_clamped exampleHost defaultExample.1 defaultExample.2 (units "id-0")
      (units "id-2") (units "9")).2.1 (by decide) (by decide) (by decide) (by decide)).2.2.1⟩

/-- C13, on the default state of the example host with a third option and two
ratings: deleting option `id-0` removes its rating and keeps the other. -/
theorem delete_cascades_example :
    RatingsLive ratedExample.1
    ∧ ratedExample.1.ratings.map (fun e => e.1) = [units "id-0:id-2", units "id-1:id-2"]
    ∧ (deleteOption exampleHost ratedExample.1 ratedExample.2 (units "id-0")).state.ratings.map
        (fun e => e.1) = [units "id-1:id-2"]
    ∧ (deleteOption exampleHost ratedExample.1 ratedExample.2 (units "id-0")).state.options.map
        (fun o => o.id) = [units "id-1", units "id-5"]
    ∧ RatingsLive (deleteOption exampleHost ratedExample.1 ratedExample.2 (units "id-0")).state := by
  have hlive : RatingsLive ratedExample.1 := by
    intro e he
    have hkeys : ratedExample.1.ratings.map (fun e => e.1)
        = [units "id-0:id-2", units "id-1:id-2"] := rfl
    have hmem : e.1 ∈ ratedExample.1.ratings.map (fun e => e.1) := List.mem_map_of_mem _ he
    rw [hkeys] at hmem
    have hopt : ratedExample.1.options.map (fun o => o.id)
        = [units "id-0", units "id-1", units "id-5"] := rfl
    have hcrit : ratedExample.1.criteria.map (fun c => c.id)
        = [units "id-2", units "id-3", units "id-4"] := rfl
    have hex : ∀ x ∈ ratedExample.1.options.map (fun o => o.id),
        ∀ y ∈ ratedExample.1.criteria.map (fun c => c.id),
        e.1 = ratingKey x y → ∃ o ∈ ratedExample.1.options, ∃ c ∈ ratedExample.1.criteria,
          e.1 = ratingKey o.id c.id := by
      intro x hx y hy hxy
      obtain ⟨o, ho, rfl⟩ := List.mem_map.1 hx
      obtain ⟨c, hc, rfl⟩ := List.mem_map.1 hy
      exact ⟨o, ho, c, hc, hxy⟩
    simp only [List.mem_cons, List.mem_singleton, List.not_mem_nil, or_false] at hmem
    rcases hmem with h | h
    · exact hex (units "id-0") (by rw [hopt]; decide) (units "id-2") (by rw [hcrit]; decide)
        (by rw [h]; decide)
    · exact hex (units "id-1") (by rw [hopt]; decide) (units "id-2") (by rw [hcrit]; decide)
        (by rw [h]; decide)
  exact ⟨hlive, rfl, rfl, rfl,
    ((delete_cascades exampleHost ratedExample.1 ratedExample.2 (units "id-0") hlive).1
      (by decide)).2.2.2.2⟩

/-- C15, on the default state of the example host, which has exactly 2
options: `deleteOption` reports the error and changes nothing. -/
theorem rejected_mutations_atomic_example :
    defaultExample.1.options.length = 2
    ∧ (deleteOption exampleHost defaultExample.1 defaultExample.2 (units "id-0")).error
        = some (units "At least 2 options required.")
    ∧ (deleteOption exampleHost defaultExample.1 defaultExample.2 (units "id-0")).state
        = defaultExample.1 :=
  ⟨rfl, ((rejected_mutations_atomic exampleHost defaultExample.1 defaultExample.2).1
      (units "id-0") (by decide)).1,
    ((rejected_mutations_atomic exampleHost defaultExample.1 defaultExample.2).1
      (units "id-0") (by decide)).2.1⟩

/-! ## Bounds -/

theorem filter_ne_length {α : Type} (f : α → JsString) (a : JsString) (l : List α)
    (h : (l.map f).Nodup) :
    l.length ≤ (l.filter (fun x => decide (f x ≠ a))).length + 1 := by
  induction l with
  | nil => simp
  | cons x xs ih =>
    simp only [List.map_cons, List.nodup_cons] at h
    by_cases hx : f x = a
    · have hall : xs.filter (fun y => decide (f y ≠ a)) = xs := by
        rw [List.filter_eq_self]
        intro y hy
        have : f y ≠ a := by
          intro hya
          apply h.1
          rw [hx, ← hya]
          exact List.mem_map_of_mem f hy
        exact decide_eq_true this
      rw [List.filter_cons_of_neg (by simpa using hx), hall]
      simp
    · have := ih h.2
      have hd : decide (f x ≠ a) = true := decide_eq_true hx
      rw [List.filter_cons, if_pos hd]
      simp only [List.length_cons]
      omega

theorem registerMutation_state (H : Host) (s : State) (w : World) :
    (registerMutation H s w).1.options = s.options
      ∧ (registerMutation H s w).1.criteria = s.criteria
      ∧ (registerMutation H s w).1.ratings = s.ratings
      ∧ (registerMutation H s w).1.title = s.title :=
  ⟨rfl, rfl, rfl, rfl⟩

theorem Bounds.of_lengths {s t : State} (h : Bounds s)
    (ho : t.options.length = s.options.length) (hc : t.criteria.length = s.criteria.length) :
    Bounds t := by
  unfold Bounds at h ⊢
  rw [ho, hc]
  exact h

/-- C14 fails as stated: `tripleSharedState`, which the sanitizer returns
without a repair for a payload with a repeated option id, has 3 options and 1
criterion, and `deleteOption` of the repeated id leaves a single option. -/
theorem bounds_shared_id_counterexample :
    (∃ r w1, sanitizeV1State exampleHost 21 tripleSharedPayload world0 = some (.ok (some r, w1))
        ∧ r.repaired = false ∧ r.state = tripleSharedState)
    ∧ Bounds tripleSharedState
    ∧ (applyMutation exampleHost (.deleteOption (units "dup")) tripleSharedState
        world0).state.options.map (fun o => o.name) = [units "Soup"]
    ∧ ¬ Bounds (applyMutation exampleHost (.deleteOption (units "dup")) tripleSharedState
        world0).state := by
  refine ⟨⟨_, _, rfl, rfl, rfl⟩, ?_, rfl, ?_⟩
  · unfold Bounds
    decide
  · intro h
    have h1 := h.1
    revert h1
    decide

/-- C14 (amended): in a model within the bounds whose option ids are pairwise
distinct and whose criterion ids are pairwise distinct, the bounds hold after
every mutation, for every argument. -/
theorem bounds_preserved (H : Host) (m : Mutation) (s : State) (w : World) (hb : Bounds s)
    (hoid : (s.options.map (fun o => o.id)).Nodup)
    (hcid : (s.criteria.map (fun c => c.id)).Nodup) :
    Bounds (applyMutation H m s w).state := by
  cases m with
  | titleInput value => exact hb.of_lengths rfl rfl
  | titleChange value => exact hb.of_lengths rfl rfl
  | addOption =>
    show Bounds (handleAddOption H s w).state
    unfold handleAddOption
    split_ifs with hfull
    · exact hb
    · unfold Bounds at hb ⊢
      simp only [registerMutation, List.length_append, List.length_singleton]
      omega
  | addCriterion =>
    show Bounds (handleAddCriterion H s w).state
    unfold handleAddCriterion
    split_ifs with hfull
    · exact hb
    · unfold Bounds at hb ⊢
      simp only [registerMutation, List.length_append, List.length_singleton]
      omega
  | renameOption id rawName =>
    show Bounds (updateOptionName H s w id rawName).state
    unfold updateOptionName
    split
    · exact hb
    · dsimp only
      split_ifs
      · exact hb
      · exact hb.of_lengths (length_updateFirst _ _ _) rfl
  | renameCriterion id rawName =>
    show Bounds (updateCriterionName H s w id rawName).state
    unfold updateCriterionName
    split
    · exact hb
    · dsimp only
      split_ifs
      · exact hb
      · exact hb.of_lengths rfl (length_updateFirst _ _ _)
  | setNote id value =>
    show Bounds (handleOptionInput H s w id value).state
    unfold handleOptionInput
    split_ifs
    · exact hb
    · split
      · exact hb
      · exact hb.of_lengths (length_updateFirst _ _ _) rfl
  | setWeight id value =>
    show Bounds (handleCriterionWeight H s w id value).state
    unfold handleCriterionWeight
    split_ifs
    · exact hb
    · split
      · exact hb
      · exact hb.of_lengths rfl (length_updateFirst _ _ _)
  | deleteOption id =>
    show Bounds (deleteOption H s w id).state
    unfold deleteOption
    split_ifs with hmin
    · exact hb
    · have h1 := filter_ne_length (fun o : DecisionOption => o.id) id s.options hoid
      dsimp only at h1
      have h2 := List.length_filter_le (fun o : DecisionOption => decide (o.id ≠ id)) s.options
      unfold Bounds at hb ⊢
      simp only [registerMutation]
      omega
  | deleteCriterion id =>
    show Bounds (deleteCriterion H s w id).state
    unfold deleteCriterion
    split_ifs with hmin
    · exact hb
    · have h1 := filter_ne_length (fun c : Criterion => c.id) id s.criteria hcid
      dsimp only at h1
      have h2 := List.length_filter_le (fun c : Criterion => decide (c.id ≠ id)) s.criteria
      unfold Bounds at hb ⊢
      simp only [registerMutation]
      omega
  | setRating optionId criterionId value =>
    show Bounds (handleRatingChange H s w optionId criterionId value).state
    unfold handleRatingChange
    split_ifs
    · exact hb
    · unfold setRating
      split_ifs
      · exact hb
      · exact hb.of_lengths rfl rfl
  | clearRating optionId criterionId =>
    show Bounds (handleRatingClick H s w optionId criterionId).state
    unfold handleRatingClick
    split_ifs
    · exact hb
    · exact hb.of_lengths rfl rfl
  | reset =>
    unfold Bounds
    simp [applyMutation, handleReset, createDefaultState, MIN_OPTIONS, MAX_OPTIONS,
      MIN_CRITERIA, MAX_CRITERIA]

/-- C14 (amended), on the default state of the example host: after adding an
option and after deleting one of the three the bounds hold. -/
theorem bounds_preserved_example :
    Bounds ratedExample.1
    ∧ (ratedExample.1.options.map (fun o => o.id)).Nodup
    ∧ (ratedExample.1.criteria.map (fun c => c.id)).Nodup
    ∧ (applyMutation exampleHost (.deleteOption (units "id-0")) ratedExample.1
        ratedExample.2).state.options.map (fun o => o.name)
        = [units "Option B", units "Option 1"]
    ∧ Bounds (applyMutation exampleHost (.deleteOption (units "id-0")) ratedExample.1
        ratedExample.2).state := by
  have hb : Bounds ratedExample.1 := by
    unfold Bounds
    decide
  have h1 : (ratedExample.1.options.map (fun o => o.id)).Nodup := by decide
  have h2 : (ratedExample.1.criteria.map (fun c => c.id)).Nodup := by decide
  exact ⟨hb, h1, h2, rfl,
    bounds_preserved exampleHost (.deleteOption (units "id-0")) ratedExample.1 ratedExample.2
      hb h1 h2⟩

/-! ## Default names of added entries -/

theorem nextNameLoop_least (lower : JsString → JsString) (existing : List JsString)
    (word : JsString) :
    ∀ (n i j : Nat), i ≤ j → j < i + n →
      lower (word ++ units " " ++ decimal j) ∉ existing →
      (∀ t, i ≤ t → t < j → lower (word ++ units " " ++ decimal t) ∈ existing) →
      nextNameLoop lower existing word n i = some (word ++ units " " ++ decimal j) := by
  intro n
  induction n with
  | zero =>
    intro i j hij hj
    omega
  | succ n ih =>
    intro i j hij hj hfree hbelow
    by_cases hji : j = i
    · subst hji
      simp only [nextNameLoop, if_neg hfree]
    · have hi := hbelow i (le_refl _) (by omega)
      simp only [nextNameLoop, hi, if_true]
      exact ih (i + 1) j (by omega) (by omega) hfree
        (fun t ht1 ht2 => hbelow t (by omega) ht2)

theorem exists_free_default (lower : JsString → JsString) (word : JsString)
    (hapart : TellsDefaultsApart lower word) (existing : List JsString) :
    ∃ j, 1 ≤ j ∧ j ≤ existing.length + 1 ∧ lower (word ++ units " " ++ decimal j) ∉ existing := by
  by_contra hcon
  push_neg at hcon
  have hsub : (List.range (existing.length + 1)).map
      (fun i => lower (word ++ units " " ++ decimal (i + 1))) ⊆ existing := by
    intro x hx
    obtain ⟨i, hi, rfl⟩ := List.mem_map.1 hx
    have := List.mem_range.1 hi
    exact hcon (i + 1) (by omega) (by omega)
  have hnd : ((List.range (existing.length + 1)).map
      (fun i => lower (word ++ units " " ++ decimal (i + 1)))).Nodup := by
    apply List.Nodup.map _ (List.nodup_range _)
    intro a b hab
    have := hapart _ _ hab
    omega
  have hlen := (List.subperm_of_subset hnd hsub).length_le
  simp only [List.length_map, List.length_range] at hlen
  omega

theorem least_free_default (lower : JsString → JsString) (word : JsString)
    (hapart : TellsDefaultsApart lower word) (existing : List JsString) :
    ∃ k, 1 ≤ k ∧ k ≤ existing.length + 1
      ∧ lower (word ++ units " " ++ decimal k) ∉ existing
      ∧ ∀ j, 1 ≤ j → j < k → lower (word ++ units " " ++ decimal j) ∈ existing := by
  classical
  have hex : ∃ j, 1 ≤ j ∧ lower (word ++ units " " ++ decimal j) ∉ existing := by
    obtain ⟨j, h1, _, h3⟩ := exists_free_default lower word hapart existing
    exact ⟨j, h1, h3⟩
  refine ⟨Nat.find hex, (Nat.find_spec hex).1, ?_, (Nat.find_spec hex).2, ?_⟩
  · obtain ⟨j, h1, h2, h3⟩ := exists_free_default lower word hapart existing
    exact le_trans (Nat.find_min' hex ⟨h1, h3⟩) h2
  · intro j hj1 hjk
    by_contra hfree
    exact Nat.find_min hex hjk ⟨hj1, hfree⟩

theorem nextNameLoop_default (lower : JsString → JsString) (word : JsString)
    (hapart : TellsDefaultsApart lower word) (existing : List JsString)
    (hlen : existing.length < 999) :
    ∃ k, 1 ≤ k ∧ k ≤ existing.length + 1
      ∧ lower (word ++ units " " ++ decimal k) ∉ existing
      ∧ (∀ j, 1 ≤ j → j < k → lower (word ++ units " " ++ decimal j) ∈ existing)
      ∧ nextNameLoop lower existing word 999 1 = some (word ++ units " " ++ decimal k) := by
  obtain ⟨k, h1, h2, h3, h4⟩ := least_free_default lower word hapart existing
  exact ⟨k, h1, h2, h3, h4,
    nextNameLoop_least lower existing word 999 1 k h1 (by omega) h3 h4⟩

theorem units_option_blank : units "Option" ++ units " " = units "Option " := by decide

theorem units_criterion_blank : units "Criterion" ++ units " " = units "Criterion " := by decide

theorem default_length (word : JsString) (k : Nat) :
    (word ++ units " " ++ decimal k).length ≤ word.length + k + 2 := by
  rw [units_blank]
  have := decimalDigits_length k k
  simp only [List.length_append, List.length_cons, List.length_nil, decimal]
  omega

theorem handleAddOption_spec (H : Host)
    (hapart : TellsDefaultsApart H.toLocaleLowerCase (units "Option"))
    (s : State) (w : World) (hlt : s.options.length < MAX_OPTIONS) :
    ∃ k, 1 ≤ k ∧ k ≤ s.options.length + 1
      ∧ H.toLocaleLowerCase (units "Option " ++ decimal k)
          ∉ s.options.map (fun o => H.toLocaleLowerCase (trim o.name))
      ∧ (∀ j, 1 ≤ j → j < k → H.toLocaleLowerCase (units "Option " ++ decimal j)
          ∈ s.options.map (fun o => H.toLocaleLowerCase (trim o.name)))
      ∧ handleAddOption H s w =
          { state := { s with
              options := s.options ++ [{ id := H.randomId w.idCalls,
                                         name := units "Option " ++ decimal k,
                                         note := [],
                                         createdAt := (H.now w.clockCalls : Rat) }],
              updatedAt := (H.now (w.clockCalls + 1) : Rat) },
            world := { idCalls := w.idCalls + 1, clockCalls := w.clockCalls + 2 },
            error := none } := by
  have hmax : MAX_OPTIONS = 20 := rfl
  rw [hmax] at hlt
  obtain ⟨k, h1, h2, h3, h4, h5⟩ := nextNameLoop_default H.toLocaleLowerCase (units "Option")
    hapart (s.options.map (fun o => H.toLocaleLowerCase (trim o.name)))
    (by rw [List.length_map]; omega)
  rw [List.length_map] at h2
  rw [units_option_blank] at h3 h5
  simp only [units_option_blank] at h4
  refine ⟨k, h1, h2, h3, h4, ?_⟩
  have hlen : (units "Option " ++ decimal k).length ≤ MAX_OPTION_NAME_LENGTH := by
    have := default_length (units "Option") k
    rw [units_option_blank] at this
    have hw : (units "Option").length = 6 := by decide
    have hm : MAX_OPTION_NAME_LENGTH = 60 := rfl
    omega
  have hnot : ¬ s.options.length ≥ MAX_OPTIONS := by
    rw [hmax]
    omega
  simp only [handleAddOption, if_neg hnot, nextOptionName, h5, dateNow, createOption, createId,
    registerMutation, List.take_of_length_le hlen]

theorem handleAddCriterion_spec (H : Host)
    (hapart : TellsDefaultsApart H.toLocaleLowerCase (units "Criterion"))
    (hparse : ParsesDigits H)
    (s : State) (w : World) (hlt : s.criteria.length < MAX_CRITERIA) :
    ∃ k, 1 ≤ k ∧ k ≤ s.criteria.length + 1
      ∧ H.toLocaleLowerCase (units "Criterion " ++ decimal k)
          ∉ s.criteria.map (fun c => H.toLocaleLowerCase (trim c.name))
      ∧ (∀ j, 1 ≤ j → j < k → H.toLocaleLowerCase (units "Criterion " ++ decimal j)
          ∈ s.criteria.map (fun c => H.toLocaleLowerCase (trim c.name)))
      ∧ handleAddCriterion H s w =
          { state := { s with
              criteria := s.criteria ++ [{ id := H.randomId w.idCalls,
                                           name := units "Criterion " ++ decimal k,
                                           weight := 3,
                                           createdAt := (H.now w.clockCalls : Rat) }],
              updatedAt := (H.now (w.clockCalls + 1) : Rat) },
            world := { idCalls := w.idCalls + 1, clockCalls := w.clockCalls + 2 },
            error := none } := by
  have hmax : MAX_CRITERIA = 20 := rfl
  rw [hmax] at hlt
  obtain ⟨k, h1, h2, h3, h4, h5⟩ := nextNameLoop_default H.toLocaleLowerCase (units "Criterion")
    hapart (s.criteria.map (fun c => H.toLocaleLowerCase (trim c.name)))
    (by rw [List.length_map]; omega)
  rw [List.length_map] at h2
  rw [units_criterion_blank] at h3 h5
  simp only [units_criterion_blank] at h4
  refine ⟨k, h1, h2, h3, h4, ?_⟩
  have hlen : (units "Criterion " ++ decimal k).length ≤ MAX_CRITERION_NAME_LENGTH := by
    have := default_length (units "Criterion") k
    rw [units_criterion_blank] at this
    have hw : (units "Criterion").length = 9 := by decide
    have hm : MAX_CRITERION_NAME_LENGTH = 40 := rfl
    omega
  have hnot : ¬ s.criteria.length ≥ MAX_CRITERIA := by
    rw [hmax]
    omega
  have hthree : clampIntValue H (.num (.finite ((3 : Nat) : Rat))) 1 5 = 3 := by
    have := hparse 3 (by omega) (by omega)
    unfold clampIntValue
    rw [this]
    rfl
  simp only [handleAddCriterion, if_neg hnot, nextCriterionName, h5, dateNow, createCriterion,
    createId, registerMutation, List.take_of_length_le hlen, hthree]

theorem nodup_map_snoc {α : Type} (g : α → JsString) (l : List α) (x : α)
    (hfree : g x ∉ l.map g) (hnd : (l.map g).Nodup) : ((l ++ [x]).map g).Nodup := by
  rw [List.map_append, List.nodup_append]
  refine ⟨hnd, by simp, ?_⟩
  intro a ha hb
  simp only [List.map_cons, List.map_nil, List.mem_singleton] at hb
  exact hfree (hb ▸ ha)

theorem trim_option_default (k : Nat) :
    trim (units "Option " ++ decimal k) = units "Option " ++ decimal k := by
  have h := (defaultBase_facts (units "Option") k ⟨79, units "ption", by decide, by decide⟩).2.1
  rwa [units_option_blank] at h

theorem trim_criterion_default (k : Nat) :
    trim (units "Criterion " ++ decimal k) = units "Criterion " ++ decimal k := by
  have h := (defaultBase_facts (units "Criterion") k
    ⟨67, units "riterion", by decide, by decide⟩).2.1
  rwa [units_criterion_blank] at h

theorem asciiLower_decimal (k : Nat) : asciiLower (decimal k) = decimal k := by
  unfold asciiLower
  refine (List.map_congr_left ?_).trans (List.map_id _)
  intro c hc
  have := decimalDigits_digit k k c hc
  have hn : ¬ (65 ≤ c ∧ c ≤ 90) := by omega
  simp [hn]

theorem asciiLower_tells_apart (word : JsString) : TellsDefaultsApart asciiLower word := by
  intro i j h
  have hsplit : ∀ n, asciiLower (word ++ units " " ++ decimal n)
      = asciiLower (word ++ units " ") ++ decimal n := by
    intro n
    have := asciiLower_decimal n
    unfold asciiLower at this ⊢
    rw [List.map_append, this]
  rw [hsplit, hsplit] at h
  exact decimal_injective i j (List.append_cancel_left h)

theorem exampleHost_parsesDigits : ParsesDigits exampleHost := by
  intro n _ _
  show some (Int.tdiv ((n : Rat)).num ((n : Rat)).den) = some (n : Int)
  rw [Rat.num_natCast, Rat.den_natCast]
  simp

/-- C17: with fewer than 20 options `handleAddOption` appends exactly one
option, named `Option k` for the least `k ≥ 1` whose lower-casing is not the
lower-cased (trimmed) name of an existing option; `k ≤ |options| + 1`, the
timestamp fallback is not taken (the clock is read twice, for `createdAt` and
`updatedAt`), the existing options stay in place, trimmed names stay trimmed and
pairwise case-insensitive distinctness is preserved. The same for
`handleAddCriterion` with `Criterion k` and weight 3. The host is assumed to
lower-case different default names differently and to parse the number 3. -/
theorem add_appends_least_default (H : Host)
    (hO : TellsDefaultsApart H.toLocaleLowerCase (units "Option"))
    (hC : TellsDefaultsApart H.toLocaleLowerCase (units "Criterion"))
    (hparse : ParsesDigits H) (s : State) (w : World) :
    (s.options.length < MAX_OPTIONS →
      ∃ k, 1 ≤ k ∧ k ≤ s.options.length + 1
        ∧ (∀ o ∈ s.options, H.toLocaleLowerCase (trim o.name)
            ≠ H.toLocaleLowerCase (units "Option " ++ decimal k))
        ∧ (∀ j, 1 ≤ j → j < k → ∃ o ∈ s.options, H.toLocaleLowerCase (trim o.name)
            = H.toLocaleLowerCase (units "Option " ++ decimal j))
        ∧ handleAddOption H s w =
            { state := { s with
                options := s.options ++ [{ id := H.randomId w.idCalls,
                                           name := units "Option " ++ decimal k,
                                           note := [],
                                           createdAt := (H.now w.clockCalls : Rat) }],
                updatedAt := (H.now (w.clockCalls + 1) : Rat) },
              world := { idCalls := w.idCalls + 1, clockCalls := w.clockCalls + 2 },
              error := none }
        ∧ ((∀ o ∈ s.options, trim o.name = o.name) →
            ∀ o ∈ (handleAddOption H s w).state.options, trim o.name = o.name)
        ∧ ((s.options.map (fun o => H.toLocaleLowerCase (trim o.name))).Nodup →
            ((handleAddOption H s w).state.options.map
              (fun o => H.toLocaleLowerCase (trim o.name))).Nodup))
    ∧ (s.criteria.length < MAX_CRITERIA →
      ∃ k, 1 ≤ k ∧ k ≤ s.criteria.length + 1
        ∧ (∀ c ∈ s.criteria, H.toLocaleLowerCase (trim c.name)
            ≠ H.toLocaleLowerCase (units "Criterion " ++ decimal k))
        ∧ (∀ j, 1 ≤ j → j < k → ∃ c ∈ s.criteria, H.toLocaleLowerCase (trim c.name)
            = H.toLocaleLowerCase (units "Criterion " ++ decimal j))
        ∧ handleAddCriterion H s w =
            { state := { s with
                criteria := s.criteria ++ [{ id := H.randomId w.idCalls,
                                             name := units "Criterion " ++ decimal k,
                                             weight := 3,
                                             createdAt := (H.now w.clockCalls : Rat) }],
                updatedAt := (H.now (w.clockCalls + 1) : Rat) },
              world := { idCalls := w.idCalls + 1, clockCalls := w.clockCalls + 2 },
              error := none }
        ∧ ((∀ c ∈ s.criteria, trim c.name = c.name) →
            ∀ c ∈ (handleAddCriterion H s w).state.criteria, trim c.name = c.name)
        ∧ ((s.criteria.map (fun c => H.toLocaleLowerCase (trim c.name))).Nodup →
            ((handleAddCriterion H s w).state.criteria.map
              (fun c => H.toLocaleLowerCase (trim c.name))).Nodup)) := by
  constructor
  · intro hlt
    obtain ⟨k, h1, h2, h3, h4, h5⟩ := handleAddOption_spec H hO s w hlt
    refine ⟨k, h1, h2, ?_, ?_, h5, ?_, ?_⟩
    · intro o ho heq
      exact h3 (List.mem_map.2 ⟨o, ho, heq⟩)
    · intro j hj1 hj2
      obtain ⟨o, ho, heq⟩ := List.mem_map.1 (h4 j hj1 hj2)
      exact ⟨o, ho, heq⟩
    · intro htrim o ho
      rw [h5] at ho
      rcases List.mem_append.1 ho with h | h
      · exact htrim o h
      · rw [List.mem_singleton.1 h]
        exact trim_option_default k
    · intro hnd
      rw [h5]
      refine nodup_map_snoc (fun o : DecisionOption => H.toLocaleLowerCase (trim o.name))
        s.options _ ?_ hnd
      show H.toLocaleLowerCase (trim (units "Option " ++ decimal k)) ∉ _
      rw [trim_option_default]
      exact h3
  · intro hlt
    obtain ⟨k, h1, h2, h3, h4, h5⟩ := handleAddCriterion_spec H hC hparse s w hlt
    refine ⟨k, h1, h2, ?_, ?_, h5, ?_, ?_⟩
    · intro c hc heq
      exact h3 (List.mem_map.2 ⟨c, hc, heq⟩)
    · intro j hj1 hj2
      obtain ⟨c, hc, heq⟩ := List.mem_map.1 (h4 j hj1 hj2)
      exact ⟨c, hc, heq⟩
    · intro htrim c hc
      rw [h5] at hc
      rcases List.mem_append.1 hc with h | h
      · exact htrim c h
      · rw [List.mem_singleton.1 h]
        exact trim_criterion_default k
    · intro hnd
      rw [h5]
      refine nodup_map_snoc (fun c : Criterion => H.toLocaleLowerCase (trim c.name))
        s.criteria _ ?_ hnd
      show H.toLocaleLowerCase (trim (units "Criterion " ++ decimal k)) ∉ _
      rw [trim_criterion_default]
      exact h3

/-- C17 on the example host: the default state gets `Option 1` and
`Criterion 1`, and a state that already has an `option 1` gets `Option 2`. -/
theorem add_appends_least_default_example :
    (handleAddOption exampleHost defaultExample.1 defaultExample.2).state.options.map
        (fun o => o.name) = [units "Option A", units "Option B", units "Option 1"]
    ∧ (handleAddCriterion exampleHost defaultExample.1 defaultExample.2).state.criteria.map
        (fun c => c.name)
        = [units "Price", units "Quality", units "Convenience", units "Criterion 1"]
    ∧ (handleAddOption exampleHost ratedExample.1 ratedExample.2).state.options.map
        (fun o => o.name)
        = [units "Option A", units "Option B", units "Option 1", units "Option 2"]
    ∧ (∃ k, 1 ≤ k ∧ k ≤ defaultExample.1.options.length + 1
        ∧ (handleAddOption exampleHost defaultExample.1 defaultExample.2).state.options
            = defaultExample.1.options ++ [{ id := units "id-" ++ decimal 5,
                                             name := units "Option " ++ decimal k,
                                             note := [],
                                             createdAt := 1001 }])
    ∧ (∃ k, 1 ≤ k ∧ k ≤ defaultExample.1.criteria.length + 1
        ∧ (handleAddCriterion exampleHost defaultExample.1 defaultExample.2).state.criteria
            = defaultExample.1.criteria ++ [{ id := units "id-" ++ decimal 5,
                                              name := units "Criterion " ++ decimal k,
                                              weight := 3,
                                              createdAt := 1001 }]) := by
  have hmain := add_appends_least_default exampleHost (asciiLower_tells_apart _)
    (asciiLower_tells_apart _) exampleHost_parsesDigits defaultExample.1 defaultExample.2
  refine ⟨rfl, rfl, rfl, ?_, ?_⟩
  · obtain ⟨k, h1, h2, _, _, h5, _⟩ := hmain.1 (by decide)
    refine ⟨k, h1, h2, ?_⟩
    rw [h5]
    simp [defaultExample, createDefaultState, exampleHost, world0, dateNow, createOption,
      createCriterion, createId]
  · obtain ⟨k, h1, h2, _, _, h5, _⟩ := hmain.2 (by decide)
    refine ⟨k, h1, h2, ?_⟩
    rw [h5]
    simp [defaultExample, createDefaultState, exampleHost, world0, dateNow, createOption,
      createCriterion, createId]

/-! ## The name uniqueName chooses -/

theorem uniqueNameLoop_least (H : Host) (used : List JsString) (base : JsString)
    (maxLength : Nat) :
    ∀ (fuel : Nat) (cand : JsString) (k j : Nat), k ≤ j → j < k + fuel →
      H.toLocaleLowerCase cand ∈ used →
      H.toLocaleLowerCase (suffixed base maxLength j) ∉ used →
      (∀ i, k ≤ i → i < j → H.toLocaleLowerCase (suffixed base maxLength i) ∈ used) →
      uniqueNameLoop H used base maxLength fuel cand k = some (suffixed base maxLength j) := by
  intro fuel
  induction fuel with
  | zero =>
    intro cand k j hkj hj
    omega
  | succ f ih =>
    intro cand k j hkj hj hc hfree hbelow
    simp only [uniqueNameLoop, hc, if_true]
    by_cases hjk : j = k
    · subst hjk
      exact uniqueNameLoop_free H used base maxLength f _ _ hfree
    · exact ih _ (k + 1) j (by omega) (by omega) (hbelow k (le_refl _) (by omega)) hfree
        (fun i hi1 hi2 => hbelow i (by omega) hi2)

theorem least_free_index (lower : JsString → JsString) (hlow : KeepsTrailingIndex lower)
    (used : List JsString) (base : JsString) (maxLength : Nat) :
    ∃ j, 2 ≤ j ∧ j ≤ used.length + 2 ∧ lower (suffixed base maxLength j) ∉ used
      ∧ ∀ i, 2 ≤ i → i < j → lower (suffixed base maxLength i) ∈ used := by
  classical
  have hex : ∃ j, 2 ≤ j ∧ lower (suffixed base maxLength j) ∉ used := by
    obtain ⟨j, h1, _, h3⟩ := exists_free_index lower hlow used base maxLength
    exact ⟨j, h1, h3⟩
  refine ⟨Nat.find hex, (Nat.find_spec hex).1, ?_, (Nat.find_spec hex).2, ?_⟩
  · obtain ⟨j, h1, h2, h3⟩ := exists_free_index lower hlow used base maxLength
    exact le_trans (Nat.find_min' hex ⟨h1, h3⟩) h2
  · intro i hi1 hik
    by_contra hfree
    exact Nat.find_min hex hik ⟨hi1, hfree⟩

theorem uniqueName_least (H : Host) (hlow : KeepsTrailingIndex H.toLocaleLowerCase)
    (fuel : Nat) (raw : JsString) (used : List JsString) (word : JsString)
    (maxLength ordinal : Nat) (hfuel : used.length < fuel) :
    ∃ c, uniqueName H fuel raw used word maxLength ordinal
          = some (c, setAdd used (H.toLocaleLowerCase c))
      ∧ (H.toLocaleLowerCase (baseOf raw word maxLength ordinal) ∉ used →
          c = baseOf raw word maxLength ordinal)
      ∧ (H.toLocaleLowerCase (baseOf raw word maxLength ordinal) ∈ used →
          ∃ j, 2 ≤ j ∧ c = suffixed (baseOf raw word maxLength ordinal) maxLength j
            ∧ H.toLocaleLowerCase c ∉ used
            ∧ ∀ i, 2 ≤ i → i < j →
                H.toLocaleLowerCase (suffixed (baseOf raw word maxLength ordinal) maxLength i)
                  ∈ used) := by
  have hunf : uniqueName H fuel raw used word maxLength ordinal
      = match uniqueNameLoop H used (baseOf raw word maxLength ordinal) maxLength fuel
          (baseOf raw word maxLength ordinal) 2 with
        | none => none
        | some candidate => some (candidate, setAdd used (H.toLocaleLowerCase candidate)) := rfl
  by_cases hfree : H.toLocaleLowerCase (baseOf raw word maxLength ordinal) ∈ used
  · obtain ⟨j, hj2, hjlen, hjfree, hbelow⟩ :=
      least_free_index H.toLocaleLowerCase hlow used (baseOf raw word maxLength ordinal) maxLength
    have hloop := uniqueNameLoop_least H used (baseOf raw word maxLength ordinal) maxLength fuel
      (baseOf raw word maxLength ordinal) 2 j hj2 (by omega) hfree hjfree hbelow
    refine ⟨suffixed (baseOf raw word maxLength ordinal) maxLength j, ?_, ?_, ?_⟩
    · rw [hunf, hloop]
    · intro hn
      exact absurd hfree hn
    · intro _
      exact ⟨j, hj2, rfl, hjfree, hbelow⟩
  · have hloop := uniqueNameLoop_free H used (baseOf raw word maxLength ordinal) maxLength fuel
      (baseOf raw word maxLength ordinal) 2 hfree
    refine ⟨baseOf raw word maxLength ordinal, ?_, ?_, ?_⟩
    · rw [hunf, hloop]
    · intro _
      rfl
    · intro hn
      exact absurd hn hfree

theorem NamesOk.mem_used {lower : JsString → JsString} {maxLength : Nat}
    {names used : List JsString} (h : NamesOk lower maxLength names used) (x : JsString) :
    x ∈ used ↔ ∃ n ∈ names, lower n = x := by
  constructor
  · intro hx
    have hnd : (names.map lower).Nodup := List.pairwise_map.2 h.distinct
    have hsub : names.map lower ⊆ used := by
      intro y hy
      obtain ⟨n, hn, rfl⟩ := List.mem_map.1 hy
      exact h.lower_mem n hn
    have hperm := (List.subperm_of_subset hnd hsub).perm_of_length_le
      (by rw [List.length_map, h.used_length])
    obtain ⟨n, hn, hnx⟩ := List.mem_map.1 (hperm.mem_iff.2 hx)
    exact ⟨n, hn, hnx⟩
  · rintro ⟨n, hn, rfl⟩
    exact h.lower_mem n hn

theorem Uniquified.of_used {lower : JsString → JsString} {maxLength nameMax : Nat}
    {names used : List JsString} (h : NamesOk lower nameMax names used)
    (base c : JsString)
    (h1 : lower base ∉ used → c = base)
    (h2 : lower base ∈ used →
      ∃ j, 2 ≤ j ∧ c = suffixed base maxLength j ∧ lower c ∉ used
        ∧ ∀ i, 2 ≤ i → i < j → lower (suffixed base maxLength i) ∈ used) :
    Uniquified lower names base maxLength c := by
  constructor
  · intro hno
    apply h1
    intro hmem
    obtain ⟨n, hn, heq⟩ := (h.mem_used _).1 hmem
    exact hno n hn heq
  · intro hyes
    obtain ⟨j, hj, hc, hfree, hbelow⟩ := h2 ((h.mem_used _).2 hyes)
    refine ⟨j, hj, hc, ?_, ?_⟩
    · intro n hn heq
      exact hfree ((h.mem_used _).2 ⟨n, hn, heq⟩)
    · intro i hi1 hi2
      exact (h.mem_used _).1 (hbelow i hi1 hi2)

theorem sanitizeOptionItem_name (H : Host) (hlow : KeepsTrailingIndex H.toLocaleLowerCase)
    (fuel : Nat) (hfuel : 21 ≤ fuel) (item : JsValue) (acc : Walk DecisionOption)
    (hok : WalkOk H.toLocaleLowerCase MAX_OPTION_NAME_LENGTH MAX_OPTIONS (fun o => o.name) acc)
    (hlen : acc.items.length < MAX_OPTIONS) :
    ∃ acc1 o, sanitizeOptionItem H fuel item acc = some acc1
      ∧ acc1.items = acc.items ++ [o]
      ∧ Uniquified H.toLocaleLowerCase (acc.items.map (fun o => o.name))
          (baseOf ((rawNameOf item).take MAX_OPTION_NAME_LENGTH) (units "Option")
            MAX_OPTION_NAME_LENGTH (acc.items.length + 1))
          MAX_OPTION_NAME_LENGTH o.name := by
  have hul := hok.names.used_length
  have hord := hok.ordinal_eq
  simp only [List.length_map] at hul
  unfold MAX_OPTIONS at hlen
  obtain ⟨c, hc, h1, h2⟩ := uniqueName_least H hlow fuel
    ((rawNameOf item).take MAX_OPTION_NAME_LENGTH) acc.usedNames (units "Option")
    MAX_OPTION_NAME_LENGTH acc.ordinal (by omega)
  rw [hord] at h1 h2
  unfold sanitizeOptionItem
  simp only [hc]
  exact ⟨_, _, rfl, rfl, Uniquified.of_used hok.names _ c h1 h2⟩

theorem sanitizeCriterionItem_name (H : Host) (hlow : KeepsTrailingIndex H.toLocaleLowerCase)
    (fuel : Nat) (hfuel : 21 ≤ fuel) (item : JsValue) (acc : Walk Criterion)
    (hok : WalkOk H.toLocaleLowerCase MAX_CRITERION_NAME_LENGTH MAX_CRITERIA
      (fun c => c.name) acc)
    (hlen : acc.items.length < MAX_CRITERIA)
    (hw : toStringRaises (getProp item (units "weight")) = false) :
    ∃ acc1 c, sanitizeCriterionItem H fuel item acc = some (.ok acc1)
      ∧ acc1.items = acc.items ++ [c]
      ∧ Uniquified H.toLocaleLowerCase (acc.items.map (fun c => c.name))
          (baseOf ((rawNameOf item).take MAX_CRITERION_NAME_LENGTH) (units "Criterion")
            MAX_CRITERION_NAME_LENGTH (acc.items.length + 1))
          MAX_CRITERION_NAME_LENGTH c.name := by
  have hul := hok.names.used_length
  have hord := hok.ordinal_eq
  simp only [List.length_map] at hul
  unfold MAX_CRITERIA at hlen
  obtain ⟨c, hc, h1, h2⟩ := uniqueName_least H hlow fuel
    ((rawNameOf item).take MAX_CRITERION_NAME_LENGTH) acc.usedNames (units "Criterion")
    MAX_CRITERION_NAME_LENGTH acc.ordinal (by omega)
  rw [hord] at h1 h2
  unfold sanitizeCriterionItem
  simp only [hc, clampInt, hw, Bool.false_eq_true, if_false]
  exact ⟨_, _, rfl, rfl, Uniquified.of_used hok.names _ c h1 h2⟩

theorem sanitizeOptionsLoop_cons (H : Host) (fuel : Nat) (item : JsValue) (rest : List JsValue)
    (acc : Walk DecisionOption) :
    sanitizeOptionsLoop H fuel (item :: rest) acc
      = if acc.items.length ≥ MAX_OPTIONS then some { acc with repaired := true }
        else if !isObject item then sanitizeOptionsLoop H fuel rest { acc with repaired := true }
        else
          match sanitizeOptionItem H fuel item acc with
          | none => none
          | some acc1 => sanitizeOptionsLoop H fuel rest acc1 := by
  rw [sanitizeOptionsLoop]

theorem sanitizeOptionsLoop_append (H : Host) (fuel : Nat) (b : List JsValue) :
    ∀ (a : List JsValue) (acc : Walk DecisionOption),
      sanitizeOptionsLoop H fuel (a ++ b) acc
        = (sanitizeOptionsLoop H fuel a acc).bind (sanitizeOptionsLoop H fuel b) := by
  intro a
  induction a with
  | nil =>
    intro acc
    rfl
  | cons item rest ih =>
    intro acc
    simp only [List.cons_append]
    rw [sanitizeOptionsLoop_cons, sanitizeOptionsLoop_cons]
    by_cases hfull : acc.items.length ≥ MAX_OPTIONS
    · simp only [if_pos hfull, Option.some_bind]
      cases b with
      | nil => rfl
      | cons x xs =>
        have hfull2 : ({ acc with repaired := true } : Walk DecisionOption).items.length
            ≥ MAX_OPTIONS := hfull
        rw [sanitizeOptionsLoop_cons, if_pos hfull2]
    · simp only [if_neg hfull]
      by_cases hobj : isObject item = true
      · simp only [hobj, Bool.not_true, Bool.false_eq_true, if_false]
        cases sanitizeOptionItem H fuel item acc with
        | none => rfl
        | some acc1 => exact ih acc1
      · simp only [hobj, Bool.not_false, if_true]
        exact ih _

theorem sanitizeCriteriaLoop_cons (H : Host) (fuel : Nat) (item : JsValue) (rest : List JsValue)
    (acc : Walk Criterion) :
    sanitizeCriteriaLoop H fuel (item :: rest) acc
      = if acc.items.length ≥ MAX_CRITERIA then some (.ok { acc with repaired := true })
        else if !isObject item then sanitizeCriteriaLoop H fuel rest { acc with repaired := true }
        else
          match sanitizeCriterionItem H fuel item acc with
          | none => none
          | some (.error e) => some (.error e)
          | some (.ok acc1) => sanitizeCriteriaLoop H fuel rest acc1 := by
  rw [sanitizeCriteriaLoop]

theorem sanitizeCriteriaLoop_append (H : Host) (fuel : Nat) (b : List JsValue) :
    ∀ (a : List JsValue) (acc : Walk Criterion),
      sanitizeCriteriaLoop H fuel (a ++ b) acc
        = match sanitizeCriteriaLoop H fuel a acc with
          | none => none
          | some (.error e) => some (.error e)
          | some (.ok acc1) => sanitizeCriteriaLoop H fuel b acc1 := by
  intro a
  induction a with
  | nil =>
    intro acc
    rfl
  | cons item rest ih =>
    intro acc
    simp only [List.cons_append]
    rw [sanitizeCriteriaLoop_cons, sanitizeCriteriaLoop_cons]
    by_cases hfull : acc.items.length ≥ MAX_CRITERIA
    · simp only [if_pos hfull]
      cases b with
      | nil => rfl
      | cons x xs =>
        have hfull2 : ({ acc with repaired := true } : Walk Criterion).items.length
            ≥ MAX_CRITERIA := hfull
        rw [sanitizeCriteriaLoop_cons, if_pos hfull2]
    · simp only [if_neg hfull]
      by_cases hobj : isObject item = true
      · simp only [hobj, Bool.not_true, Bool.false_eq_true, if_false]
        cases sanitizeCriterionItem H fuel item acc with
        | none => rfl
        | some outcome =>
          cases outcome with
          | error e => rfl
          | ok acc1 => exact ih acc1
      · simp only [hobj, Bool.not_false, if_true]
        exact ih _

theorem trim_head (s : JsString) (h : trim s ≠ []) :
    ∃ c rest, trim s = c :: rest ∧ isWhiteSpace c = false := by
  have htt := trim_trim s
  cases hx : trim s with
  | nil => exact absurd hx h
  | cons c rest =>
    refine ⟨c, rest, rfl, ?_⟩
    by_contra hc
    have hc1 : isWhiteSpace c = true := by simpa using hc
    rw [hx] at htt
    have hlen : (trim (c :: rest)).length ≤ rest.length := by
      unfold trim
      rw [List.dropWhile_cons, if_pos hc1]
      exact le_trans (List.rdropWhile_prefix _ _).length_le (List.dropWhile_suffix _).length_le
    rw [htt] at hlen
    simp at hlen

theorem trim_cons_ne_nil (c : Nat) (y : JsString) (hc : isWhiteSpace c = false) :
    trim (c :: y) ≠ [] := by
  unfold trim
  rw [List.dropWhile_cons, if_neg (by simp [hc])]
  intro hnil
  rw [List.rdropWhile_eq_nil_iff] at hnil
  have := hnil c (List.mem_cons_self _ _)
  simp [hc] at this

theorem rawNameOf_head (item : JsValue) (h : rawNameOf item ≠ []) :
    ∃ c rest, rawNameOf item = c :: rest ∧ isWhiteSpace c = false := by
  unfold rawNameOf at h ⊢
  generalize getProp item (units "name") = v at h ⊢
  cases v with
  | str s => exact trim_head s h
  | _ => exact absurd rfl h

theorem baseOf_cleaned (item : JsValue) (word : JsString) (m ordinal : Nat) (hm : 0 < m) :
    (rawNameOf item = [] →
      baseOf ((rawNameOf item).take m) word m ordinal
        = (word ++ units " " ++ decimal ordinal).take m)
    ∧ (rawNameOf item ≠ [] →
      baseOf ((rawNameOf item).take m) word m ordinal = trim ((rawNameOf item).take m)) := by
  constructor
  · intro h
    simp [baseOf, h]
  · intro h
    obtain ⟨c, rest, hcr, hc⟩ := rawNameOf_head item h
    obtain ⟨k, rfl⟩ : ∃ k, m = k + 1 := ⟨m - 1, by omega⟩
    have htake : (rawNameOf item).take (k + 1) = c :: rest.take k := by
      rw [hcr, List.take_succ_cons]
    have h1 : (rawNameOf item).take (k + 1) ≠ [] := by
      rw [htake]
      exact List.cons_ne_nil _ _
    have h2 : trim ((rawNameOf item).take (k + 1)) ≠ [] := by
      rw [htake]
      exact trim_cons_ne_nil c _ hc
    have hlen : (trim ((rawNameOf item).take (k + 1))).length ≤ k + 1 :=
      le_trans (trim_length_le _) (by rw [List.length_take]; exact Nat.min_le_left _ _)
    unfold baseOf
    rw [if_pos ⟨h1, h2⟩, List.take_of_length_le hlen]

theorem optionBase_eq (item : JsValue) (ordinal : Nat) (hord : ordinal ≤ 21) :
    (rawNameOf item = [] → optionBase item ordinal = units "Option " ++ decimal ordinal)
    ∧ (rawNameOf item ≠ [] →
        optionBase item ordinal = trim ((rawNameOf item).take MAX_OPTION_NAME_LENGTH)) := by
  obtain ⟨h1, h2⟩ := baseOf_cleaned item (units "Option") MAX_OPTION_NAME_LENGTH ordinal
    (by decide)
  refine ⟨fun h => ?_, h2⟩
  have hlen : (units "Option" ++ units " " ++ decimal ordinal).length
      ≤ MAX_OPTION_NAME_LENGTH := by
    have := default_length (units "Option") ordinal
    have hw : (units "Option").length = 6 := by decide
    have hmx : MAX_OPTION_NAME_LENGTH = 60 := rfl
    omega
  unfold optionBase
  rw [h1 h, List.take_of_length_le hlen, units_option_blank]

theorem criterionBase_eq (item : JsValue) (ordinal : Nat) (hord : ordinal ≤ 21) :
    (rawNameOf item = [] → criterionBase item ordinal = units "Criterion " ++ decimal ordinal)
    ∧ (rawNameOf item ≠ [] →
        criterionBase item ordinal
          = trim ((rawNameOf item).take MAX_CRITERION_NAME_LENGTH)) := by
  obtain ⟨h1, h2⟩ := baseOf_cleaned item (units "Criterion") MAX_CRITERION_NAME_LENGTH ordinal
    (by decide)
  refine ⟨fun h => ?_, h2⟩
  have hlen : (units "Criterion" ++ units " " ++ decimal ordinal).length
      ≤ MAX_CRITERION_NAME_LENGTH := by
    have := default_length (units "Criterion") ordinal
    have hw : (units "Criterion").length = 9 := by decide
    have hmx : MAX_CRITERION_NAME_LENGTH = 40 := rfl
    omega
  unfold criterionBase
  rw [h1 h, List.take_of_length_le hlen, units_criterion_blank]

theorem walkOk_start {α : Type} (lower : JsString → JsString) (maxLength maxCount : Nat)
    (nameOf : α → JsString) (repaired : Bool) (w : World) :
    WalkOk lower maxLength maxCount nameOf
      ({ repaired := repaired, items := [], usedNames := [], ordinal := 1, world := w } :
        Walk α) :=
  ⟨NamesOk.nil lower maxLength, rfl, Nat.zero_le _⟩

/-- C19 fails as stated: of two payload options both named `Price` the second
is returned as `Price (2)`, not as `Option 2`. -/
theorem uniquified_price_counterexample :
    ∃ r w1, sanitizeV1State exampleHost 21 twoPricePayload world0 = some (.ok (some r, w1))
      ∧ r.state.options.map (fun o => o.name) = [units "Price", units "Price (2)"]
      ∧ r.state.options.map (fun o => o.name) ≠ [units "Price", units "Option 2"] :=
  ⟨_, _, rfl, rfl, by decide⟩

/-- C19 (amended): when the `for` loop of `sanitizeOptions` has walked `source`
and accepted fewer than 20 entries, the next entry that is an object is accepted
with a name made from `base`, which is the trimmed, truncated, trimmed-again
payload name when that is non-empty and `Option <ordinal>` otherwise, `ordinal`
being the 1-based position among the accepted entries: the name is `base` when
no accepted name has the same lower-casing, and otherwise `base` cut to leave
room and followed by ` (j)` for the least `j ≥ 2` that gives a name with a
lower-casing no accepted name has. The same for `sanitizeCriteria` with
`Criterion <ordinal>`, where the walk of `source` and the step on the next
entry each end in one more way, the `TypeError` of `clampInt` on a weight
that cannot be converted. -/
theorem uniquified_names (H : Host) (hlow : KeepsTrailingIndex H.toLocaleLowerCase)
    (fuel : Nat) (hfuel : 21 ≤ fuel) (source : List JsValue) (item : JsValue)
    (hobj : isObject item = true) (repaired : Bool) (w : World) :
    (∃ acc, sanitizeOptionsLoop H fuel source
          { repaired := repaired, items := [], usedNames := [], ordinal := 1, world := w }
          = some acc
      ∧ (acc.items.length < MAX_OPTIONS →
          ∃ acc1 o, sanitizeOptionsLoop H fuel (source ++ [item])
              { repaired := repaired, items := [], usedNames := [], ordinal := 1, world := w }
              = some acc1
            ∧ acc1.items = acc.items ++ [o]
            ∧ Uniquified H.toLocaleLowerCase (acc.items.map (fun o => o.name))
                (optionBase item (acc.items.length + 1)) MAX_OPTION_NAME_LENGTH o.name
            ∧ (rawNameOf item = [] → optionBase item (acc.items.length + 1)
                = units "Option " ++ decimal (acc.items.length + 1))
            ∧ (rawNameOf item ≠ [] → optionBase item (acc.items.length + 1)
                = trim ((rawNameOf item).take MAX_OPTION_NAME_LENGTH))))
    ∧ ((criteriaRaise source 0 = true
        ∧ sanitizeCriteriaLoop H fuel source
            { repaired := repaired, items := [], usedNames := [], ordinal := 1, world := w }
            = some (.error .typeError))
      ∨ (criteriaRaise source 0 = false
        ∧ ∃ acc, sanitizeCriteriaLoop H fuel source
            { repaired := repaired, items := [], usedNames := [], ordinal := 1, world := w }
            = some (.ok acc)
        ∧ (acc.items.length < MAX_CRITERIA →
          (toStringRaises (getProp item (units "weight")) = true
            ∧ sanitizeCriteriaLoop H fuel (source ++ [item])
                { repaired := repaired, items := [], usedNames := [], ordinal := 1,
                  world := w }
                = some (.error .typeError))
          ∨ (toStringRaises (getProp item (units "weight")) = false
            ∧ ∃ acc1 c, sanitizeCriteriaLoop H fuel (source ++ [item])
                { repaired := repaired, items := [], usedNames := [], ordinal := 1,
                  world := w }
                = some (.ok acc1)
              ∧ acc1.items = acc.items ++ [c]
              ∧ Uniquified H.toLocaleLowerCase (acc.items.map (fun c => c.name))
                  (criterionBase item (acc.items.length + 1)) MAX_CRITERION_NAME_LENGTH
                  c.name
              ∧ (rawNameOf item = [] → criterionBase item (acc.items.length + 1)
                  = units "Criterion " ++ decimal (acc.items.length + 1))
              ∧ (rawNameOf item ≠ [] → criterionBase item (acc.items.length + 1)
                  = trim ((rawNameOf item).take MAX_CRITERION_NAME_LENGTH)))))) := by
  constructor
  · obtain ⟨acc, hacc, hok⟩ := sanitizeOptionsLoop_spec H hlow fuel hfuel source _
      (walkOk_start H.toLocaleLowerCase MAX_OPTION_NAME_LENGTH MAX_OPTIONS
        (fun o : DecisionOption => o.name) repaired w)
    refine ⟨acc, hacc, fun hlen => ?_⟩
    obtain ⟨acc1, o, hstep, hitems, huniq⟩ :=
      sanitizeOptionItem_name H hlow fuel hfuel item acc hok hlen
    have hfull : ¬ acc.items.length ≥ MAX_OPTIONS := by omega
    have hord : acc.items.length + 1 ≤ 21 := by
      unfold MAX_OPTIONS at hlen
      omega
    refine ⟨acc1, o, ?_, hitems, huniq, (optionBase_eq item _ hord).1,
      (optionBase_eq item _ hord).2⟩
    rw [sanitizeOptionsLoop_append, hacc, Option.some_bind, sanitizeOptionsLoop_cons,
      if_neg hfull]
    simp only [hobj, Bool.not_true, Bool.false_eq_true, if_false, hstep]
    rfl
  · have hstart := walkOk_start H.toLocaleLowerCase MAX_CRITERION_NAME_LENGTH MAX_CRITERIA
      (fun c : Criterion => c.name) repaired w
    cases hraise : criteriaRaise source 0 with
    | true =>
      exact Or.inl ⟨rfl, sanitizeCriteriaLoop_raises H hlow fuel hfuel source _ hstart hraise⟩
    | false =>
      obtain ⟨acc, hacc, hok⟩ := sanitizeCriteriaLoop_spec H hlow fuel hfuel source _
        hstart hraise
      refine Or.inr ⟨rfl, acc, hacc, fun hlen => ?_⟩
      have hfull : ¬ acc.items.length ≥ MAX_CRITERIA := by omega
      cases hw : toStringRaises (getProp item (units "weight")) with
      | true =>
        refine Or.inl ⟨rfl, ?_⟩
        rw [sanitizeCriteriaLoop_append, hacc]
        simp only []
        rw [sanitizeCriteriaLoop_cons, if_neg hfull]
        simp only [hobj, Bool.not_true, Bool.false_eq_true, if_false,
          sanitizeCriterionItem_raises H hlow fuel hfuel item acc hok hlen hw]
      | false =>
        obtain ⟨acc1, c, hstep, hitems, huniq⟩ :=
          sanitizeCriterionItem_name H hlow fuel hfuel item acc hok hlen hw
        have hord : acc.items.length + 1 ≤ 21 := by
          unfold MAX_CRITERIA at hlen
          omega
        refine Or.inr ⟨rfl, acc1, c, ?_, hitems, huniq, (criterionBase_eq item _ hord).1,
          (criterionBase_eq item _ hord).2⟩
        rw [sanitizeCriteriaLoop_append, hacc]
        simp only []
        rw [sanitizeCriteriaLoop_cons, if_neg hfull]
        simp only [hobj, Bool.not_true, Bool.false_eq_true, if_false, hstep]
        rfl

/-- C19 (amended), on the example host: after one entry named `Price` a second
entry named `Price` is accepted as `Price (2)`. -/
theorem uniquified_names_example :
    (sanitizeOptionsLoop exampleHost 21 ([priceEntryA] ++ [priceEntryB])
        { repaired := false, items := [], usedNames := [], ordinal := 1, world := world0 }).map
        (fun acc => acc.items.map (fun o => o.name))
      = some [units "Price", units "Price (2)"]
    ∧ optionBase priceEntryB 2 = units "Price"
    ∧ suffixed (units "Price") MAX_OPTION_NAME_LENGTH 2 = units "Price (2)"
    ∧ ∃ acc, sanitizeOptionsLoop exampleHost 21 [priceEntryA]
          { repaired := false, items := [], usedNames := [], ordinal := 1, world := world0 }
          = some acc
      ∧ (acc.items.length < MAX_OPTIONS →
          ∃ acc1 o, sanitizeOptionsLoop exampleHost 21 ([priceEntryA] ++ [priceEntryB])
              { repaired := false, items := [], usedNames := [], ordinal := 1, world := world0 }
              = some acc1
            ∧ acc1.items = acc.items ++ [o]
            ∧ Uniquified exampleHost.toLocaleLowerCase (acc.items.map (fun o => o.name))
                (optionBase priceEntryB (acc.items.length + 1)) MAX_OPTION_NAME_LENGTH o.name
            ∧ (rawNameOf priceEntryB = [] → optionBase priceEntryB (acc.items.length + 1)
                = units "Option " ++ decimal (acc.items.length + 1))
            ∧ (rawNameOf priceEntryB ≠ [] → optionBase priceEntryB (acc.items.length + 1)
                = trim ((rawNameOf priceEntryB).take MAX_OPTION_NAME_LENGTH))) :=
  ⟨rfl, by decide, by decide,
    (uniquified_names exampleHost asciiLower_keeps 21 (le_refl _) [priceEntryA] priceEntryB rfl
      false world0).1⟩

/-! ## The loop of sanitizeRatings as a filter -/

theorem setOwn_fresh (key : JsString) (value : JsValue) :
    ∀ (items : List (JsString × JsValue)), key ∉ items.map (fun e => e.1) →
      setOwn key value items = items ++ [(key, value)] := by
  intro items
  induction items with
  | nil => intro _; rfl
  | cons e rest ih =>
    intro h
    obtain ⟨k, v⟩ := e
    simp only [List.map_cons, List.mem_cons, not_or] at h
    have hk : ¬ k = key := fun hkk => h.1 hkk.symm
    simp only [setOwn, if_neg hk, ih h.2, List.cons_append]

theorem ratingValue_isSome (v : JsValue) (h : (ratingValue v).isSome = true) :
    ∃ q, v = .num (.finite q) := by
  cases v with
  | num n =>
    cases n with
    | finite q => exact ⟨q, rfl⟩
    | _ => simp [ratingValue] at h
  | _ => simp [ratingValue] at h

theorem sanitizeRatingsLoop_cons (optionIds criterionIds : List JsString)
    (key : JsString) (value : JsValue) (rest : List (JsString × JsValue))
    (acc : Bool × List (JsString × JsValue)) :
    sanitizeRatingsLoop optionIds criterionIds ((key, value) :: rest) acc
      = if !hasPart optionIds (splitColon key).head?
            || !hasPart criterionIds ((splitColon key).tail.head?) then
          sanitizeRatingsLoop optionIds criterionIds rest (true, acc.2)
        else
          match value with
          | .null => sanitizeRatingsLoop optionIds criterionIds rest (true, acc.2)
          | _ =>
            if (ratingValue value).isNone then
              sanitizeRatingsLoop optionIds criterionIds rest (true, acc.2)
            else sanitizeRatingsLoop optionIds criterionIds rest (acc.1, setOwn key value acc.2) := by
  rfl

theorem sanitizeRatingsLoop_cons_keep (optionIds criterionIds : List JsString)
    (e : JsString × JsValue) (rest : List (JsString × JsValue))
    (acc : Bool × List (JsString × JsValue))
    (h : keepsRating optionIds criterionIds e = true) :
    sanitizeRatingsLoop optionIds criterionIds (e :: rest) acc
      = sanitizeRatingsLoop optionIds criterionIds rest (acc.1, setOwn e.1 e.2 acc.2) := by
  obtain ⟨key, value⟩ := e
  unfold keepsRating at h
  simp only [Bool.and_eq_true] at h
  obtain ⟨⟨h1, h2⟩, h3⟩ := h
  obtain ⟨q, rfl⟩ := ratingValue_isSome value h3
  have h3n : (ratingValue (.num (.finite q))).isNone = false := by
    cases hr : ratingValue (.num (.finite q)) with
    | none => rw [hr] at h3; simp at h3
    | some n => rfl
  rw [sanitizeRatingsLoop_cons]
  simp only [h1, h2, h3n, Bool.not_true, Bool.or_self, Bool.false_eq_true, if_false]

theorem sanitizeRatingsLoop_cons_drop (optionIds criterionIds : List JsString)
    (e : JsString × JsValue) (rest : List (JsString × JsValue))
    (acc : Bool × List (JsString × JsValue))
    (h : keepsRating optionIds criterionIds e = false) :
    sanitizeRatingsLoop optionIds criterionIds (e :: rest) acc
      = sanitizeRatingsLoop optionIds criterionIds rest (true, acc.2) := by
  obtain ⟨key, value⟩ := e
  unfold keepsRating at h
  rw [sanitizeRatingsLoop_cons]
  by_cases hparts : (!hasPart optionIds (splitColon key).head?
      || !hasPart criterionIds ((splitColon key).tail.head?)) = true
  · simp only [hparts, if_true]
  · simp only [hparts, Bool.false_eq_true, if_false]
    simp only [Bool.or_eq_true, Bool.not_eq_true', not_or, Bool.not_eq_false] at hparts
    simp only [hparts.1, hparts.2, Bool.and_self, Bool.true_and] at h
    have hn : (ratingValue value).isNone = true := by
      cases hr : ratingValue value with
      | none => rfl
      | some n => rw [hr] at h; simp at h
    cases value <;> simp only [hn, if_true]

theorem sanitizeRatingsLoop_filter (optionIds criterionIds : List JsString) :
    ∀ (entries : List (JsString × JsValue)) (acc : Bool × List (JsString × JsValue)),
      (entries.map (fun e => e.1)).Nodup →
      (∀ e ∈ entries, e.1 ∉ acc.2.map (fun e => e.1)) →
      sanitizeRatingsLoop optionIds criterionIds entries acc
        = (acc.1 || entries.any (fun e => !keepsRating optionIds criterionIds e),
           acc.2 ++ entries.filter (keepsRating optionIds criterionIds)) := by
  intro entries
  induction entries with
  | nil =>
    intro acc _ _
    simp [sanitizeRatingsLoop]
  | cons e rest ih =>
    intro acc hnd hfresh
    simp only [List.map_cons, List.nodup_cons] at hnd
    by_cases hk : keepsRating optionIds criterionIds e = true
    · rw [sanitizeRatingsLoop_cons_keep _ _ _ _ _ hk,
        setOwn_fresh _ _ _ (hfresh e (List.mem_cons_self _ _))]
      rw [ih _ hnd.2]
      · simp [List.filter_cons, hk]
      · intro x hx
        simp only [List.map_append, List.map_cons, List.map_nil, List.mem_append,
          List.mem_singleton, not_or]
        refine ⟨hfresh x (List.mem_cons_of_mem _ hx), ?_⟩
        intro hxe
        exact hnd.1 (hxe ▸ List.mem_map_of_mem (fun e => e.1) hx)
    · have hk2 : keepsRating optionIds criterionIds e = false := by simpa using hk
      rw [sanitizeRatingsLoop_cons_drop _ _ _ _ _ hk2, ih _ hnd.2]
      · simp [List.filter_cons, hk2]
      · intro x hx
        exact hfresh x (List.mem_cons_of_mem _ hx)

theorem ownEntries_subset :
    ∀ (fields : List (JsString × JsValue)) (e : JsString × JsValue),
      e ∈ ownEntries fields → e ∈ fields := by
  intro fields
  induction fields with
  | nil => intro e h; simp [ownEntries] at h
  | cons f rest ih =>
    intro e h
    obtain ⟨k, v⟩ := f
    simp only [ownEntries, List.mem_cons, List.mem_filter] at h
    rcases h with h | h
    · exact h ▸ List.mem_cons_self _ _
    · exact List.mem_cons_of_mem _ (ih e h.1)

theorem ownEntries_nodup :
    ∀ (fields : List (JsString × JsValue)), ((ownEntries fields).map (fun e => e.1)).Nodup := by
  intro fields
  induction fields with
  | nil => simp [ownEntries]
  | cons f rest ih =>
    obtain ⟨k, v⟩ := f
    simp only [ownEntries, List.map_cons, List.nodup_cons]
    constructor
    · intro hmem
      obtain ⟨e, he, hek⟩ := List.mem_map.1 hmem
      simp only [List.mem_filter, ne_eq, decide_not, Bool.not_eq_true', decide_eq_false_iff_not]
        at he
      exact he.2 hek
    · exact ((List.filter_sublist _).map _).nodup ih

theorem ownEntries_of_nodup :
    ∀ (fields : List (JsString × JsValue)), (fields.map (fun e => e.1)).Nodup →
      ownEntries fields = fields := by
  intro fields
  induction fields with
  | nil => intro _; rfl
  | cons f rest ih =>
    intro h
    obtain ⟨k, v⟩ := f
    simp only [List.map_cons, List.nodup_cons] at h
    simp only [ownEntries, ih h.2]
    congr 1
    rw [List.filter_eq_self]
    intro e he
    have : e.1 ≠ k := by
      intro hek
      exact h.1 (hek ▸ List.mem_map_of_mem (fun e => e.1) he)
    simpa using this

theorem sanitizeRatings_obj (fields : List (JsString × JsValue))
    (optionIds criterionIds : List JsString) :
    sanitizeRatings (.obj fields) optionIds criterionIds
      = ((ownEntries fields).any (fun e => !keepsRating optionIds criterionIds e),
         (ownEntries fields).filter (keepsRating optionIds criterionIds)) := by
  unfold sanitizeRatings
  simp only []
  rw [sanitizeRatingsLoop_filter _ _ _ _ (ownEntries_nodup fields) (by simp)]
  simp

theorem sanitizeRatings_clean (ratings : List (JsString × JsValue))
    (optionIds criterionIds : List JsString)
    (hnd : (ratings.map (fun e => e.1)).Nodup)
    (hkeep : ∀ e ∈ ratings, keepsRating optionIds criterionIds e = true) :
    sanitizeRatings (.obj ratings) optionIds criterionIds = (false, ratings) := by
  rw [sanitizeRatings_obj, ownEntries_of_nodup _ hnd]
  congr 1
  · rw [List.any_eq_false]
    intro e he
    simp [hkeep e he]
  · rw [List.filter_eq_self]
    exact hkeep

/-! ## The sanitizer on a clean state -/

theorem getProp_optionValue (o : DecisionOption) :
    getProp (optionValue o) (units "id") = .str o.id
      ∧ getProp (optionValue o) (units "name") = .str o.name
      ∧ getProp (optionValue o) (units "note") = .str o.note
      ∧ getProp (optionValue o) (units "createdAt") = .num (.finite o.createdAt) :=
  ⟨rfl, rfl, rfl, rfl⟩

theorem getProp_criterionValue (c : Criterion) :
    getProp (criterionValue c) (units "id") = .str c.id
      ∧ getProp (criterionValue c) (units "name") = .str c.name
      ∧ getProp (criterionValue c) (units "weight") = .num (.finite (c.weight : Rat))
      ∧ getProp (criterionValue c) (units "createdAt") = .num (.finite c.createdAt) :=
  ⟨rfl, rfl, rfl, rfl⟩

theorem getProp_stateValue (s : State) :
    getProp (stateValue s) (units "title") = .str s.title
      ∧ getProp (stateValue s) (units "options") = .arr (s.options.map optionValue)
      ∧ getProp (stateValue s) (units "criteria") = .arr (s.criteria.map criterionValue)
      ∧ getProp (stateValue s) (units "ratings") = .obj s.ratings
      ∧ getProp (stateValue s) (units "updatedAt") = .num (.finite s.updatedAt) :=
  ⟨rfl, rfl, rfl, rfl, rfl⟩

theorem uniqueName_clean (H : Host) (fuel : Nat) (name : JsString) (used : List JsString)
    (word : JsString) (maxLength ordinal : Nat)
    (h1 : name ≠ []) (h2 : trim name = name) (h3 : name.length ≤ maxLength)
    (hfree : H.toLocaleLowerCase name ∉ used) :
    uniqueName H fuel name used word maxLength ordinal
      = some (name, used ++ [H.toLocaleLowerCase name]) := by
  unfold uniqueName
  have hb : (if name ≠ [] ∧ trim name ≠ [] then trim name
      else word ++ units " " ++ decimal ordinal).take maxLength = name := by
    rw [if_pos ⟨h1, by rw [h2]; exact h1⟩, h2, List.take_of_length_le h3]
  simp only [hb, uniqueNameLoop_free H used name maxLength fuel name 2 hfree, setAdd, hfree,
    if_false]

theorem clampIntValue_digit (H : Host) (hparse : ParsesDigits H) (n : Nat) (h1 : 1 ≤ n)
    (h5 : n ≤ 5) : clampIntValue H (.num (.finite (n : Rat))) 1 5 = n := by
  unfold clampIntValue
  rw [hparse n h1 h5]
  simp only [Int.toNat_ofNat]
  omega

theorem sanitizeOptionItem_clean (H : Host) (fuel : Nat) (o : DecisionOption)
    (acc : Walk DecisionOption) (hgood : GoodOption o)
    (hfree : H.toLocaleLowerCase o.name ∉ acc.usedNames) :
    sanitizeOptionItem H fuel (optionValue o) acc
      = some { repaired := acc.repaired, items := acc.items ++ [o],
               usedNames := acc.usedNames ++ [H.toLocaleLowerCase o.name],
               ordinal := acc.ordinal + 1, world := acc.world } := by
  obtain ⟨hid, hnote, hn1, hn2, hn3⟩ := hgood
  obtain ⟨g1, g2, g3, g4⟩ := getProp_optionValue o
  have hraw : rawNameOf (optionValue o) = o.name := by
    unfold rawNameOf
    rw [g2]
    exact hn2
  have hnoteOf : noteOf (optionValue o) = o.note := by
    unfold noteOf
    rw [g3]
    exact List.take_of_length_le hnote
  have hidw : ∀ w, chooseId H (optionValue o) w = (o.id, w) := by
    intro w
    unfold chooseId
    rw [g1]
    simp only [if_pos hid]
  have hcw : ∀ n w, chooseCreatedAt H (optionValue o) n w = (o.createdAt, w, false) := by
    intro n w
    unfold chooseCreatedAt
    rw [g4]
  unfold sanitizeOptionItem
  simp only [hraw, List.take_of_length_le hn3,
    uniqueName_clean H fuel o.name acc.usedNames (units "Option") MAX_OPTION_NAME_LENGTH
      acc.ordinal hn1 hn2 hn3 hfree, hnoteOf, hidw, hcw, g1, g3, strictNeStr, hn1]
  simp

theorem toStringRaises_num (n : JsNumber) : toStringRaises (.num n) = false := rfl

theorem sanitizeCriterionItem_clean (H : Host) (hparse : ParsesDigits H) (fuel : Nat)
    (c : Criterion) (acc : Walk Criterion) (hgood : GoodCriterion c)
    (hfree : H.toLocaleLowerCase c.name ∉ acc.usedNames) :
    sanitizeCriterionItem H fuel (criterionValue c) acc
      = some (.ok { repaired := acc.repaired, items := acc.items ++ [c],
                    usedNames := acc.usedNames ++ [H.toLocaleLowerCase c.name],
                    ordinal := acc.ordinal + 1, world := acc.world }) := by
  obtain ⟨hid, hw1, hw5, hn1, hn2, hn3⟩ := hgood
  obtain ⟨g1, g2, g3, g4⟩ := getProp_criterionValue c
  have hraw : rawNameOf (criterionValue c) = c.name := by
    unfold rawNameOf
    rw [g2]
    exact hn2
  have hidw : ∀ w, chooseId H (criterionValue c) w = (c.id, w) := by
    intro w
    unfold chooseId
    rw [g1]
    simp only [if_pos hid]
  have hcw : ∀ n w, chooseCreatedAt H (criterionValue c) n w = (c.createdAt, w, false) := by
    intro n w
    unfold chooseCreatedAt
    rw [g4]
  unfold sanitizeCriterionItem
  simp only [hraw, List.take_of_length_le hn3,
    uniqueName_clean H fuel c.name acc.usedNames (units "Criterion") MAX_CRITERION_NAME_LENGTH
      acc.ordinal hn1 hn2 hn3 hfree, hidw, hcw, g1, g3, strictNeStr, strictNeInt, hn1,
    clampInt, toStringRaises_num, Bool.false_eq_true, if_false,
    clampIntValue_digit H hparse c.weight hw1 hw5]
  simp

theorem sanitizeOptionsLoop_clean (H : Host) (fuel : Nat) :
    ∀ (os : List DecisionOption) (acc : Walk DecisionOption),
      acc.items.length + os.length ≤ MAX_OPTIONS →
      (∀ o ∈ os, GoodOption o) →
      (∀ o ∈ os, H.toLocaleLowerCase o.name ∉ acc.usedNames) →
      (os.map (fun o => H.toLocaleLowerCase o.name)).Nodup →
      sanitizeOptionsLoop H fuel (os.map optionValue) acc
        = some { repaired := acc.repaired, items := acc.items ++ os,
                 usedNames := acc.usedNames ++ os.map (fun o => H.toLocaleLowerCase o.name),
                 ordinal := acc.ordinal + os.length, world := acc.world } := by
  intro os
  induction os with
  | nil =>
    intro acc _ _ _ _
    simp [sanitizeOptionsLoop]
  | cons o rest ih =>
    intro acc hlen hgood hfree hnd
    simp only [List.map_cons, List.nodup_cons, List.length_cons] at hnd hlen
    have hfull : ¬ acc.items.length ≥ MAX_OPTIONS := by omega
    have hobj : isObject (optionValue o) = true := rfl
    rw [List.map_cons, sanitizeOptionsLoop_cons, if_neg hfull]
    simp only [hobj, Bool.not_true, Bool.false_eq_true, if_false,
      sanitizeOptionItem_clean H fuel o acc (hgood o (List.mem_cons_self _ _))
        (hfree o (List.mem_cons_self _ _))]
    rw [ih _ (by simp only [List.length_append, List.length_singleton]; omega)
      (fun x hx => hgood x (List.mem_cons_of_mem _ hx)) ?_ hnd.2]
    · simp [Nat.add_assoc, Nat.add_comm 1]
    · intro x hx
      simp only [List.mem_append, List.mem_singleton, not_or]
      refine ⟨hfree x (List.mem_cons_of_mem _ hx), ?_⟩
      intro heq
      exact hnd.1 (heq ▸ List.mem_map_of_mem (fun o => H.toLocaleLowerCase o.name) hx)

theorem sanitizeCriteriaLoop_clean (H : Host) (hparse : ParsesDigits H) (fuel : Nat) :
    ∀ (cs : List Criterion) (acc : Walk Criterion),
      acc.items.length + cs.length ≤ MAX_CRITERIA →
      (∀ c ∈ cs, GoodCriterion c) →
      (∀ c ∈ cs, H.toLocaleLowerCase c.name ∉ acc.usedNames) →
      (cs.map (fun c => H.toLocaleLowerCase c.name)).Nodup →
      sanitizeCriteriaLoop H fuel (cs.map criterionValue) acc
        = some (.ok { repaired := acc.repaired, items := acc.items ++ cs,
                      usedNames := acc.usedNames
                        ++ cs.map (fun c => H.toLocaleLowerCase c.name),
                      ordinal := acc.ordinal + cs.length, world := acc.world }) := by
  intro cs
  induction cs with
  | nil =>
    intro acc _ _ _ _
    simp [sanitizeCriteriaLoop]
  | cons c rest ih =>
    intro acc hlen hgood hfree hnd
    simp only [List.map_cons, List.nodup_cons, List.length_cons] at hnd hlen
    have hfull : ¬ acc.items.length ≥ MAX_CRITERIA := by omega
    have hobj : isObject (criterionValue c) = true := rfl
    rw [List.map_cons, sanitizeCriteriaLoop_cons, if_neg hfull]
    simp only [hobj, Bool.not_true, Bool.false_eq_true, if_false,
      sanitizeCriterionItem_clean H hparse fuel c acc (hgood c (List.mem_cons_self _ _))
        (hfree c (List.mem_cons_self _ _))]
    rw [ih _ (by simp only [List.length_append, List.length_singleton]; omega)
      (fun x hx => hgood x (List.mem_cons_of_mem _ hx)) ?_ hnd.2]
    · simp [Nat.add_assoc, Nat.add_comm 1]
    · intro x hx
      simp only [List.mem_append, List.mem_singleton, not_or]
      refine ⟨hfree x (List.mem_cons_of_mem _ hx), ?_⟩
      intro heq
      exact hnd.1 (heq ▸ List.mem_map_of_mem (fun c => H.toLocaleLowerCase c.name) hx)

theorem fillOptions_enough (H : Host) (fuel n : Nat) (acc : Walk DecisionOption)
    (h : MIN_OPTIONS ≤ acc.items.length) : fillOptions H fuel n acc = some acc := by
  have hn : ¬ acc.items.length < MIN_OPTIONS := by omega
  cases n <;> simp [fillOptions, hn]

theorem fillCriteria_enough (H : Host) (fuel n : Nat) (acc : Walk Criterion)
    (h : MIN_CRITERIA ≤ acc.items.length) : fillCriteria H fuel n acc = some acc := by
  have hn : ¬ acc.items.length < MIN_CRITERIA := by omega
  cases n <;> simp [fillCriteria, hn]

/-- On the value of a clean state `sanitizeV1State` returns that state with
`repaired = false` and draws no id and no timestamp, whatever the fuel. -/
theorem sanitizeV1State_clean (H : Host) (hparse : ParsesDigits H) (fuel : Nat) (s : State)
    (w : World) (hclean : CleanState H s) :
    sanitizeV1State H fuel (stateValue s) w
      = some (.ok (some { repaired := false, state := s }, w)) := by
  obtain ⟨htitle, hb, hog, hond, hcg, hcnd, hrnd, hrkeep⟩ := hclean
  obtain ⟨g1, g2, g3, g4, g5⟩ := getProp_stateValue s
  have hobj : isObject (stateValue s) = true := rfl
  have hopts : sanitizeOptions H fuel (.arr (s.options.map optionValue)) w
      = some { repaired := false, items := s.options,
               usedNames := s.options.map (fun o => H.toLocaleLowerCase o.name),
               ordinal := 1 + s.options.length, world := w } := by
    unfold sanitizeOptions
    simp only [sourceOf, isArray, Bool.not_true]
    rw [sanitizeOptionsLoop_clean H fuel s.options _ (by simpa using hb.2.1) hog (by simp) hond]
    simp only [List.nil_append]
    exact fillOptions_enough H fuel fuel _ hb.1
  have hcrit : sanitizeCriteria H fuel (.arr (s.criteria.map criterionValue)) w
      = some (.ok { repaired := false, items := s.criteria,
                    usedNames := s.criteria.map (fun c => H.toLocaleLowerCase c.name),
                    ordinal := 1 + s.criteria.length, world := w }) := by
    unfold sanitizeCriteria
    simp only [sourceOf, isArray, Bool.not_true]
    rw [sanitizeCriteriaLoop_clean H hparse fuel s.criteria _ (by simpa using hb.2.2.2) hcg
      (by simp) hcnd]
    simp only [List.nil_append]
    rw [fillCriteria_enough H fuel fuel _ hb.2.2.1]
    rfl
  unfold sanitizeV1State
  simp only [hobj, Bool.not_true, Bool.false_eq_true, if_false, g2, g3, g4, hopts, hcrit,
    sanitizeRatings_clean s.ratings _ _ hrnd hrkeep, sanitizeTitle, g1, sanitizeUpdatedAt, g5,
    List.take_of_length_le htitle]
  simp

/-! ## What sanitizeV1State returns is clean -/

theorem chooseId_ne_nil (H : Host) (hid : ∀ n, H.randomId n ≠ []) (item : JsValue) (w : World) :
    (chooseId H item w).1 ≠ [] := by
  unfold chooseId
  split
  · next s _ =>
    split_ifs with hs
    · exact hs
    · exact hid _
  · exact hid _

theorem noteOf_length (item : JsValue) : (noteOf item).length ≤ MAX_NOTE_LENGTH := by
  unfold noteOf
  split
  · rw [List.length_take]
    exact Nat.min_le_left _ _
  · exact Nat.zero_le _

theorem sanitizeOptionItem_fields (H : Host) (hid : ∀ n, H.randomId n ≠ []) (fuel : Nat)
    (item : JsValue) (acc acc1 : Walk DecisionOption)
    (h : sanitizeOptionItem H fuel item acc = some acc1)
    (hacc : ∀ o ∈ acc.items, o.id ≠ [] ∧ o.note.length ≤ MAX_NOTE_LENGTH) :
    ∀ o ∈ acc1.items, o.id ≠ [] ∧ o.note.length ≤ MAX_NOTE_LENGTH := by
  unfold sanitizeOptionItem at h
  simp only [] at h
  split at h
  · exact absurd h (by simp)
  · injection h with h
    subst h
    intro o ho
    rcases List.mem_append.1 ho with ho | ho
    · exact hacc o ho
    · rw [List.mem_singleton.1 ho]
      exact ⟨chooseId_ne_nil H hid _ _, noteOf_length _⟩

theorem sanitizeCriterionItem_fields (H : Host) (hid : ∀ n, H.randomId n ≠ []) (fuel : Nat)
    (item : JsValue) (acc acc1 : Walk Criterion)
    (h : sanitizeCriterionItem H fuel item acc = some (.ok acc1))
    (hacc : ∀ c ∈ acc.items, c.id ≠ [] ∧ 1 ≤ c.weight ∧ c.weight ≤ 5) :
    ∀ c ∈ acc1.items, c.id ≠ [] ∧ 1 ≤ c.weight ∧ c.weight ≤ 5 := by
  obtain ⟨-, name, used, -, h⟩ := sanitizeCriterionItem_ok H fuel item acc acc1 h
  subst h
  intro c hc
  rcases List.mem_append.1 hc with hc | hc
  · exact hacc c hc
  · rw [List.mem_singleton.1 hc]
    exact ⟨chooseId_ne_nil H hid _ _, clampIntValue_range H _⟩

theorem sanitizeOptionsLoop_fields (H : Host) (hid : ∀ n, H.randomId n ≠ []) (fuel : Nat) :
    ∀ (source : List JsValue) (acc fin : Walk DecisionOption),
      sanitizeOptionsLoop H fuel source acc = some fin →
      (∀ o ∈ acc.items, o.id ≠ [] ∧ o.note.length ≤ MAX_NOTE_LENGTH) →
      ∀ o ∈ fin.items, o.id ≠ [] ∧ o.note.length ≤ MAX_NOTE_LENGTH := by
  intro source
  induction source with
  | nil =>
    intro acc fin h hacc
    simp only [sanitizeOptionsLoop, Option.some.injEq] at h
    exact h ▸ hacc
  | cons item rest ih =>
    intro acc fin h hacc
    rw [sanitizeOptionsLoop_cons] at h
    split_ifs at h with hfull hobj
    · simp only [Option.some.injEq] at h
      exact h ▸ hacc
    · exact ih _ fin h hacc
    · cases hstep : sanitizeOptionItem H fuel item acc with
      | none => rw [hstep] at h; exact absurd h (by simp)
      | some acc1 =>
        rw [hstep] at h
        exact ih acc1 fin h (sanitizeOptionItem_fields H hid fuel item acc acc1 hstep hacc)

theorem sanitizeCriteriaLoop_fields (H : Host) (hid : ∀ n, H.randomId n ≠ []) (fuel : Nat) :
    ∀ (source : List JsValue) (acc fin : Walk Criterion),
      sanitizeCriteriaLoop H fuel source acc = some (.ok fin) →
      (∀ c ∈ acc.items, c.id ≠ [] ∧ 1 ≤ c.weight ∧ c.weight ≤ 5) →
      ∀ c ∈ fin.items, c.id ≠ [] ∧ 1 ≤ c.weight ∧ c.weight ≤ 5 := by
  intro source
  induction source with
  | nil =>
    intro acc fin h hacc
    simp only [sanitizeCriteriaLoop, Option.some.injEq, Except.ok.injEq] at h
    exact h ▸ hacc
  | cons item rest ih =>
    intro acc fin h hacc
    rw [sanitizeCriteriaLoop_cons] at h
    split_ifs at h with hfull hobj
    · simp only [Option.some.injEq, Except.ok.injEq] at h
      exact h ▸ hacc
    · exact ih _ fin h hacc
    · cases hstep : sanitizeCriterionItem H fuel item acc with
      | none => rw [hstep] at h; exact absurd h (by simp)
      | some outcome =>
        rw [hstep] at h
        cases outcome with
        | error e => exact absurd h (by simp)
        | ok acc1 =>
          exact ih acc1 fin h
            (sanitizeCriterionItem_fields H hid fuel item acc acc1 hstep hacc)

theorem fillOptions_fields (H : Host) (hid : ∀ n, H.randomId n ≠ []) (fuel : Nat) :
    ∀ (n : Nat) (acc fin : Walk DecisionOption),
      fillOptions H fuel n acc = some fin →
      (∀ o ∈ acc.items, o.id ≠ [] ∧ o.note.length ≤ MAX_NOTE_LENGTH) →
      ∀ o ∈ fin.items, o.id ≠ [] ∧ o.note.length ≤ MAX_NOTE_LENGTH := by
  intro n
  induction n with
  | zero =>
    intro acc fin h hacc
    unfold fillOptions at h
    split_ifs at h
    simp only [Option.some.injEq] at h
    exact h ▸ hacc
  | succ m ih =>
    intro acc fin h hacc
    unfold fillOptions at h
    split_ifs at h with hshort
    · split at h
      · exact absurd h (by simp)
      · refine ih _ fin h ?_
        intro o ho
        rcases List.mem_append.1 ho with ho | ho
        · exact hacc o ho
        · rw [List.mem_singleton.1 ho]
          exact ⟨hid _, Nat.zero_le _⟩
    · simp only [Option.some.injEq] at h
      exact h ▸ hacc

theorem fillCriteria_fields (H : Host) (hid : ∀ n, H.randomId n ≠ []) (fuel : Nat) :
    ∀ (n : Nat) (acc fin : Walk Criterion),
      fillCriteria H fuel n acc = some fin →
      (∀ c ∈ acc.items, c.id ≠ [] ∧ 1 ≤ c.weight ∧ c.weight ≤ 5) →
      ∀ c ∈ fin.items, c.id ≠ [] ∧ 1 ≤ c.weight ∧ c.weight ≤ 5 := by
  intro n
  induction n with
  | zero =>
    intro acc fin h hacc
    unfold fillCriteria at h
    split_ifs at h
    simp only [Option.some.injEq] at h
    exact h ▸ hacc
  | succ m ih =>
    intro acc fin h hacc
    unfold fillCriteria at h
    split_ifs at h with hshort
    · split at h
      · exact absurd h (by simp)
      · refine ih _ fin h ?_
        intro c hc
        rcases List.mem_append.1 hc with hc | hc
        · exact hacc c hc
        · rw [List.mem_singleton.1 hc]
          exact ⟨hid _, clampIntValue_range H _⟩
    · simp only [Option.some.injEq] at h
      exact h ▸ hacc

theorem sanitizeOptions_fields (H : Host) (hid : ∀ n, H.randomId n ≠ []) (fuel : Nat)
    (input : JsValue) (w : World) (fin : Walk DecisionOption)
    (h : sanitizeOptions H fuel input w = some fin) :
    ∀ o ∈ fin.items, o.id ≠ [] ∧ o.note.length ≤ MAX_NOTE_LENGTH := by
  unfold sanitizeOptions at h
  split at h
  · exact absurd h (by simp)
  · next acc hloop =>
    exact fillOptions_fields H hid fuel fuel acc fin h
      (sanitizeOptionsLoop_fields H hid fuel _ _ acc hloop (by simp))

theorem sanitizeCriteria_fields (H : Host) (hid : ∀ n, H.randomId n ≠ []) (fuel : Nat)
    (input : JsValue) (w : World) (fin : Walk Criterion)
    (h : sanitizeCriteria H fuel input w = some (.ok fin)) :
    ∀ c ∈ fin.items, c.id ≠ [] ∧ 1 ≤ c.weight ∧ c.weight ≤ 5 := by
  obtain ⟨acc, hloop, hfill⟩ := sanitizeCriteria_ok H fuel input w fin h
  exact fillCriteria_fields H hid fuel fuel acc fin hfill
    (sanitizeCriteriaLoop_fields H hid fuel _ _ acc hloop (by simp))

theorem sanitizeRatings_kept (input : JsValue) (optionIds criterionIds : List JsString) :
    ((sanitizeRatings input optionIds criterionIds).2.map (fun e => e.1)).Nodup
      ∧ ∀ e ∈ (sanitizeRatings input optionIds criterionIds).2,
          keepsRating optionIds criterionIds e = true := by
  cases input with
  | obj fields =>
    rw [sanitizeRatings_obj]
    refine ⟨((List.filter_sublist _).map _).nodup (ownEntries_nodup fields), ?_⟩
    intro e he
    exact (List.mem_filter.1 he).2
  | _ => simp [sanitizeRatings]

/-- The state `sanitizeV1State` returns is clean, on a host whose ids are not
empty. -/
theorem sanitizeV1State_cleans (H : Host) (hlow : KeepsTrailingIndex H.toLocaleLowerCase)
    (hid : ∀ n, H.randomId n ≠ []) (fuel : Nat) (hfuel : 21 ≤ fuel) (candidate : JsValue)
    (w : World) (hobj : isObject candidate = true)
    (hconv : sanitizeRaises candidate = false) :
    ∃ r w1, sanitizeV1State H fuel candidate w = some (.ok (some r, w1))
      ∧ CleanState H r.state := by
  obtain ⟨oacc, cacc, r, w1, ho, hc, hr, hro, hrc, hrr, hok, hmin, hck, hcmin⟩ :=
    sanitizeV1State_spec H hlow fuel hfuel candidate w hobj hconv
  refine ⟨r, w1, hr, ?_⟩
  have htitle : r.state.title.length ≤ MAX_TITLE_LENGTH := by
    unfold sanitizeV1State at hr
    simp only [hobj, Bool.not_true, Bool.false_eq_true, if_false, ho, hc, Option.some.injEq,
      Except.ok.injEq, Prod.mk.injEq] at hr
    rw [← hr.1]
    simp only [sanitizeTitle, List.length_take]
    exact Nat.min_le_left _ _
  have hof := sanitizeOptions_fields H hid fuel _ w oacc ho
  have hcf := sanitizeCriteria_fields H hid fuel _ oacc.world cacc hc
  have hrk := sanitizeRatings_kept (getProp candidate (units "ratings"))
    (oacc.items.map (fun item => item.id)) (cacc.items.map (fun item => item.id))
  refine ⟨htitle, ?_, ?_, ?_, ?_, ?_, ?_, ?_⟩
  · unfold Bounds
    rw [hro, hrc]
    exact ⟨hmin, hok.count_le, hcmin, hck.count_le⟩
  · intro o hmem
    rw [hro] at hmem
    obtain ⟨h1, h2⟩ := hof o hmem
    obtain ⟨h3, h4, h5⟩ := hok.names.good o.name (List.mem_map_of_mem (fun o => o.name) hmem)
    exact ⟨h1, h2, h3, h4, h5⟩
  · rw [hro]
    have := List.pairwise_map.2 hok.names.distinct
    rwa [List.map_map] at this
  · intro c hmem
    rw [hrc] at hmem
    obtain ⟨h1, h2, h2b⟩ := hcf c hmem
    obtain ⟨h3, h4, h5⟩ := hck.names.good c.name (List.mem_map_of_mem (fun c => c.name) hmem)
    exact ⟨h1, h2, h2b, h3, h4, h5⟩
  · rw [hrc]
    have := List.pairwise_map.2 hck.names.distinct
    rwa [List.map_map] at this
  · rw [hrr]
    exact hrk.1
  · rw [hrr, hro, hrc]
    exact hrk.2

/-- C20: sanitizing is idempotent. For every object `candidate` on which
`clampInt` does not raise, `sanitizeV1State` returns a state, and applied to
that state it returns the same state with `repaired = false` and the world
unchanged, that is without drawing an id or a timestamp; the second pass
reads numeric weights and never raises. The only other way the first pass
ends is the `TypeError` of `clampInt` on a criterion weight. The host is
assumed to keep a trailing index in lower-casing, to give non-empty ids and
to parse the numbers 1 to 5. -/
theorem sanitize_idempotent (H : Host) (hlow : KeepsTrailingIndex H.toLocaleLowerCase)
    (hid : ∀ n, H.randomId n ≠ []) (hparse : ParsesDigits H) (fuel : Nat) (hfuel : 21 ≤ fuel)
    (candidate : JsValue) (w : World) (hobj : isObject candidate = true) :
    (sanitizeRaises candidate = true
        ∧ sanitizeV1State H fuel candidate w = some (.error .typeError))
    ∨ (sanitizeRaises candidate = false
        ∧ ∃ r w1, sanitizeV1State H fuel candidate w = some (.ok (some r, w1))
          ∧ sanitizeV1State H fuel (stateValue r.state) w1
              = some (.ok (some { repaired := false, state := r.state }, w1))) := by
  refine sanitizeV1State_cases H hlow fuel hfuel candidate w _ (fun hconv => ?_)
  obtain ⟨r, w1, hr, hclean⟩ :=
    sanitizeV1State_cleans H hlow hid fuel hfuel candidate w hobj hconv
  exact ⟨r, w1, hr, sanitizeV1State_clean H hparse fuel r.state w1 hclean⟩

theorem exampleHost_randomId_ne_nil (n : Nat) : exampleHost.randomId n ≠ [] := by
  intro h
  have := exampleHost_randomId_length n
  rw [h] at this
  simp at this

/-- C20 on the example host: `namesPayload` is repaired by the first pass, and
the second pass returns the repaired state unchanged with `repaired = false`. -/
theorem sanitize_idempotent_example :
    ∃ r w1, sanitizeV1State exampleHost 21 namesPayload world0 = some (.ok (some r, w1))
      ∧ r.repaired = true
      ∧ r.state.options.map (fun o => o.name)
          = [units "Price", units "PRICE (2)", units "Option 3"]
      ∧ sanitizeV1State exampleHost 21 (stateValue r.state) w1
          = some (.ok (some { repaired := false, state := r.state }, w1)) := by
  obtain ⟨r, w1, hr, h2⟩ := ((sanitize_idempotent exampleHost asciiLower_keeps
    exampleHost_randomId_ne_nil exampleHost_parsesDigits 21 (le_refl _) namesPayload world0
    rfl).resolve_left (fun h => absurd h.1 (by decide))).2
  have hs := namesPayload_eval
  rw [hr] at hs
  simp only [summary, Option.map_some', Except.map, Option.some.injEq, Except.ok.injEq,
    Prod.mk.injEq] at hs
  obtain ⟨hs1, -, hs3, -⟩ := hs
  refine ⟨r, w1, hr, hs1, ?_, h2⟩
  have := congrArg (List.map Prod.snd) hs3
  simpa using this

/-! ## The repaired flag, field by field -/

theorem strictNeStr_eq_false (s : JsString) (v : JsValue) :
    strictNeStr s v = false ↔ v = .str s := by
  cases v with
  | str t =>
    simp only [strictNeStr, decide_eq_false_iff_not, ne_eq, not_not, JsValue.str.injEq]
    exact eq_comm
  | _ => simp [strictNeStr]

theorem strictNeInt_eq_false (n : Nat) (v : JsValue) :
    strictNeInt n v = false ↔ v = .num (.finite (n : Rat)) := by
  cases v with
  | num x =>
    cases x with
    | finite q =>
      simp only [strictNeInt, decide_eq_false_iff_not, ne_eq, not_not, JsValue.num.injEq,
        JsNumber.finite.injEq]
      exact eq_comm
    | _ => simp [strictNeInt]
  | _ => simp [strictNeInt]

theorem chooseCreatedAt_flag (H : Host) (item : JsValue) (count : Nat) (w : World) :
    ((chooseCreatedAt H item count w).2.2 = false
        ↔ getProp item (units "createdAt")
            = .num (.finite (chooseCreatedAt H item count w).1))
      ∧ ((chooseCreatedAt H item count w).2.2 = false
          → (chooseCreatedAt H item count w).2.1 = w) := by
  unfold chooseCreatedAt
  cases hv : getProp item (units "createdAt") with
  | num x => cases x <;> simp
  | _ => simp

theorem nameFlags_eq_false (item : JsValue) (c : JsString) (m : Nat) (h1 : c ≠ [])
    (h3 : c.length ≤ m) :
    (decide (rawNameOf item = []) || decide ((rawNameOf item).take m ≠ rawNameOf item)
        || decide (c ≠ (rawNameOf item).take m)) = false
      ↔ ∃ n, getProp item (units "name") = .str n ∧ trim n = c := by
  simp only [Bool.or_eq_false_iff, decide_eq_false_iff_not, ne_eq, not_not]
  constructor
  · rintro ⟨⟨hne, hcl⟩, hc⟩
    have hraw : rawNameOf item = c := by rw [hc, hcl]
    unfold rawNameOf at hraw hne
    cases hv : getProp item (units "name") with
    | str n =>
      rw [hv] at hraw
      exact ⟨n, rfl, hraw⟩
    | _ =>
      rw [hv] at hne
      exact absurd rfl hne
  · rintro ⟨n, hn, htrim⟩
    have hraw : rawNameOf item = c := by
      unfold rawNameOf
      rw [hn]
      exact htrim
    rw [hraw, List.take_of_length_le h3]
    exact ⟨⟨h1, rfl⟩, rfl⟩

theorem sanitizeOptionItem_flag (H : Host) (hlow : KeepsTrailingIndex H.toLocaleLowerCase)
    (fuel : Nat) (hfuel : 21 ≤ fuel) (item : JsValue) (acc : Walk DecisionOption)
    (hok : WalkOk H.toLocaleLowerCase MAX_OPTION_NAME_LENGTH MAX_OPTIONS (fun o => o.name) acc)
    (hlen : acc.items.length < MAX_OPTIONS) (hobj : isObject item = true) :
    ∃ acc1 o, sanitizeOptionItem H fuel item acc = some acc1
      ∧ acc1.items = acc.items ++ [o]
      ∧ WalkOk H.toLocaleLowerCase MAX_OPTION_NAME_LENGTH MAX_OPTIONS (fun o => o.name) acc1
      ∧ (acc1.repaired = false ↔ acc.repaired = false ∧ OptMatch item o) := by
  have hul := hok.names.used_length
  have hord := hok.ordinal_eq
  simp only [List.length_map] at hul
  have hlen2 := hlen
  unfold MAX_OPTIONS at hlen2
  obtain ⟨c, hc, hfree, h1, h2, h3⟩ := uniqueName_spec H hlow fuel
    ((rawNameOf item).take MAX_OPTION_NAME_LENGTH) acc.usedNames (units "Option")
    MAX_OPTION_NAME_LENGTH acc.ordinal (by omega)
    (by rw [List.length_take]; exact Nat.min_le_left _ _)
    (by unfold MAX_OPTION_NAME_LENGTH; omega) optionWord_head
    (by
      have : (units "Option").length = 6 := by decide
      rw [this]
      unfold MAX_OPTION_NAME_LENGTH
      omega)
  unfold sanitizeOptionItem
  simp only [hc]
  refine ⟨_, _, rfl, rfl, hok.push hlen _ _ rfl rfl rfl hfree h1 h2 h3, ?_⟩
  unfold OptMatch
  simp only [Bool.or_eq_false_iff, strictNeStr_eq_false,
    (chooseCreatedAt_flag H item _ _).1, hobj, true_and]
  have hname := nameFlags_eq_false item c MAX_OPTION_NAME_LENGTH h1 h3
  simp only [Bool.or_eq_false_iff] at hname
  constructor
  · rintro ⟨⟨⟨⟨⟨⟨ha, hn1⟩, hn2⟩, hn3⟩, hnote⟩, hid⟩, hcr⟩
    exact ⟨ha, hid, hname.1 ⟨⟨hn1, hn2⟩, hn3⟩, hnote, hcr⟩
  · rintro ⟨ha, hid, hn, hnote, hcr⟩
    obtain ⟨⟨hn1, hn2⟩, hn3⟩ := hname.2 hn
    exact ⟨⟨⟨⟨⟨⟨ha, hn1⟩, hn2⟩, hn3⟩, hnote⟩, hid⟩, hcr⟩

theorem sanitizeOptionsLoop_flag (H : Host) (hlow : KeepsTrailingIndex H.toLocaleLowerCase)
    (fuel : Nat) (hfuel : 21 ≤ fuel) :
    ∀ (source : List JsValue) (acc : Walk DecisionOption),
      WalkOk H.toLocaleLowerCase MAX_OPTION_NAME_LENGTH MAX_OPTIONS (fun o => o.name) acc →
      ∃ fin os, sanitizeOptionsLoop H fuel source acc = some fin
        ∧ fin.items = acc.items ++ os
        ∧ WalkOk H.toLocaleLowerCase MAX_OPTION_NAME_LENGTH MAX_OPTIONS (fun o => o.name) fin
        ∧ ((∀ item ∈ source, isObject item = true) →
            acc.items.length + source.length ≤ MAX_OPTIONS → os.length = source.length)
        ∧ (fin.repaired = false ↔ acc.repaired = false ∧ List.Forall₂ OptMatch source os) := by
  intro source
  induction source with
  | nil =>
    intro acc hok
    exact ⟨acc, [], rfl, by simp, hok, fun _ _ => rfl, by simp⟩
  | cons item rest ih =>
    intro acc hok
    rw [sanitizeOptionsLoop_cons]
    by_cases hfull : acc.items.length ≥ MAX_OPTIONS
    · rw [if_pos hfull]
      refine ⟨_, [], rfl, by simp, ⟨hok.names, hok.ordinal_eq, hok.count_le⟩, ?_, ?_⟩
      · intro _ hroom
        simp only [List.length_cons] at hroom
        omega
      · simp
    · rw [if_neg hfull]
      by_cases hobj : isObject item = true
      · simp only [hobj, Bool.not_true, Bool.false_eq_true, if_false]
        obtain ⟨acc1, o, hstep, hitems, hok1, hiff⟩ :=
          sanitizeOptionItem_flag H hlow fuel hfuel item acc hok (by omega) hobj
        obtain ⟨fin, os, hfin, hfitems, hfok, hflen, hfiff⟩ := ih acc1 hok1
        rw [hstep]
        refine ⟨fin, o :: os, hfin, ?_, hfok, ?_, ?_⟩
        · rw [hfitems, hitems, List.append_assoc]
          rfl
        · intro hall hroom
          simp only [List.length_cons] at hroom ⊢
          rw [hflen (fun x hx => hall x (List.mem_cons_of_mem _ hx))
            (by rw [hitems]; simp only [List.length_append, List.length_singleton]; omega)]
        · rw [hfiff, hiff, List.forall₂_cons, and_assoc]
      · simp only [hobj, Bool.not_false, if_true]
        obtain ⟨fin, os, hfin, hfitems, hfok, hflen, hfiff⟩ :=
          ih { acc with repaired := true } ⟨hok.names, hok.ordinal_eq, hok.count_le⟩
        refine ⟨fin, os, hfin, hfitems, hfok, ?_, ?_⟩
        · intro hall _
          exact absurd (hall item (List.mem_cons_self _ _)) hobj
        · constructor
          · intro hf
            exact absurd (hfiff.1 hf).1 (by simp)
          · rintro ⟨_, hall⟩
            cases hall with
            | cons hm _ => exact absurd hm.1 hobj

theorem fillOptions_flag (H : Host) (hlow : KeepsTrailingIndex H.toLocaleLowerCase)
    (fuel : Nat) (hfuel : 21 ≤ fuel) :
    ∀ (n : Nat) (acc : Walk DecisionOption), MIN_OPTIONS ≤ acc.items.length + n →
      WalkOk H.toLocaleLowerCase MAX_OPTION_NAME_LENGTH MAX_OPTIONS (fun o => o.name) acc →
      ∃ fin extra, fillOptions H fuel n acc = some fin
        ∧ fin.items = acc.items ++ extra
        ∧ WalkOk H.toLocaleLowerCase MAX_OPTION_NAME_LENGTH MAX_OPTIONS (fun o => o.name) fin
        ∧ MIN_OPTIONS ≤ fin.items.length
        ∧ (extra = [] → fin = acc)
        ∧ (extra ≠ [] → fin.repaired = true) := by
  intro n
  induction n with
  | zero =>
    intro acc hn hok
    have : ¬ acc.items.length < MIN_OPTIONS := by omega
    exact ⟨acc, [], by simp [fillOptions, this], by simp, hok, by omega, fun _ => rfl,
      fun h => absurd rfl h⟩
  | succ m ih =>
    intro acc hn hok
    unfold fillOptions
    by_cases hshort : acc.items.length < MIN_OPTIONS
    · rw [if_pos hshort]
      have hul := hok.names.used_length
      have hord := hok.ordinal_eq
      simp only [List.length_map] at hul
      unfold MIN_OPTIONS at hshort
      obtain ⟨c, hc, hfree, h1, h2, h3⟩ := uniqueName_spec H hlow fuel [] acc.usedNames
        (units "Option") MAX_OPTION_NAME_LENGTH acc.ordinal (by omega) (by simp)
        (by unfold MAX_OPTION_NAME_LENGTH; omega) optionWord_head
        (by
          have : (units "Option").length = 6 := by decide
          rw [this]
          unfold MAX_OPTION_NAME_LENGTH
          omega)
      simp only [hc]
      have htake : c.take MAX_OPTION_NAME_LENGTH = c := List.take_of_length_le h3
      have hname : (createOption H c
          ((((dateNow H acc.world).1 : Int) : Rat) + (acc.ordinal : Rat))
          (dateNow H acc.world).2).1.name = c := by simp [createOption, htake]
      have hok1 : WalkOk H.toLocaleLowerCase MAX_OPTION_NAME_LENGTH MAX_OPTIONS
          (fun o : DecisionOption => o.name)
          { repaired := true,
            items := acc.items ++ [(createOption H c
              ((((dateNow H acc.world).1 : Int) : Rat) + (acc.ordinal : Rat))
              (dateNow H acc.world).2).1],
            usedNames := acc.usedNames ++ [H.toLocaleLowerCase c],
            ordinal := acc.ordinal + 1,
            world := (createOption H c
              ((((dateNow H acc.world).1 : Int) : Rat) + (acc.ordinal : Rat))
              (dateNow H acc.world).2).2 } :=
        hok.push (by unfold MAX_OPTIONS; omega) _ _ rfl
          (by simp only [hname]) rfl (by rw [hname]; exact hfree) (by rw [hname]; exact h1)
          (by rw [hname]; exact h2) (by rw [hname]; exact h3)
      obtain ⟨fin, extra, hfin, hitems, hfok, hmin, hnil, hne⟩ :=
        ih _ (by simp only [List.length_append, List.length_singleton]; omega) hok1
      refine ⟨fin, (createOption H c
          ((((dateNow H acc.world).1 : Int) : Rat) + (acc.ordinal : Rat))
          (dateNow H acc.world).2).1 :: extra, hfin, ?_, hfok, hmin,
        fun h => absurd h (by simp), fun _ => ?_⟩
      · rw [hitems, List.append_assoc]
        rfl
      · by_cases hex : extra = []
        · rw [hnil hex]
        · exact hne hex
    · rw [if_neg hshort]
      exact ⟨acc, [], rfl, by simp, hok, by omega, fun _ => rfl, fun h => absurd rfl h⟩

theorem optMatch_objects :
    ∀ (source : List JsValue) (os : List DecisionOption), List.Forall₂ OptMatch source os →
      ∀ item ∈ source, isObject item = true := by
  intro source os h
  induction h with
  | nil => intro item hi; simp at hi
  | cons hm _ ih =>
    intro item hi
    rcases List.mem_cons.1 hi with hi | hi
    · rw [hi]; exact hm.1
    · exact ih item hi

theorem sanitizeOptions_flag (H : Host) (hlow : KeepsTrailingIndex H.toLocaleLowerCase)
    (fuel : Nat) (hfuel : 21 ≤ fuel) (input : JsValue) (w : World) :
    ∃ fin, sanitizeOptions H fuel input w = some fin
      ∧ (fin.repaired = false
          ↔ ∃ source, input = .arr source ∧ List.Forall₂ OptMatch source fin.items) := by
  obtain ⟨mid, os, hmid, hmitems, hmok, hmlen, hmiff⟩ :=
    sanitizeOptionsLoop_flag H hlow fuel hfuel (sourceOf input)
      { repaired := !isArray input, items := [], usedNames := [], ordinal := 1, world := w }
      (walkOk_start H.toLocaleLowerCase MAX_OPTION_NAME_LENGTH MAX_OPTIONS
        (fun o : DecisionOption => o.name) _ w)
  obtain ⟨fin, extra, hfin, hfitems, hfok, hfmin, hnil, hne⟩ :=
    fillOptions_flag H hlow fuel hfuel fuel mid (by unfold MIN_OPTIONS; omega) hmok
  simp only [List.nil_append] at hmitems
  refine ⟨fin, ?_, ?_⟩
  · unfold sanitizeOptions
    simp only [hmid, hfin]
  · constructor
    · intro hrep
      have hex : extra = [] := by
        by_contra hex
        rw [hne hex] at hrep
        exact absurd hrep (by simp)
      have hfm := hnil hex
      rw [hfm] at hrep ⊢
      obtain ⟨harr, hall⟩ := hmiff.1 hrep
      simp only [Bool.not_eq_false'] at harr
      cases input with
      | arr source =>
        refine ⟨source, rfl, ?_⟩
        rw [hmitems]
        exact hall
      | _ => simp [isArray] at harr
    · rintro ⟨source, rfl, hall⟩
      have hobjs := optMatch_objects source fin.items hall
      have hlen := hall.length_eq
      have hcount := hfok.count_le
      have hos : os.length = source.length :=
        hmlen hobjs (by simp only [List.length_nil, sourceOf]; omega)
      have hex : extra = [] := by
        have := congrArg List.length hfitems
        rw [hmitems, List.length_append] at this
        exact List.length_eq_zero.1 (by omega)
      have hfm := hnil hex
      rw [hfm] at hall ⊢
      rw [hmitems] at hall
      exact hmiff.2 ⟨by simp [isArray], hall⟩

theorem sanitizeCriterionItem_flag (H : Host) (hlow : KeepsTrailingIndex H.toLocaleLowerCase)
    (fuel : Nat) (hfuel : 21 ≤ fuel) (item : JsValue) (acc : Walk Criterion)
    (hok : WalkOk H.toLocaleLowerCase MAX_CRITERION_NAME_LENGTH MAX_CRITERIA
      (fun c => c.name) acc)
    (hlen : acc.items.length < MAX_CRITERIA) (hobj : isObject item = true)
    (hw : toStringRaises (getProp item (units "weight")) = false) :
    ∃ acc1 c, sanitizeCriterionItem H fuel item acc = some (.ok acc1)
      ∧ acc1.items = acc.items ++ [c]
      ∧ WalkOk H.toLocaleLowerCase MAX_CRITERION_NAME_LENGTH MAX_CRITERIA
          (fun c => c.name) acc1
      ∧ (acc1.repaired = false ↔ acc.repaired = false ∧ CritMatch item c) := by
  have hul := hok.names.used_length
  have hord := hok.ordinal_eq
  simp only [List.length_map] at hul
  have hlen2 := hlen
  unfold MAX_CRITERIA at hlen2
  obtain ⟨c, hc, hfree, h1, h2, h3⟩ := uniqueName_spec H hlow fuel
    ((rawNameOf item).take MAX_CRITERION_NAME_LENGTH) acc.usedNames (units "Criterion")
    MAX_CRITERION_NAME_LENGTH acc.ordinal (by omega)
    (by rw [List.length_take]; exact Nat.min_le_left _ _)
    (by unfold MAX_CRITERION_NAME_LENGTH; omega) criterionWord_head
    (by
      have : (units "Criterion").length = 9 := by decide
      rw [this]
      unfold MAX_CRITERION_NAME_LENGTH
      omega)
  unfold sanitizeCriterionItem
  simp only [hc, clampInt, hw, Bool.false_eq_true, if_false]
  refine ⟨_, _, rfl, rfl, hok.push hlen _ _ rfl rfl rfl hfree h1 h2 h3, ?_⟩
  unfold CritMatch
  simp only [Bool.or_eq_false_iff, strictNeStr_eq_false, strictNeInt_eq_false,
    (chooseCreatedAt_flag H item _ _).1, hobj, true_and]
  have hname := nameFlags_eq_false item c MAX_CRITERION_NAME_LENGTH h1 h3
  simp only [Bool.or_eq_false_iff] at hname
  constructor
  · rintro ⟨⟨⟨⟨⟨⟨ha, hn1⟩, hn2⟩, hn3⟩, hweight⟩, hid⟩, hcr⟩
    exact ⟨ha, hid, hname.1 ⟨⟨hn1, hn2⟩, hn3⟩, hweight, hcr⟩
  · rintro ⟨ha, hid, hn, hweight, hcr⟩
    obtain ⟨⟨hn1, hn2⟩, hn3⟩ := hname.2 hn
    exact ⟨⟨⟨⟨⟨⟨ha, hn1⟩, hn2⟩, hn3⟩, hweight⟩, hid⟩, hcr⟩

theorem sanitizeCriteriaLoop_flag (H : Host) (hlow : KeepsTrailingIndex H.toLocaleLowerCase)
    (fuel : Nat) (hfuel : 21 ≤ fuel) :
    ∀ (source : List JsValue) (acc : Walk Criterion),
      WalkOk H.toLocaleLowerCase MAX_CRITERION_NAME_LENGTH MAX_CRITERIA (fun c => c.name) acc →
      criteriaRaise source acc.items.length = false →
      ∃ fin os, sanitizeCriteriaLoop H fuel source acc = some (.ok fin)
        ∧ fin.items = acc.items ++ os
        ∧ WalkOk H.toLocaleLowerCase MAX_CRITERION_NAME_LENGTH MAX_CRITERIA (fun c => c.name) fin
        ∧ ((∀ item ∈ source, isObject item = true) →
            acc.items.length + source.length ≤ MAX_CRITERIA → os.length = source.length)
        ∧ (fin.repaired = false ↔ acc.repaired = false ∧ List.Forall₂ CritMatch source os) := by
  intro source
  induction source with
  | nil =>
    intro acc hok _
    exact ⟨acc, [], rfl, by simp, hok, fun _ _ => rfl, by simp⟩
  | cons item rest ih =>
    intro acc hok hraise
    rw [criteriaRaise_cons] at hraise
    rw [sanitizeCriteriaLoop_cons]
    by_cases hfull : acc.items.length ≥ MAX_CRITERIA
    · rw [if_pos hfull]
      refine ⟨_, [], rfl, by simp, ⟨hok.names, hok.ordinal_eq, hok.count_le⟩, ?_, ?_⟩
      · intro _ hroom
        simp only [List.length_cons] at hroom
        omega
      · simp
    · rw [if_neg hfull] at hraise ⊢
      by_cases hobj : isObject item = true
      · simp only [hobj, Bool.not_true, Bool.false_eq_true, if_false] at hraise ⊢
        have hw : toStringRaises (getProp item (units "weight")) = false := by
          cases hw : toStringRaises (getProp item (units "weight")) with
          | true => simp [hw] at hraise
          | false => rfl
        simp only [hw, Bool.false_eq_true, if_false] at hraise
        obtain ⟨acc1, o, hstep, hitems, hok1, hiff⟩ :=
          sanitizeCriterionItem_flag H hlow fuel hfuel item acc hok (by omega) hobj hw
        obtain ⟨fin, os, hfin, hfitems, hfok, hflen, hfiff⟩ := ih acc1 hok1
          (by rw [hitems, List.length_append, List.length_singleton]; exact hraise)
        rw [hstep]
        refine ⟨fin, o :: os, hfin, ?_, hfok, ?_, ?_⟩
        · rw [hfitems, hitems, List.append_assoc]
          rfl
        · intro hall hroom
          simp only [List.length_cons] at hroom ⊢
          rw [hflen (fun x hx => hall x (List.mem_cons_of_mem _ hx))
            (by rw [hitems]; simp only [List.length_append, List.length_singleton]; omega)]
        · rw [hfiff, hiff, List.forall₂_cons, and_assoc]
      · simp only [hobj, Bool.not_false, if_true] at hraise ⊢
        obtain ⟨fin, os, hfin, hfitems, hfok, hflen, hfiff⟩ :=
          ih { acc with repaired := true } ⟨hok.names, hok.ordinal_eq, hok.count_le⟩ hraise
        refine ⟨fin, os, hfin, hfitems, hfok, ?_, ?_⟩
        · intro hall _
          exact absurd (hall item (List.mem_cons_self _ _)) hobj
        · constructor
          · intro hf
            exact absurd (hfiff.1 hf).1 (by simp)
          · rintro ⟨_, hall⟩
            cases hall with
            | cons hm _ => exact absurd hm.1 hobj

theorem fillCriteria_flag (H : Host) (hlow : KeepsTrailingIndex H.toLocaleLowerCase)
    (fuel : Nat) (hfuel : 21 ≤ fuel) :
    ∀ (n : Nat) (acc : Walk Criterion), MIN_CRITERIA ≤ acc.items.length + n →
      WalkOk H.toLocaleLowerCase MAX_CRITERION_NAME_LENGTH MAX_CRITERIA (fun c => c.name) acc →
      ∃ fin extra, fillCriteria H fuel n acc = some fin
        ∧ fin.items = acc.items ++ extra
        ∧ WalkOk H.toLocaleLowerCase MAX_CRITERION_NAME_LENGTH MAX_CRITERIA (fun c => c.name) fin
        ∧ MIN_CRITERIA ≤ fin.items.length
        ∧ (extra = [] → fin = acc)
        ∧ (extra ≠ [] → fin.repaired = true) := by
  intro n
  induction n with
  | zero =>
    intro acc hn hok
    have : ¬ acc.items.length < MIN_CRITERIA := by omega
    exact ⟨acc, [], by simp [fillCriteria, this], by simp, hok, by omega, fun _ => rfl,
      fun h => absurd rfl h⟩
  | succ m ih =>
    intro acc hn hok
    unfold fillCriteria
    by_cases hshort : acc.items.length < MIN_CRITERIA
    · rw [if_pos hshort]
      have hul := hok.names.used_length
      have hord := hok.ordinal_eq
      simp only [List.length_map] at hul
      unfold MIN_CRITERIA at hshort
      obtain ⟨c, hc, hfree, h1, h2, h3⟩ := uniqueName_spec H hlow fuel [] acc.usedNames
        (units "Criterion") MAX_CRITERION_NAME_LENGTH acc.ordinal (by omega) (by simp)
        (by unfold MAX_CRITERION_NAME_LENGTH; omega) criterionWord_head
        (by
          have : (units "Criterion").length = 9 := by decide
          rw [this]
          unfold MAX_CRITERION_NAME_LENGTH
          omega)
      simp only [hc]
      have htake : c.take MAX_CRITERION_NAME_LENGTH = c := List.take_of_length_le h3
      have hname : (createCriterion H c 3
          ((((dateNow H acc.world).1 : Int) : Rat) + (acc.ordinal : Rat))
          (dateNow H acc.world).2).1.name = c := by simp [createCriterion, htake]
      have hok1 : WalkOk H.toLocaleLowerCase MAX_CRITERION_NAME_LENGTH MAX_CRITERIA
          (fun c : Criterion => c.name)
          { repaired := true,
            items := acc.items ++ [(createCriterion H c 3
              ((((dateNow H acc.world).1 : Int) : Rat) + (acc.ordinal : Rat))
              (dateNow H acc.world).2).1],
            usedNames := acc.usedNames ++ [H.toLocaleLowerCase c],
            ordinal := acc.ordinal + 1,
            world := (createCriterion H c 3
              ((((dateNow H acc.world).1 : Int) : Rat) + (acc.ordinal : Rat))
              (dateNow H acc.world).2).2 } :=
        hok.push (by unfold MAX_CRITERIA; omega) _ _ rfl
          (by simp only [hname]) rfl (by rw [hname]; exact hfree) (by rw [hname]; exact h1)
          (by rw [hname]; exact h2) (by rw [hname]; exact h3)
      obtain ⟨fin, extra, hfin, hitems, hfok, hmin, hnil, hne⟩ :=
        ih _ (by simp only [List.length_append, List.length_singleton]; omega) hok1
      refine ⟨fin, (createCriterion H c 3
          ((((dateNow H acc.world).1 : Int) : Rat) + (acc.ordinal : Rat))
          (dateNow H acc.world).2).1 :: extra, hfin, ?_, hfok, hmin,
        fun h => absurd h (by simp), fun _ => ?_⟩
      · rw [hitems, List.append_assoc]
        rfl
      · by_cases hex : extra = []
        · rw [hnil hex]
        · exact hne hex
    · rw [if_neg hshort]
      exact ⟨acc, [], rfl, by simp, hok, by omega, fun _ => rfl, fun h => absurd rfl h⟩

theorem critMatch_objects :
    ∀ (source : List JsValue) (os : List Criterion), List.Forall₂ CritMatch source os →
      ∀ item ∈ source, isObject item = true := by
  intro source os h
  induction h with
  | nil => intro item hi; simp at hi
  | cons hm _ ih =>
    intro item hi
    rcases List.mem_cons.1 hi with hi | hi
    · rw [hi]; exact hm.1
    · exact ih item hi

theorem sanitizeCriteria_flag (H : Host) (hlow : KeepsTrailingIndex H.toLocaleLowerCase)
    (fuel : Nat) (hfuel : 21 ≤ fuel) (input : JsValue) (w : World)
    (hraise : criteriaRaise (sourceOf input) 0 = false) :
    ∃ fin, sanitizeCriteria H fuel input w = some (.ok fin)
      ∧ (fin.repaired = false
          ↔ ∃ source, input = .arr source ∧ List.Forall₂ CritMatch source fin.items) := by
  obtain ⟨mid, os, hmid, hmitems, hmok, hmlen, hmiff⟩ :=
    sanitizeCriteriaLoop_flag H hlow fuel hfuel (sourceOf input)
      { repaired := !isArray input, items := [], usedNames := [], ordinal := 1, world := w }
      (walkOk_start H.toLocaleLowerCase MAX_CRITERION_NAME_LENGTH MAX_CRITERIA
        (fun c : Criterion => c.name) _ w) hraise
  obtain ⟨fin, extra, hfin, hfitems, hfok, hfmin, hnil, hne⟩ :=
    fillCriteria_flag H hlow fuel hfuel fuel mid (by unfold MIN_CRITERIA; omega) hmok
  simp only [List.nil_append] at hmitems
  refine ⟨fin, ?_, ?_⟩
  · unfold sanitizeCriteria
    simp only [hmid, hfin, Option.map_some']
  · constructor
    · intro hrep
      have hex : extra = [] := by
        by_contra hex
        rw [hne hex] at hrep
        exact absurd hrep (by simp)
      have hfm := hnil hex
      rw [hfm] at hrep ⊢
      obtain ⟨harr, hall⟩ := hmiff.1 hrep
      simp only [Bool.not_eq_false'] at harr
      cases input with
      | arr source =>
        refine ⟨source, rfl, ?_⟩
        rw [hmitems]
        exact hall
      | _ => simp [isArray] at harr
    · rintro ⟨source, rfl, hall⟩
      have hobjs := critMatch_objects source fin.items hall
      have hlen := hall.length_eq
      have hcount := hfok.count_le
      have hos : os.length = source.length :=
        hmlen hobjs (by simp only [List.length_nil, sourceOf]; omega)
      have hex : extra = [] := by
        have := congrArg List.length hfitems
        rw [hmitems, List.length_append] at this
        exact List.length_eq_zero.1 (by omega)
      have hfm := hnil hex
      rw [hfm] at hall ⊢
      rw [hmitems] at hall
      exact hmiff.2 ⟨by simp [isArray], hall⟩

theorem sanitizeRatings_flag (input : JsValue) (optionIds criterionIds : List JsString) :
    (sanitizeRatings input optionIds criterionIds).1 = false
      ↔ ∃ fields, input = .obj fields
          ∧ (sanitizeRatings input optionIds criterionIds).2 = ownEntries fields := by
  cases input with
  | obj fields =>
    rw [sanitizeRatings_obj]
    simp only [JsValue.obj.injEq, exists_eq_left', List.any_eq_false, Bool.not_eq_true',
      Bool.not_eq_false, List.filter_eq_self]
  | _ => simp [sanitizeRatings]

theorem sanitizeTitle_flag (candidate : JsValue) (t : JsString)
    (ht : getProp candidate (units "title") = .str t) :
    (sanitizeTitle candidate).2 = false
      ↔ getProp candidate (units "title") = .str (sanitizeTitle candidate).1 := by
  unfold sanitizeTitle
  rw [ht]
  simp only [decide_eq_false_iff_not, ne_eq, not_not, JsValue.str.injEq]
  exact eq_comm

/-- A title that is not a string is replaced by the empty title without the
flag: `sanitizeV1State` compares the cut title with `titleSource`, which is
already the empty string then. On `numberTitlePayload` the returned title is
empty and `repaired = false`. -/
theorem sanitizeTitle_number_unflagged :
    sanitizeTitle numberTitlePayload = ([], false)
    ∧ ∃ r w1, sanitizeV1State exampleHost 21 numberTitlePayload world0
        = some (.ok (some r, w1))
      ∧ r.repaired = false
      ∧ getProp numberTitlePayload (units "title") = .num (.finite 7)
      ∧ r.state.title = [] :=
  ⟨rfl, _, _, rfl, rfl, rfl, rfl⟩

theorem sanitizeUpdatedAt_flag (H : Host) (candidate : JsValue) (w : World) :
    (sanitizeUpdatedAt H candidate w).2.2 = false
      ↔ getProp candidate (units "updatedAt")
          = .num (.finite (sanitizeUpdatedAt H candidate w).1) := by
  unfold sanitizeUpdatedAt
  cases hv : getProp candidate (units "updatedAt") with
  | num x => cases x <;> simp
  | _ => simp

/-- C12 fails as stated: `blankNamePayload`, whose title is a string, is
returned with `repaired = false` although the first returned name is `Pizza`
where the payload has the name with a blank on either side. -/
theorem repaired_blank_name_counterexample :
    ∃ r w1, sanitizeV1State exampleHost 21 blankNamePayload world0 = some (.ok (some r, w1))
      ∧ r.repaired = false
      ∧ getProp blankNamePayload (units "title") = .str r.state.title
      ∧ r.state.options.map (fun o => o.name) = [units "Pizza", units "Salad"]
      ∧ (sourceOf (getProp blankNamePayload (units "options"))).map
          (fun item => getProp item (units "name"))
          = [.str (units " Pizza "), .str (units "Salad")]
      ∧ units " Pizza " ≠ units "Pizza" :=
  ⟨_, _, rfl, rfl, rfl, rfl, rfl, by decide⟩

/-- C12 (amended): for every object `candidate` whose title is a string the
sanitizer returns a state, unless `clampInt` raises on a criterion weight,
and `repaired = false` holds exactly when the returned state holds what the
payload holds: its title is the payload's, `options` and `criteria` are
arrays of objects that give, entry by entry in order, the returned ids,
notes, weights and `createdAt` and names that trim to the returned names,
the returned ratings are the own entries of the payload's ratings object,
and `updatedAt` is the payload's. -/
theorem repaired_iff_matches (H : Host) (hlow : KeepsTrailingIndex H.toLocaleLowerCase)
    (fuel : Nat) (hfuel : 21 ≤ fuel) (candidate : JsValue) (w : World)
    (hobj : isObject candidate = true)
    (htitle : ∃ t, getProp candidate (units "title") = .str t) :
    (sanitizeRaises candidate = true
        ∧ sanitizeV1State H fuel candidate w = some (.error .typeError))
    ∨ (sanitizeRaises candidate = false
        ∧ ∃ r w1, sanitizeV1State H fuel candidate w = some (.ok (some r, w1))
          ∧ (r.repaired = false ↔ Matches candidate r.state)) := by
  refine sanitizeV1State_cases H hlow fuel hfuel candidate w _ (fun hconv => ?_)
  obtain ⟨t, ht⟩ := htitle
  have hraise : criteriaRaise (sourceOf (getProp candidate (units "criteria"))) 0 = false := by
    unfold sanitizeRaises at hconv
    simpa [hobj] using hconv
  obtain ⟨oacc, hO, hOiff⟩ := sanitizeOptions_flag H hlow fuel hfuel
    (getProp candidate (units "options")) w
  obtain ⟨cacc, hC, hCiff⟩ := sanitizeCriteria_flag H hlow fuel hfuel
    (getProp candidate (units "criteria")) oacc.world hraise
  unfold sanitizeV1State
  simp only [hobj, Bool.not_true, Bool.false_eq_true, if_false, hO, hC]
  refine ⟨_, _, rfl, ?_⟩
  unfold Matches
  simp only [Bool.or_eq_false_iff, hOiff, hCiff, sanitizeRatings_flag,
    sanitizeTitle_flag candidate t ht, sanitizeUpdatedAt_flag, and_assoc]

/-- C12 (amended), on the example host: `blankNamePayload` matches the state
returned for it and is returned with `repaired = false`; `namesPayload` with
the title `Lunch`, which has no `ratings` and a duplicate name, is repaired
and does not match. -/
theorem repaired_iff_matches_example :
    (∃ r w1, sanitizeV1State exampleHost 21 blankNamePayload world0 = some (.ok (some r, w1))
      ∧ r.repaired = false ∧ Matches blankNamePayload r.state)
    ∧ (∃ r w1, sanitizeV1State exampleHost 21 titledNamesPayload world0
        = some (.ok (some r, w1))
      ∧ r.repaired = true ∧ ¬ Matches titledNamesPayload r.state) := by
  constructor
  · obtain ⟨r, w1, hr, hiff⟩ := ((repaired_iff_matches exampleHost asciiLower_keeps 21
      (le_refl _) blankNamePayload world0 rfl ⟨_, rfl⟩).resolve_left
      (fun h => absurd h.1 (by decide))).2
    have heval : ∃ r0 w0, sanitizeV1State exampleHost 21 blankNamePayload world0
        = some (.ok (some r0, w0)) ∧ r0.repaired = false := ⟨_, _, rfl, rfl⟩
    obtain ⟨r0, w0, hr0, hrep⟩ := heval
    rw [hr0] at hr
    simp only [Option.some.injEq, Except.ok.injEq, Prod.mk.injEq] at hr
    obtain ⟨rfl, rfl⟩ := hr
    exact ⟨_, _, hr0, hrep, hiff.1 hrep⟩
  · obtain ⟨r, w1, hr, hiff⟩ := ((repaired_iff_matches exampleHost asciiLower_keeps 21
      (le_refl _) titledNamesPayload world0 rfl ⟨_, rfl⟩).resolve_left
      (fun h => absurd h.1 (by decide))).2
    have heval : ∃ r0 w0, sanitizeV1State exampleHost 21 titledNamesPayload world0
        = some (.ok (some r0, w0)) ∧ r0.repaired = true := ⟨_, _, rfl, rfl⟩
    obtain ⟨r0, w0, hr0, hrep⟩ := heval
    rw [hr0] at hr
    simp only [Option.some.injEq, Except.ok.injEq, Prod.mk.injEq] at hr
    obtain ⟨rfl, rfl⟩ := hr
    refine ⟨_, _, hr0, hrep, ?_⟩
    intro hm
    rw [hiff.2 hm] at hrep
    exact absurd hrep (by simp)

/-! ## The round trip through serializeState -/

theorem splitColon_ne_nil (s : JsString) : splitColon s ≠ [] := by
  induction s with
  | nil => simp [splitColon]
  | cons c cs ih =>
    unfold splitColon
    cases h : splitColon cs with
    | nil => simp
    | cons seg segs =>
      simp only []
      split_ifs <;> simp

theorem splitColon_plain (b : JsString) (h : 58 ∉ b) : splitColon b = [b] := by
  induction b with
  | nil => rfl
  | cons c cs ih =>
    simp only [List.mem_cons, not_or] at h
    have hc : ¬ c = 58 := fun hc => h.1 hc.symm
    unfold splitColon
    rw [ih h.2]
    simp only [if_neg hc]

theorem splitColon_key (a b : JsString) (ha : 58 ∉ a) (hb : 58 ∉ b) :
    splitColon (ratingKey a b) = [a, b] := by
  unfold ratingKey
  induction a with
  | nil =>
    simp only [List.nil_append]
    unfold splitColon
    rw [splitColon_plain b hb]
    simp
  | cons c cs ih =>
    simp only [List.mem_cons, not_or] at ha
    have hc : ¬ c = 58 := fun hc => ha.1 hc.symm
    simp only [List.cons_append]
    unfold splitColon
    rw [ih ha.2]
    simp only [if_neg hc]

theorem keepsRating_key (optionIds criterionIds : List JsString) (a b : JsString)
    (v : JsValue) (ha : a ∈ optionIds) (hb : b ∈ criterionIds) (hca : 58 ∉ a) (hcb : 58 ∉ b)
    (hv : (ratingValue v).isSome = true) :
    keepsRating optionIds criterionIds (ratingKey a b, v) = true := by
  unfold keepsRating
  simp only [splitColon_key a b hca hcb, List.head?_cons, List.tail_cons, hasPart, ha, hb,
    decide_True, hv, Bool.and_self]

theorem OptionsValid.option_id_facts {H : Host} (hH : HostOk H) {options : List DecisionOption}
    {idCalls : Nat} (h : OptionsValid H options idCalls) :
    ∀ i ∈ options.map (fun o => o.id), i ≠ [] ∧ 58 ∉ i := by
  intro i hi
  obtain ⟨o, ho, rfl⟩ := List.mem_map.1 hi
  obtain ⟨k, _, hk⟩ := h.ids_drawn o ho
  rw [hk]
  exact ⟨hH.ids_ne_nil k, hH.ids_no_colon k⟩

theorem CriteriaValid.criterion_id_facts {H : Host} (hH : HostOk H) {criteria : List Criterion}
    {idCalls : Nat} (h : CriteriaValid H criteria idCalls) :
    ∀ i ∈ criteria.map (fun c => c.id), i ≠ [] ∧ 58 ∉ i := by
  intro i hi
  obtain ⟨c, hc, rfl⟩ := List.mem_map.1 hi
  obtain ⟨k, _, hk⟩ := h.ids_drawn c hc
  rw [hk]
  exact ⟨hH.ids_ne_nil k, hH.ids_no_colon k⟩

theorem Valid.ratings_kept {H : Host} (hH : HostOk H) {s : State} {w : World}
    (h : Valid H s w) :
    ∀ e ∈ s.ratings, keepsRating (s.options.map (fun o => o.id))
      (s.criteria.map (fun c => c.id)) e = true := by
  obtain ⟨_, ho, hc, hr⟩ := h
  intro e he
  obtain ⟨a, ha, b, hb, hkey⟩ := hr.live e he
  obtain ⟨k, v⟩ := e
  simp only at hkey
  rw [hkey]
  exact keepsRating_key _ _ a b v ha hb (ho.option_id_facts hH a ha).2 (hc.criterion_id_facts hH b hb).2
    (hr.values _ he)

theorem Valid.clean {H : Host} (hH : HostOk H) {s : State} {w : World} (h : Valid H s w) :
    CleanState H { s with title := trim s.title } := by
  have hkept := h.ratings_kept hH
  obtain ⟨ht, ho, hc, hr⟩ := h
  refine ⟨le_trans (trim_length_le _) ht, ⟨ho.count_min, ho.count_max, hc.count_min,
    hc.count_max⟩, ?_, ho.names_nodup, ?_, hc.names_nodup, hr.keys_nodup, hkept⟩
  · intro o hmem
    exact ⟨(ho.option_id_facts hH o.id (List.mem_map_of_mem (fun o => o.id) hmem)).1, ho.notes o hmem,
      ho.names_good o hmem⟩
  · intro c hmem
    exact ⟨(hc.criterion_id_facts hH c.id (List.mem_map_of_mem (fun c => c.id) hmem)).1,
      (hc.weights c hmem).1, (hc.weights c hmem).2, hc.names_good c hmem⟩

theorem Valid.serialize {H : Host} (hH : HostOk H) {s : State} {w : World}
    (h : Valid H s w) :
    serializeState H s = stateValue { s with title := trim s.title } := by
  have hkept := h.ratings_kept hH
  obtain ⟨ht, ho, hc, hr⟩ := h
  have htitle : (trim s.title).take MAX_TITLE_LENGTH = trim s.title :=
    List.take_of_length_le (le_trans (trim_length_le _) ht)
  have hopts : s.options.map (fun option =>
      optionValue { option with
        name := (trim option.name).take MAX_OPTION_NAME_LENGTH,
        note := option.note.take MAX_NOTE_LENGTH }) = s.options.map optionValue := by
    apply List.map_congr_left
    intro o hmem
    obtain ⟨_, h2, h3⟩ := ho.names_good o hmem
    rw [h2, List.take_of_length_le h3, List.take_of_length_le (ho.notes o hmem)]
  have hcrit : s.criteria.map (fun criterion =>
      criterionValue { criterion with
        name := (trim criterion.name).take MAX_CRITERION_NAME_LENGTH,
        weight := clampIntValue H (.num (.finite (criterion.weight : Rat))) 1 5 })
      = s.criteria.map criterionValue := by
    apply List.map_congr_left
    intro c hmem
    obtain ⟨_, h2, h3⟩ := hc.names_good c hmem
    rw [h2, List.take_of_length_le h3,
      clampIntValue_digit H hH.parses c.weight (hc.weights c hmem).1 (hc.weights c hmem).2]
  unfold serializeState stateValue
  simp only [htitle, hopts, hcrit, sanitizeRatings_clean s.ratings _ _ hr.keys_nodup hkept]

/-- For a valid model `sanitizeV1State` of `serializeState` is the model with
its title trimmed, with `repaired = false` and the world unchanged. -/
theorem Valid.roundtrip {H : Host} (hH : HostOk H) {s : State} {w : World}
    (h : Valid H s w) (fuel : Nat) (w1 : World) :
    sanitizeV1State H fuel (serializeState H s) w1
      = some (.ok (some { repaired := false, state := { s with title := trim s.title } }, w1)) := by
  rw [h.serialize hH]
  exact sanitizeV1State_clean H hH.parses fuel _ w1 (h.clean hH)

/-! ## The mutation API keeps the invariant -/

theorem OptionsValid.mono_options {H : Host} {options : List DecisionOption} {n m : Nat}
    (h : OptionsValid H options n) (hnm : n ≤ m) : OptionsValid H options m :=
  ⟨h.count_min, h.count_max, h.names_good, h.names_nodup, h.notes,
    fun o ho => (h.ids_drawn o ho).imp (fun _ hk => ⟨lt_of_lt_of_le hk.1 hnm, hk.2⟩),
    h.ids_nodup⟩

theorem CriteriaValid.mono_criteria {H : Host} {criteria : List Criterion} {n m : Nat}
    (h : CriteriaValid H criteria n) (hnm : n ≤ m) : CriteriaValid H criteria m :=
  ⟨h.count_min, h.count_max, h.names_good, h.names_nodup, h.weights,
    fun c hc => (h.ids_drawn c hc).imp (fun _ hk => ⟨lt_of_lt_of_le hk.1 hnm, hk.2⟩),
    h.ids_nodup⟩

theorem RatingsValid.mono_ids {optionIds criterionIds optionIds1 criterionIds1 : List JsString}
    {ratings : List (JsString × JsValue)} (h : RatingsValid optionIds criterionIds ratings)
    (ho : optionIds ⊆ optionIds1) (hc : criterionIds ⊆ criterionIds1) :
    RatingsValid optionIds1 criterionIds1 ratings :=
  ⟨h.keys_nodup, fun e he => by
      obtain ⟨a, ha, b, hb, hk⟩ := h.live e he
      exact ⟨a, ho ha, b, hc hb, hk⟩, h.values⟩

theorem mem_updateFirst {α : Type} (p : α → Bool) (f : α → α) (l : List α) (y : α)
    (h : y ∈ updateFirst p f l) : y ∈ l ∨ ∃ z ∈ l, p z = true ∧ y = f z := by
  induction l with
  | nil => simp [updateFirst] at h
  | cons x xs ih =>
    by_cases hx : p x = true
    · simp only [updateFirst, hx, if_true, List.mem_cons] at h
      rcases h with h | h
      · exact Or.inr ⟨x, List.mem_cons_self _ _, hx, h⟩
      · exact Or.inl (List.mem_cons_of_mem _ h)
    · simp only [updateFirst, hx, Bool.false_eq_true, if_false, List.mem_cons] at h
      rcases h with h | h
      · exact Or.inl (h ▸ List.mem_cons_self _ _)
      · rcases ih h with h' | ⟨z, hz, hpz, hyz⟩
        · exact Or.inl (List.mem_cons_of_mem _ h')
        · exact Or.inr ⟨z, List.mem_cons_of_mem _ hz, hpz, hyz⟩

theorem map_updateFirst {α β : Type} (p : α → Bool) (f : α → α) (g : α → β)
    (hg : ∀ z, g (f z) = g z) (l : List α) : (updateFirst p f l).map g = l.map g := by
  induction l with
  | nil => rfl
  | cons x xs ih =>
    by_cases hx : p x = true
    · simp [updateFirst, hx, hg]
    · simp [updateFirst, hx, ih]

theorem valid_title (H : Host) (s : State) (w : World) (t : JsString) (u : Rat) (w1 : World)
    (h : Valid H s w) (ht : t.length ≤ MAX_TITLE_LENGTH) (hw : w.idCalls ≤ w1.idCalls) :
    Valid H { s with title := t, updatedAt := u } w1 :=
  ⟨ht, h.2.1.mono_options hw, h.2.2.1.mono_criteria hw, h.2.2.2⟩

theorem valid_registerMutation (H : Host) (s : State) (w : World) (h : Valid H s w) :
    Valid H (registerMutation H s w).1 (registerMutation H s w).2 :=
  ⟨h.1, h.2.1, h.2.2.1, h.2.2.2⟩

theorem valid_handleTitleInput (H : Host) (s : State) (w : World) (value : JsString)
    (h : Valid H s w) :
    Valid H (handleTitleInput H s w value).state (handleTitleInput H s w value).world :=
  ⟨by
    show (value.take MAX_TITLE_LENGTH).length ≤ MAX_TITLE_LENGTH
    rw [List.length_take]
    exact Nat.min_le_left _ _, h.2.1, h.2.2.1, h.2.2.2⟩

theorem valid_handleTitleChange (H : Host) (s : State) (w : World) (value : JsString)
    (h : Valid H s w) :
    Valid H (handleTitleChange H s w value).state (handleTitleChange H s w value).world :=
  ⟨by
    show ((trim value).take MAX_TITLE_LENGTH).length ≤ MAX_TITLE_LENGTH
    rw [List.length_take]
    exact Nat.min_le_left _ _, h.2.1, h.2.2.1, h.2.2.2⟩

theorem fresh_id {H : Host} (hH : HostOk H) {α : Type} (idOf : α → JsString) (l : List α)
    (n : Nat) (h : ∀ x ∈ l, ∃ k, k < n ∧ idOf x = H.randomId k) :
    H.randomId n ∉ l.map idOf := by
  intro hmem
  obtain ⟨x, hx, hxe⟩ := List.mem_map.1 hmem
  obtain ⟨k, hk, hid⟩ := h x hx
  have := hH.ids_injective (hid.symm.trans hxe)
  omega

theorem valid_handleAddOption (H : Host) (hH : HostOk H) (s : State) (w : World)
    (h : Valid H s w) :
    Valid H (handleAddOption H s w).state (handleAddOption H s w).world := by
  by_cases hfull : s.options.length ≥ MAX_OPTIONS
  · simp only [handleAddOption, if_pos hfull]
    exact h
  · obtain ⟨ht, ho, hc, hr⟩ := h
    obtain ⟨k, hk1, hk2, hfree, -, heq⟩ :=
      handleAddOption_spec H hH.apart_options s w (by omega)
    rw [heq]
    have hgood : units "Option " ++ decimal k ≠ []
        ∧ trim (units "Option " ++ decimal k) = units "Option " ++ decimal k
        ∧ (units "Option " ++ decimal k).length ≤ MAX_OPTION_NAME_LENGTH := by
      refine ⟨?_, trim_option_default k, ?_⟩
      · have h0 : units "Option " ≠ [] := by decide
        simp [h0]
      · have := default_length (units "Option") k
        rw [units_option_blank] at this
        have hw : (units "Option").length = 6 := by decide
        have hm : MAX_OPTION_NAME_LENGTH = 60 := rfl
        have hmx : MAX_OPTIONS = 20 := rfl
        omega
    have hmx : MAX_OPTIONS = 20 := rfl
    refine ⟨ht, ⟨?_, ?_, ?_, ?_, ?_, ?_, ?_⟩, hc.mono_criteria (Nat.le_succ _), ?_⟩
    · simp only [List.length_append, List.length_singleton]
      exact Nat.le_succ_of_le ho.count_min
    · simp only [List.length_append, List.length_singleton]
      omega
    · intro o hmem
      rcases List.mem_append.1 hmem with hm | hm
      · exact ho.names_good o hm
      · rw [List.mem_singleton.1 hm]
        exact hgood
    · exact nodup_map_snoc (fun o : DecisionOption => H.toLocaleLowerCase o.name) s.options _
        (by
          intro hmem
          apply hfree
          obtain ⟨o, hos, hoe⟩ := List.mem_map.1 hmem
          exact List.mem_map.2 ⟨o, hos, by rw [(ho.names_good o hos).2.1]; exact hoe⟩)
        ho.names_nodup
    · intro o hmem
      rcases List.mem_append.1 hmem with hm | hm
      · exact ho.notes o hm
      · rw [List.mem_singleton.1 hm]
        exact Nat.zero_le _
    · intro o hmem
      rcases List.mem_append.1 hmem with hm | hm
      · obtain ⟨j, hj, hje⟩ := ho.ids_drawn o hm
        exact ⟨j, Nat.lt_succ_of_lt hj, hje⟩
      · rw [List.mem_singleton.1 hm]
        exact ⟨w.idCalls, Nat.lt_succ_self _, rfl⟩
    · exact nodup_map_snoc (fun o : DecisionOption => o.id) s.options _
        (fresh_id hH (fun o : DecisionOption => o.id) s.options w.idCalls ho.ids_drawn)
        ho.ids_nodup
    · refine hr.mono_ids ?_ (List.Subset.refl _)
      intro i hi
      simp only [List.map_append, List.mem_append]
      exact Or.inl hi

theorem valid_handleAddCriterion (H : Host) (hH : HostOk H) (s : State) (w : World)
    (h : Valid H s w) :
    Valid H (handleAddCriterion H s w).state (handleAddCriterion H s w).world := by
  by_cases hfull : s.criteria.length ≥ MAX_CRITERIA
  · simp only [handleAddCriterion, if_pos hfull]
    exact h
  · obtain ⟨ht, ho, hc, hr⟩ := h
    obtain ⟨k, hk1, hk2, hfree, -, heq⟩ :=
      handleAddCriterion_spec H hH.apart_criteria hH.parses s w (by omega)
    rw [heq]
    have hgood : units "Criterion " ++ decimal k ≠ []
        ∧ trim (units "Criterion " ++ decimal k) = units "Criterion " ++ decimal k
        ∧ (units "Criterion " ++ decimal k).length ≤ MAX_CRITERION_NAME_LENGTH := by
      refine ⟨?_, trim_criterion_default k, ?_⟩
      · have h0 : units "Criterion " ≠ [] := by decide
        simp [h0]
      · have := default_length (units "Criterion") k
        rw [units_criterion_blank] at this
        have hw : (units "Criterion").length = 9 := by decide
        have hm : MAX_CRITERION_NAME_LENGTH = 40 := rfl
        have hmx : MAX_CRITERIA = 20 := rfl
        omega
    have hmx : MAX_CRITERIA = 20 := rfl
    refine ⟨ht, ho.mono_options (Nat.le_succ _), ⟨?_, ?_, ?_, ?_, ?_, ?_, ?_⟩, ?_⟩
    · simp only [List.length_append, List.length_singleton]
      exact Nat.le_succ_of_le hc.count_min
    · simp only [List.length_append, List.length_singleton]
      omega
    · intro c hmem
      rcases List.mem_append.1 hmem with hm | hm
      · exact hc.names_good c hm
      · rw [List.mem_singleton.1 hm]
        exact hgood
    · exact nodup_map_snoc (fun c : Criterion => H.toLocaleLowerCase c.name) s.criteria _
        (by
          intro hmem
          apply hfree
          obtain ⟨c, hcs, hce⟩ := List.mem_map.1 hmem
          exact List.mem_map.2 ⟨c, hcs, by rw [(hc.names_good c hcs).2.1]; exact hce⟩)
        hc.names_nodup
    · intro c hmem
      rcases List.mem_append.1 hmem with hm | hm
      · exact hc.weights c hm
      · rw [List.mem_singleton.1 hm]
        exact ⟨by show 1 ≤ 3; omega, by show 3 ≤ 5; omega⟩
    · intro c hmem
      rcases List.mem_append.1 hmem with hm | hm
      · obtain ⟨j, hj, hje⟩ := hc.ids_drawn c hm
        exact ⟨j, Nat.lt_succ_of_lt hj, hje⟩
      · rw [List.mem_singleton.1 hm]
        exact ⟨w.idCalls, Nat.lt_succ_self _, rfl⟩
    · exact nodup_map_snoc (fun c : Criterion => c.id) s.criteria _
        (fresh_id hH (fun c : Criterion => c.id) s.criteria w.idCalls hc.ids_drawn)
        hc.ids_nodup
    · refine hr.mono_ids (List.Subset.refl _) ?_
      intro i hi
      simp only [List.map_append, List.mem_append]
      exact Or.inl hi

theorem valid_handleOptionInput (H : Host) (s : State) (w : World) (id value : JsString)
    (h : Valid H s w) :
    Valid H (handleOptionInput H s w id value).state
      (handleOptionInput H s w id value).world := by
  unfold handleOptionInput
  split_ifs
  · exact h
  · split
    · exact h
    · obtain ⟨ht, ho, hc, hr⟩ := h
      have hids : (updateFirst (fun option : DecisionOption => decide (option.id = id))
          (fun option => { option with note := value.take MAX_NOTE_LENGTH }) s.options).map
          (fun o => o.id) = s.options.map (fun o => o.id) :=
        map_updateFirst (fun option : DecisionOption => decide (option.id = id))
          (fun option => { option with note := value.take MAX_NOTE_LENGTH })
          (fun o => o.id) (fun _ => rfl) s.options
      have hnames : (updateFirst (fun option : DecisionOption => decide (option.id = id))
          (fun option => { option with note := value.take MAX_NOTE_LENGTH }) s.options).map
          (fun o => H.toLocaleLowerCase o.name)
          = s.options.map (fun o => H.toLocaleLowerCase o.name) :=
        map_updateFirst (fun option : DecisionOption => decide (option.id = id))
          (fun option => { option with note := value.take MAX_NOTE_LENGTH })
          (fun o => H.toLocaleLowerCase o.name) (fun _ => rfl) s.options
      refine ⟨ht, ⟨?_, ?_, ?_, ?_, ?_, ?_, ?_⟩, hc, ?_⟩
      · show MIN_OPTIONS ≤ (updateFirst _ _ s.options).length
        rw [length_updateFirst]
        exact ho.count_min
      · show (updateFirst _ _ s.options).length ≤ MAX_OPTIONS
        rw [length_updateFirst]
        exact ho.count_max
      · intro o hmem
        rcases mem_updateFirst _ _ _ o hmem with hm | ⟨z, hz, _, rfl⟩
        · exact ho.names_good o hm
        · exact ho.names_good z hz
      · show (List.map _ (updateFirst _ _ s.options)).Nodup
        rw [hnames]
        exact ho.names_nodup
      · intro o hmem
        rcases mem_updateFirst _ _ _ o hmem with hm | ⟨z, hz, _, rfl⟩
        · exact ho.notes o hm
        · show (value.take MAX_NOTE_LENGTH).length ≤ MAX_NOTE_LENGTH
          rw [List.length_take]
          exact Nat.min_le_left _ _
      · intro o hmem
        rcases mem_updateFirst _ _ _ o hmem with hm | ⟨z, hz, _, rfl⟩
        · exact ho.ids_drawn o hm
        · exact ho.ids_drawn z hz
      · show (List.map _ (updateFirst _ _ s.options)).Nodup
        rw [hids]
        exact ho.ids_nodup
      · show RatingsValid (List.map _ (updateFirst _ _ s.options)) _ _
        rw [hids]
        exact hr

theorem valid_handleCriterionWeight (H : Host) (s : State) (w : World) (id : JsString)
    (value : JsString) (h : Valid H s w) :
    Valid H (handleCriterionWeight H s w id value).state
      (handleCriterionWeight H s w id value).world := by
  unfold handleCriterionWeight
  split_ifs
  · exact h
  · split
    · exact h
    · obtain ⟨ht, ho, hc, hr⟩ := h
      have hids : (updateFirst (fun criterion : Criterion => decide (criterion.id = id))
          (fun criterion => { criterion with weight := clampIntValue H (.str value) 1 5 })
          s.criteria).map (fun c => c.id) = s.criteria.map (fun c => c.id) :=
        map_updateFirst (fun criterion : Criterion => decide (criterion.id = id))
          (fun criterion => { criterion with weight := clampIntValue H (.str value) 1 5 })
          (fun c => c.id) (fun _ => rfl) s.criteria
      have hnames : (updateFirst (fun criterion : Criterion => decide (criterion.id = id))
          (fun criterion => { criterion with weight := clampIntValue H (.str value) 1 5 })
          s.criteria).map (fun c => H.toLocaleLowerCase c.name)
          = s.criteria.map (fun c => H.toLocaleLowerCase c.name) :=
        map_updateFirst (fun criterion : Criterion => decide (criterion.id = id))
          (fun criterion => { criterion with weight := clampIntValue H (.str value) 1 5 })
          (fun c => H.toLocaleLowerCase c.name) (fun _ => rfl) s.criteria
      refine ⟨ht, ho, ⟨?_, ?_, ?_, ?_, ?_, ?_, ?_⟩, ?_⟩
      · show MIN_CRITERIA ≤ (updateFirst _ _ s.criteria).length
        rw [length_updateFirst]
        exact hc.count_min
      · show (updateFirst _ _ s.criteria).length ≤ MAX_CRITERIA
        rw [length_updateFirst]
        exact hc.count_max
      · intro c hmem
        rcases mem_updateFirst _ _ _ c hmem with hm | ⟨z, hz, _, rfl⟩
        · exact hc.names_good c hm
        · exact hc.names_good z hz
      · show (List.map _ (updateFirst _ _ s.criteria)).Nodup
        rw [hnames]
        exact hc.names_nodup
      · intro c hmem
        rcases mem_updateFirst _ _ _ c hmem with hm | ⟨z, hz, _, rfl⟩
        · exact hc.weights c hm
        · exact clampIntValue_range H (.str value)
      · intro c hmem
        rcases mem_updateFirst _ _ _ c hmem with hm | ⟨z, hz, _, rfl⟩
        · exact hc.ids_drawn c hm
        · exact hc.ids_drawn z hz
      · show (List.map _ (updateFirst _ _ s.criteria)).Nodup
        rw [hids]
        exact hc.ids_nodup
      · show RatingsValid _ (List.map _ (updateFirst _ _ s.criteria)) _
        rw [hids]
        exact hr

theorem setOwn_keys (key : JsString) (value : JsValue) (l : List (JsString × JsValue)) :
    (setOwn key value l).map (fun e => e.1)
      = if key ∈ l.map (fun e => e.1) then l.map (fun e => e.1)
        else l.map (fun e => e.1) ++ [key] := by
  induction l with
  | nil => simp [setOwn]
  | cons e rest ih =>
    obtain ⟨k, v⟩ := e
    by_cases hk : k = key
    · subst hk
      simp [setOwn]
    · have hk2 : ¬ key = k := fun h => hk h.symm
      simp only [setOwn, if_neg hk, List.map_cons, ih, List.mem_cons, hk2, false_or]
      split_ifs <;> simp

theorem ratingValue_digit (n : Nat) (h1 : 1 ≤ n) (h5 : n ≤ 5) :
    (ratingValue (.num (.finite (n : Rat)))).isSome = true := by
  unfold ratingValue
  have hden : ((n : Rat)).den = 1 := Rat.den_natCast n
  have hnum : ((n : Rat)).num = (n : Int) := Rat.num_natCast n
  have hcond : ((n : Rat)).den = 1 ∧ 1 ≤ ((n : Rat)).num ∧ ((n : Rat)).num ≤ 5 := by
    rw [hden, hnum]
    omega
  simp only [if_pos hcond, Option.isSome_some]

theorem find?_id_mem {α : Type} (idOf : α → JsString) (id : JsString) (l : List α)
    (h : (l.find? (fun x => decide (idOf x = id))).isNone = false) : id ∈ l.map idOf := by
  cases hf : l.find? (fun x => decide (idOf x = id)) with
  | none => rw [hf] at h; simp at h
  | some x =>
    have hx := List.find?_some hf
    have hmem := List.mem_of_find?_eq_some hf
    simp only [decide_eq_true_eq] at hx
    exact hx ▸ List.mem_map_of_mem idOf hmem

theorem valid_handleRatingChange (H : Host) (s : State) (w : World)
    (optionId criterionId : JsString) (value : JsString) (h : Valid H s w) :
    Valid H (handleRatingChange H s w optionId criterionId value).state
      (handleRatingChange H s w optionId criterionId value).world := by
  unfold handleRatingChange
  split_ifs
  · exact h
  · unfold setRating
    split_ifs with hfind
    · exact h
    · obtain ⟨ht, ho, hc, hr⟩ := h
      simp only [Bool.or_eq_true, not_or, Bool.not_eq_true] at hfind
      have hom : optionId ∈ s.options.map (fun o => o.id) :=
        find?_id_mem (fun o : DecisionOption => o.id) optionId s.options hfind.1
      have hcm : criterionId ∈ s.criteria.map (fun c => c.id) :=
        find?_id_mem (fun c : Criterion => c.id) criterionId s.criteria hfind.2
      refine ⟨ht, ho, hc, ⟨?_, ?_, ?_⟩⟩
      · show (List.map _ (setOwn _ _ s.ratings)).Nodup
        rw [setOwn_keys]
        split_ifs with hk
        · exact hr.keys_nodup
        · rw [List.nodup_append]
          refine ⟨hr.keys_nodup, by simp, ?_⟩
          intro a ha hb
          rw [List.mem_singleton] at hb
          exact hk (hb ▸ ha)
      · intro e he
        rcases mem_setOwn _ _ _ e he with hnew | hold
        · rw [hnew]
          exact ⟨optionId, hom, criterionId, hcm, rfl⟩
        · exact hr.live e hold
      · intro e he
        rcases mem_setOwn _ _ _ e he with hnew | hold
        · rw [hnew]
          exact ratingValue_digit _ (clampIntValue_range H (.str value)).1 (clampIntValue_range H (.str value)).2
        · exact hr.values e hold

theorem RatingsValid.filter {optionIds criterionIds : List JsString}
    {ratings : List (JsString × JsValue)} (h : RatingsValid optionIds criterionIds ratings)
    (p : JsString × JsValue → Bool) : RatingsValid optionIds criterionIds (ratings.filter p) :=
  ⟨((List.filter_sublist _).map _).nodup h.keys_nodup,
    fun e he => h.live e (List.mem_filter.1 he).1,
    fun e he => h.values e (List.mem_filter.1 he).1⟩

theorem valid_handleRatingClick (H : Host) (s : State) (w : World)
    (optionId criterionId : JsString) (h : Valid H s w) :
    Valid H (handleRatingClick H s w optionId criterionId).state
      (handleRatingClick H s w optionId criterionId).world := by
  unfold handleRatingClick
  split_ifs
  · exact h
  · obtain ⟨ht, ho, hc, hr⟩ := h
    exact ⟨ht, ho, hc, hr.filter _⟩

theorem default_name_good (n : JsString) (m : Nat)
    (h : n ≠ [] ∧ trim n = n ∧ n.length ≤ m) :
    n.take m ≠ [] ∧ trim (n.take m) = n.take m ∧ (n.take m).length ≤ m := by
  rw [List.take_of_length_le h.2.2]
  exact h

theorem valid_createDefaultState (H : Host) (hH : HostOk H) (w : World) :
    Valid H (createDefaultState H w).1 (createDefaultState H w).2 := by
  have hne : ∀ a b : Nat, a ≠ b → H.randomId a ≠ H.randomId b :=
    fun a b hab he => hab (hH.ids_injective he)
  obtain ⟨hc1, hc2, hc3⟩ := hH.default_criteria
  refine ⟨Nat.zero_le _, ⟨?_, ?_, ?_, ?_, ?_, ?_, ?_⟩, ⟨?_, ?_, ?_, ?_, ?_, ?_, ?_⟩,
    ⟨List.nodup_nil, ?_, ?_⟩⟩
  · exact Nat.le_refl 2
  · show 2 ≤ 20
    omega
  · intro o hmem
    simp only [createDefaultState, createOption, createId, dateNow, List.mem_cons,
      List.mem_singleton, List.not_mem_nil, or_false] at hmem
    rcases hmem with rfl | rfl
    · exact default_name_good (units "Option A") MAX_OPTION_NAME_LENGTH
        ⟨by decide, by decide, by decide⟩
    · exact default_name_good (units "Option B") MAX_OPTION_NAME_LENGTH
        ⟨by decide, by decide, by decide⟩
  · simp only [createDefaultState, createOption, createId, dateNow, List.map_cons,
      List.map_nil, List.nodup_cons, List.mem_singleton, List.not_mem_nil, not_false_eq_true,
      List.nodup_nil, and_true]
    have e1 : (units "Option A").take MAX_OPTION_NAME_LENGTH = units "Option A" := by decide
    have e2 : (units "Option B").take MAX_OPTION_NAME_LENGTH = units "Option B" := by decide
    rw [e1, e2]
    exact hH.default_options
  · intro o hmem
    simp only [createDefaultState, createOption, createId, dateNow, List.mem_cons,
      List.mem_singleton, List.not_mem_nil, or_false] at hmem
    rcases hmem with rfl | rfl <;> exact Nat.zero_le _
  · intro o hmem
    simp only [createDefaultState, createOption, createCriterion, createId, dateNow,
      List.mem_cons, List.mem_singleton, List.not_mem_nil, or_false] at hmem
    rcases hmem with rfl | rfl
    · exact ⟨w.idCalls, by show _ < w.idCalls + 1 + 1 + 1 + 1 + 1; omega, rfl⟩
    · exact ⟨w.idCalls + 1, by show _ < w.idCalls + 1 + 1 + 1 + 1 + 1; omega, rfl⟩
  · simp only [createDefaultState, createOption, createId, dateNow, List.map_cons,
      List.map_nil, List.nodup_cons, List.mem_singleton, List.not_mem_nil, not_false_eq_true,
      List.nodup_nil, and_true]
    exact hne _ _ (by omega)
  · exact Nat.le_succ_of_le (Nat.le_succ_of_le (Nat.le_refl 1))
  · show 3 ≤ 20
    omega
  · intro c hmem
    simp only [createDefaultState, createOption, createCriterion, createId, dateNow,
      List.mem_cons, List.mem_singleton, List.not_mem_nil, or_false] at hmem
    rcases hmem with rfl | rfl | rfl
    · exact default_name_good (units "Price") MAX_CRITERION_NAME_LENGTH
        ⟨by decide, by decide, by decide⟩
    · exact default_name_good (units "Quality") MAX_CRITERION_NAME_LENGTH
        ⟨by decide, by decide, by decide⟩
    · exact default_name_good (units "Convenience") MAX_CRITERION_NAME_LENGTH
        ⟨by decide, by decide, by decide⟩
  · simp only [createDefaultState, createOption, createCriterion, createId, dateNow,
      List.map_cons, List.map_nil, List.nodup_cons, List.mem_cons, List.mem_singleton,
      List.not_mem_nil, not_false_eq_true, List.nodup_nil, and_true, or_false, not_or]
    have e1 : (units "Price").take MAX_CRITERION_NAME_LENGTH = units "Price" := by decide
    have e2 : (units "Quality").take MAX_CRITERION_NAME_LENGTH = units "Quality" := by decide
    have e3 : (units "Convenience").take MAX_CRITERION_NAME_LENGTH = units "Convenience" := by
      decide
    rw [e1, e2, e3]
    exact ⟨⟨hc1, hc2⟩, hc3⟩
  · intro c hmem
    simp only [createDefaultState, createOption, createCriterion, createId, dateNow,
      List.mem_cons, List.mem_singleton, List.not_mem_nil, or_false] at hmem
    rcases hmem with rfl | rfl | rfl <;> exact clampIntValue_range H _
  · intro c hmem
    simp only [createDefaultState, createOption, createCriterion, createId, dateNow,
      List.mem_cons, List.mem_singleton, List.not_mem_nil, or_false] at hmem
    rcases hmem with rfl | rfl | rfl
    · exact ⟨w.idCalls + 1 + 1, by show _ < w.idCalls + 1 + 1 + 1 + 1 + 1; omega, rfl⟩
    · exact ⟨w.idCalls + 1 + 1 + 1, by show _ < w.idCalls + 1 + 1 + 1 + 1 + 1; omega, rfl⟩
    · exact ⟨w.idCalls + 1 + 1 + 1 + 1, by show _ < w.idCalls + 1 + 1 + 1 + 1 + 1; omega, rfl⟩
  · simp only [createDefaultState, createOption, createCriterion, createId, dateNow,
      List.map_cons, List.map_nil, List.nodup_cons, List.mem_cons, List.mem_singleton,
      List.not_mem_nil, not_false_eq_true, List.nodup_nil, and_true, or_false, not_or]
    exact ⟨⟨hne _ _ (by omega), hne _ _ (by omega)⟩, hne _ _ (by omega)⟩
  · intro e he
    simp [createDefaultState] at he
  · intro e he
    simp [createDefaultState] at he

theorem rename_nodup {α : Type} (idOf nameOf : α → JsString) (setName : α → α)
    (g : JsString → JsString) (x n : JsString) (hset : ∀ z, nameOf (setName z) = n) :
    ∀ l : List α, (l.map idOf).Nodup → (l.map (fun o => g (nameOf o))).Nodup →
      (∀ o ∈ l, idOf o ≠ x → g (nameOf o) ≠ g n) →
      ((updateFirst (fun o => decide (idOf o = x)) setName l).map
        (fun o => g (nameOf o))).Nodup := by
  intro l
  induction l with
  | nil => intro _ _ _; simp [updateFirst]
  | cons o rest ih =>
    intro hid hnd hother
    simp only [List.map_cons, List.nodup_cons] at hid hnd
    by_cases hx : idOf o = x
    · simp only [updateFirst, hx, decide_True, if_true, List.map_cons, List.nodup_cons, hset]
      refine ⟨?_, hnd.2⟩
      intro hmem
      obtain ⟨y, hy, hye⟩ := List.mem_map.1 hmem
      have hyx : idOf y ≠ x := by
        intro h
        exact hid.1 (hx ▸ h ▸ List.mem_map_of_mem idOf hy)
      exact hother y (List.mem_cons_of_mem _ hy) hyx hye
    · simp only [updateFirst, hx, decide_False, Bool.false_eq_true, if_false, List.map_cons,
        List.nodup_cons]
      refine ⟨?_, ih hid.2 hnd.2 (fun y hy => hother y (List.mem_cons_of_mem _ hy))⟩
      intro hmem
      obtain ⟨y, hy, hye⟩ := List.mem_map.1 hmem
      rcases mem_updateFirst _ _ _ y hy with hm | ⟨z, hz, _, rfl⟩
      · exact hnd.1 (hye ▸ List.mem_map_of_mem (fun o => g (nameOf o)) hm)
      · rw [hset] at hye
        exact hother o (List.mem_cons_self _ _) hx hye.symm

theorem valid_updateOptionName (H : Host) (s : State) (w : World) (id rawName : JsString)
    (h : Valid H s w) :
    Valid H (updateOptionName H s w id rawName).state
      (updateOptionName H s w id rawName).world := by
  unfold updateOptionName
  split
  · exact h
  · dsimp only
    split_ifs with herr
    · exact h
    · obtain ⟨ht, ho, hc, hr⟩ := h
      have hval : ¬ validateOptionName H s (trim rawName) id ≠ [] := herr
      rw [validateOptionName_ne_nil] at hval
      simp only [not_or, not_exists, not_and, not_lt] at hval
      obtain ⟨hne, hlen, hother⟩ := hval
      have hids : (updateFirst (fun option : DecisionOption => decide (option.id = id))
          (fun option => { option with name := trim rawName }) s.options).map
          (fun o => o.id) = s.options.map (fun o => o.id) :=
        map_updateFirst (fun option : DecisionOption => decide (option.id = id))
          (fun option => { option with name := trim rawName })
          (fun o => o.id) (fun _ => rfl) s.options
      refine ⟨ht, ⟨?_, ?_, ?_, ?_, ?_, ?_, ?_⟩, hc, ?_⟩
      · show MIN_OPTIONS ≤ (updateFirst _ _ s.options).length
        rw [length_updateFirst]
        exact ho.count_min
      · show (updateFirst _ _ s.options).length ≤ MAX_OPTIONS
        rw [length_updateFirst]
        exact ho.count_max
      · intro o hmem
        rcases mem_updateFirst _ _ _ o hmem with hm | ⟨z, hz, _, rfl⟩
        · exact ho.names_good o hm
        · exact ⟨hne, trim_trim rawName, hlen⟩
      · exact rename_nodup (fun o : DecisionOption => o.id) (fun o => o.name)
          (fun option => { option with name := trim rawName }) H.toLocaleLowerCase id
          (trim rawName) (fun _ => rfl) s.options ho.ids_nodup ho.names_nodup
          (fun o hmem hoid => by
            have := hother o hmem hoid
            rwa [(ho.names_good o hmem).2.1] at this)
      · intro o hmem
        rcases mem_updateFirst _ _ _ o hmem with hm | ⟨z, hz, _, rfl⟩
        · exact ho.notes o hm
        · exact ho.notes z hz
      · intro o hmem
        rcases mem_updateFirst _ _ _ o hmem with hm | ⟨z, hz, _, rfl⟩
        · exact ho.ids_drawn o hm
        · exact ho.ids_drawn z hz
      · show (List.map _ (updateFirst _ _ s.options)).Nodup
        rw [hids]
        exact ho.ids_nodup
      · show RatingsValid (List.map _ (updateFirst _ _ s.options)) _ _
        rw [hids]
        exact hr

theorem valid_updateCriterionName (H : Host) (s : State) (w : World) (id rawName : JsString)
    (h : Valid H s w) :
    Valid H (updateCriterionName H s w id rawName).state
      (updateCriterionName H s w id rawName).world := by
  unfold updateCriterionName
  split
  · exact h
  · dsimp only
    split_ifs with herr
    · exact h
    · obtain ⟨ht, ho, hc, hr⟩ := h
      have hval : ¬ validateCriterionName H s (trim rawName) id ≠ [] := herr
      rw [validateCriterionName_ne_nil] at hval
      simp only [not_or, not_exists, not_and, not_lt] at hval
      obtain ⟨hne, hlen, hother⟩ := hval
      have hids : (updateFirst (fun criterion : Criterion => decide (criterion.id = id))
          (fun criterion => { criterion with name := trim rawName }) s.criteria).map
          (fun c => c.id) = s.criteria.map (fun c => c.id) :=
        map_updateFirst (fun criterion : Criterion => decide (criterion.id = id))
          (fun criterion => { criterion with name := trim rawName })
          (fun c => c.id) (fun _ => rfl) s.criteria
      refine ⟨ht, ho, ⟨?_, ?_, ?_, ?_, ?_, ?_, ?_⟩, ?_⟩
      · show MIN_CRITERIA ≤ (updateFirst _ _ s.criteria).length
        rw [length_updateFirst]
        exact hc.count_min
      · show (updateFirst _ _ s.criteria).length ≤ MAX_CRITERIA
        rw [length_updateFirst]
        exact hc.count_max
      · intro c hmem
        rcases mem_updateFirst _ _ _ c hmem with hm | ⟨z, hz, _, rfl⟩
        · exact hc.names_good c hm
        · exact ⟨hne, trim_trim rawName, hlen⟩
      · exact rename_nodup (fun c : Criterion => c.id) (fun c => c.name)
          (fun criterion => { criterion with name := trim rawName }) H.toLocaleLowerCase id
          (trim rawName) (fun _ => rfl) s.criteria hc.ids_nodup hc.names_nodup
          (fun c hmem hcid => by
            have := hother c hmem hcid
            rwa [(hc.names_good c hmem).2.1] at this)
      · intro c hmem
        rcases mem_updateFirst _ _ _ c hmem with hm | ⟨z, hz, _, rfl⟩
        · exact hc.weights c hm
        · exact hc.weights z hz
      · intro c hmem
        rcases mem_updateFirst _ _ _ c hmem with hm | ⟨z, hz, _, rfl⟩
        · exact hc.ids_drawn c hm
        · exact hc.ids_drawn z hz
      · show (List.map _ (updateFirst _ _ s.criteria)).Nodup
        rw [hids]
        exact hc.ids_nodup
      · show RatingsValid _ (List.map _ (updateFirst _ _ s.criteria)) _
        rw [hids]
        exact hr

theorem valid_deleteOption (H : Host) (s : State) (w : World) (id : JsString)
    (h : Valid H s w) :
    Valid H (deleteOption H s w id).state (deleteOption H s w id).world := by
  unfold deleteOption
  split_ifs with hmin
  · exact h
  · obtain ⟨ht, ho, hc, hr⟩ := h
    have hsub : (s.options.filter (fun option => decide (option.id ≠ id))).Sublist s.options :=
      List.filter_sublist _
    have h1 := filter_ne_length (fun o : DecisionOption => o.id) id s.options ho.ids_nodup
    dsimp only at h1
    refine ⟨ht, ⟨?_, ?_, ?_, ?_, ?_, ?_, ?_⟩, hc, ⟨?_, ?_, ?_⟩⟩
    · show MIN_OPTIONS ≤ (s.options.filter _).length
      omega
    · exact le_trans hsub.length_le ho.count_max
    · intro o hmem
      exact ho.names_good o (hsub.subset hmem)
    · exact (hsub.map _).nodup ho.names_nodup
    · intro o hmem
      exact ho.notes o (hsub.subset hmem)
    · intro o hmem
      exact ho.ids_drawn o (hsub.subset hmem)
    · exact (hsub.map _).nodup ho.ids_nodup
    · exact ((List.filter_sublist _).map _).nodup hr.keys_nodup
    · intro e he
      obtain ⟨hmem, hpre⟩ := (mem_pruneRatingsByOption s.ratings id e).1 he
      obtain ⟨a, ha, b, hb, hkey⟩ := hr.live e hmem
      refine ⟨a, ?_, b, hb, hkey⟩
      obtain ⟨o, hos, rfl⟩ := List.mem_map.1 ha
      have hoid : o.id ≠ id := by
        intro heq
        apply hpre
        rw [hkey, heq]
        exact ratingKey_startsWith id b
      exact List.mem_map.2 ⟨o, List.mem_filter.2 ⟨hos, decide_eq_true hoid⟩, rfl⟩
    · intro e he
      exact hr.values e ((mem_pruneRatingsByOption s.ratings id e).1 he).1

theorem valid_deleteCriterion (H : Host) (s : State) (w : World) (id : JsString)
    (h : Valid H s w) :
    Valid H (deleteCriterion H s w id).state (deleteCriterion H s w id).world := by
  unfold deleteCriterion
  split_ifs with hmin
  · exact h
  · obtain ⟨ht, ho, hc, hr⟩ := h
    have hsub : (s.criteria.filter
        (fun criterion => decide (criterion.id ≠ id))).Sublist s.criteria :=
      List.filter_sublist _
    have h1 := filter_ne_length (fun c : Criterion => c.id) id s.criteria hc.ids_nodup
    dsimp only at h1
    refine ⟨ht, ho, ⟨?_, ?_, ?_, ?_, ?_, ?_, ?_⟩, ⟨?_, ?_, ?_⟩⟩
    · show MIN_CRITERIA ≤ (s.criteria.filter _).length
      omega
    · exact le_trans hsub.length_le hc.count_max
    · intro c hmem
      exact hc.names_good c (hsub.subset hmem)
    · exact (hsub.map _).nodup hc.names_nodup
    · intro c hmem
      exact hc.weights c (hsub.subset hmem)
    · intro c hmem
      exact hc.ids_drawn c (hsub.subset hmem)
    · exact (hsub.map _).nodup hc.ids_nodup
    · exact ((List.filter_sublist _).map _).nodup hr.keys_nodup
    · intro e he
      obtain ⟨hmem, hsuf⟩ := (mem_pruneRatingsByCriterion s.ratings id e).1 he
      obtain ⟨a, ha, b, hb, hkey⟩ := hr.live e hmem
      refine ⟨a, ha, b, ?_, hkey⟩
      obtain ⟨c, hcs, rfl⟩ := List.mem_map.1 hb
      have hcid : c.id ≠ id := by
        intro heq
        apply hsuf
        rw [hkey, heq]
        exact ratingKey_endsWith a id
      exact List.mem_map.2 ⟨c, List.mem_filter.2 ⟨hcs, decide_eq_true hcid⟩, rfl⟩
    · intro e he
      exact hr.values e ((mem_pruneRatingsByCriterion s.ratings id e).1 he).1

theorem valid_applyMutation (H : Host) (hH : HostOk H) (m : Mutation) (s : State) (w : World)
    (h : Valid H s w) :
    Valid H (applyMutation H m s w).state (applyMutation H m s w).world := by
  cases m with
  | titleInput value => exact valid_handleTitleInput H s w value h
  | titleChange value => exact valid_handleTitleChange H s w value h
  | addOption => exact valid_handleAddOption H hH s w h
  | addCriterion => exact valid_handleAddCriterion H hH s w h
  | renameOption id rawName => exact valid_updateOptionName H s w id rawName h
  | renameCriterion id rawName => exact valid_updateCriterionName H s w id rawName h
  | setNote id value => exact valid_handleOptionInput H s w id value h
  | setWeight id value => exact valid_handleCriterionWeight H s w id value h
  | deleteOption id => exact valid_deleteOption H s w id h
  | deleteCriterion id => exact valid_deleteCriterion H s w id h
  | setRating optionId criterionId value =>
    exact valid_handleRatingChange H s w optionId criterionId value h
  | clearRating optionId criterionId =>
    exact valid_handleRatingClick H s w optionId criterionId h
  | reset => exact valid_createDefaultState H hH w

theorem Reachable.valid {H : Host} (hH : HostOk H) {s : State} {w : World}
    (h : Reachable H s w) : Valid H s w := by
  induction h with
  | start w => exact valid_createDefaultState H hH w
  | step m s w _ ih => exact valid_applyMutation H hH m s w ih

theorem exampleHost_ok : HostOk exampleHost where
  parses := exampleHost_parsesDigits
  ids_injective := exampleHost_randomId_injective
  ids_ne_nil := exampleHost_randomId_ne_nil
  ids_no_colon := by
    intro n hmem
    have hmem2 : 58 ∈ units "id-" ++ decimal n := hmem
    rcases List.mem_append.1 hmem2 with h | h
    · revert h
      decide
    · have := decimalDigits_digit n n 58 h
      omega
  apart_options := asciiLower_tells_apart _
  apart_criteria := asciiLower_tells_apart _
  default_options := by decide
  default_criteria := by decide

theorem ratedExample_reachable : Reachable exampleHost ratedExample.1 ratedExample.2 :=
  Reachable.step (.setRating (units "id-1") (units "id-2") (units "2")) _ _
    (Reachable.step (.setRating (units "id-0") (units "id-2") (units "4")) _ _
      (Reachable.step .addOption _ _ (Reachable.start world0)))

theorem blankTitleExample_reachable :
    Reachable exampleHost blankTitleExample.state blankTitleExample.world :=
  Reachable.step (.titleInput (units " x")) _ _ (Reachable.start world0)

/-- C11 fails as stated: after `handleTitleInput` with a blank and an `x` on
the default state the model has that title, and `sanitizeV1State` of
`serializeState` returns the title `x`, so a state that is not the model. -/
theorem roundtrip_blank_title_counterexample :
    Reachable exampleHost blankTitleExample.state blankTitleExample.world
      ∧ blankTitleExample.state.title = units " x"
      ∧ ∃ r w1, sanitizeV1State exampleHost 21
            (serializeState exampleHost blankTitleExample.state) blankTitleExample.world
            = some (.ok (some r, w1))
          ∧ r.repaired = false
          ∧ r.state.title = units "x"
          ∧ r.state ≠ blankTitleExample.state := by
  refine ⟨blankTitleExample_reachable, rfl, _, _,
    (blankTitleExample_reachable.valid exampleHost_ok).roundtrip exampleHost_ok 21 _, rfl,
    by decide, ?_⟩
  intro h
  have ht := congrArg State.title h
  revert ht
  decide

/-- C11 (amended): for every model reachable from the default state through
the mutation API, `sanitizeV1State` of `serializeState` returns, with
`repaired = false` and without drawing an id or a timestamp, the model with its
title trimmed: the same options, criteria, ratings and `updatedAt`; it returns
the model itself when the title of the model has no blank at either end. The
host is assumed to parse the numbers 1 to 5, to give pairwise distinct,
non-empty ids without a colon and to tell the default names apart. -/
theorem roundtrip_trims_title (H : Host) (hH : HostOk H) (fuel : Nat) (s : State) (w : World)
    (hr : Reachable H s w) (w1 : World) :
    sanitizeV1State H fuel (serializeState H s) w1
        = some (.ok (some { repaired := false, state := { s with title := trim s.title } }, w1))
      ∧ (trim s.title = s.title →
          sanitizeV1State H fuel (serializeState H s) w1
            = some (.ok (some { repaired := false, state := s }, w1))) := by
  have h := (hr.valid hH).roundtrip hH fuel w1
  refine ⟨h, fun ht => ?_⟩
  rw [h, ht]

/-- C11 (amended), on the example host: the default state with a third option
and two ratings comes back from the round trip unchanged. -/
theorem roundtrip_trims_title_example :
    Reachable exampleHost ratedExample.1 ratedExample.2
      ∧ trim ratedExample.1.title = ratedExample.1.title
      ∧ ratedExample.1.options.map (fun o => o.name)
          = [units "Option A", units "Option B", units "Option 1"]
      ∧ ratedExample.1.ratings.map (fun e => (e.1, ratingValue e.2))
          = [(units "id-0:id-2", some 4), (units "id-1:id-2", some 2)]
      ∧ sanitizeV1State exampleHost 21 (serializeState exampleHost ratedExample.1)
            ratedExample.2
          = some (.ok (some { repaired := false, state := ratedExample.1 }, ratedExample.2)) :=
  ⟨ratedExample_reachable, rfl, rfl, rfl,
    (roundtrip_trims_title exampleHost exampleHost_ok 21 ratedExample.1 ratedExample.2
      ratedExample_reachable ratedExample.2).2 rfl⟩

/-! ## What a deletion leaves alone -/

theorem getOwn_filter_key (q : JsString → Bool) (key : JsString) (hq : q key = true) :
    ∀ l : List (JsString × JsValue), getOwn key (l.filter (fun e => q e.1)) = getOwn key l := by
  intro l
  induction l with
  | nil => rfl
  | cons e rest ih =>
    obtain ⟨k, v⟩ := e
    by_cases hk : k = key
    · subst hk
      simp [List.filter_cons, hq, getOwn]
    · by_cases hqk : q k = true
      · simp [List.filter_cons, hqk, getOwn, hk, ih]
      · simp [List.filter_cons, hqk, getOwn, hk, ih]

theorem key_not_startsWith (id other c : JsString) (hid : 58 ∉ id) (hother : 58 ∉ other)
    (hne : other ≠ id) : ¬ (id ++ units ":") <+: ratingKey other c := by
  rintro ⟨t, ht⟩
  rw [units_colon] at ht
  unfold ratingKey at ht
  simp only [List.append_assoc, List.singleton_append] at ht
  exact hne (colon_split_left id t other c hid hother ht).symm

theorem key_not_endsWith (id o other : JsString) (hid : 58 ∉ id) (hother : 58 ∉ other)
    (hne : other ≠ id) : ¬ (units ":" ++ id) <:+ ratingKey o other := by
  rintro ⟨t, ht⟩
  rw [units_colon] at ht
  unfold ratingKey at ht
  simp only [List.singleton_append] at ht
  exact hne (colon_split_right t id o other hid hother ht).symm

/-- With ids that hold no colon a deletion leaves the rest alone:
`deleteOption` keeps the value under every key of another option, keeps the
other options in their order and keeps criteria and title, and
`deleteCriterion` does the same for another criterion. -/
theorem delete_frame_colon_free (H : Host) (s : State) (w : World) (id : JsString)
    (hid : 58 ∉ id) :
    (MIN_OPTIONS < s.options.length →
      (∀ other c, other ≠ id → 58 ∉ other →
        getOwn (ratingKey other c) (deleteOption H s w id).state.ratings
          = getOwn (ratingKey other c) s.ratings)
      ∧ (deleteOption H s w id).state.options
          = s.options.filter (fun option => decide (option.id ≠ id))
      ∧ (deleteOption H s w id).state.criteria = s.criteria
      ∧ (deleteOption H s w id).state.title = s.title)
    ∧ (MIN_CRITERIA < s.criteria.length →
      (∀ o other, other ≠ id → 58 ∉ other →
        getOwn (ratingKey o other) (deleteCriterion H s w id).state.ratings
          = getOwn (ratingKey o other) s.ratings)
      ∧ (deleteCriterion H s w id).state.criteria
          = s.criteria.filter (fun criterion => decide (criterion.id ≠ id))
      ∧ (deleteCriterion H s w id).state.options = s.options
      ∧ (deleteCriterion H s w id).state.title = s.title) := by
  constructor
  · intro h
    obtain ⟨-, h2, h3, h4, h5⟩ := deleteOption_ok H s w id h
    refine ⟨?_, h2, h4, h5⟩
    intro other c hne hother
    rw [h3]
    unfold pruneRatingsByOption
    apply getOwn_filter_key (fun k => !((id ++ units ":").isPrefixOf k))
    cases hp : (id ++ units ":").isPrefixOf (ratingKey other c) with
    | false => rfl
    | true =>
      have hpre := List.isPrefixOf_iff_prefix.1 hp
      exact absurd hpre (key_not_startsWith id other c hid hother hne)
  · intro h
    obtain ⟨-, h2, h3, h4, h5⟩ := deleteCriterion_ok H s w id h
    refine ⟨?_, h2, h4, h5⟩
    intro o other hne hother
    rw [h3]
    unfold pruneRatingsByCriterion
    apply getOwn_filter_key (fun k => !((units ":" ++ id).isSuffixOf k))
    cases hp : (units ":" ++ id).isSuffixOf (ratingKey o other) with
    | false => rfl
    | true =>
      have hsuf := List.isSuffixOf_iff_suffix.1 hp
      exact absurd hsuf (key_not_endsWith id o other hid hother hne)

/-- C21 fails in the code: `colonOptionState`, which the sanitizer returns
without a repair, has the options `a`, `a:b` and `z`; after option `a:b` is
rated 4 on criterion `c`, `deleteOption` of `a` succeeds, keeps option `a:b`
and removes its rating, because the key `a:b:c` starts with `a:`. Likewise in
`colonCriterionState`, with the criteria `c` and `b:c`, `deleteCriterion` of
`c` removes the rating of option `o` on criterion `b:c`, whose key ends with
`:c`. -/
theorem delete_drops_other_rating :
    ((∃ r w1, sanitizeV1State exampleHost 21 colonOptionPayload world0 = some (.ok (some r, w1))
        ∧ r.repaired = false ∧ r.state = colonOptionState)
      ∧ readRating colonOptionRated.state (units "a:b") (units "c") = 4
      ∧ (deleteOption exampleHost colonOptionRated.state colonOptionRated.world
          (units "a")).error = none
      ∧ (deleteOption exampleHost colonOptionRated.state colonOptionRated.world
          (units "a")).state.options.map (fun o => o.id) = [units "a:b", units "z"]
      ∧ readRating (deleteOption exampleHost colonOptionRated.state colonOptionRated.world
          (units "a")).state (units "a:b") (units "c") = 0
      ∧ (deleteOption exampleHost colonOptionRated.state colonOptionRated.world
          (units "a")).state.ratings = [])
    ∧ ((∃ r w1, sanitizeV1State exampleHost 21 colonCriterionPayload world0
          = some (.ok (some r, w1))
        ∧ r.repaired = false ∧ r.state = colonCriterionState)
      ∧ readRating colonCriterionRated.state (units "o") (units "b:c") = 5
      ∧ (deleteCriterion exampleHost colonCriterionRated.state colonCriterionRated.world
          (units "c")).error = none
      ∧ (deleteCriterion exampleHost colonCriterionRated.state colonCriterionRated.world
          (units "c")).state.criteria.map (fun c => c.id) = [units "b:c"]
      ∧ readRating (deleteCriterion exampleHost colonCriterionRated.state
          colonCriterionRated.world (units "c")).state (units "o") (units "b:c") = 0
      ∧ (deleteCriterion exampleHost colonCriterionRated.state colonCriterionRated.world
          (units "c")).state.ratings = []) :=
  ⟨⟨⟨_, _, rfl, rfl, rfl⟩, rfl, rfl, rfl, rfl, rfl⟩,
    ⟨⟨_, _, rfl, rfl, rfl⟩, rfl, rfl, rfl, rfl, rfl⟩⟩

/-- The frame property on the example host, where no id holds a colon:
deleting option `id-0` from the default state with a third option and two
ratings keeps the rating of option `id-1`. -/
theorem delete_frame_colon_free_example :
    58 ∉ units "id-0" ∧ 58 ∉ units "id-1" ∧ MIN_OPTIONS < ratedExample.1.options.length
      ∧ getOwn (ratingKey (units "id-1") (units "id-2"))
          (deleteOption exampleHost ratedExample.1 ratedExample.2 (units "id-0")).state.ratings
        = getOwn (ratingKey (units "id-1") (units "id-2")) ratedExample.1.ratings
      ∧ readRating (deleteOption exampleHost ratedExample.1 ratedExample.2
          (units "id-0")).state (units "id-1") (units "id-2") = 2 :=
  ⟨by decide, by decide, by decide,
    ((delete_frame_colon_free exampleHost ratedExample.1 ratedExample.2 (units "id-0")
      (by decide)).1 (by decide)).1 (units "id-1") (units "id-2") (by decide) (by decide),
    rfl⟩

end DecisionHelper
